import Mathlib

/-! # MeshSync mesh utilities: topology refiner

A shallow embedding of `Plugin/MeshUtils/MeshUtils.cpp` (namespace `mu`) and a
verification of its documented behaviour.

Conventions of the embedding

* `IArray<T>` / `RawVector<T>` are lists; `push_back` appends at the end.
* `int` values that the code uses as sizes, face sizes or array positions
  (`counts`, `offsets`, `indices`, the connectivity tables) are naturals;
  `int` values that can be negative (`old2new` with its `-1` marker, the
  returned vertex ids, the chunk-relative `new_indices`, every field of a
  split descriptor, `split_unit`) are integers.  All sizes are assumed to fit
  an `int`, so no arithmetic wraps.
* An out-of-range read is undefined in C++; here it yields a default value and
  an out-of-range write leaves the array unchanged.  The theorems about
  well-formed soups never depend on either.
* `float2`, `float3`, `float4` and the vector primitives come from headers
  that are not part of the sources; they are parameters (`MuMath`).
-/

namespace mu

/-! ## Primitives taken as parameters -/

/-- Modelled from the spec: the vector primitives of the math header, which is
not among the sources.  `near_equal2` / `near_equal3` are the component-wise
near-equality tests on `float2` / `float3`; `zero3`, `add3`, `sub3`, `cross`
and `normalize` are the `float3` operations used by the normal generator. -/
structure MuMath (float2 float3 : Type) where
  near_equal2 : float2 → float2 → Bool
  near_equal3 : float3 → float3 → Bool
  zero3 : float3
  add3 : float3 → float3 → float3
  sub3 : float3 → float3 → float3
  cross : float3 → float3 → float3
  normalize : float3 → float3

/-! ## Loops and buffers -/

/-- State after the first `n` iterations of `for (i = 0; i < n; ++i) body`. -/
def forLoop {σ : Type} : Nat → (Nat → σ → σ) → σ → σ
  | 0, _, s => s
  | n + 1, body, s => body n (forLoop n body s)

/-- Model of `resize(n, v)`: keeps the first `n` elements, new elements are `v`. -/
def resize {α : Type} (l : List α) (n : Nat) (v : α) : List α :=
  l.take n ++ List.replicate (n - l.length) v

/-- Last element of a vector (`back()`), default on an empty one. -/
def back {α : Type} [Inhabited α] (l : List α) : α :=
  l.getLastD default

/-- Update through the reference returned by `back()`. -/
def modifyBack {α : Type} (f : α → α) : List α → List α
  | [] => []
  | [a] => [f a]
  | a :: b :: l => a :: modifyBack f (b :: l)

/-- Writes `vals` through a pointer `dst + pos`; negative or out-of-range
positions are skipped. -/
def writeAt (buf : List Int) (pos : Int) : List Int → List Int
  | [] => buf
  | v :: vs => writeAt (if 0 ≤ pos then buf.set pos.toNat v else buf) (pos + 1) vs

/-! ## Data model -/

/-- Split descriptor (`TopologyRefiner::Split`); `{}` zero-initialises it. -/
structure Split where
  offset_faces : Int := 0
  offset_points : Int := 0
  offset_indices : Int := 0
  num_faces : Int := 0
  num_points : Int := 0
  num_indices : Int := 0
  num_indices_triangulated : Int := 0
deriving DecidableEq, Repr, Inhabited

/-- The refiner (`struct TopologyRefiner`): configuration, borrowed inputs,
caches and outputs. -/
structure TopologyRefiner (float2 float3 float4 : Type) where
  split_unit : Int
  triangulate : Bool
  swap_faces : Bool
  counts : List Nat
  offsets : List Nat
  indices : List Nat
  points : List float3
  normals : List float3
  uv : List float2
  v2f_counts : List Nat
  v2f_offsets : List Nat
  shared_faces : List Nat
  shared_indices : List Nat
  face_normals : List float3
  vertex_normals : List float3
  tangents : List float4
  new_points : List float3
  new_normals : List float3
  new_tangents : List float4
  new_uv : List float2
  new_indices : List Int
  new_indices_triangulated : List Int
  old2new : List Int
  splits : List Split

variable {float2 float3 float4 : Type}

namespace TopologyRefiner

/-- A default-constructed refiner: `split_unit = 0`, `triangulate = true`,
`swap_faces = false`, every array empty. -/
def init : TopologyRefiner float2 float3 float4 :=
  { split_unit := 0, triangulate := true, swap_faces := false,
    counts := [], offsets := [], indices := [], points := [], normals := [], uv := [],
    v2f_counts := [], v2f_offsets := [], shared_faces := [], shared_indices := [],
    face_normals := [], vertex_normals := [], tangents := [],
    new_points := [], new_normals := [], new_tangents := [], new_uv := [],
    new_indices := [], new_indices_triangulated := [], old2new := [], splits := [] }

/-- `TopologyRefiner::prepare`. -/
def prepare (r : TopologyRefiner float2 float3 float4)
    (counts_ offsets_ indices_ : List Nat) (points_ : List float3) :
    TopologyRefiner float2 float3 float4 :=
  { r with
    counts := counts_, offsets := offsets_, indices := indices_, points := points_,
    normals := [], uv := [],
    v2f_counts := [], v2f_offsets := [], shared_faces := [], shared_indices := [],
    face_normals := [], vertex_normals := [], tangents := [],
    new_points := [], new_normals := [], new_uv := [], new_indices := [], old2new := [],
    splits := [] }

/-- `TopologyRefiner::genNormals()` (flat mode). -/
def genNormals [Inhabited float3] (M : MuMath float2 float3)
    (r : TopologyRefiner float2 float3 float4) : TopologyRefiner float2 float3 float4 :=
  let zeroed : List float3 := List.replicate r.points.length M.zero3
  let acc := forLoop r.counts.length (fun fi (vn : List float3) =>
    let count := r.counts.getD fi 0
    let face := fun (k : Nat) => r.indices.getD (r.offsets.getD fi 0 + k) 0
    let p0 := r.points.getD (face 0) default
    let p1 := r.points.getD (face 1) default
    let p2 := r.points.getD (face 2) default
    let n := M.cross (M.sub3 p1 p0) (M.sub3 p2 p0)
    forLoop count (fun ci (vn : List float3) =>
      vn.set (face ci) (M.add3 (vn.getD (face ci) default) n)) vn) zeroed
  let vn := acc.map M.normalize
  { r with vertex_normals := vn, normals := vn }

/-! ### Connectivity -/

/-- First loop of `buildConnection`: count the corners of every point. -/
def countCorners (counts indices : List Nat) (table : List Nat) : List Nat :=
  (forLoop counts.length (fun fi (st : Nat × List Nat) =>
    let c := counts.getD fi 0
    (st.1 + c, forLoop c (fun i (t : List Nat) =>
      t.set (indices.getD (st.1 + i) 0) (t.getD (indices.getD (st.1 + i) 0) 0 + 1)) st.2))
    (0, table)).2

/-- Second loop of `buildConnection`: running sum of the counts. -/
def offsetsOfCounts (num_points : Nat) (v2f_counts : List Nat) (table : List Nat) : List Nat :=
  (forLoop num_points (fun i (st : Nat × List Nat) =>
    (st.1 + v2f_counts.getD i 0, st.2.set i st.1)) (0, table)).2

/-- State of the third loop of `buildConnection`. -/
structure Scatter where
  i : Nat
  v2f_indices : List Nat
  shared_faces : List Nat
  shared_indices : List Nat

/-- Third loop of `buildConnection`: write every corner into the next free
slot of its point. -/
def scatterCorners (counts indices v2f_offsets : List Nat) (s : Scatter) : Scatter :=
  forLoop counts.length (fun fi (s : Scatter) =>
    let c := counts.getD fi 0
    let s1 := forLoop c (fun ci (s1 : Scatter) =>
      let vi := indices.getD (s.i + ci) 0
      let ti := v2f_offsets.getD vi 0 + s1.v2f_indices.getD vi 0
      { s1 with
        v2f_indices := s1.v2f_indices.set vi (s1.v2f_indices.getD vi 0 + 1)
        shared_faces := s1.shared_faces.set ti fi
        shared_indices := s1.shared_indices.set ti (s.i + ci) }) s
    { s1 with i := s.i + c }) s

/-- `TopologyRefiner::buildConnection`. -/
def buildConnection (r : TopologyRefiner float2 float3 float4) :
    TopologyRefiner float2 float3 float4 :=
  if r.v2f_counts.length = r.points.length then r
  else
    let num_indices := r.indices.length
    let num_points := r.points.length
    let v2f_counts := countCorners r.counts r.indices (List.replicate num_points 0)
    let v2f_offsets := offsetsOfCounts num_points v2f_counts (resize r.v2f_offsets num_points 0)
    let s := scatterCorners r.counts r.indices v2f_offsets
      { i := 0, v2f_indices := List.replicate num_points 0,
        shared_faces := resize r.shared_faces num_indices 0,
        shared_indices := resize r.shared_indices num_indices 0 }
    { r with
      v2f_counts := v2f_counts, v2f_offsets := v2f_offsets,
      shared_faces := s.shared_faces, shared_indices := s.shared_indices }

/-! ### Vertex lookup -/

/-- The scan loop shared by the four `findOrAddVertex*` functions, run over
the slots `cis` of the connectivity list starting at `offset`: `test ni` is
the near-equality condition on the stored vertex `ni`, `add` the `push_back`s
of the new vertex.  Falls through to `return 0`. -/
def findOrAddScan (r : TopologyRefiner float2 float3 float4) (offset : Nat)
    (test : Int → Bool) (add : TopologyRefiner float2 float3 float4 →
      TopologyRefiner float2 float3 float4) :
    List Nat → TopologyRefiner float2 float3 float4 × Int
  | [] => (r, 0)
  | ci :: rest =>
    let slot := r.shared_indices.getD (offset + ci) 0
    let ni := r.old2new.getD slot 0
    if (ni != -1 && test ni) = true then (r, ni)
    else if ni = -1 then
      let id : Int := r.new_points.length
      (add { r with old2new := r.old2new.set slot id }, id)
    else findOrAddScan r offset test add rest

/-- `TopologyRefiner::findOrAddVertexPNTU`. -/
def findOrAddVertexPNTU [Inhabited float2] [Inhabited float3] (M : MuMath float2 float3)
    (r : TopologyRefiner float2 float3 float4) (vi : Nat)
    (p n : float3) (t : float4) (u : float2) : TopologyRefiner float2 float3 float4 × Int :=
  findOrAddScan r (r.v2f_offsets.getD vi 0)
    (fun ni => M.near_equal3 (r.new_points.getD ni.toNat default) p
      && M.near_equal3 (r.new_normals.getD ni.toNat default) n
      && M.near_equal2 (r.new_uv.getD ni.toNat default) u)
    (fun r => { r with
      new_points := r.new_points ++ [p], new_normals := r.new_normals ++ [n],
      new_tangents := r.new_tangents ++ [t], new_uv := r.new_uv ++ [u] })
    (List.range (r.v2f_counts.getD vi 0))

/-- `TopologyRefiner::findOrAddVertexPNU`. -/
def findOrAddVertexPNU [Inhabited float2] [Inhabited float3] (M : MuMath float2 float3)
    (r : TopologyRefiner float2 float3 float4) (vi : Nat)
    (p n : float3) (u : float2) : TopologyRefiner float2 float3 float4 × Int :=
  findOrAddScan r (r.v2f_offsets.getD vi 0)
    (fun ni => M.near_equal3 (r.new_points.getD ni.toNat default) p
      && M.near_equal3 (r.new_normals.getD ni.toNat default) n
      && M.near_equal2 (r.new_uv.getD ni.toNat default) u)
    (fun r => { r with
      new_points := r.new_points ++ [p], new_normals := r.new_normals ++ [n],
      new_uv := r.new_uv ++ [u] })
    (List.range (r.v2f_counts.getD vi 0))

/-- `TopologyRefiner::findOrAddVertexPN`. -/
def findOrAddVertexPN [Inhabited float3] (M : MuMath float2 float3)
    (r : TopologyRefiner float2 float3 float4) (vi : Nat)
    (p n : float3) : TopologyRefiner float2 float3 float4 × Int :=
  findOrAddScan r (r.v2f_offsets.getD vi 0)
    (fun ni => M.near_equal3 (r.new_points.getD ni.toNat default) p
      && M.near_equal3 (r.new_normals.getD ni.toNat default) n)
    (fun r => { r with
      new_points := r.new_points ++ [p], new_normals := r.new_normals ++ [n] })
    (List.range (r.v2f_counts.getD vi 0))

/-- `TopologyRefiner::findOrAddVertexPU`. -/
def findOrAddVertexPU [Inhabited float2] [Inhabited float3] (M : MuMath float2 float3)
    (r : TopologyRefiner float2 float3 float4) (vi : Nat)
    (p : float3) (u : float2) : TopologyRefiner float2 float3 float4 × Int :=
  findOrAddScan r (r.v2f_offsets.getD vi 0)
    (fun ni => M.near_equal3 (r.new_points.getD ni.toNat default) p
      && M.near_equal2 (r.new_uv.getD ni.toNat default) u)
    (fun r => { r with
      new_points := r.new_points ++ [p], new_uv := r.new_uv ++ [u] })
    (List.range (r.v2f_counts.getD vi 0))

/-! ### Refinement -/

/-- Modelled from the spec: `mu::TriangulateWithIndices`, whose definition is in
a header that is not among the sources.  Every polygon is expanded into a fan
from its first corner (`count - 2` triangles), with the last two corners of
each triangle exchanged when `swap_face` is set.  The result is the sequence
of values written through the destination pointer. -/
def TriangulateWithIndices (counts : List Nat) (indices : List Int) (swap_face : Bool) :
    List Int :=
  let i1 := if swap_face then 2 else 1
  let i2 := if swap_face then 1 else 2
  (forLoop counts.length (fun fi (st : Nat × List Int) =>
    let count := counts.getD fi 0
    (st.1 + count,
      forLoop (count - 2) (fun ni (dst : List Int) =>
        dst ++ [indices.getD st.1 0, indices.getD (st.1 + ni + i1) 0,
          indices.getD (st.1 + ni + i2) 0]) st.2)) (0, [])).2

/-- The `add new split` block of `doRefine`. -/
def addSplit (r : TopologyRefiner float2 float3 float4) : TopologyRefiner float2 float3 float4 :=
  let prev0 := back r.splits
  let prev : Split := { prev0 with
    num_points := (r.new_points.length : Int) - prev0.offset_points
    num_indices := (r.new_indices.length : Int) - prev0.offset_indices }
  let cur : Split := {
    offset_faces := prev.offset_faces + prev.num_faces
    offset_points := prev.offset_points + prev.num_points
    offset_indices := prev.offset_indices + prev.num_indices }
  { r with
    splits := modifyBack (fun _ => prev) r.splits ++ [cur]
    old2new := List.replicate r.old2new.length (-1) }

/-- One iteration of the corner loop of `doRefine`; `si_offset_points` is
`si.offset_points`. -/
def refineCorner
    (body : TopologyRefiner float2 float3 float4 → Nat → Nat →
      TopologyRefiner float2 float3 float4 × Int)
    (offset : Nat) (si_offset_points : Int) (ci : Nat)
    (r : TopologyRefiner float2 float3 float4) : TopologyRefiner float2 float3 float4 :=
  let i := offset + ci
  let vi := r.indices.getD i 0
  let res := body r vi i
  { res.1 with new_indices := res.1.new_indices ++ [res.2 - si_offset_points] }

/-- One iteration of the face loop of `doRefine`. -/
def refineFace
    (body : TopologyRefiner float2 float3 float4 → Nat → Nat →
      TopologyRefiner float2 float3 float4 × Int)
    (fi : Nat) (r : TopologyRefiner float2 float3 float4) :
    TopologyRefiner float2 float3 float4 :=
  let offset := r.offsets.getD fi 0
  let count := r.counts.getD fi 0
  let r1 :=
    if r.split_unit > 0 ∧
        (r.new_points.length : Int) - (back r.splits).offset_points + count > r.split_unit
    then addSplit r else r
  let r2 := forLoop count (refineCorner body offset (back r1.splits).offset_points) r1
  let close := fun (si : Split) => { si with
    num_faces := si.num_faces + 1
    num_indices_triangulated := si.num_indices_triangulated + ((count : Int) - 2) * 3 }
  { r2 with splits := modifyBack close r2.splits }

/-- The block of `doRefine` that closes the last split. -/
def closeSplit (r : TopologyRefiner float2 float3 float4) : TopologyRefiner float2 float3 float4 :=
  let close := fun (cur : Split) => { cur with
    num_points := (r.new_points.length : Int) - cur.offset_points
    num_indices := (r.new_indices.length : Int) - cur.offset_indices }
  { r with splits := modifyBack close r.splits }

/-- The `if (triangulate)` block of `doRefine`. -/
def triangulateSplits (r : TopologyRefiner float2 float3 float4) :
    TopologyRefiner float2 float3 float4 :=
  if r.triangulate then
    let num_indices_triangulated : Int :=
      r.splits.foldl (fun acc split => acc + split.num_indices_triangulated) 0
    let buf := resize r.new_indices_triangulated num_indices_triangulated.toNat 0
    let res := r.splits.foldl (fun (st : Int × List Int) split =>
      (st.1 + split.num_indices_triangulated,
        writeAt st.2 st.1 (TriangulateWithIndices
          ((r.counts.drop split.offset_faces.toNat).take split.num_faces.toNat)
          ((r.new_indices.drop split.offset_indices.toNat).take split.num_indices.toNat)
          r.swap_faces))) (0, buf)
    { r with new_indices_triangulated := res.2 }
  else r

/-- The block of `doRefine` before the face loop: `splits.push_back({})` and
`old2new.resize(num_indices, -1)`. -/
def beginRefine (r : TopologyRefiner float2 float3 float4) : TopologyRefiner float2 float3 float4 :=
  let num_indices := r.indices.length
  { r with
    splits := r.splits ++ [{}]
    old2new := resize r.old2new num_indices (-1) }

/-- `TopologyRefiner::doRefine`; `body r vi i` is the vertex lookup. -/
def doRefine
    (body : TopologyRefiner float2 float3 float4 → Nat → Nat →
      TopologyRefiner float2 float3 float4 × Int)
    (r : TopologyRefiner float2 float3 float4) : TopologyRefiner float2 float3 float4 :=
  let r2 := beginRefine (buildConnection r)
  let num_faces := r2.counts.length
  let r3 := forLoop num_faces (refineFace body) r2
  triangulateSplits (closeSplit r3)

/-- `TopologyRefiner::refine`: the returned flag and the state afterwards. -/
def refine [Inhabited float2] [Inhabited float3] [Inhabited float4] (M : MuMath float2 float3)
    (r : TopologyRefiner float2 float3 float4) : Bool × TopologyRefiner float2 float3 float4 :=
  let num_points := r.points.length
  let num_indices := r.indices.length
  let num_normals := r.normals.length
  let num_uv := r.uv.length
  (true,
    if !r.uv.isEmpty then
      if !r.normals.isEmpty then
        if !r.tangents.isEmpty then
          if num_normals = num_indices ∧ num_uv = num_indices then
            doRefine (fun r vi i => findOrAddVertexPNTU M r vi (r.points.getD vi default)
              (r.normals.getD i default) (r.tangents.getD i default) (r.uv.getD i default)) r
          else if num_normals = num_indices ∧ num_uv = num_points then
            doRefine (fun r vi i => findOrAddVertexPNTU M r vi (r.points.getD vi default)
              (r.normals.getD i default) (r.tangents.getD i default) (r.uv.getD vi default)) r
          else if num_normals = num_points ∧ num_uv = num_indices then
            doRefine (fun r vi i => findOrAddVertexPNTU M r vi (r.points.getD vi default)
              (r.normals.getD vi default) (r.tangents.getD i default) (r.uv.getD i default)) r
          else if num_normals = num_points ∧ num_uv = num_points then
            doRefine (fun r vi _ => findOrAddVertexPNTU M r vi (r.points.getD vi default)
              (r.normals.getD vi default) (r.tangents.getD vi default) (r.uv.getD vi default)) r
          else r
        else
          if num_normals = num_indices ∧ num_uv = num_indices then
            doRefine (fun r vi i => findOrAddVertexPNU M r vi (r.points.getD vi default)
              (r.normals.getD i default) (r.uv.getD i default)) r
          else if num_normals = num_indices ∧ num_uv = num_points then
            doRefine (fun r vi i => findOrAddVertexPNU M r vi (r.points.getD vi default)
              (r.normals.getD i default) (r.uv.getD vi default)) r
          else if num_normals = num_points ∧ num_uv = num_indices then
            doRefine (fun r vi i => findOrAddVertexPNU M r vi (r.points.getD vi default)
              (r.normals.getD vi default) (r.uv.getD i default)) r
          else if num_normals = num_points ∧ num_uv = num_points then
            doRefine (fun r vi _ => findOrAddVertexPNU M r vi (r.points.getD vi default)
              (r.normals.getD vi default) (r.uv.getD vi default)) r
          else r
      else
        if num_uv = num_indices then
          doRefine (fun r vi i => findOrAddVertexPU M r vi (r.points.getD vi default)
            (r.uv.getD i default)) r
        else if num_uv = num_points then
          doRefine (fun r vi _ => findOrAddVertexPU M r vi (r.points.getD vi default)
            (r.uv.getD vi default)) r
        else r
    else
      if num_normals = num_indices then
        doRefine (fun r vi i => findOrAddVertexPN M r vi (r.points.getD vi default)
          (r.normals.getD i default)) r
      else if num_normals = num_points then
        doRefine (fun r vi _ => findOrAddVertexPN M r vi (r.points.getD vi default)
          (r.normals.getD vi default)) r
      else r)

end TopologyRefiner

/-! ## A concrete instance of the primitives -/

/-- Modelled from the spec: a concrete reading of the vector primitives with
exact arithmetic on a grid: a scalar is an integer number of grid units, and
`near_equal` is the component-wise test `|a - b| < eps` for a fixed tolerance
`eps` (in grid units).  `normalize` keeps the direction of an axis-aligned
vector and is the identity elsewhere. -/
def gridMath (eps : Int) : MuMath (Int × Int) (Int × Int × Int) where
  near_equal2 a b := decide (|a.1 - b.1| < eps) && decide (|a.2 - b.2| < eps)
  near_equal3 a b := decide (|a.1 - b.1| < eps) && decide (|a.2.1 - b.2.1| < eps)
    && decide (|a.2.2 - b.2.2| < eps)
  zero3 := (0, 0, 0)
  add3 a b := (a.1 + b.1, a.2.1 + b.2.1, a.2.2 + b.2.2)
  sub3 a b := (a.1 - b.1, a.2.1 - b.2.1, a.2.2 - b.2.2)
  cross a b := (a.2.1 * b.2.2 - a.2.2 * b.2.1, a.2.2 * b.1 - a.1 * b.2.2,
    a.1 * b.2.1 - a.2.1 * b.1)
  normalize a := a

/-! ## The vertex lookup, uniformly over the four key variants -/

/-- The vertex keys of the four `findOrAddVertex*` functions. -/
inductive VertexKey (float2 float3 float4 : Type) where
  | PNTU (p n : float3) (t : float4) (u : float2)
  | PNU (p n : float3) (u : float2)
  | PN (p n : float3)
  | PU (p : float3) (u : float2)

namespace VertexKey

variable [Inhabited float2] [Inhabited float3]

/-- The near-equality condition of the key on the stored vertex `ni`. -/
def test (M : MuMath float2 float3) (r : TopologyRefiner float2 float3 float4) :
    VertexKey float2 float3 float4 → Int → Bool
  | PNTU p n _ u => fun ni => M.near_equal3 (r.new_points.getD ni.toNat default) p
      && M.near_equal3 (r.new_normals.getD ni.toNat default) n
      && M.near_equal2 (r.new_uv.getD ni.toNat default) u
  | PNU p n u => fun ni => M.near_equal3 (r.new_points.getD ni.toNat default) p
      && M.near_equal3 (r.new_normals.getD ni.toNat default) n
      && M.near_equal2 (r.new_uv.getD ni.toNat default) u
  | PN p n => fun ni => M.near_equal3 (r.new_points.getD ni.toNat default) p
      && M.near_equal3 (r.new_normals.getD ni.toNat default) n
  | PU p u => fun ni => M.near_equal3 (r.new_points.getD ni.toNat default) p
      && M.near_equal2 (r.new_uv.getD ni.toNat default) u

/-- The `push_back`s of the key. -/
def add : VertexKey float2 float3 float4 → TopologyRefiner float2 float3 float4 →
    TopologyRefiner float2 float3 float4
  | PNTU p n t u => fun r => { r with
      new_points := r.new_points ++ [p], new_normals := r.new_normals ++ [n],
      new_tangents := r.new_tangents ++ [t], new_uv := r.new_uv ++ [u] }
  | PNU p n u => fun r => { r with
      new_points := r.new_points ++ [p], new_normals := r.new_normals ++ [n],
      new_uv := r.new_uv ++ [u] }
  | PN p n => fun r => { r with
      new_points := r.new_points ++ [p], new_normals := r.new_normals ++ [n] }
  | PU p u => fun r => { r with
      new_points := r.new_points ++ [p], new_uv := r.new_uv ++ [u] }

/-- The position of the key. -/
def point : VertexKey float2 float3 float4 → float3
  | PNTU p _ _ _ => p
  | PNU p _ _ => p
  | PN p _ => p
  | PU p _ => p

end VertexKey

namespace TopologyRefiner

variable [Inhabited float2] [Inhabited float3] [Inhabited float4]

/-- The lookup of a key: the common shape of the four `findOrAddVertex*`. -/
def findOrAddVertex (M : MuMath float2 float3) (r : TopologyRefiner float2 float3 float4)
    (vi : Nat) (k : VertexKey float2 float3 float4) : TopologyRefiner float2 float3 float4 × Int :=
  findOrAddScan r (r.v2f_offsets.getD vi 0) (k.test M r) k.add
    (List.range (r.v2f_counts.getD vi 0))

/-- Which of the four lookups `refine` calls. -/
inductive KeyKind where
  | PNTU | PNU | PN | PU
deriving DecidableEq, Repr

/-- The key that a lambda of `refine` builds for corner `i` of point `vi`:
`nc`, `tc`, `uc` tell whether the normal, tangent and uv are read at the
corner (`true`) or at the point (`false`). -/
def cornerKey (kind : KeyKind) (nc tc uc : Bool) (r : TopologyRefiner float2 float3 float4)
    (vi i : Nat) : VertexKey float2 float3 float4 :=
  match kind with
  | .PNTU => .PNTU (r.points.getD vi default) (r.normals.getD (bif nc then i else vi) default)
      (r.tangents.getD (bif tc then i else vi) default) (r.uv.getD (bif uc then i else vi) default)
  | .PNU => .PNU (r.points.getD vi default) (r.normals.getD (bif nc then i else vi) default)
      (r.uv.getD (bif uc then i else vi) default)
  | .PN => .PN (r.points.getD vi default) (r.normals.getD (bif nc then i else vi) default)
  | .PU => .PU (r.points.getD vi default) (r.uv.getD (bif uc then i else vi) default)

/-- The lambda that `refine` hands to `doRefine`, by kind and selectors. -/
def keyBody (M : MuMath float2 float3) (kind : KeyKind) (nc tc uc : Bool) :
    TopologyRefiner float2 float3 float4 → Nat → Nat → TopologyRefiner float2 float3 float4 × Int :=
  fun r vi i => findOrAddVertex M r vi (cornerKey kind nc tc uc r vi i)

/-- The kind that `refine` selects from which attribute arrays are present. -/
def kindOf (r : TopologyRefiner float2 float3 float4) : KeyKind :=
  if r.uv.isEmpty then .PN
  else if r.normals.isEmpty then .PU
  else if r.tangents.isEmpty then .PNU else .PNTU

/-- Whether `refine` reads the normal at the corner. -/
def normalsByCorner (r : TopologyRefiner float2 float3 float4) : Bool :=
  decide (r.normals.length = r.indices.length)

/-- Whether `refine` reads the uv at the corner. -/
def uvByCorner (r : TopologyRefiner float2 float3 float4) : Bool :=
  decide (r.uv.length = r.indices.length)

/-- Whether `refine` reads the tangent at the corner. -/
def tangentsByCorner (r : TopologyRefiner float2 float3 float4) : Bool :=
  normalsByCorner r || uvByCorner r

/-- The cardinalities for which `refine` runs `doRefine`: every attribute
array that the selected kind uses has one entry per point or per corner. -/
def Recognised (r : TopologyRefiner float2 float3 float4) : Prop :=
  (r.uv ≠ [] → r.uv.length = r.indices.length ∨ r.uv.length = r.points.length) ∧
  ((r.normals ≠ [] ∨ r.uv = []) →
    r.normals.length = r.indices.length ∨ r.normals.length = r.points.length)

end TopologyRefiner

/-! ## Sample soups -/

/-- Concrete scalar types of the samples: grid vectors. -/
abbrev GridRefiner := TopologyRefiner (Int × Int) (Int × Int × Int) (Int × Int × Int × Int)

/-- A single triangle, freshly prepared, with no attribute arrays. -/
def sampleTriangle : GridRefiner :=
  TopologyRefiner.prepare TopologyRefiner.init [3] [0] [0, 1, 2]
    [(0, 0, 0), (100, 0, 0), (0, 100, 0)]

/-- The triangle with a normals array of unrecognised length 2. -/
def sampleBadNormals : GridRefiner :=
  { sampleTriangle with normals := [(0, 0, 100), (0, 0, 100)] }


/-! ## Predicates used by the statements -/

namespace TopologyRefiner

/-- The part of the refiner that no vertex lookup touches: everything except
the remap table and the refined attribute arrays. -/
def frame (r : TopologyRefiner float2 float3 float4) : TopologyRefiner float2 float3 float4 :=
  { r with old2new := [], new_points := [], new_normals := [], new_tangents := [], new_uv := [] }

/-- A freshly prepared refiner: the caches and outputs that `prepare` clears
are empty (attribute arrays may have been set since). -/
structure Fresh (r : TopologyRefiner float2 float3 float4) : Prop where
  v2f_counts : r.v2f_counts = []
  v2f_offsets : r.v2f_offsets = []
  shared_faces : r.shared_faces = []
  shared_indices : r.shared_indices = []
  new_points : r.new_points = []
  new_normals : r.new_normals = []
  new_uv : r.new_uv = []
  new_indices : r.new_indices = []
  old2new : r.old2new = []
  splits : r.splits = []

/-- The polygon-soup invariant: every index is a point id, `offsets` is the
running sum of `counts`, and the counts add up to the number of corners. -/
structure ValidSoup (r : TopologyRefiner float2 float3 float4) : Prop where
  index_lt : ∀ k, k < r.indices.length → r.indices.getD k 0 < r.points.length
  offsets_length : r.offsets.length = r.counts.length
  offsets_eq : ∀ fi, fi < r.counts.length → r.offsets.getD fi 0 = (r.counts.take fi).sum
  counts_sum : r.counts.sum = r.indices.length

end TopologyRefiner

/-- Split descriptors are contiguous: the offsets of the first are `f`, `p`,
`i`, and the offsets of each later one are the previous offsets plus the
previous counts. -/
def Contiguous : Int → Int → Int → List Split → Prop
  | _, _, _, [] => True
  | f, p, i, s :: l =>
    s.offset_faces = f ∧ s.offset_points = p ∧ s.offset_indices = i ∧
      Contiguous (f + s.num_faces) (p + s.num_points) (i + s.num_indices) l

/-- The value `Σ (count - 2) * 3` over the faces `a, …, a + n - 1`. -/
def triCount (counts : List Nat) (a n : Nat) : Int :=
  (((counts.drop a).take n).map (fun (c : Nat) => ((c : Int) - 2) * 3)).sum


/-- Invariant of the face loop of `doRefine` on the split descriptors, before
face `fi`: the descriptors are contiguous from zero, the faces of the last
one end at `fi`, and every descriptor carries the triangulated index count of
its own faces. -/
structure SplitsInv (C : List Nat) (fi : Nat) (r : TopologyRefiner float2 float3 float4) :
    Prop where
  counts : r.counts = C
  nonempty : r.splits ≠ []
  contiguous : Contiguous 0 0 0 r.splits
  faces_end : (back r.splits).offset_faces + (back r.splits).num_faces = fi
  tri : ∀ s ∈ r.splits, 0 ≤ s.offset_faces ∧ 0 ≤ s.num_faces ∧
    s.num_indices_triangulated = triCount C s.offset_faces.toNat s.num_faces.toNat


namespace TopologyRefiner

/-- The configuration, soup, attribute arrays and caches: what the loops of
`doRefine` only read. -/
def inputs (r : TopologyRefiner float2 float3 float4) : TopologyRefiner float2 float3 float4 :=
  { frame r with new_indices := [], new_indices_triangulated := [], splits := [] }

end TopologyRefiner


/-- The unit square of the spec: four corner points in the XY plane, one
quadrilateral, flat normals from `genNormals`. -/
def sampleSquare : GridRefiner :=
  TopologyRefiner.genNormals (gridMath 10)
    (TopologyRefiner.prepare TopologyRefiner.init [4] [0] [0, 1, 2, 3]
      [(0, 0, 0), (100, 0, 0), (100, 100, 0), (0, 100, 0)])

/-- Two triangles sharing an edge, flat normals, with `split_unit = 3`. -/
def sampleStrip : GridRefiner :=
  { TopologyRefiner.genNormals (gridMath 10)
      (TopologyRefiner.prepare TopologyRefiner.init [3, 3] [0, 3] [0, 1, 2, 2, 1, 3]
        [(0, 0, 0), (100, 0, 0), (0, 100, 0), (100, 100, 0)]) with split_unit := 3 }


/-! ## Reference notions for the connectivity table -/

/-- The corner positions `k < n` whose index is the point `p`, in increasing
order. -/
def cornersUpTo (indices : List Nat) (p n : Nat) : List Nat :=
  (List.range n).filter (fun k => decide (indices.getD k 0 = p))

/-- All corner positions of the point `p`, in increasing order. -/
def cornersOf (indices : List Nat) (p : Nat) : List Nat :=
  cornersUpTo indices p indices.length

/-- Corner position `k` lies in face `f`: the face exists and `k` is one of its
`counts[f]` corners, which start at `Σ counts[0..f)`. -/
def InFace (counts : List Nat) (f k : Nat) : Prop :=
  f < counts.length ∧ (counts.take f).sum ≤ k ∧ k < (counts.take f).sum + counts.getD f 0


/-- Invariant of the third loop of `buildConnection` after the first `k`
corners: the write cursor of every point is the number of its corners so far,
and its slots hold those corners, in order, each with its face. -/
structure ScatterInv (counts idx offs : List Nat) (np n k : Nat) (s : TopologyRefiner.Scatter) :
    Prop where
  len_cursor : s.v2f_indices.length = np
  len_faces : s.shared_faces.length = n
  len_indices : s.shared_indices.length = n
  cursor : ∀ p, p < np → s.v2f_indices.getD p 0 = (cornersUpTo idx p k).length
  slot : ∀ p, p < np → ∀ t, t < (cornersUpTo idx p k).length →
    s.shared_indices.getD (offs.getD p 0 + t) 0 = (cornersUpTo idx p k).getD t 0 ∧
    InFace counts (s.shared_faces.getD (offs.getD p 0 + t) 0) ((cornersUpTo idx p k).getD t 0)


namespace TopologyRefiner

/-- The connectivity table is in place: the slots of every point list its
corner positions in increasing order. -/
structure Connected (r : TopologyRefiner float2 float3 float4) : Prop where
  slots : ∀ p, p < r.points.length →
    (List.range (r.v2f_counts.getD p 0)).map
      (fun ci => r.shared_indices.getD (r.v2f_offsets.getD p 0 + ci) 0) = cornersOf r.indices p

end TopologyRefiner


/-! ## Invariants of the refinement loop -/

/-- The scan of the slots `L` under the remap table `o` stops at an assigned
slot that passes `test` and holds the vertex `v`, after passing only assigned
slots that fail it. -/
def MatchAt (o : List Int) (test : Int → Bool) (L : List Nat) (v : Int) : Prop :=
  ∃ pre s post, L = pre ++ s :: post ∧
    (∀ s' ∈ pre, o.getD s' 0 ≠ -1 ∧ test (o.getD s' 0) = false) ∧
    o.getD s 0 ≠ -1 ∧ test (o.getD s 0) = true ∧ o.getD s 0 = v

namespace TopologyRefiner

/-- Facts about the corners `oi ≤ k < oi + cnt` of one chunk whose refined
points start at `op` and number `pts`: the chunk-relative index of every
corner is in range and the refined vertex it names stores the corner's point. -/
structure ChunkOK [Inhabited float3] (R r : TopologyRefiner float2 float3 float4)
    (op pts oi cnt : Int) : Prop where
  oi_nonneg : 0 ≤ oi
  cnt_nonneg : 0 ≤ cnt
  oi_le : oi + cnt ≤ r.new_indices.length
  op_nonneg : 0 ≤ op
  pts_nonneg : 0 ≤ pts
  op_le : op + pts ≤ r.new_points.length
  corner : ∀ k : Nat, oi ≤ k → (k : Int) < oi + cnt →
    0 ≤ r.new_indices.getD k 0 ∧ r.new_indices.getD k 0 < pts ∧
    r.new_points.getD (op + r.new_indices.getD k 0).toNat default =
      R.points.getD (R.indices.getD k 0) default

/-- Invariant of the loops of `doRefine`, relative to the state `R` in which
the connectivity table was built: corners not yet processed have no remap
entry, every remap entry names a refined vertex of the current chunk that
stores the point of its slot, and every chunk (the closed ones and the
current one, whose counts are still open) satisfies `ChunkOK`. -/
structure RefineInv [Inhabited float3] (R r : TopologyRefiner float2 float3 float4) : Prop where
  inputs : inputs r = inputs R
  len_old2new : r.old2new.length = R.indices.length
  unassigned : ∀ k, r.new_indices.length ≤ k → k < R.indices.length → r.old2new.getD k 0 = -1
  nonempty : r.splits ≠ []
  assigned : ∀ k, k < R.indices.length → r.old2new.getD k 0 ≠ -1 →
    (back r.splits).offset_points ≤ r.old2new.getD k 0 ∧
    r.old2new.getD k 0 < r.new_points.length ∧
    r.new_points.getD (r.old2new.getD k 0).toNat default =
      R.points.getD (R.indices.getD k 0) default
  current : ChunkOK R r (back r.splits).offset_points
    ((r.new_points.length : Int) - (back r.splits).offset_points)
    (back r.splits).offset_indices
    ((r.new_indices.length : Int) - (back r.splits).offset_indices)
  closed : ∀ s ∈ r.splits.dropLast,
    ChunkOK R r s.offset_points s.num_points s.offset_indices s.num_indices

end TopologyRefiner


/-- Near-equality is reflexive (it is on every value that is not a NaN). -/
def MuMath.Reflexive (M : MuMath float2 float3) : Prop :=
  (∀ a, M.near_equal2 a a = true) ∧ (∀ a, M.near_equal3 a a = true)

namespace TopologyRefiner

/-- The refined attribute arrays that the lookup of the kind compares are as
long as `new_points`. -/
def Parallel (kind : KeyKind) (r : TopologyRefiner float2 float3 float4) : Prop :=
  match kind with
  | .PNTU => r.new_normals.length = r.new_points.length ∧ r.new_uv.length = r.new_points.length
  | .PNU => r.new_normals.length = r.new_points.length ∧ r.new_uv.length = r.new_points.length
  | .PN => r.new_normals.length = r.new_points.length
  | .PU => r.new_uv.length = r.new_points.length

/-- Deduplication facts about the corners `oi ≤ k < oi + cnt` of one chunk
whose refined points start at `op`: the refined vertex of every corner passes
the near-equality test of the corner's key, and two corners of one point whose
keys have the same test are given the same refined vertex. -/
structure ChunkDedup [Inhabited float2] [Inhabited float3] [Inhabited float4]
    (M : MuMath float2 float3) (kind : KeyKind) (nc tc uc : Bool)
    (R r : TopologyRefiner float2 float3 float4) (op oi cnt : Int) : Prop where
  test : ∀ k : Nat, oi ≤ k → (k : Int) < oi + cnt →
    (cornerKey kind nc tc uc R (R.indices.getD k 0) k).test M r
      (op + r.new_indices.getD k 0) = true
  pair : ∀ k k' : Nat, oi ≤ k → (k : Int) < oi + cnt → oi ≤ k' → (k' : Int) < oi + cnt →
    R.indices.getD k 0 = R.indices.getD k' 0 →
    (∀ (x : TopologyRefiner float2 float3 float4) (ni : Int),
      (cornerKey kind nc tc uc R (R.indices.getD k 0) k).test M x ni =
        (cornerKey kind nc tc uc R (R.indices.getD k' 0) k').test M x ni) →
    r.new_indices.getD k 0 = r.new_indices.getD k' 0

/-- Deduplication invariant of the loops of `doRefine`: repeating the lookup
of any corner already processed in the current chunk would match the vertex it
was given, and every chunk satisfies `ChunkDedup`. -/
structure DedupInv [Inhabited float2] [Inhabited float3] [Inhabited float4]
    (M : MuMath float2 float3) (kind : KeyKind) (nc tc uc : Bool)
    (R r : TopologyRefiner float2 float3 float4) : Prop where
  parallel : Parallel kind r
  stable : ∀ k : Nat, (back r.splits).offset_indices ≤ k → k < r.new_indices.length →
    MatchAt r.old2new ((cornerKey kind nc tc uc R (R.indices.getD k 0) k).test M r)
      (cornersOf R.indices (R.indices.getD k 0))
      ((back r.splits).offset_points + r.new_indices.getD k 0)
  current : ChunkDedup M kind nc tc uc R r (back r.splits).offset_points
    (back r.splits).offset_indices
    ((r.new_indices.length : Int) - (back r.splits).offset_indices)
  closed : ∀ s ∈ r.splits.dropLast,
    ChunkDedup M kind nc tc uc R r s.offset_points s.offset_indices s.num_indices

end TopologyRefiner


/-- A fan of four triangles around point `0`, freshly prepared, with uv per
point and the given normals per corner; the corners of point `0` are the
positions `0`, `3`, `6` and `9`. -/
def sampleFan (n0 n3 n6 n9 : Int × Int × Int) : GridRefiner :=
  { TopologyRefiner.prepare TopologyRefiner.init [3, 3, 3, 3] [0, 3, 6, 9]
      [0, 1, 2, 0, 2, 3, 0, 3, 4, 0, 4, 1]
      [(0, 0, 0), (100, 0, 0), (0, 100, 0), (-100, 0, 0), (0, -100, 0)] with
    normals := [n0, (0, 0, 1000), (0, 0, 1000), n3, (0, 0, 1000), (0, 0, 1000),
      n6, (0, 0, 1000), (0, 0, 1000), n9, (0, 0, 1000), (0, 0, 1000)]
    uv := [(0, 0), (100, 0), (0, 100), (-100, 0), (0, -100)] }

/-- The fan whose normals at point `0` are `0`, `15`, `8`, `16` grid units
off the axis: with tolerance `10` the third is near the first and the fourth
is near the second. -/
def sampleFanChain : GridRefiner :=
  sampleFan (0, 0, 1000) (15, 0, 1000) (8, 0, 1000) (16, 0, 1000)

/-- The fan whose normals at point `0` are `0`, `9`, `-9`, `0` grid units off
the axis: with tolerance `10` the second and third are both near the first. -/
def sampleFanSpread : GridRefiner :=
  sampleFan (0, 0, 1000) (9, 0, 1000) (-9, 0, 1000) (0, 0, 1000)


namespace TopologyRefiner

/-- Invariant of the face loop of a second `doRefine` without split unit, run
on the result `r1` of the first: after `k` corners of `fi` faces no refined
vertex has been added and the first `k` entries of the first run have been
appended again to `new_indices`. -/
structure AgainInv (r1 t : TopologyRefiner float2 float3 float4) (fi k : Nat) : Prop where
  inputs : inputs t = inputs r1
  old2new : t.old2new = r1.old2new
  new_points : t.new_points = r1.new_points
  new_normals : t.new_normals = r1.new_normals
  new_uv : t.new_uv = r1.new_uv
  new_indices : t.new_indices = r1.new_indices ++ r1.new_indices.take k
  splits : ∃ cur : Split, t.splits = r1.splits ++ [cur] ∧ cur.offset_points = 0 ∧
    cur.num_indices_triangulated = triCount r1.counts 0 fi

end TopologyRefiner


/-- The unit-square scenario: four corner points, one quad with
`counts = [4]` and `indices = [0, 1, 2, 3]`, prepared on `r0`, flat normals
from `genNormals`, `triangulate` set and no split unit. -/
def unitSquare [Inhabited float3] (M : MuMath float2 float3)
    (r0 : TopologyRefiner float2 float3 float4) (p0 p1 p2 p3 : float3) :
    TopologyRefiner float2 float3 float4 :=
  { TopologyRefiner.genNormals M
      (TopologyRefiner.prepare r0 [4] [0] [0, 1, 2, 3] [p0, p1, p2, p3]) with
    triangulate := true, split_unit := 0 }


/-- The unit-square scenario with a split unit of two points. -/
def unitSquareSplit [Inhabited float3] (M : MuMath float2 float3)
    (r0 : TopologyRefiner float2 float3 float4) (p0 p1 p2 p3 : float3) :
    TopologyRefiner float2 float3 float4 :=
  { unitSquare M r0 p0 p1 p2 p3 with split_unit := 2 }

/-- The concrete unit square with a split unit of two points. -/
def sampleSquareSplit : GridRefiner :=
  { sampleSquare with split_unit := 2 }


/-- The fan with equal normals at point `0` and one tangent per corner, all
different: `refine` runs the {position, normal, tangent, uv} lookup on it. -/
def sampleFanTangents : GridRefiner :=
  { sampleFanSpread with
    normals := List.replicate 12 (0, 0, 1000)
    tangents := (List.range 12).map (fun k => ((k : Int), 0, 0, 1)) }


/-! ## Vertex formats and interleaving -/

/-- Modelled from the spec: the `VertexFormat` enumeration of the header
`MeshUtils.h`, which is not part of the sources at hand, with the members that
`GuessVertexFormat`, `GetVertexSize` and `Interleave` name; the spec lists
them as position+normal, +color, +uv, +color+uv, +uv+tangent and
+color+uv+tangent, besides the unknown format. -/
inductive VertexFormat where
  | Unknown
  | V3N3
  | V3N3C4
  | V3N3U2
  | V3N3C4U2
  | V3N3U2T4
  | V3N3C4U2T4
  deriving DecidableEq, Repr

namespace VertexFormat

/-- The formats whose record has the colour field `c`: the vertex types for
which `InterleaveImpl` writes `dst[i].c`. -/
def hasColor : VertexFormat → Bool
  | V3N3C4 | V3N3C4U2 | V3N3C4U2T4 => true
  | _ => false

/-- The formats whose record has the uv field `u`. -/
def hasUV : VertexFormat → Bool
  | V3N3U2 | V3N3C4U2 | V3N3U2T4 | V3N3C4U2T4 => true
  | _ => false

/-- The formats whose record has the tangent field `t`. -/
def hasTangent : VertexFormat → Bool
  | V3N3U2T4 | V3N3C4U2T4 => true
  | _ => false

end VertexFormat

/-- `GuessVertexFormat`; a null pointer is `none`. -/
def GuessVertexFormat (points normals : Option (List float3)) (colors : Option (List float4))
    (uvs : Option (List float2)) (tangents : Option (List float4)) : VertexFormat :=
  if points.isSome && normals.isSome then
    if colors.isSome && uvs.isSome && tangents.isSome then .V3N3C4U2T4
    else if colors.isSome && uvs.isSome then .V3N3C4U2
    else if uvs.isSome && tangents.isSome then .V3N3U2T4
    else if uvs.isSome then .V3N3U2
    else if colors.isSome then .V3N3C4
    else .V3N3
  else .Unknown

/-- Modelled from the spec: the packed vertex records `vertex_v3n3`, ...,
`vertex_v3n3c4u2t4` of the header `MeshUtils.h`, which is not part of the
sources at hand. One record with the five fields `p`, `n`, `c`, `u`, `t` that
`InterleaveImpl` names stands for the six record types; a format that lacks a
field never touches it. -/
structure Vertex (float2 float3 float4 : Type) where
  p : float3
  n : float3
  c : float4
  u : float2
  t : float4
  deriving DecidableEq, Repr

/-- In-place update of `dst[i]`; an index past the end writes nothing. -/
def updateAt {α : Type} (l : List α) (i : Nat) (f : α → α) : List α :=
  match l[i]? with
  | some a => l.set i (f a)
  | none => l

namespace InterleaveImpl

variable [Inhabited float2] [Inhabited float3] [Inhabited float4]

/-- `InterleaveImpl` for `vertex_v3n3`. -/
def v3n3 (dst : List (Vertex float2 float3 float4)) (points normals : List float3) (i : Nat) :
    List (Vertex float2 float3 float4) :=
  updateAt dst i (fun v => { v with p := points.getD i default, n := normals.getD i default })

/-- `InterleaveImpl` for `vertex_v3n3c4`. -/
def v3n3c4 (dst : List (Vertex float2 float3 float4)) (points normals : List float3)
    (colors : List float4) (i : Nat) : List (Vertex float2 float3 float4) :=
  updateAt dst i (fun v => { v with
    p := points.getD i default, n := normals.getD i default, c := colors.getD i default })

/-- `InterleaveImpl` for `vertex_v3n3u2`. -/
def v3n3u2 (dst : List (Vertex float2 float3 float4)) (points normals : List float3)
    (uvs : List float2) (i : Nat) : List (Vertex float2 float3 float4) :=
  updateAt dst i (fun v => { v with
    p := points.getD i default, n := normals.getD i default, u := uvs.getD i default })

/-- `InterleaveImpl` for `vertex_v3n3c4u2`. -/
def v3n3c4u2 (dst : List (Vertex float2 float3 float4)) (points normals : List float3)
    (colors : List float4) (uvs : List float2) (i : Nat) : List (Vertex float2 float3 float4) :=
  updateAt dst i (fun v => { v with
    p := points.getD i default, n := normals.getD i default, c := colors.getD i default,
    u := uvs.getD i default })

/-- `InterleaveImpl` for `vertex_v3n3u2t4`. -/
def v3n3u2t4 (dst : List (Vertex float2 float3 float4)) (points normals : List float3)
    (uvs : List float2) (tangents : List float4) (i : Nat) :
    List (Vertex float2 float3 float4) :=
  updateAt dst i (fun v => { v with
    p := points.getD i default, n := normals.getD i default, u := uvs.getD i default,
    t := tangents.getD i default })

/-- `InterleaveImpl` for `vertex_v3n3c4u2t4`. -/
def v3n3c4u2t4 (dst : List (Vertex float2 float3 float4)) (points normals : List float3)
    (colors : List float4) (uvs : List float2) (tangents : List float4) (i : Nat) :
    List (Vertex float2 float3 float4) :=
  updateAt dst i (fun v => { v with
    p := points.getD i default, n := normals.getD i default, c := colors.getD i default,
    u := uvs.getD i default, t := tangents.getD i default })

end InterleaveImpl

/-- `TInterleave`: `impl dst i` is `InterleaveImpl(dst, src, i)` for the
record type and the source arrays at hand. -/
def TInterleave {V : Type} (impl : List V → Nat → List V) (dst : List V) (num : Nat) : List V :=
  forLoop num (fun i d => impl d i) dst

/-- `Interleave`. -/
def Interleave [Inhabited float2] [Inhabited float3] [Inhabited float4]
    (dst : List (Vertex float2 float3 float4)) (format : VertexFormat) (num : Nat)
    (points normals : List float3) (colors : List float4) (uvs : List float2)
    (tangents : List float4) : List (Vertex float2 float3 float4) :=
  match format with
  | .V3N3 => TInterleave (fun d i => InterleaveImpl.v3n3 d points normals i) dst num
  | .V3N3C4 => TInterleave (fun d i => InterleaveImpl.v3n3c4 d points normals colors i) dst num
  | .V3N3U2 => TInterleave (fun d i => InterleaveImpl.v3n3u2 d points normals uvs i) dst num
  | .V3N3C4U2 =>
    TInterleave (fun d i => InterleaveImpl.v3n3c4u2 d points normals colors uvs i) dst num
  | .V3N3U2T4 =>
    TInterleave (fun d i => InterleaveImpl.v3n3u2t4 d points normals uvs tangents i) dst num
  | .V3N3C4U2T4 =>
    TInterleave (fun d i => InterleaveImpl.v3n3c4u2t4 d points normals colors uvs tangents i)
      dst num
  | .Unknown => dst

/-- A sample of three packed records over the integer grid. -/
def sampleVertices : List (Vertex (Int × Int) (Int × Int × Int) (Int × Int × Int × Int)) :=
  [⟨(9, 9, 9), (9, 9, 9), (9, 9, 9, 9), (9, 9), (9, 9, 9, 9)⟩,
   ⟨(8, 8, 8), (8, 8, 8), (8, 8, 8, 8), (8, 8), (8, 8, 8, 8)⟩,
   ⟨(7, 7, 7), (7, 7, 7), (7, 7, 7, 7), (7, 7), (7, 7, 7, 7)⟩]


/-! ## Tangent generation -/

/-- `TSpaceContext`: the arrays that `GenerateTangents` hands to the solver's
callbacks as user data. A `float4` is four scalars of the type `F`; the
callbacks' `float` triples are `F × F × F`. -/
structure TSpaceContext (F float2 float3 : Type) where
  dst : List (F × F × F × F)
  points : List float3
  normals : List float3
  uv : List float2
  counts : List Nat
  offsets : List Nat
  indices : List Nat

namespace TSpaceContext

variable {F : Type} [Inhabited float2] [Inhabited float3]

/-- `TSpaceContext::getNumFaces`. -/
def getNumFaces (c : TSpaceContext F float2 float3) : Nat :=
  c.counts.length

/-- `TSpaceContext::getCount`. -/
def getCount (c : TSpaceContext F float2 float3) (i : Nat) : Nat :=
  c.counts.getD i 0

/-- `TSpaceContext::getPosition`: `face[ivtx]` with `face = &indices[offsets[iface]]`. -/
def getPosition (c : TSpaceContext F float2 float3) (iface ivtx : Nat) : float3 :=
  c.points.getD (c.indices.getD (c.offsets.getD iface 0 + ivtx) 0) default

/-- `TSpaceContext::getPositionFlattened`. -/
def getPositionFlattened (c : TSpaceContext F float2 float3) (iface ivtx : Nat) : float3 :=
  c.points.getD (c.offsets.getD iface 0 + ivtx) default

/-- `TSpaceContext::getNormal`. -/
def getNormal (c : TSpaceContext F float2 float3) (iface ivtx : Nat) : float3 :=
  c.normals.getD (c.indices.getD (c.offsets.getD iface 0 + ivtx) 0) default

/-- `TSpaceContext::getNormalFlattened`. -/
def getNormalFlattened (c : TSpaceContext F float2 float3) (iface ivtx : Nat) : float3 :=
  c.normals.getD (c.offsets.getD iface 0 + ivtx) default

/-- `TSpaceContext::getTexCoord`. -/
def getTexCoord (c : TSpaceContext F float2 float3) (iface ivtx : Nat) : float2 :=
  c.uv.getD (c.indices.getD (c.offsets.getD iface 0 + ivtx) 0) default

/-- `TSpaceContext::getTexCoordFlattened`. -/
def getTexCoordFlattened (c : TSpaceContext F float2 float3) (iface ivtx : Nat) : float2 :=
  c.uv.getD (c.offsets.getD iface 0 + ivtx) default

omit [Inhabited float2] [Inhabited float3] in
/-- `TSpaceContext::setTangent`; the bitangent and the two magnitudes are
not used. -/
def setTangent [One F] [Neg F] (c : TSpaceContext F float2 float3) (tangent : F × F × F)
    (_bitangent : F × F × F) (_fMagS _fMagT : F) (IsOrientationPreserving : Int)
    (iface ivtx : Nat) : TSpaceContext F float2 float3 :=
  let sign : F := if IsOrientationPreserving ≠ 0 then 1 else -1
  let face := fun (k : Nat) => c.indices.getD (c.offsets.getD iface 0 + k) 0
  { c with dst := c.dst.set (face ivtx) (tangent.1, tangent.2.1, tangent.2.2, sign) }

omit [Inhabited float2] [Inhabited float3] in
/-- `TSpaceContext::setTangentFlattened`. -/
def setTangentFlattened [One F] [Neg F] (c : TSpaceContext F float2 float3)
    (tangent : F × F × F) (_bitangent : F × F × F) (_fMagS _fMagT : F)
    (IsOrientationPreserving : Int) (iface ivtx : Nat) : TSpaceContext F float2 float3 :=
  let sign : F := if IsOrientationPreserving ≠ 0 then 1 else -1
  let i := c.offsets.getD iface 0 + ivtx
  { c with dst := c.dst.set i (tangent.1, tangent.2.1, tangent.2.2, sign) }

end TSpaceContext

/-- The callback table of the external tangent-space solver
(`SMikkTSpaceInterface` of `mikktspace.h`), with the members that
`GenerateTangents` sets; each callback receives the context. -/
structure SMikkTSpaceInterface (F float2 float3 : Type) where
  m_getNumFaces : TSpaceContext F float2 float3 → Nat
  m_getNumVerticesOfFace : TSpaceContext F float2 float3 → Nat → Nat
  m_getPosition : TSpaceContext F float2 float3 → Nat → Nat → float3
  m_getNormal : TSpaceContext F float2 float3 → Nat → Nat → float3
  m_getTexCoord : TSpaceContext F float2 float3 → Nat → Nat → float2
  m_setTSpace : TSpaceContext F float2 float3 → F × F × F → F × F × F → F → F → Int →
    Nat → Nat → TSpaceContext F float2 float3

/-- The callback table that `GenerateTangents` fills in: each getter and the
setter is chosen by comparing the length of its array with the number of
indices. -/
def GenerateTangents.iface {F : Type} [One F] [Neg F] [Inhabited float2] [Inhabited float3]
    (dst : List (F × F × F × F)) (points normals : List float3) (uv : List float2)
    (indices : List Nat) : SMikkTSpaceInterface F float2 float3 :=
  { m_getNumFaces := TSpaceContext.getNumFaces
    m_getNumVerticesOfFace := TSpaceContext.getCount
    m_getPosition := if points.length = indices.length
      then TSpaceContext.getPositionFlattened else TSpaceContext.getPosition
    m_getNormal := if normals.length = indices.length
      then TSpaceContext.getNormalFlattened else TSpaceContext.getNormal
    m_getTexCoord := if uv.length = indices.length
      then TSpaceContext.getTexCoord else TSpaceContext.getTexCoordFlattened
    m_setTSpace := if dst.length = indices.length
      then TSpaceContext.setTangentFlattened else TSpaceContext.setTangent }

/-- `GenerateTangents`. The solver `genTangSpaceDefault` of the external
library is a parameter: it receives the callback table and the context and
returns the context it leaves and its status. -/
def GenerateTangents {F : Type} [One F] [Neg F] [Inhabited float2] [Inhabited float3]
    (genTangSpaceDefault : SMikkTSpaceInterface F float2 float3 →
      TSpaceContext F float2 float3 → TSpaceContext F float2 float3 × Int)
    (dst : List (F × F × F × F)) (points normals : List float3) (uv : List float2)
    (counts offsets indices : List Nat) : List (F × F × F × F) × Bool :=
  let ctx : TSpaceContext F float2 float3 :=
    { dst := dst, points := points, normals := normals, uv := uv, counts := counts,
      offsets := offsets, indices := indices }
  let iface := GenerateTangents.iface dst points normals uv indices
  let res := genTangSpaceDefault iface ctx
  (res.1.dst, res.2 != 0)

/-- A solver that asks for the uv of every corner and reports it back as the
tangent `(u, v, 0)`, orientation preserving. -/
def echoSolver (iface : SMikkTSpaceInterface Int (Int × Int) (Int × Int × Int))
    (ctx : TSpaceContext Int (Int × Int) (Int × Int × Int)) :
    TSpaceContext Int (Int × Int) (Int × Int × Int) × Int :=
  (forLoop (iface.m_getNumFaces ctx) (fun f c =>
    forLoop (iface.m_getNumVerticesOfFace c f) (fun k c =>
      let u := iface.m_getTexCoord c f k
      iface.m_setTSpace c (u.1, u.2, 0) (0, 0, 0) 1 1 1 f k) c) ctx, 1)

/-- Two triangles over four points with one uv per corner: the context that
`GenerateTangents` builds for a destination of six tangents. -/
def sampleTSpace : TSpaceContext Int (Int × Int) (Int × Int × Int) :=
  { dst := List.replicate 6 (0, 0, 0, 0)
    points := [(0, 0, 0), (1, 0, 0), (0, 1, 0), (1, 1, 0)]
    normals := [(0, 0, 1), (0, 0, 1), (0, 0, 1), (0, 0, 1)]
    uv := [(0, 0), (1, 0), (0, 1), (10, 10), (11, 10), (10, 11)]
    counts := [3, 3]
    offsets := [0, 3]
    indices := [0, 1, 2, 2, 1, 3] }


/-! ## Normals and bounds over plain arrays -/

/-- `GenerateNormals`: the destination it leaves and the returned flag. -/
def GenerateNormals [Inhabited float3] (M : MuMath float2 float3) (dst points : List float3)
    (counts offsets indices : List Nat) : List float3 × Bool :=
  if dst.length ≠ points.length then (dst, false)
  else
    let zeroed : List float3 := List.replicate dst.length M.zero3
    let acc := forLoop counts.length (fun fi (d : List float3) =>
      let count := counts.getD fi 0
      let face := fun (k : Nat) => indices.getD (offsets.getD fi 0 + k) 0
      let p0 := points.getD (face 0) default
      let p1 := points.getD (face 1) default
      let p2 := points.getD (face 2) default
      let n := M.cross (M.sub3 p1 p0) (M.sub3 p2 p0)
      forLoop count (fun ci (d : List float3) =>
        d.set (face ci) (M.add3 (d.getD (face ci) default) n)) d) zeroed
    (acc.map M.normalize, true)

/-- A `float3` with its three components, over a scalar type `F`. -/
structure Float3 (F : Type) where
  x : F
  y : F
  z : F
  deriving DecidableEq, Repr, Inhabited

/-- `std::min<float>(a, b)`: `b` when `b < a`, else `a`. -/
def stdMin {F : Type} [LinearOrder F] (a b : F) : F :=
  if b < a then b else a

/-- `std::max<float>(a, b)`: `b` when `a < b`, else `a`. -/
def stdMax {F : Type} [LinearOrder F] (a b : F) : F :=
  if a < b then b else a

/-- `ComputeBounds_Generic`: the values of `omin` and `omax` afterwards. The
scalar comparison is a linear order. -/
def ComputeBounds_Generic {F : Type} [LinearOrder F] [Inhabited F] (p : List (Float3 F))
    (num : Nat) (omin omax : Float3 F) : Float3 F × Float3 F :=
  if num = 0 then (omin, omax)
  else
    let p0 := p.getD 0 default
    forLoop (num - 1) (fun j (r : Float3 F × Float3 F) =>
      let q := p.getD (j + 1) default
      (Float3.mk (stdMin r.1.x q.x) (stdMin r.1.y q.y) (stdMin r.1.z q.z),
        Float3.mk (stdMax r.2.x q.x) (stdMax r.2.y q.y) (stdMax r.2.z q.z))) (p0, p0)

/-- Three sample points over the integers. -/
def samplePoints : List (Float3 Int) :=
  [⟨3, 1, 2⟩, ⟨1, 5, 0⟩, ⟨2, 2, 9⟩]


/-- The unit square holding a connectivity table that does not describe it:
four counts of `7` and no offsets or slots. -/
def sampleStaleTable : GridRefiner :=
  { sampleSquare with v2f_counts := [7, 7, 7, 7] }


/-! ## The refiner in the middle of `doRefine` -/

namespace TopologyRefiner

/-- The refiner in the middle of `doRefine`, just before the lookup of corner
`ci` of face `fi`: the faces before `fi` are done, the split test of face `fi`
has been made, and the corners of face `fi` before `ci` are done. -/
def cornerState
    (body : TopologyRefiner float2 float3 float4 → Nat → Nat →
      TopologyRefiner float2 float3 float4 × Int)
    (r : TopologyRefiner float2 float3 float4) (fi ci : Nat) :
    TopologyRefiner float2 float3 float4 :=
  let t := forLoop fi (refineFace body) (beginRefine (buildConnection r))
  let offset := t.offsets.getD fi 0
  let count := t.counts.getD fi 0
  let r1 :=
    if t.split_unit > 0 ∧
        (t.new_points.length : Int) - (back t.splits).offset_points + count > t.split_unit
    then addSplit t else t
  forLoop ci (refineCorner body offset (back r1.splits).offset_points) r1

/-- The corner position `i = offsets[fi] + ci` of corner `ci` of face `fi`. -/
def cornerIndex (r : TopologyRefiner float2 float3 float4) (fi ci : Nat) : Nat :=
  r.offsets.getD fi 0 + ci

/-- The point id `vi = indices[i]` of corner `ci` of face `fi`. -/
def cornerPoint (r : TopologyRefiner float2 float3 float4) (fi ci : Nat) : Nat :=
  r.indices.getD (cornerIndex r fi ci) 0

/-- The lookup that `doRefine` makes for corner `ci` of face `fi`:
`body(vi, i)` on the refiner as it is at that moment. -/
def cornerLookup
    (body : TopologyRefiner float2 float3 float4 → Nat → Nat →
      TopologyRefiner float2 float3 float4 × Int)
    (r : TopologyRefiner float2 float3 float4) (fi ci : Nat) :
    TopologyRefiner float2 float3 float4 × Int :=
  let t := cornerState body r fi ci
  let i := (forLoop fi (refineFace body) (beginRefine (buildConnection r))).offsets.getD fi 0 + ci
  let vi := t.indices.getD i 0
  body t vi i

/-- The connectivity list of the point `vi`, as the lookups walk it:
`shared_indices[v2f_offsets[vi] + ci]` for `ci < v2f_counts[vi]`. -/
def connectivity (r : TopologyRefiner float2 float3 float4) (vi : Nat) : List Nat :=
  (List.range (r.v2f_counts.getD vi 0)).map
    (fun ci => r.shared_indices.getD (r.v2f_offsets.getD vi 0 + ci) 0)

/-- Invariant of the loops of `doRefine` on the remap slots: among the
corners of one point the assigned slots come first and hold increasing ids,
and every refined vertex of the current chunk is held by a slot. -/
structure SlotInv (R r : TopologyRefiner float2 float3 float4) : Prop where
  ordered : ∀ k k' : Nat, k < k' → k' < R.indices.length →
    R.indices.getD k 0 = R.indices.getD k' 0 → r.old2new.getD k' 0 ≠ -1 →
    r.old2new.getD k 0 ≠ -1 ∧ r.old2new.getD k 0 < r.old2new.getD k' 0
  recorded : ∀ v : Int, (back r.splits).offset_points ≤ v → v < r.new_points.length →
    ∃ k, k < R.indices.length ∧ r.old2new.getD k 0 = v

end TopologyRefiner

/-- The fan in which the second corner at point `0` repeats the normal of the
first and the third one differs from both. -/
def sampleFanRepeat : GridRefiner :=
  sampleFan (0, 0, 1000) (0, 0, 1000) (500, 0, 1000) (0, 0, 1000)


/-- Invariant of the face loop of `doRefine` for a split unit `su` that no
face exceeds: the current chunk holds at most `su` points, it has a face as
soon as one face has been processed, and every closed chunk holds at most `su`
points and at least one face. -/
structure BudgetInv (su : Int) (fi : Nat) (r : TopologyRefiner float2 float3 float4) :
    Prop where
  nonempty : r.splits ≠ []
  current : (r.new_points.length : Int) - (back r.splits).offset_points ≤ su
  start : fi = 0 → (r.new_points.length : Int) - (back r.splits).offset_points = 0
  faces_nonneg : 0 ≤ (back r.splits).num_faces
  faces : 0 < fi → 1 ≤ (back r.splits).num_faces
  closed : ∀ s ∈ r.splits.dropLast, s.num_points ≤ su ∧ 1 ≤ s.num_faces

/-- The prepared soup without any face, with a split unit of one point. -/
def sampleEmpty : GridRefiner :=
  { TopologyRefiner.prepare TopologyRefiner.init [] [] [] [] with split_unit := 1 }


/-- The fan with tangents prepared a second time: `refine` has run once,
then `prepare` is called with the same soup and the same normals, uv and
tangents are supplied again. -/
def sampleReprepared : GridRefiner :=
  { TopologyRefiner.prepare (TopologyRefiner.refine (gridMath 10) sampleFanTangents).2
      sampleFanTangents.counts sampleFanTangents.offsets sampleFanTangents.indices
      sampleFanTangents.points with
    normals := sampleFanTangents.normals
    uv := sampleFanTangents.uv
    tangents := sampleFanTangents.tangents }


/-! ## Reference definition of the flat normals -/

/-- The corners `(f, c)` of a soup, face by face and corner by corner. -/
def cornerPairs (counts : List Nat) : List (Nat × Nat) :=
  (List.range counts.length).flatMap
    (fun f => (List.range (counts.getD f 0)).map (fun c => (f, c)))

/-- Modelled from the spec: the face normal
`cross(p1 − p0, p2 − p0)` from the first three corners of face `f`. -/
def faceNormalRef [Inhabited float3] (M : MuMath float2 float3) (points : List float3)
    (offsets indices : List Nat) (f : Nat) : float3 :=
  let p0 := points.getD (indices.getD (offsets.getD f 0 + 0) 0) default
  let p1 := points.getD (indices.getD (offsets.getD f 0 + 1) 0) default
  let p2 := points.getD (indices.getD (offsets.getD f 0 + 2) 0) default
  M.cross (M.sub3 p1 p0) (M.sub3 p2 p0)

/-- Modelled from the spec: the flat normal of point `p` is
`normalize` of the sum, over every corner `(f, c)` with
`indices[offsets[f] + c] = p`, of the face normal of `f`; the sum starts from
the zero vector and takes the corners face by face. -/
def flatNormalRef [Inhabited float3] (M : MuMath float2 float3) (points : List float3)
    (counts offsets indices : List Nat) (p : Nat) : float3 :=
  M.normalize
    (((cornerPairs counts).filter
        (fun fc => decide (indices.getD (offsets.getD fc.1 0 + fc.2) 0 = p))).foldl
      (fun acc fc => M.add3 acc (faceNormalRef M points offsets indices fc.1)) M.zero3)



/-! ## Flat normals against their reference definition -/

/-- Two triangles sharing an edge and a fifth point that no corner
references. -/
def sampleLoosePoint : GridRefiner :=
  TopologyRefiner.prepare TopologyRefiner.init [3, 3] [0, 3] [0, 1, 2, 2, 1, 3]
    [(0, 0, 0), (100, 0, 0), (0, 100, 0), (100, 100, 50), (7, 7, 7)]

/-! ## Smoothing-angle normals -/

/-- Modelled from the spec: the scalar primitives of the math header used by
`genNormals(float)`, which is not among the sources: `dot` on `float3`,
`cos_deg x` for `std::cos(x * Deg2Rad)` (the cosine of an angle in degrees),
the float subtraction, the constant `0.001f` and the comparison `>`. -/
structure MuScalar (float3 F : Type) where
  dot : float3 → float3 → F
  cos_deg : F → F
  sub : F → F → F
  milli : F
  gt : F → F → Bool

namespace TopologyRefiner

/-- First loop of `genNormals(float)`: `face_normals` after the resize, the
zero-clear, the loop over the faces and `Normalize`. -/
def faceNormals [Inhabited float3] (M : MuMath float2 float3)
    (r : TopologyRefiner float2 float3 float4) : List float3 :=
  let zeroed : List float3 := List.replicate r.counts.length M.zero3
  let fn := forLoop r.counts.length (fun fi (fn : List float3) =>
    let offset := r.offsets.getD fi 0
    let face := fun (k : Nat) => r.indices.getD (offset + k) 0
    let p0 := r.points.getD (face 0) default
    let p1 := r.points.getD (face 1) default
    let p2 := r.points.getD (face 2) default
    let n := M.cross (M.sub3 p1 p0) (M.sub3 p2 p0)
    fn.set fi n) zeroed
  fn.map M.normalize

/-- Innermost loop of `genNormals(float)` at a corner of point `vi` in a face
with normal `face_normal`: the sum of the connected face normals whose dot
product with `face_normal` exceeds `angle`. -/
def cornerNormal [Inhabited float3] {F : Type} (M : MuMath float2 float3)
    (S : MuScalar float3 F) (angle : F) (r : TopologyRefiner float2 float3 float4)
    (face_normals : List float3) (face_normal : float3) (vi : Nat) : float3 :=
  let num_connections := r.v2f_counts.getD vi 0
  let connection := fun (ni : Nat) => r.shared_faces.getD (r.v2f_offsets.getD vi 0 + ni) 0
  forLoop num_connections (fun ni (normal : float3) =>
    let connected_normal := face_normals.getD (connection ni) default
    let dp := S.dot face_normal connected_normal
    if S.gt dp angle = true then M.add3 normal connected_normal else normal) M.zero3

/-- Second loop of `genNormals(float)`: every corner `offset + ci` of every
face receives the sum computed for it. -/
def cornerNormals [Inhabited float3] {F : Type} (M : MuMath float2 float3)
    (S : MuScalar float3 F) (angle : F) (r : TopologyRefiner float2 float3 float4)
    (face_normals vertex_normals : List float3) : List float3 :=
  forLoop r.counts.length (fun fi (vn : List float3) =>
    let count := r.counts.getD fi 0
    let offset := r.offsets.getD fi 0
    let face := fun (k : Nat) => r.indices.getD (offset + k) 0
    let face_normal := face_normals.getD fi default
    forLoop count (fun ci (vn : List float3) =>
      let vi := face ci
      let normal := cornerNormal M S angle r face_normals face_normal vi
      vn.set (offset + ci) normal) vn) vertex_normals

/-- `TopologyRefiner::genNormals(float smooth_angle)`. -/
def genNormalsSmooth [Inhabited float3] {F : Type} (M : MuMath float2 float3)
    (S : MuScalar float3 F) (smooth_angle : F) (r0 : TopologyRefiner float2 float3 float4) :
    TopologyRefiner float2 float3 float4 :=
  let r := if r0.v2f_counts = [] then buildConnection r0 else r0
  let num_indices := r.indices.length
  let vertex_normals := resize r.vertex_normals num_indices default
  let face_normals := faceNormals M r
  let angle := S.sub (S.cos_deg smooth_angle) S.milli
  let vn := cornerNormals M S angle r face_normals vertex_normals
  let normalized := vn.map M.normalize
  { r with face_normals := face_normals, vertex_normals := normalized, normals := normalized }

/-- The faces in the connectivity list of point `vi`, in table order. -/
def connectedFaces (r : TopologyRefiner float2 float3 float4) (vi : Nat) : List Nat :=
  (List.range (r.v2f_counts.getD vi 0)).map
    (fun ni => r.shared_faces.getD (r.v2f_offsets.getD vi 0 + ni) 0)

/-- Modelled from the spec: the fully smooth normal of point `vi`, `normalize`
of the sum of the normals of every face in the connectivity list of `vi`. -/
def smoothNormal [Inhabited float3] (M : MuMath float2 float3)
    (r : TopologyRefiner float2 float3 float4) (vi : Nat) : float3 :=
  M.normalize ((connectedFaces r vi).foldl
    (fun acc f => M.add3 acc (r.face_normals.getD f default)) M.zero3)

end TopologyRefiner

/-- Modelled from the spec: a concrete reading of the scalar primitives in
fixed point.  A scalar (an angle in degrees, a cosine, a dot product) is an
integer number of thousandths; vector components are whole units, so the dot
product is 1000 times the sum of the products.  The cosine is even and
360-periodic and is computed with the rational approximation
`sin y ≈ 4 y (180 − y) / (40500 − y (180 − y))` on `0 ≤ y ≤ 180`, which is
exact at the multiples of 30 degrees met in the examples. -/
def gridScalar : MuScalar (Int × Int × Int) Int where
  dot a b := 1000 * (a.1 * b.1 + a.2.1 * b.2.1 + a.2.2 * b.2.2)
  cos_deg x :=
    let t : Int := (x.natAbs % 360000 : Nat)
    let u : Int := if t ≤ 180000 then t else 360000 - t
    let s := fun (y : Int) => 4000 * y * (180000 - y) / (40500000000 - y * (180000 - y))
    if u ≤ 90000 then s (90000 - u) else - s (u - 90000)
  sub a b := a - b
  milli := 1
  gt a b := decide (a > b)

/-- Two triangles around point 0 with perpendicular unit face normals
`(0, 0, 1)` and `(1, 0, 0)`; they share the points 0 and 2. -/
def sampleCorner : GridRefiner :=
  TopologyRefiner.prepare TopologyRefiner.init [3, 3] [0, 3] [0, 1, 2, 0, 2, 3]
    [(0, 0, 0), (1, 0, 0), (0, 1, 0), (0, 0, 1)]

/-! # Verification -/

/-! ## Loops and buffers -/

@[simp] theorem forLoop_zero {σ : Type} (body : Nat → σ → σ) (s : σ) :
    forLoop 0 body s = s := rfl

theorem forLoop_succ {σ : Type} (n : Nat) (body : Nat → σ → σ) (s : σ) :
    forLoop (n + 1) body s = body n (forLoop n body s) := rfl

/-- Loop invariant rule: `P i` holds of the state after `i` iterations. -/
theorem forLoop_inv {σ : Type} (P : Nat → σ → Prop) (n : Nat) (body : Nat → σ → σ) (s : σ)
    (h0 : P 0 s) (hstep : ∀ i t, i < n → P i t → P (i + 1) (body i t)) :
    P n (forLoop n body s) := by
  induction n with
  | zero => exact h0
  | succ n ih =>
    rw [forLoop_succ]
    exact hstep n _ (Nat.lt_succ_self n)
      (ih (fun i t hi hP => hstep i t (Nat.lt_succ_of_lt hi) hP))

@[simp] theorem length_resize {α : Type} (l : List α) (n : Nat) (v : α) :
    (resize l n v).length = n := by
  simp only [resize, List.length_append, List.length_take, List.length_replicate]
  omega

theorem resize_eq_self {α : Type} (l : List α) (v : α) : resize l l.length v = l := by
  simp [resize]

@[simp] theorem resize_nil {α : Type} (n : Nat) (v : α) :
    resize ([] : List α) n v = List.replicate n v := by
  simp [resize]

@[simp] theorem length_writeAt (vals : List Int) (buf : List Int) (pos : Int) :
    (writeAt buf pos vals).length = buf.length := by
  induction vals generalizing buf pos with
  | nil => rfl
  | cons v vs ih =>
    rw [writeAt, ih]
    split <;> simp

@[simp] theorem modifyBack_concat {α : Type} (f : α → α) (l : List α) (a : α) :
    modifyBack f (l ++ [a]) = l ++ [f a] := by
  induction l with
  | nil => rfl
  | cons b l ih =>
    cases l with
    | nil => rfl
    | cons c l => 
      show b :: modifyBack f ((c :: l) ++ [a]) = _
      rw [ih]; rfl

@[simp] theorem back_concat {α : Type} [Inhabited α] (l : List α) (a : α) :
    back (l ++ [a]) = a := by
  simp [back, List.getLastD_eq_getLast?]

@[simp] theorem length_modifyBack {α : Type} (f : α → α) (l : List α) :
    (modifyBack f l).length = l.length := by
  rcases List.eq_nil_or_concat l with h | ⟨l', a, h⟩
  · subst h; rfl
  · subst h; simp

namespace TopologyRefiner

variable [Inhabited float2] [Inhabited float3] [Inhabited float4]

/-! ## Which lookup `refine` runs -/

theorem refine_fst (M : MuMath float2 float3) (r : TopologyRefiner float2 float3 float4) :
    (refine M r).1 = true := rfl

/-- With recognised cardinalities `refine` is `doRefine` on the selected lookup. -/
theorem refine_eq_doRefine (M : MuMath float2 float3) (r : TopologyRefiner float2 float3 float4)
    (h : Recognised r) :
    (refine M r).2 =
      doRefine (keyBody M (kindOf r) (normalsByCorner r) (tangentsByCorner r) (uvByCorner r)) r := by
  obtain ⟨hu, hn⟩ := h
  unfold refine kindOf tangentsByCorner normalsByCorner uvByCorner
  cases hU : r.uv.isEmpty
  · have hu1 := hu (by intro h0; simp [h0] at hU)
    cases hN : r.normals.isEmpty
    · have hn1 := hn (Or.inl (by intro h0; simp [h0] at hN))
      cases hT : r.tangents.isEmpty <;>
      by_cases h1 : r.normals.length = r.indices.length <;>
      by_cases h2 : r.uv.length = r.indices.length <;>
      simp only [h1, h2, and_self, and_false, false_and, and_true, true_and, if_true, decide_True,
        decide_False, Bool.not_false, Bool.not_true, Bool.false_eq_true, if_false, Bool.or_self,
        Bool.or_false, Bool.false_or] <;>
      first
      | rfl
      | (have h3 : r.uv.length = r.points.length := by tauto
         rw [if_pos h3]; rfl)
      | (have h3 : r.normals.length = r.points.length := by tauto
         rw [if_pos h3]; rfl)
      | (have h3 : r.normals.length = r.points.length := by tauto
         have h4 : r.uv.length = r.points.length := by tauto
         rw [if_pos ⟨h3, h4⟩]; rfl)
    · by_cases h2 : r.uv.length = r.indices.length
      · simp only [h2, if_true, decide_True, Bool.not_false, Bool.not_true, Bool.false_eq_true,
          if_false]; rfl
      · have h4 : r.uv.length = r.points.length := by tauto
        simp only [h2, if_true, decide_False, Bool.not_false, Bool.not_true,
          Bool.false_eq_true, if_false]
        rw [if_pos h4]; rfl
  · have hn1 := hn (Or.inr (by simpa using hU))
    by_cases h1 : r.normals.length = r.indices.length
    · simp only [h1, if_true, decide_True, Bool.not_true, Bool.false_eq_true, if_false]; rfl
    · have h3 : r.normals.length = r.points.length := by tauto
      simp only [h1, if_true, decide_False, Bool.not_true, Bool.false_eq_true, if_false]
      rw [if_pos h3]; rfl

/-- With an unrecognised cardinality `refine` does nothing. -/
theorem refine_eq_self_of_bad_normals (M : MuMath float2 float3)
    (r : TopologyRefiner float2 float3 float4)
    (h1 : r.normals.length ≠ r.indices.length) (h2 : r.normals.length ≠ r.points.length)
    (h : r.normals ≠ [] ∨ r.uv = []) : (refine M r).2 = r := by
  unfold refine
  rcases h with h | h
  · have hN : r.normals.isEmpty = false := by
      cases hn : r.normals with
      | nil => exact absurd hn h
      | cons a l => rfl
    simp only [hN, h1, h2, false_and, if_false, Bool.not_false, if_true, ite_self]
  · simp only [h, List.isEmpty_nil, Bool.not_true, Bool.false_eq_true, if_false, h1, h2]

theorem refine_eq_self_of_bad_uv (M : MuMath float2 float3)
    (r : TopologyRefiner float2 float3 float4) (hU : r.uv ≠ [])
    (h1 : r.uv.length ≠ r.indices.length) (h2 : r.uv.length ≠ r.points.length) :
    (refine M r).2 = r := by
  unfold refine
  have hE : r.uv.isEmpty = false := by
    cases hn : r.uv with
    | nil => exact absurd hn hU
    | cons a l => rfl
  simp only [hE, h1, h2, and_false, if_false, ite_self, Bool.not_false, if_true]

end TopologyRefiner

open TopologyRefiner

/-! ## The scan of a connectivity list -/

section Scan

/-- What the scan loop does: it passes assigned slots that fail the test, and
stops at the first slot that is assigned and passes (a match) or is
unassigned (a claim); with no such slot it falls through to `0`. -/
theorem findOrAddScan_spec (r : TopologyRefiner float2 float3 float4) (offset : Nat)
    (test : Int → Bool)
    (add : TopologyRefiner float2 float3 float4 → TopologyRefiner float2 float3 float4)
    (cis : List Nat) :
    ((∀ c ∈ cis, r.old2new.getD (r.shared_indices.getD (offset + c) 0) 0 ≠ -1 ∧
        test (r.old2new.getD (r.shared_indices.getD (offset + c) 0) 0) = false) ∧
      findOrAddScan r offset test add cis = (r, 0)) ∨
    ∃ pre ci post, cis = pre ++ ci :: post ∧
      (∀ c ∈ pre, r.old2new.getD (r.shared_indices.getD (offset + c) 0) 0 ≠ -1 ∧
        test (r.old2new.getD (r.shared_indices.getD (offset + c) 0) 0) = false) ∧
      ((r.old2new.getD (r.shared_indices.getD (offset + ci) 0) 0 ≠ -1 ∧
          test (r.old2new.getD (r.shared_indices.getD (offset + ci) 0) 0) = true ∧
          findOrAddScan r offset test add cis =
            (r, r.old2new.getD (r.shared_indices.getD (offset + ci) 0) 0)) ∨
        (r.old2new.getD (r.shared_indices.getD (offset + ci) 0) 0 = -1 ∧
          findOrAddScan r offset test add cis =
            (add { r with old2new :=
              r.old2new.set (r.shared_indices.getD (offset + ci) 0) r.new_points.length },
              (r.new_points.length : Int)))) := by
  induction cis with
  | nil => left; exact ⟨by simp, rfl⟩
  | cons c cis ih =>
    by_cases h1 : r.old2new.getD (r.shared_indices.getD (offset + c) 0) 0 = -1
    · right
      refine ⟨[], c, cis, rfl, by simp, Or.inr ⟨h1, ?_⟩⟩
      simp only [findOrAddScan, h1, bne_self_eq_false, Bool.false_and, Bool.false_eq_true,
        if_false, if_true]
    · by_cases h2 : test (r.old2new.getD (r.shared_indices.getD (offset + c) 0) 0) = true
      · right
        refine ⟨[], c, cis, rfl, by simp, Or.inl ⟨h1, h2, ?_⟩⟩
        simp only [findOrAddScan, h2, Bool.and_true, bne_iff_ne, ne_eq, h1, not_false_eq_true,
          if_true]
      · have hstep : findOrAddScan r offset test add (c :: cis) =
            findOrAddScan r offset test add cis := by
          simp only [findOrAddScan, h2, Bool.and_false, Bool.false_eq_true, if_false, h1]
        have h2' : test (r.old2new.getD (r.shared_indices.getD (offset + c) 0) 0) = false := by
          simpa using h2
        rcases ih with ⟨hall, hres⟩ | ⟨pre, ci, post, hcis, hpre, hres⟩
        · left
          refine ⟨?_, by rw [hstep, hres]⟩
          intro c' hc'
          rcases List.mem_cons.mp hc' with rfl | hc'
          · exact ⟨h1, h2'⟩
          · exact hall c' hc'
        · right
          refine ⟨c :: pre, ci, post, by rw [hcis]; rfl, ?_, ?_⟩
          · intro c' hc'
            rcases List.mem_cons.mp hc' with rfl | hc'
            · exact ⟨h1, h2'⟩
            · exact hpre c' hc'
          · rw [hstep]; exact hres

end Scan

section Selection

variable [Inhabited float2] [Inhabited float3] [Inhabited float4]

/-- C8: when a present normals or uv array has a length that is neither the
point count nor the corner count, `refine` returns `true` and leaves the whole
refiner (all outputs included) exactly as it was; and `refine` never returns
`false`, whatever its input. -/
theorem refine_unrecognised_noop (M : MuMath float2 float3)
    (r : TopologyRefiner float2 float3 float4)
    (h : (r.normals ≠ [] ∧ r.normals.length ≠ r.points.length ∧
            r.normals.length ≠ r.indices.length) ∨
         (r.uv ≠ [] ∧ r.uv.length ≠ r.points.length ∧ r.uv.length ≠ r.indices.length)) :
    refine M r = (true, r) ∧
      ∀ r' : TopologyRefiner float2 float3 float4, (refine M r').1 ≠ false := by
  refine ⟨?_, fun r' => by simp [refine_fst]⟩
  have h2 : (refine M r).2 = r := by
    rcases h with ⟨h0, h1, h2⟩ | ⟨h0, h1, h2⟩
    · exact refine_eq_self_of_bad_normals M r h2 h1 (Or.inl h0)
    · exact refine_eq_self_of_bad_uv M r h0 h2 h1
  exact Prod.ext (refine_fst M r) h2

theorem refine_unrecognised_noop_witness :
    ((sampleBadNormals.normals ≠ [] ∧
        sampleBadNormals.normals.length ≠ sampleBadNormals.points.length ∧
        sampleBadNormals.normals.length ≠ sampleBadNormals.indices.length) ∨
      (sampleBadNormals.uv ≠ [] ∧ sampleBadNormals.uv.length ≠ sampleBadNormals.points.length ∧
        sampleBadNormals.uv.length ≠ sampleBadNormals.indices.length)) ∧
    (refine (gridMath 10) sampleBadNormals = (true, sampleBadNormals) ∧
      ∀ r' : GridRefiner, (refine (gridMath 10) r').1 ≠ false) :=
  ⟨by decide, refine_unrecognised_noop (gridMath 10) sampleBadNormals (by decide)⟩

/-- C7, as stated, fails: for the prepared triangle (three corners, no
normals, uv or tangents) `refine` produces no index entry and no split
descriptor. -/
theorem refine_position_only_counterexample :
    sampleTriangle.indices.length = 3 ∧ sampleTriangle.normals = [] ∧
      sampleTriangle.uv = [] ∧ sampleTriangle.tangents = [] ∧
      (refine (gridMath 10) sampleTriangle).2.new_indices.length = 0 ∧
      (refine (gridMath 10) sampleTriangle).2.splits = [] := by
  decide

/-- C7, amended: for a soup with at least one corner and at least one point,
prepared with normals and uv absent, `refine` runs no lookup at all: it
returns `true` and leaves the refiner unchanged, whatever the tangents. -/
theorem refine_position_only_noop (M : MuMath float2 float3)
    (r : TopologyRefiner float2 float3 float4)
    (hi : r.indices ≠ []) (hp : r.points ≠ []) (hn : r.normals = []) (hu : r.uv = []) :
    refine M r = (true, r) := by
  have h1 : r.normals.length ≠ r.indices.length := by
    rw [hn]; simpa using (List.length_pos.mpr hi).ne
  have h2 : r.normals.length ≠ r.points.length := by
    rw [hn]; simpa using (List.length_pos.mpr hp).ne
  exact Prod.ext (refine_fst M r) (refine_eq_self_of_bad_normals M r h1 h2 (Or.inr hu))

theorem refine_position_only_noop_witness :
    sampleTriangle.indices ≠ [] ∧ sampleTriangle.points ≠ [] ∧ sampleTriangle.normals = [] ∧
      sampleTriangle.uv = [] ∧ refine (gridMath 10) sampleTriangle = (true, sampleTriangle) :=
  ⟨by decide, by decide, rfl, rfl,
    refine_position_only_noop (gridMath 10) sampleTriangle (by decide) (by decide) rfl rfl⟩

end Selection

/-! ## What a lookup leaves alone -/

section Frame

variable [Inhabited float2] [Inhabited float3] [Inhabited float4]

omit [Inhabited float2] [Inhabited float3] [Inhabited float4] in
theorem frame_add (k : VertexKey float2 float3 float4) (r : TopologyRefiner float2 float3 float4) :
    frame (k.add r) = frame r := by
  cases k <;> rfl

omit [Inhabited float2] [Inhabited float3] [Inhabited float4] in
theorem frame_set_old2new (r : TopologyRefiner float2 float3 float4) (l : List Int) :
    frame { r with old2new := l } = frame r := rfl

omit [Inhabited float4] in
theorem frame_findOrAddVertex (M : MuMath float2 float3) (r : TopologyRefiner float2 float3 float4)
    (vi : Nat) (k : VertexKey float2 float3 float4) :
    frame (findOrAddVertex M r vi k).1 = frame r := by
  unfold findOrAddVertex
  rcases findOrAddScan_spec r (r.v2f_offsets.getD vi 0) (k.test M r) k.add
    (List.range (r.v2f_counts.getD vi 0)) with ⟨_, h⟩ | ⟨pre, ci, post, _, _, ⟨_, _, h⟩ | ⟨_, h⟩⟩
  · rw [h]
  · rw [h]
  · rw [h]; simp only [frame_add, frame_set_old2new]

theorem frame_keyBody (M : MuMath float2 float3) (kind : KeyKind) (nc tc uc : Bool)
    (r : TopologyRefiner float2 float3 float4) (vi i : Nat) :
    frame (keyBody M kind nc tc uc r vi i).1 = frame r :=
  frame_findOrAddVertex M r vi _

end Frame

/-! ## Split descriptors -/

theorem contiguous_concat (l : List Split) (a : Split) (f p i : Int) :
    Contiguous f p i (l ++ [a]) ↔
      Contiguous f p i l ∧ a.offset_faces = f + (l.map Split.num_faces).sum ∧
        a.offset_points = p + (l.map Split.num_points).sum ∧
        a.offset_indices = i + (l.map Split.num_indices).sum := by
  induction l generalizing f p i with
  | nil => simp [Contiguous]
  | cons s l ih =>
    have e : (s :: l) ++ [a] = s :: (l ++ [a]) := rfl
    rw [e]
    simp only [Contiguous, List.map_cons, List.sum_cons]
    rw [ih]
    constructor
    · rintro ⟨h1, h2, h3, h4, h5, h6, h7⟩
      exact ⟨⟨h1, h2, h3, h4⟩, by omega, by omega, by omega⟩
    · rintro ⟨⟨h1, h2, h3, h4⟩, h5, h6, h7⟩
      exact ⟨h1, h2, h3, h4, by omega, by omega, by omega⟩

theorem contiguous_chain (l : List Split) (f p i : Int) (h : Contiguous f p i l) :
    (∀ s, l.head? = some s → s.offset_faces = f ∧ s.offset_points = p ∧ s.offset_indices = i) ∧
    List.Chain' (fun a b : Split => b.offset_faces = a.offset_faces + a.num_faces ∧
      b.offset_points = a.offset_points + a.num_points ∧
      b.offset_indices = a.offset_indices + a.num_indices) l := by
  induction l generalizing f p i with
  | nil => simp
  | cons s l ih =>
    obtain ⟨h1, h2, h3, h4⟩ := h
    obtain ⟨ih1, ih2⟩ := ih _ _ _ h4
    refine ⟨?_, ?_⟩
    · intro s' hs'
      simp only [List.head?_cons, Option.some.injEq] at hs'
      subst hs'; exact ⟨h1, h2, h3⟩
    · rw [List.chain'_cons']
      refine ⟨?_, ih2⟩
      intro b hb
      have := ih1 b hb
      rw [h1, h2, h3]; exact this

theorem triCount_zero (C : List Nat) (a : Nat) : triCount C a 0 = 0 := by
  unfold triCount
  rfl

theorem triCount_succ (C : List Nat) (a n : Nat) (h : a + n < C.length) :
    triCount C a (n + 1) = triCount C a n + ((C.getD (a + n) 0 : Int) - 2) * 3 := by
  unfold triCount
  rw [List.take_succ, List.map_append, List.sum_append]
  congr 1
  have : (List.drop a C)[n]? = some (C.getD (a + n) 0) := by
    rw [List.getElem?_drop]
    simp [List.getD_eq_getElem?_getD, List.getElem?_eq_getElem h]
  rw [this]; simp

theorem inputs_of_frame {a b : TopologyRefiner float2 float3 float4} (h : frame a = frame b) :
    inputs a = inputs b := by
  unfold inputs; rw [h]

theorem foldl_add_eq_sum (f : Split → Int) (l : List Split) (z : Int) :
    l.foldl (fun acc s => acc + f s) z = z + (l.map f).sum := by
  induction l generalizing z with
  | nil => simp
  | cons s l ih => simp only [List.foldl_cons, ih, List.map_cons, List.sum_cons]; omega

theorem triCount_add (C : List Nat) (a n m : Nat) :
    triCount C a (n + m) = triCount C a n + triCount C (a + n) m := by
  unfold triCount
  rw [List.take_add, List.map_append, List.sum_append, List.drop_drop]
  
/-- Total over contiguous descriptors. -/
theorem sum_tri_of_contiguous (C : List Nat) (l : List Split) (f p i : Int) (hf : 0 ≤ f)
    (hc : Contiguous f p i l)
    (ht : ∀ s ∈ l, 0 ≤ s.offset_faces ∧ 0 ≤ s.num_faces ∧
      s.num_indices_triangulated = triCount C s.offset_faces.toNat s.num_faces.toNat) :
    (l.map Split.num_indices_triangulated).sum =
      triCount C f.toNat ((l.map Split.num_faces).sum).toNat ∧ 0 ≤ (l.map Split.num_faces).sum := by
  induction l generalizing f p i with
  | nil => simp [triCount_zero]
  | cons s l ih =>
    obtain ⟨h1, h2, h3, h4⟩ := hc
    obtain ⟨hs1, hs2, hs3⟩ := ht s (List.mem_cons_self _ _)
    obtain ⟨ih1, ih2⟩ := ih (f + s.num_faces) _ _ (by omega) h4
      (fun s' hs' => ht s' (List.mem_cons_of_mem _ hs'))
    simp only [List.map_cons, List.sum_cons]
    refine ⟨?_, by omega⟩
    rw [ih1, hs3, h1]
    have e1 : (s.num_faces + (l.map Split.num_faces).sum).toNat =
        s.num_faces.toNat + ((l.map Split.num_faces).sum).toNat := by omega
    have e2 : (f + s.num_faces).toNat = f.toNat + s.num_faces.toNat := by omega
    rw [e1, triCount_add, e2]

/-! ## The face loop and the split descriptors -/

theorem eq_nil_or_snoc {α : Type} (l : List α) : l = [] ∨ ∃ l' a, l = l' ++ [a] := by
  rcases List.eq_nil_or_concat l with h | ⟨l', a, h⟩
  · exact Or.inl h
  · exact Or.inr ⟨l', a, by rw [h, List.concat_eq_append]⟩

section FaceLoop

variable (body : TopologyRefiner float2 float3 float4 → Nat → Nat →
  TopologyRefiner float2 float3 float4 × Int)

theorem refineCorner_inputs (hb : ∀ r vi i, frame (body r vi i).1 = frame r)
    (off : Nat) (sp : Int) (ci : Nat) (r : TopologyRefiner float2 float3 float4) :
    inputs (refineCorner body off sp ci r) = inputs r := by
  have h := inputs_of_frame (hb r (r.indices.getD (off + ci) 0) (off + ci))
  rw [← h]; rfl

theorem refineCorner_splits (hb : ∀ r vi i, frame (body r vi i).1 = frame r)
    (off : Nat) (sp : Int) (ci : Nat) (r : TopologyRefiner float2 float3 float4) :
    (refineCorner body off sp ci r).splits = r.splits := by
  have h := congrArg (fun x => x.splits) (hb r (r.indices.getD (off + ci) 0) (off + ci))
  exact h

theorem cornerLoop_inputs (hb : ∀ r vi i, frame (body r vi i).1 = frame r)
    (off : Nat) (sp : Int) (n : Nat) (r : TopologyRefiner float2 float3 float4) :
    inputs (forLoop n (refineCorner body off sp) r) = inputs r ∧
      (forLoop n (refineCorner body off sp) r).splits = r.splits := by
  induction n with
  | zero => exact ⟨rfl, rfl⟩
  | succ n ih =>
    rw [forLoop_succ, refineCorner_inputs body hb, refineCorner_splits body hb]
    exact ih

theorem addSplit_inputs (r : TopologyRefiner float2 float3 float4) :
    inputs (addSplit r) = inputs r := rfl

theorem closeSplit_inputs (r : TopologyRefiner float2 float3 float4) :
    inputs (closeSplit r) = inputs r := rfl

theorem triangulateSplits_inputs (r : TopologyRefiner float2 float3 float4) :
    inputs (triangulateSplits r) = inputs r := by
  unfold triangulateSplits; split <;> rfl

theorem refineFace_inputs (hb : ∀ r vi i, frame (body r vi i).1 = frame r)
    (fi : Nat) (r : TopologyRefiner float2 float3 float4) :
    inputs (refineFace body fi r) = inputs r := by
  unfold refineFace
  simp only []
  have e : ∀ x : TopologyRefiner float2 float3 float4, ∀ l, inputs { x with splits := l } = inputs x :=
    fun _ _ => rfl
  rw [e, (cornerLoop_inputs body hb _ _ _ _).1]
  split
  · rfl
  · rfl

theorem faceLoop_inputs (hb : ∀ r vi i, frame (body r vi i).1 = frame r)
    (n : Nat) (r : TopologyRefiner float2 float3 float4) :
    inputs (forLoop n (refineFace body) r) = inputs r := by
  induction n with
  | zero => rfl
  | succ n ih => rw [forLoop_succ, refineFace_inputs body hb, ih]

theorem splitsInv_addSplit (C : List Nat) (fi : Nat) (r : TopologyRefiner float2 float3 float4)
    (h : SplitsInv C fi r) : SplitsInv C fi (addSplit r) := by
  obtain ⟨hc, hne, hcont, hend, htri⟩ := h
  rcases eq_nil_or_snoc r.splits with h0 | ⟨done, prev, hs⟩
  · exact absurd h0 hne
  rw [hs] at hcont hend htri
  rw [back_concat] at hend
  rw [contiguous_concat] at hcont
  obtain ⟨hc1, hc2, hc3, hc4⟩ := hcont
  have hp := htri prev (by simp)
  unfold addSplit
  simp only [hs, back_concat, modifyBack_concat]
  constructor
  · exact hc
  · simp
  · rw [contiguous_concat, contiguous_concat]
    simp only [List.map_append, List.sum_append, List.map_cons, List.map_nil, List.sum_cons,
      List.sum_nil]
    refine ⟨⟨hc1, hc2, hc3, hc4⟩, ?_, ?_, ?_⟩ <;> omega
  · rw [back_concat]; simp only []; omega
  · intro s hs'
    simp only [List.mem_append, List.mem_singleton] at hs'
    rcases hs' with (hs' | rfl) | rfl
    · exact htri s (by simp [hs'])
    · exact hp
    · simp only []
      refine ⟨by omega, le_refl _, ?_⟩
      simp [triCount_zero]

theorem splitsInv_refineFace (hb : ∀ r vi i, frame (body r vi i).1 = frame r)
    (C : List Nat) (fi : Nat) (hfi : fi < C.length)
    (r : TopologyRefiner float2 float3 float4) (h : SplitsInv C fi r) :
    SplitsInv C (fi + 1) (refineFace body fi r) := by
  unfold refineFace
  simp only []
  generalize hr1 : (if r.split_unit > 0 ∧
      (r.new_points.length : Int) - (back r.splits).offset_points + (r.counts.getD fi 0 : Nat) >
        r.split_unit then addSplit r else r) = r1
  have h1 : SplitsInv C fi r1 := by
    rw [← hr1]; split
    · exact splitsInv_addSplit C fi r h
    · exact h
  obtain ⟨hc, hne, hcont, hend, htri⟩ := h1
  obtain ⟨hi2, hs2⟩ := cornerLoop_inputs body hb (r.offsets.getD fi 0) (back r1.splits).offset_points
    (r.counts.getD fi 0) r1
  generalize forLoop (r.counts.getD fi 0)
    (refineCorner body (r.offsets.getD fi 0) (back r1.splits).offset_points) r1 = r2 at hi2 hs2
  have hc2 : r2.counts = C := (congrArg (fun x => x.counts) hi2).trans hc
  rcases eq_nil_or_snoc r1.splits with h0 | ⟨done, cur, hs⟩
  · exact absurd h0 hne
  rw [hs] at hcont hend htri
  rw [back_concat] at hend
  rw [contiguous_concat] at hcont
  have hp := htri cur (by simp)
  constructor
  · exact hc2
  · simp only [hs2, hs, modifyBack_concat]; simp
  · simp only [hs2, hs, modifyBack_concat]
    rw [contiguous_concat]; exact hcont
  · simp only [hs2, hs, modifyBack_concat, back_concat]; omega
  · simp only [hs2, hs, modifyBack_concat]
    intro s hs'
    simp only [List.mem_append, List.mem_singleton] at hs'
    rcases hs' with hs' | rfl
    · exact htri s (by simp [hs'])
    · simp only []
      refine ⟨hp.1, by omega, ?_⟩
      have e1 : (cur.num_faces + 1).toNat = cur.num_faces.toNat + 1 := by omega
      have e2 : cur.offset_faces.toNat + cur.num_faces.toNat = fi := by omega
      rw [e1, triCount_succ C _ _ (by omega), e2, hp.2.2, h.counts]

end FaceLoop

section DoRefineSplits

variable (body : TopologyRefiner float2 float3 float4 → Nat → Nat →
  TopologyRefiner float2 float3 float4 × Int)

theorem buildConnection_frame (r : TopologyRefiner float2 float3 float4) :
    (buildConnection r).splits = r.splits ∧ (buildConnection r).counts = r.counts ∧
    (buildConnection r).indices = r.indices ∧ (buildConnection r).points = r.points ∧
    (buildConnection r).offsets = r.offsets ∧
    (buildConnection r).new_points = r.new_points ∧
    (buildConnection r).new_indices = r.new_indices ∧
    (buildConnection r).old2new = r.old2new ∧
    (buildConnection r).triangulate = r.triangulate ∧
    (buildConnection r).split_unit = r.split_unit := by
  unfold buildConnection
  split
  · simp
  · simp

theorem triangulateSplits_length (r : TopologyRefiner float2 float3 float4)
    (h : r.triangulate = true) :
    (triangulateSplits r).new_indices_triangulated.length =
      ((r.splits.map Split.num_indices_triangulated).sum).toNat := by
  unfold triangulateSplits
  rw [if_pos h]
  simp only []
  have key : ∀ (l : List Split) (st : Int × List Int),
      (l.foldl (fun (st : Int × List Int) split =>
        (st.1 + split.num_indices_triangulated,
          writeAt st.2 st.1 (TriangulateWithIndices
            ((r.counts.drop split.offset_faces.toNat).take split.num_faces.toNat)
            ((r.new_indices.drop split.offset_indices.toNat).take split.num_indices.toNat)
            r.swap_faces))) st).2.length = st.2.length := by
    intro l
    induction l with
    | nil => intro st; rfl
    | cons s l ih => intro st; rw [List.foldl_cons, ih]; simp
  rw [key, length_resize, foldl_add_eq_sum]
  simp

theorem triangulateSplits_other (r : TopologyRefiner float2 float3 float4) :
    (triangulateSplits r).splits = r.splits ∧ (triangulateSplits r).new_points = r.new_points ∧
      (triangulateSplits r).new_indices = r.new_indices ∧
      (triangulateSplits r).old2new = r.old2new ∧
      (triangulateSplits r).new_normals = r.new_normals ∧
      (triangulateSplits r).new_uv = r.new_uv := by
  unfold triangulateSplits; split <;> simp

/-- The split descriptors after `doRefine` on a refiner without descriptors. -/
theorem doRefine_splits (hb : ∀ r vi i, frame (body r vi i).1 = frame r)
    (r : TopologyRefiner float2 float3 float4) (hs : r.splits = []) :
    (doRefine body r).splits ≠ [] ∧
    Contiguous 0 0 0 (doRefine body r).splits ∧
    ((doRefine body r).splits.map Split.num_faces).sum = r.counts.length ∧
    ((doRefine body r).splits.map Split.num_points).sum = (doRefine body r).new_points.length ∧
    ((doRefine body r).splits.map Split.num_indices).sum = (doRefine body r).new_indices.length ∧
    (∀ s ∈ (doRefine body r).splits, 0 ≤ s.offset_faces ∧ 0 ≤ s.num_faces ∧
      s.num_indices_triangulated = triCount r.counts s.offset_faces.toNat s.num_faces.toNat) ∧
    (r.triangulate = true → (doRefine body r).new_indices_triangulated.length =
      (triCount r.counts 0 r.counts.length).toNat) := by
  obtain ⟨b1, b2, -, -, -, -, -, -, b9, -⟩ := buildConnection_frame r
  have hd : doRefine body r = triangulateSplits (closeSplit
      (forLoop (beginRefine (buildConnection r)).counts.length (refineFace body)
        (beginRefine (buildConnection r)))) := rfl
  rw [hd]
  generalize hr2 : beginRefine (buildConnection r) = r2
  have hc2 : r2.counts = r.counts := by rw [← hr2]; exact b2
  have ht2 : r2.triangulate = r.triangulate := by rw [← hr2]; exact b9
  have h0 : SplitsInv r.counts 0 r2 := by
    have e : r2.splits = [{}] := by
      rw [← hr2]; show (buildConnection r).splits ++ [{}] = [{}]
      rw [b1, hs]; rfl
    constructor
    · exact hc2
    · rw [e]; simp
    · rw [e]; simp [Contiguous]
    · rw [e]; rfl
    · rw [e]; intro s hs'
      simp only [List.mem_singleton] at hs'
      subst hs'
      exact ⟨le_refl _, le_refl _, by simp [triCount_zero]⟩
  have h3 : SplitsInv r.counts r.counts.length (forLoop r2.counts.length (refineFace body) r2) := by
    rw [hc2]
    exact forLoop_inv (fun i t => SplitsInv r.counts i t) _ _ _ h0
      (fun i t hi hP => splitsInv_refineFace body hb r.counts i hi t hP)
  have hi3 := faceLoop_inputs body hb r2.counts.length r2
  generalize forLoop r2.counts.length (refineFace body) r2 = r3 at h3 hi3
  have ht3 : r3.triangulate = r.triangulate := (congrArg (fun x => x.triangulate) hi3).trans ht2
  obtain ⟨hc, hne, hcont, hend, htri⟩ := h3
  rcases eq_nil_or_snoc r3.splits with h0 | ⟨done, cur, hs3⟩
  · exact absurd h0 hne
  obtain ⟨t1, t2, t3, -⟩ := triangulateSplits_other (closeSplit r3)
  rw [t1, t2, t3]
  rw [hs3] at hcont hend htri
  rw [back_concat] at hend
  have hcs : (closeSplit r3).splits = done ++ [{ cur with
      num_points := (r3.new_points.length : Int) - cur.offset_points
      num_indices := (r3.new_indices.length : Int) - cur.offset_indices }] := by
    simp only [closeSplit, hs3, modifyBack_concat]
  have hcp : (closeSplit r3).new_points = r3.new_points := rfl
  have hci : (closeSplit r3).new_indices = r3.new_indices := rfl
  have htri' : ∀ s ∈ (closeSplit r3).splits, 0 ≤ s.offset_faces ∧ 0 ≤ s.num_faces ∧
      s.num_indices_triangulated = triCount r.counts s.offset_faces.toNat s.num_faces.toNat := by
    rw [hcs]
    intro s hs'
    simp only [List.mem_append, List.mem_singleton] at hs'
    rcases hs' with hs' | rfl
    · exact htri s (by simp [hs'])
    · exact htri cur (by simp)
  have hcont' : Contiguous 0 0 0 (closeSplit r3).splits := by
    rw [hcs, contiguous_concat]
    rw [contiguous_concat] at hcont
    exact hcont
  have hfaces : ((closeSplit r3).splits.map Split.num_faces).sum = r.counts.length := by
    rw [contiguous_concat] at hcont
    rw [hcs]; simp only [List.map_append, List.sum_append, List.map_cons, List.map_nil,
      List.sum_cons, List.sum_nil]
    omega
  rw [hcp, hci]
  refine ⟨?_, hcont', hfaces, ?_, ?_, htri', ?_⟩
  · rw [hcs]; simp
  · rw [contiguous_concat] at hcont
    rw [hcs]; simp only [List.map_append, List.sum_append, List.map_cons, List.map_nil,
      List.sum_cons, List.sum_nil]
    omega
  · rw [contiguous_concat] at hcont
    rw [hcs]; simp only [List.map_append, List.sum_append, List.map_cons, List.map_nil,
      List.sum_cons, List.sum_nil]
    omega
  · intro ht
    rw [triangulateSplits_length _ (by show r3.triangulate = true; rw [ht3, ht])]
    have := (sum_tri_of_contiguous r.counts _ 0 0 0 (le_refl _) hcont' htri').1
    rw [this, hfaces]
    simp

end DoRefineSplits

/-! ## Partition law and triangulation count -/

section Partition

variable [Inhabited float2] [Inhabited float3] [Inhabited float4]

omit [Inhabited float2] [Inhabited float3] [Inhabited float4] in
theorem prepare_fresh (r : TopologyRefiner float2 float3 float4)
    (counts offsets indices : List Nat) (points : List float3) :
    Fresh (prepare r counts offsets indices points) := by
  constructor <;> rfl

omit [Inhabited float2] [Inhabited float4] in
theorem genNormals_fresh (M : MuMath float2 float3) (r : TopologyRefiner float2 float3 float4)
    (h : Fresh r) : Fresh (genNormals M r) := by
  obtain ⟨h1, h2, h3, h4, h5, h6, h7, h8, h9, h10⟩ := h
  constructor <;> assumption

theorem sampleStrip_fresh : Fresh sampleStrip := by
  constructor <;> rfl

theorem sampleStrip_recognised : Recognised sampleStrip := by
  constructor
  · intro h; exact absurd rfl h
  · intro _; right; rfl

theorem triCount_eq (C : List Nat) (a n : Nat) :
    triCount C a n = 3 * (((C.drop a).take n).map (fun (c : Nat) => (c : Int) - 2)).sum := by
  unfold triCount
  induction (C.drop a).take n with
  | nil => simp
  | cons c l ih => simp only [List.map_cons, List.sum_cons, ih]; ring

theorem triCount_all (C : List Nat) :
    triCount C 0 C.length = (C.map (fun (c : Nat) => ((c : Int) - 2) * 3)).sum := by
  simp [triCount]

/-- C1: after `refine` on a freshly prepared refiner with recognised
cardinalities (any `split_unit`, any soup), the first split descriptor has all
three offsets zero, every later descriptor's `offset_faces`, `offset_points`
and `offset_indices` equal the previous descriptor's offset plus its
`num_faces`, `num_points` and `num_indices`, and the sums of `num_points`,
`num_indices` and `num_faces` over all descriptors are `new_points.size()`,
`new_indices.size()` and `counts.size()`. -/
theorem refine_partition_law (M : MuMath float2 float3)
    (r : TopologyRefiner float2 float3 float4) (hfresh : Fresh r) (hrec : Recognised r) :
    (∀ s, (refine M r).2.splits.head? = some s →
      s.offset_faces = 0 ∧ s.offset_points = 0 ∧ s.offset_indices = 0) ∧
    List.Chain' (fun a b : Split => b.offset_faces = a.offset_faces + a.num_faces ∧
      b.offset_points = a.offset_points + a.num_points ∧
      b.offset_indices = a.offset_indices + a.num_indices) (refine M r).2.splits ∧
    ((refine M r).2.splits.map Split.num_points).sum = (refine M r).2.new_points.length ∧
    ((refine M r).2.splits.map Split.num_indices).sum = (refine M r).2.new_indices.length ∧
    ((refine M r).2.splits.map Split.num_faces).sum = r.counts.length := by
  rw [refine_eq_doRefine M r hrec]
  obtain ⟨-, h2, h3, h4, h5, -, -⟩ :=
    doRefine_splits _ (frame_keyBody M (kindOf r) (normalsByCorner r) (tangentsByCorner r)
      (uvByCorner r)) r hfresh.splits
  obtain ⟨c1, c2⟩ := contiguous_chain _ _ _ _ h2
  exact ⟨c1, c2, h4, h5, h3⟩

theorem refine_partition_law_witness :
    (∀ s, (refine (gridMath 10) sampleStrip).2.splits.head? = some s →
      s.offset_faces = 0 ∧ s.offset_points = 0 ∧ s.offset_indices = 0) ∧
    List.Chain' (fun a b : Split => b.offset_faces = a.offset_faces + a.num_faces ∧
      b.offset_points = a.offset_points + a.num_points ∧
      b.offset_indices = a.offset_indices + a.num_indices)
      (refine (gridMath 10) sampleStrip).2.splits ∧
    ((refine (gridMath 10) sampleStrip).2.splits.map Split.num_points).sum =
      (refine (gridMath 10) sampleStrip).2.new_points.length ∧
    ((refine (gridMath 10) sampleStrip).2.splits.map Split.num_indices).sum =
      (refine (gridMath 10) sampleStrip).2.new_indices.length ∧
    ((refine (gridMath 10) sampleStrip).2.splits.map Split.num_faces).sum =
      sampleStrip.counts.length :=
  refine_partition_law (gridMath 10) sampleStrip sampleStrip_fresh sampleStrip_recognised

/-- C6: after `refine` on a freshly prepared refiner with recognised
cardinalities, every split descriptor covers the faces `offset_faces, …,
offset_faces + num_faces - 1` and its `num_indices_triangulated` is
`3 * Σ (c - 2)` over the corner counts `c` of exactly those faces; and when
`triangulate` is set (and the total is a size, that is, not negative)
`new_indices_triangulated` has length `Σ (count - 2) * 3` over all faces. -/
theorem refine_triangulation_count (M : MuMath float2 float3)
    (r : TopologyRefiner float2 float3 float4) (hfresh : Fresh r) (hrec : Recognised r) :
    (∀ s ∈ (refine M r).2.splits, 0 ≤ s.offset_faces ∧ 0 ≤ s.num_faces ∧
      s.num_indices_triangulated =
        3 * (((r.counts.drop s.offset_faces.toNat).take s.num_faces.toNat).map
          (fun (c : Nat) => (c : Int) - 2)).sum) ∧
    (r.triangulate = true → 0 ≤ (r.counts.map (fun (c : Nat) => ((c : Int) - 2) * 3)).sum →
      ((refine M r).2.new_indices_triangulated.length : Int) =
        (r.counts.map (fun (c : Nat) => ((c : Int) - 2) * 3)).sum) := by
  rw [refine_eq_doRefine M r hrec]
  obtain ⟨-, -, -, -, -, h6, h7⟩ :=
    doRefine_splits _ (frame_keyBody M (kindOf r) (normalsByCorner r) (tangentsByCorner r)
      (uvByCorner r)) r hfresh.splits
  refine ⟨?_, ?_⟩
  · intro s hs
    obtain ⟨a, b, c⟩ := h6 s hs
    exact ⟨a, b, by rw [c, triCount_eq]⟩
  · intro ht hnn
    rw [h7 ht, triCount_all]
    omega

theorem refine_triangulation_count_witness :
    (∀ s ∈ (refine (gridMath 10) sampleStrip).2.splits, 0 ≤ s.offset_faces ∧ 0 ≤ s.num_faces ∧
      s.num_indices_triangulated =
        3 * (((sampleStrip.counts.drop s.offset_faces.toNat).take s.num_faces.toNat).map
          (fun (c : Nat) => (c : Int) - 2)).sum) ∧
    (sampleStrip.triangulate = true →
      0 ≤ (sampleStrip.counts.map (fun (c : Nat) => ((c : Int) - 2) * 3)).sum →
      ((refine (gridMath 10) sampleStrip).2.new_indices_triangulated.length : Int) =
        (sampleStrip.counts.map (fun (c : Nat) => ((c : Int) - 2) * 3)).sum) :=
  refine_triangulation_count (gridMath 10) sampleStrip sampleStrip_fresh sampleStrip_recognised

end Partition

/-! ## Connectivity table -/

section Connectivity

theorem cornersUpTo_zero (idx : List Nat) (p : Nat) : cornersUpTo idx p 0 = [] := rfl

theorem cornersUpTo_succ (idx : List Nat) (p n : Nat) :
    cornersUpTo idx p (n + 1) =
      cornersUpTo idx p n ++ (if idx.getD n 0 = p then [n] else []) := by
  unfold cornersUpTo
  rw [List.range_succ, List.filter_append]
  congr 1
  by_cases h : idx.getD n 0 = p <;> simp [-List.getD_eq_getElem?_getD, List.filter, h]

theorem length_cornersUpTo_succ (idx : List Nat) (p n : Nat) :
    (cornersUpTo idx p (n + 1)).length =
      (cornersUpTo idx p n).length + (if idx.getD n 0 = p then 1 else 0) := by
  rw [cornersUpTo_succ]
  split <;> simp

theorem length_cornersUpTo_mono (idx : List Nat) (p : Nat) {a b : Nat} (h : a ≤ b) :
    (cornersUpTo idx p a).length ≤ (cornersUpTo idx p b).length := by
  induction b with
  | zero => cases Nat.le_zero.mp h; exact le_refl _
  | succ b ih =>
    rcases Nat.lt_or_ge a (b + 1) with h1 | h1
    · have := ih (by omega)
      rw [length_cornersUpTo_succ]; omega
    · have : a = b + 1 := by omega
      subst this; exact le_refl _

theorem mem_cornersUpTo (idx : List Nat) (p n k : Nat) :
    k ∈ cornersUpTo idx p n ↔ k < n ∧ idx.getD k 0 = p := by
  simp [cornersUpTo]

theorem cornersUpTo_sorted (idx : List Nat) (p n : Nat) :
    (cornersUpTo idx p n).Pairwise (· < ·) :=
  (List.pairwise_lt_range n).filter _

theorem cornersUpTo_prefix_le (idx : List Nat) (p : Nat) {a b : Nat} (h : a ≤ b) :
    cornersUpTo idx p a <+: cornersUpTo idx p b := by
  induction b with
  | zero => cases Nat.le_zero.mp h; exact List.prefix_refl _
  | succ b ih =>
    rcases Nat.lt_or_ge a (b + 1) with h1 | h1
    · rw [cornersUpTo_succ]
      exact (ih (by omega)).trans (List.prefix_append _ _)
    · have : a = b + 1 := by omega
      subst this; exact List.prefix_refl _

/-- Counting by point: the points `q < np` partition the first `n` corners. -/
theorem sum_length_cornersUpTo (idx : List Nat) (np n : Nat)
    (h : ∀ k, k < n → idx.getD k 0 < np) :
    ((List.range np).map (fun q => (cornersUpTo idx q n).length)).sum = n := by
  induction n with
  | zero => simp [cornersUpTo_zero]
  | succ n ih =>
    have ih' := ih (fun k hk => h k (by omega))
    have hn := h n (by omega)
    simp only [length_cornersUpTo_succ]
    rw [List.sum_map_add, ih']
    congr 1
    clear ih ih' h
    induction np with
    | zero => omega
    | succ m ihm =>
      rw [List.range_succ, List.map_append, List.sum_append]
      by_cases hm : idx.getD n 0 = m
      · have : ((List.range m).map (fun q => if idx.getD n 0 = q then 1 else 0)).sum = 0 := by
          apply List.sum_eq_zero
          intro x hx
          simp only [List.mem_map, List.mem_range] at hx
          obtain ⟨q, hq, rfl⟩ := hx
          rw [if_neg (by omega)]
        rw [this]; simp [-List.getD_eq_getElem?_getD, hm]
      · rw [ihm (by omega)]; simp [-List.getD_eq_getElem?_getD, hm]



/-! ### List reads and writes -/

theorem getD_set_eq {α : Type} (l : List α) (i : Nat) (v d : α) (h : i < l.length) :
    (l.set i v).getD i d = v := by
  simp [List.getD_eq_getElem?_getD, List.getElem?_set, h]

theorem getD_set_ne {α : Type} (l : List α) (i j : Nat) (v d : α) (h : i ≠ j) :
    (l.set i v).getD j d = l.getD j d := by
  simp [List.getD_eq_getElem?_getD, List.getElem?_set, h]

theorem getD_append_left {α : Type} (l l' : List α) (i : Nat) (d : α) (h : i < l.length) :
    (l ++ l').getD i d = l.getD i d := by
  simp [List.getD_eq_getElem?_getD, List.getElem?_append_left h]

theorem getD_concat_length {α : Type} (l : List α) (a d : α) :
    (l ++ [a]).getD l.length d = a := by
  simp [List.getD_eq_getElem?_getD]

theorem getD_replicate {α : Type} (n i : Nat) (a : α) : (List.replicate n a).getD i a = a := by
  simp only [List.getD_eq_getElem?_getD, List.getElem?_replicate]
  split <;> rfl

theorem take_sum_succ (c : List Nat) (fi : Nat) (h : fi < c.length) :
    (c.take (fi + 1)).sum = (c.take fi).sum + c.getD fi 0 := by
  rw [List.take_succ, List.sum_append]
  simp [List.getD_eq_getElem?_getD, List.getElem?_eq_getElem h]

theorem take_sum_le (c : List Nat) (fi : Nat) : (c.take fi).sum ≤ c.sum := by
  conv_rhs => rw [← List.take_append_drop fi c]
  rw [List.sum_append]; omega

theorem take_sum_add_le (c : List Nat) (fi : Nat) (h : fi < c.length) :
    (c.take fi).sum + c.getD fi 0 ≤ c.sum := by
  rw [← take_sum_succ c fi h]; exact take_sum_le c (fi + 1)

theorem take_sum_mono (c : List Nat) {a b : Nat} (h : a ≤ b) :
    (c.take a).sum ≤ (c.take b).sum := by
  have : c.take a = (c.take b).take a := by rw [List.take_take, Nat.min_eq_left h]
  rw [this]; exact take_sum_le _ _

theorem take_sum_length (c : List Nat) : (c.take c.length).sum = c.sum := by
  rw [List.take_length]

/-! ### First loop: the counts -/

/-- After counting the corners of the first `fi` faces. -/
theorem countCorners_inv (counts idx : List Nat) (np : Nat) (t0 : List Nat)
    (ht0 : t0.length = np)
    (hidx : ∀ k, k < counts.sum → idx.getD k 0 < np) (fi : Nat) (hfi : fi ≤ counts.length) :
    let st := forLoop fi (fun fi (st : Nat × List Nat) =>
      (st.1 + counts.getD fi 0, forLoop (counts.getD fi 0) (fun i (t : List Nat) =>
        t.set (idx.getD (st.1 + i) 0) (t.getD (idx.getD (st.1 + i) 0) 0 + 1)) st.2)) (0, t0)
    st.1 = (counts.take fi).sum ∧ st.2.length = np ∧
      ∀ p, st.2.getD p 0 = t0.getD p 0 + (cornersUpTo idx p (counts.take fi).sum).length := by
  induction fi with
  | zero => simp [cornersUpTo_zero, ht0]
  | succ fi ih =>
    obtain ⟨h1, h2, h3⟩ := ih (by omega)
    simp only [forLoop_succ]
    generalize forLoop fi (fun fi (st : Nat × List Nat) =>
      (st.1 + counts.getD fi 0, forLoop (counts.getD fi 0) (fun i (t : List Nat) =>
        t.set (idx.getD (st.1 + i) 0) (t.getD (idx.getD (st.1 + i) 0) 0 + 1)) st.2)) (0, t0) = st
      at h1 h2 h3
    have hfi' : fi < counts.length := by omega
    have hle := take_sum_add_le counts fi hfi'
    refine ⟨by rw [h1, take_sum_succ counts fi hfi'], ?_⟩
    rw [take_sum_succ counts fi hfi']
    have inner : ∀ c, c ≤ counts.getD fi 0 →
        (forLoop c (fun i (t : List Nat) =>
          t.set (idx.getD (st.1 + i) 0) (t.getD (idx.getD (st.1 + i) 0) 0 + 1)) st.2).length = np ∧
        ∀ p, (forLoop c (fun i (t : List Nat) =>
          t.set (idx.getD (st.1 + i) 0) (t.getD (idx.getD (st.1 + i) 0) 0 + 1)) st.2).getD p 0 =
            t0.getD p 0 + (cornersUpTo idx p ((counts.take fi).sum + c)).length := by
      intro c
      induction c with
      | zero => intro _; exact ⟨h2, by simpa using h3⟩
      | succ c ihc =>
        intro hc
        obtain ⟨g1, g2⟩ := ihc (by omega)
        rw [forLoop_succ]
        generalize forLoop c (fun i (t : List Nat) =>
          t.set (idx.getD (st.1 + i) 0) (t.getD (idx.getD (st.1 + i) 0) 0 + 1)) st.2 = t at g1 g2
        refine ⟨by simp [g1], ?_⟩
        intro p
        have hv : idx.getD (st.1 + c) 0 < np := hidx _ (by rw [h1]; omega)
        rw [← Nat.add_assoc, length_cornersUpTo_succ, ← h1]
        by_cases hp : idx.getD (st.1 + c) 0 = p
        · rw [if_pos hp, ← hp, getD_set_eq _ _ _ _ (by omega), g2, h1]; omega
        · rw [if_neg hp, getD_set_ne _ _ _ _ _ hp, g2, h1]; omega
    exact inner _ (le_refl _)

theorem countCorners_spec (counts idx : List Nat) (np : Nat)
    (hidx : ∀ k, k < counts.sum → idx.getD k 0 < np) :
    (countCorners counts idx (List.replicate np 0)).length = np ∧
      ∀ p, (countCorners counts idx (List.replicate np 0)).getD p 0 =
        (cornersUpTo idx p counts.sum).length := by
  obtain ⟨-, h2, h3⟩ := countCorners_inv counts idx np (List.replicate np 0) (by simp) hidx
    counts.length (le_refl _)
  refine ⟨h2, ?_⟩
  intro p
  have := h3 p
  rw [take_sum_length, getD_replicate, Nat.zero_add] at this
  exact this



/-! ### Second loop: the offsets -/

theorem offsetsOfCounts_inv (np : Nat) (cnt t0 : List Nat) (ht0 : t0.length = np)
    (hc : cnt.length = np) (i : Nat) (hi : i ≤ np) :
    let st := forLoop i (fun i (st : Nat × List Nat) =>
      (st.1 + cnt.getD i 0, st.2.set i st.1)) (0, t0)
    st.1 = (cnt.take i).sum ∧ st.2.length = np ∧
      ∀ q, q < i → st.2.getD q 0 = (cnt.take q).sum := by
  induction i with
  | zero => simp [ht0]
  | succ i ih =>
    obtain ⟨h1, h2, h3⟩ := ih (by omega)
    simp only [forLoop_succ]
    generalize forLoop i (fun i (st : Nat × List Nat) =>
      (st.1 + cnt.getD i 0, st.2.set i st.1)) (0, t0) = st at h1 h2 h3
    refine ⟨by rw [h1, take_sum_succ cnt i (by omega)], by simp [h2], ?_⟩
    intro q hq
    by_cases hqi : i = q
    · subst hqi; rw [getD_set_eq _ _ _ _ (by omega), h1]
    · rw [getD_set_ne _ _ _ _ _ hqi]; exact h3 q (by omega)

theorem offsetsOfCounts_spec (np : Nat) (cnt t0 : List Nat) (ht0 : t0.length = np)
    (hc : cnt.length = np) :
    (offsetsOfCounts np cnt t0).length = np ∧
      ∀ q, q < np → (offsetsOfCounts np cnt t0).getD q 0 = (cnt.take q).sum := by
  obtain ⟨-, h2, h3⟩ := offsetsOfCounts_inv np cnt t0 ht0 hc np (le_refl _)
  exact ⟨h2, h3⟩

/-! ### Third loop: the slots -/

theorem getD_cornersUpTo_succ_lt (idx : List Nat) (p k t : Nat)
    (h : t < (cornersUpTo idx p k).length) :
    (cornersUpTo idx p (k + 1)).getD t 0 = (cornersUpTo idx p k).getD t 0 := by
  rw [cornersUpTo_succ, getD_append_left _ _ _ _ h]

theorem getD_cornersUpTo_succ_eq (idx : List Nat) (k : Nat) :
    (cornersUpTo idx (idx.getD k 0) (k + 1)).getD (cornersUpTo idx (idx.getD k 0) k).length 0 = k := by
  rw [cornersUpTo_succ, if_pos rfl, getD_concat_length]

/-- One write of the third loop. -/
theorem scatterInv_step (counts idx offs : List Nat) (np n k fi : Nat) (s : Scatter)
    (hk : k < n) (hv : idx.getD k 0 < np) (hf : InFace counts fi k)
    (hsep : ∀ p q, p < q → q < np →
      offs.getD p 0 + (cornersUpTo idx p n).length ≤ offs.getD q 0)
    (hend : ∀ p, p < np → offs.getD p 0 + (cornersUpTo idx p n).length ≤ n)
    (h : ScatterInv counts idx offs np n k s) :
    ScatterInv counts idx offs np n (k + 1)
      { s with
        v2f_indices := s.v2f_indices.set (idx.getD k 0) (s.v2f_indices.getD (idx.getD k 0) 0 + 1)
        shared_faces := s.shared_faces.set
          (offs.getD (idx.getD k 0) 0 + s.v2f_indices.getD (idx.getD k 0) 0) fi
        shared_indices := s.shared_indices.set
          (offs.getD (idx.getD k 0) 0 + s.v2f_indices.getD (idx.getD k 0) 0) k } := by
  obtain ⟨l1, l2, l3, hcur, hslot⟩ := h
  have hcv := hcur _ hv
  have hmono : ∀ p, (cornersUpTo idx p (k + 1)).length ≤ (cornersUpTo idx p n).length :=
    fun p => length_cornersUpTo_mono idx p (by omega)
  have hlv : (cornersUpTo idx (idx.getD k 0) (k + 1)).length =
      (cornersUpTo idx (idx.getD k 0) k).length + 1 := by
    rw [length_cornersUpTo_succ, if_pos rfl]
  have hti : offs.getD (idx.getD k 0) 0 + s.v2f_indices.getD (idx.getD k 0) 0 < n := by
    have := hend _ hv
    have := hmono (idx.getD k 0)
    omega
  constructor
  · simp [l1]
  · simp [l2]
  · simp [l3]
  · intro p hp
    simp only []
    rw [length_cornersUpTo_succ]
    by_cases hpv : idx.getD k 0 = p
    · rw [if_pos hpv, ← hpv, getD_set_eq _ _ _ _ (by omega), hcv]
    · rw [if_neg hpv, getD_set_ne _ _ _ _ _ hpv, hcur p hp]; omega
  · intro p hp t ht
    simp only []
    by_cases hpv : idx.getD k 0 = p
    · subst hpv
      rw [hlv] at ht
      by_cases htl : t = (cornersUpTo idx (idx.getD k 0) k).length
      · subst htl
        rw [hcv, getD_set_eq _ _ _ _ (by omega), getD_set_eq _ _ _ _ (by omega),
          getD_cornersUpTo_succ_eq]
        exact ⟨rfl, hf⟩
      · have htl' : t < (cornersUpTo idx (idx.getD k 0) k).length := by omega
        rw [getD_set_ne _ _ _ _ _ (by omega), getD_set_ne _ _ _ _ _ (by omega),
          getD_cornersUpTo_succ_lt _ _ _ _ htl']
        exact hslot _ hv t htl'
    · have hl : (cornersUpTo idx p (k + 1)).length = (cornersUpTo idx p k).length := by
        rw [length_cornersUpTo_succ, if_neg hpv]; rfl
      rw [hl] at ht
      have hne : offs.getD (idx.getD k 0) 0 + s.v2f_indices.getD (idx.getD k 0) 0 ≠
          offs.getD p 0 + t := by
        have m1 := hmono p
        have m2 := hmono (idx.getD k 0)
        rcases Nat.lt_or_gt_of_ne hpv with hlt | hgt
        · have := hsep _ _ hlt hp; omega
        · have := hsep _ _ hgt hv; omega
      rw [getD_set_ne _ _ _ _ _ hne, getD_set_ne _ _ _ _ _ hne,
        getD_cornersUpTo_succ_lt _ _ _ _ ht]
      exact hslot p hp t ht



theorem scatterInv_set_i (counts idx offs : List Nat) (np n k : Nat) (s : Scatter) (i : Nat)
    (h : ScatterInv counts idx offs np n k s) :
    ScatterInv counts idx offs np n k { s with i := i } := by
  obtain ⟨l1, l2, l3, hcur, hslot⟩ := h
  exact ⟨l1, l2, l3, hcur, hslot⟩

/-- The third loop, face by face. -/
theorem scatterCorners_inv (counts idx offs : List Nat) (np n : Nat) (s0 : Scatter)
    (hn : counts.sum = n) (hidx : ∀ k, k < n → idx.getD k 0 < np)
    (hsep : ∀ p q, p < q → q < np →
      offs.getD p 0 + (cornersUpTo idx p n).length ≤ offs.getD q 0)
    (hend : ∀ p, p < np → offs.getD p 0 + (cornersUpTo idx p n).length ≤ n)
    (hi0 : s0.i = 0) (h0 : ScatterInv counts idx offs np n 0 s0)
    (fi : Nat) (hfi : fi ≤ counts.length) :
    let body := fun fi (s : Scatter) =>
      let c := counts.getD fi 0
      let s1 := forLoop c (fun ci (s1 : Scatter) =>
        let vi := idx.getD (s.i + ci) 0
        let ti := offs.getD vi 0 + s1.v2f_indices.getD vi 0
        { s1 with
          v2f_indices := s1.v2f_indices.set vi (s1.v2f_indices.getD vi 0 + 1)
          shared_faces := s1.shared_faces.set ti fi
          shared_indices := s1.shared_indices.set ti (s.i + ci) }) s
      { s1 with i := s.i + c }
    (forLoop fi body s0).i = (counts.take fi).sum ∧
      ScatterInv counts idx offs np n (counts.take fi).sum (forLoop fi body s0) := by
  intro body
  induction fi with
  | zero => exact ⟨hi0, h0⟩
  | succ fi ih =>
    obtain ⟨h1, h2⟩ := ih (by omega)
    rw [forLoop_succ]
    generalize forLoop fi body s0 = s at h1 h2
    have hfi' : fi < counts.length := by omega
    have hle := take_sum_add_le counts fi hfi'
    rw [take_sum_succ counts fi hfi']
    have inner : ∀ c, c ≤ counts.getD fi 0 →
        ScatterInv counts idx offs np n ((counts.take fi).sum + c)
          (forLoop c (fun ci (s1 : Scatter) =>
            let vi := idx.getD (s.i + ci) 0
            let ti := offs.getD vi 0 + s1.v2f_indices.getD vi 0
            { s1 with
              v2f_indices := s1.v2f_indices.set vi (s1.v2f_indices.getD vi 0 + 1)
              shared_faces := s1.shared_faces.set ti fi
              shared_indices := s1.shared_indices.set ti (s.i + ci) }) s) := by
      intro c
      induction c with
      | zero => intro _; exact h2
      | succ c ihc =>
        intro hc
        have g := ihc (by omega)
        rw [forLoop_succ]
        generalize forLoop c (fun ci (s1 : Scatter) =>
            let vi := idx.getD (s.i + ci) 0
            let ti := offs.getD vi 0 + s1.v2f_indices.getD vi 0
            { s1 with
              v2f_indices := s1.v2f_indices.set vi (s1.v2f_indices.getD vi 0 + 1)
              shared_faces := s1.shared_faces.set ti fi
              shared_indices := s1.shared_indices.set ti (s.i + ci) }) s = s1 at g
        have hk : (counts.take fi).sum + c < n := by omega
        have := scatterInv_step counts idx offs np n _ fi s1 hk (hidx _ hk)
          ⟨hfi', by omega, by omega⟩ hsep hend g
        rw [h1, ← Nat.add_assoc]
        exact this
    refine ⟨?_, ?_⟩
    · show s.i + counts.getD fi 0 = _
      rw [h1]
    · exact scatterInv_set_i _ _ _ _ _ _ _ _ (inner _ (le_refl _))

theorem length_cornersUpTo_eq_count (idx : List Nat) (p n : Nat) (h : n ≤ idx.length) :
    (cornersUpTo idx p n).length = (idx.take n).count p := by
  induction n with
  | zero => simp [cornersUpTo_zero]
  | succ n ih =>
    rw [length_cornersUpTo_succ, ih (by omega), List.take_succ, List.count_append]
    congr 1
    have hn : n < idx.length := by omega
    have e : idx.getD n 0 = idx[n] := by
      simp [List.getD_eq_getElem?_getD, List.getElem?_eq_getElem hn]
    rw [e, List.getElem?_eq_getElem hn]
    by_cases hp : idx[n] = p
    · simp [hp]
    · rw [if_neg hp]
      simp only [Option.toList_some]
      rw [List.count_singleton]
      simp [hp]

theorem length_cornersOf (idx : List Nat) (p : Nat) : (cornersOf idx p).length = idx.count p := by
  unfold cornersOf
  rw [length_cornersUpTo_eq_count idx p idx.length (le_refl _), List.take_length]



/-- What `buildConnection` computes when it does not take the memoised exit. -/
theorem buildConnection_spec (r : TopologyRefiner float2 float3 float4) (hv : ValidSoup r)
    (hne : r.v2f_counts.length ≠ r.points.length) :
    (buildConnection r).v2f_counts.length = r.points.length ∧
    (∀ p, (buildConnection r).v2f_counts.getD p 0 = (cornersOf r.indices p).length) ∧
    (buildConnection r).v2f_offsets.length = r.points.length ∧
    (∀ q, q < r.points.length → (buildConnection r).v2f_offsets.getD q 0 =
      ((buildConnection r).v2f_counts.take q).sum) ∧
    (buildConnection r).shared_faces.length = r.indices.length ∧
    (buildConnection r).shared_indices.length = r.indices.length ∧
    (∀ p, p < r.points.length → ∀ t, t < (cornersOf r.indices p).length →
      (buildConnection r).v2f_offsets.getD p 0 + t < r.indices.length ∧
      (buildConnection r).shared_indices.getD ((buildConnection r).v2f_offsets.getD p 0 + t) 0 =
        (cornersOf r.indices p).getD t 0 ∧
      InFace r.counts
        ((buildConnection r).shared_faces.getD ((buildConnection r).v2f_offsets.getD p 0 + t) 0)
        ((cornersOf r.indices p).getD t 0)) := by
  obtain ⟨hidx, -, -, hsum⟩ := hv
  unfold buildConnection
  rw [if_neg hne]
  simp only []
  obtain ⟨c1, c2⟩ := countCorners_spec r.counts r.indices r.points.length
    (fun k hk => hidx k (by omega))
  rw [hsum] at c2
  generalize countCorners r.counts r.indices (List.replicate r.points.length 0) = cnt at c1 c2
  obtain ⟨o1, o2⟩ := offsetsOfCounts_spec r.points.length cnt
    (resize r.v2f_offsets r.points.length 0) (by simp) c1
  generalize offsetsOfCounts r.points.length cnt (resize r.v2f_offsets r.points.length 0) = offs
    at o1 o2
  have hcnt : cnt = (List.range r.points.length).map
      (fun q => (cornersUpTo r.indices q r.indices.length).length) := by
    apply List.ext_getElem
    · simp [c1]
    · intro i h1 h2
      have := c2 i
      simp only [List.getD_eq_getElem?_getD, List.getElem?_eq_getElem h1, Option.getD_some] at this
      simp [this]
  have hcsum : cnt.sum = r.indices.length := by
    rw [hcnt]; exact sum_length_cornersUpTo r.indices _ _ hidx
  have hoff : ∀ p, p < r.points.length →
      offs.getD p 0 + (cornersUpTo r.indices p r.indices.length).length = (cnt.take (p + 1)).sum := by
    intro p hp
    rw [o2 p hp, take_sum_succ cnt p (by omega), c2]
  have hsep : ∀ p q, p < q → q < r.points.length →
      offs.getD p 0 + (cornersUpTo r.indices p r.indices.length).length ≤ offs.getD q 0 := by
    intro p q hpq hq
    rw [hoff p (by omega), o2 q hq]
    exact take_sum_mono cnt (by omega)
  have hend : ∀ p, p < r.points.length →
      offs.getD p 0 + (cornersUpTo r.indices p r.indices.length).length ≤ r.indices.length := by
    intro p hp
    rw [hoff p hp, ← hcsum]
    exact take_sum_le cnt _
  have h0 : ScatterInv r.counts r.indices offs r.points.length r.indices.length 0
      { i := 0, v2f_indices := List.replicate r.points.length 0,
        shared_faces := resize r.shared_faces r.indices.length 0,
        shared_indices := resize r.shared_indices r.indices.length 0 } := by
    constructor
    · simp
    · simp
    · simp
    · intro p _; simp only []; rw [getD_replicate]; rfl
    · intro p _ t ht; simp [cornersUpTo_zero] at ht
  obtain ⟨-, hS⟩ := scatterCorners_inv r.counts r.indices offs r.points.length r.indices.length _
    hsum hidx hsep hend rfl h0 r.counts.length (le_refl _)
  rw [take_sum_length, hsum] at hS
  obtain ⟨-, l2, l3, -, hslot⟩ := hS
  refine ⟨c1, c2, o1, o2, l2, l3, ?_⟩
  intro p hp t ht
  have := hend p hp
  exact ⟨by unfold cornersOf at ht; omega, hslot p hp t ht⟩



theorem slice_eq (l target : List Nat) (off : Nat)
    (h : ∀ t, t < target.length → off + t < l.length ∧ l.getD (off + t) 0 = target.getD t 0) :
    (l.drop off).take target.length = target := by
  apply List.ext_getElem?
  intro i
  by_cases hi : i < target.length
  · obtain ⟨h1, h2⟩ := h i hi
    rw [List.getElem?_take_of_lt hi, List.getElem?_drop]
    simp only [List.getD_eq_getElem?_getD, List.getElem?_eq_getElem h1,
      List.getElem?_eq_getElem hi, Option.getD_some] at h2
    rw [List.getElem?_eq_getElem h1, List.getElem?_eq_getElem hi, h2]
  · have h1 : ((l.drop off).take target.length).length ≤ i := by
      simp only [List.length_take]; omega
    rw [List.getElem?_eq_none h1, List.getElem?_eq_none (by omega)]

theorem range_map_eq (l target : List Nat) (off : Nat)
    (h : ∀ t, t < target.length → l.getD (off + t) 0 = target.getD t 0) :
    (List.range target.length).map (fun ci => l.getD (off + ci) 0) = target := by
  apply List.ext_getElem
  · simp
  · intro i h1 h2
    simp only [List.getElem_map, List.getElem_range]
    rw [h i h2]
    simp [List.getD_eq_getElem?_getD, List.getElem?_eq_getElem h2]

/-- After `buildConnection` on a fresh refiner over a valid soup the table is
in place. -/
theorem buildConnection_connected (r : TopologyRefiner float2 float3 float4) (hf : Fresh r)
    (hv : ValidSoup r) : Connected (buildConnection r) := by
  constructor
  intro p hp
  have hpts : (buildConnection r).points = r.points := (buildConnection_frame r).2.2.2.1
  have hidx : (buildConnection r).indices = r.indices := (buildConnection_frame r).2.2.1
  rw [hpts] at hp
  rw [hidx]
  have hne : r.v2f_counts.length ≠ r.points.length := by rw [hf.v2f_counts]; simp; omega
  obtain ⟨-, c2, -, -, -, -, hs⟩ := buildConnection_spec r hv hne
  rw [c2 p]
  exact range_map_eq _ _ _ (fun t ht => (hs p hp t ht).2.1)

theorem sampleStrip_valid : ValidSoup sampleStrip := by
  constructor
  · intro k hk
    have hk' : k < 6 := hk
    interval_cases k <;> decide
  · rfl
  · intro fi hfi
    have hfi' : fi < 2 := hfi
    interval_cases fi <;> rfl
  · rfl

/-- C9: after `buildConnection` on a freshly prepared refiner over a valid
soup, for every point id `p`: `v2f_counts[p]` is the number of corners whose
index is `p`; `v2f_offsets[p]` is the sum of `v2f_counts` before `p`; the
slice of `shared_indices` from `v2f_offsets[p]` of length `v2f_counts[p]` is
strictly increasing and contains exactly the corner positions `k` with
`indices[k] = p`; and `shared_faces` holds, at each slot of the slice, the
face that contains the corner stored at that slot. -/
theorem buildConnection_table (r : TopologyRefiner float2 float3 float4) (hfresh : Fresh r)
    (hvalid : ValidSoup r) (p : Nat) (hp : p < r.points.length) :
    (buildConnection r).v2f_counts.getD p 0 = r.indices.count p ∧
    (buildConnection r).v2f_offsets.getD p 0 = ((buildConnection r).v2f_counts.take p).sum ∧
    (((buildConnection r).shared_indices.drop ((buildConnection r).v2f_offsets.getD p 0)).take
      ((buildConnection r).v2f_counts.getD p 0)).length = (buildConnection r).v2f_counts.getD p 0 ∧
    (((buildConnection r).shared_indices.drop ((buildConnection r).v2f_offsets.getD p 0)).take
      ((buildConnection r).v2f_counts.getD p 0)).Pairwise (· < ·) ∧
    (∀ k, k ∈ ((buildConnection r).shared_indices.drop
        ((buildConnection r).v2f_offsets.getD p 0)).take
        ((buildConnection r).v2f_counts.getD p 0) ↔
      k < r.indices.length ∧ r.indices.getD k 0 = p) ∧
    (∀ t, t < (buildConnection r).v2f_counts.getD p 0 →
      InFace r.counts
        ((buildConnection r).shared_faces.getD ((buildConnection r).v2f_offsets.getD p 0 + t) 0)
        ((buildConnection r).shared_indices.getD
          ((buildConnection r).v2f_offsets.getD p 0 + t) 0)) := by
  have hne : r.v2f_counts.length ≠ r.points.length := by
    rw [hfresh.v2f_counts]; simp; omega
  obtain ⟨-, c2, -, o2, -, -, hs⟩ := buildConnection_spec r hvalid hne
  have hslice := slice_eq (buildConnection r).shared_indices (cornersOf r.indices p)
    ((buildConnection r).v2f_offsets.getD p 0) (fun t ht => ⟨by
      have := (hs p hp t ht).1
      have hl : (buildConnection r).shared_indices.length = r.indices.length :=
        (buildConnection_spec r hvalid hne).2.2.2.2.2.1
      omega, (hs p hp t ht).2.1⟩)
  rw [c2 p, hslice]
  refine ⟨length_cornersOf _ _, o2 p hp, rfl, cornersUpTo_sorted _ _ _, ?_, ?_⟩
  · intro k; exact mem_cornersUpTo _ _ _ _
  · intro t ht
    obtain ⟨-, h2, h3⟩ := hs p hp t ht
    rw [h2]; exact h3

theorem buildConnection_table_witness :
    (buildConnection sampleStrip).v2f_counts.getD 1 0 = sampleStrip.indices.count 1 ∧
    (buildConnection sampleStrip).v2f_offsets.getD 1 0 =
      ((buildConnection sampleStrip).v2f_counts.take 1).sum ∧
    (((buildConnection sampleStrip).shared_indices.drop
      ((buildConnection sampleStrip).v2f_offsets.getD 1 0)).take
      ((buildConnection sampleStrip).v2f_counts.getD 1 0)).length =
        (buildConnection sampleStrip).v2f_counts.getD 1 0 ∧
    (((buildConnection sampleStrip).shared_indices.drop
      ((buildConnection sampleStrip).v2f_offsets.getD 1 0)).take
      ((buildConnection sampleStrip).v2f_counts.getD 1 0)).Pairwise (· < ·) ∧
    (∀ k, k ∈ ((buildConnection sampleStrip).shared_indices.drop
        ((buildConnection sampleStrip).v2f_offsets.getD 1 0)).take
        ((buildConnection sampleStrip).v2f_counts.getD 1 0) ↔
      k < sampleStrip.indices.length ∧ sampleStrip.indices.getD k 0 = 1) ∧
    (∀ t, t < (buildConnection sampleStrip).v2f_counts.getD 1 0 →
      InFace sampleStrip.counts
        ((buildConnection sampleStrip).shared_faces.getD
          ((buildConnection sampleStrip).v2f_offsets.getD 1 0 + t) 0)
        ((buildConnection sampleStrip).shared_indices.getD
          ((buildConnection sampleStrip).v2f_offsets.getD 1 0 + t) 0)) :=
  buildConnection_table sampleStrip sampleStrip_fresh sampleStrip_valid 1 (by decide)

end Connectivity

/-! ## The lookup over the corners of a point -/

section Lookup

variable [Inhabited float2] [Inhabited float3]

omit [Inhabited float2] [Inhabited float3] in
theorem inputs_fields {a b : TopologyRefiner float2 float3 float4} (h : inputs a = inputs b) :
    a.counts = b.counts ∧ a.offsets = b.offsets ∧ a.indices = b.indices ∧ a.points = b.points ∧
    a.normals = b.normals ∧ a.uv = b.uv ∧ a.tangents = b.tangents ∧
    a.v2f_counts = b.v2f_counts ∧ a.v2f_offsets = b.v2f_offsets ∧
    a.shared_faces = b.shared_faces ∧ a.shared_indices = b.shared_indices ∧
    a.split_unit = b.split_unit ∧ a.triangulate = b.triangulate :=
  ⟨congrArg (fun x => x.counts) h, congrArg (fun x => x.offsets) h,
    congrArg (fun x => x.indices) h, congrArg (fun x => x.points) h,
    congrArg (fun x => x.normals) h, congrArg (fun x => x.uv) h,
    congrArg (fun x => x.tangents) h, congrArg (fun x => x.v2f_counts) h,
    congrArg (fun x => x.v2f_offsets) h, congrArg (fun x => x.shared_faces) h,
    congrArg (fun x => x.shared_indices) h, congrArg (fun x => x.split_unit) h,
    congrArg (fun x => x.triangulate) h⟩

omit [Inhabited float2] [Inhabited float3] in
theorem connected_of_inputs {a b : TopologyRefiner float2 float3 float4} (h : inputs a = inputs b)
    (hb : Connected b) : Connected a := by
  obtain ⟨-, -, h3, h4, -, -, -, h8, h9, -, h11, -, -⟩ := inputs_fields h
  constructor
  rw [h3, h4, h8, h9, h11]
  exact hb.slots

omit [Inhabited float2] [Inhabited float3] in
theorem validSoup_of_inputs {a b : TopologyRefiner float2 float3 float4} (h : inputs a = inputs b)
    (hb : ValidSoup b) : ValidSoup a := by
  obtain ⟨h1, h2, h3, h4, -, -, -, -, -, -, -, -, -⟩ := inputs_fields h
  constructor
  · rw [h3, h4]; exact hb.index_lt
  · rw [h1, h2]; exact hb.offsets_length
  · rw [h1, h2]; exact hb.offsets_eq
  · rw [h1, h3]; exact hb.counts_sum

/-- Outcome of a lookup in terms of the corners of the point: fall through,
match, or claim of the first unassigned slot. -/
theorem findOrAddVertex_spec (M : MuMath float2 float3) (r : TopologyRefiner float2 float3 float4)
    (vi : Nat) (key : VertexKey float2 float3 float4) (hc : Connected r)
    (hvi : vi < r.points.length) :
    ((∀ s ∈ cornersOf r.indices vi,
        r.old2new.getD s 0 ≠ -1 ∧ key.test M r (r.old2new.getD s 0) = false) ∧
      findOrAddVertex M r vi key = (r, 0)) ∨
    (∃ v, MatchAt r.old2new (key.test M r) (cornersOf r.indices vi) v ∧
      findOrAddVertex M r vi key = (r, v)) ∨
    (∃ pre s post, cornersOf r.indices vi = pre ++ s :: post ∧
      (∀ s' ∈ pre, r.old2new.getD s' 0 ≠ -1 ∧ key.test M r (r.old2new.getD s' 0) = false) ∧
      r.old2new.getD s 0 = -1 ∧
      findOrAddVertex M r vi key =
        (key.add { r with old2new := r.old2new.set s r.new_points.length },
          (r.new_points.length : Int))) := by
  have hs := hc.slots vi hvi
  unfold findOrAddVertex
  rcases findOrAddScan_spec r (r.v2f_offsets.getD vi 0) (key.test M r) key.add
    (List.range (r.v2f_counts.getD vi 0)) with ⟨hall, hres⟩ | ⟨pre, ci, post, hcis, hpre, hres⟩
  · left
    refine ⟨?_, hres⟩
    intro s hs'
    rw [← hs] at hs'
    obtain ⟨c, hc', rfl⟩ := List.mem_map.mp hs'
    exact hall c hc'
  · have hdecomp : cornersOf r.indices vi =
        pre.map (fun ci => r.shared_indices.getD (r.v2f_offsets.getD vi 0 + ci) 0) ++
          r.shared_indices.getD (r.v2f_offsets.getD vi 0 + ci) 0 ::
          post.map (fun ci => r.shared_indices.getD (r.v2f_offsets.getD vi 0 + ci) 0) := by
      rw [← hs, hcis, List.map_append, List.map_cons]
    have hpre' : ∀ s' ∈ pre.map (fun ci => r.shared_indices.getD (r.v2f_offsets.getD vi 0 + ci) 0),
        r.old2new.getD s' 0 ≠ -1 ∧ key.test M r (r.old2new.getD s' 0) = false := by
      intro s' hs'
      obtain ⟨c, hc', rfl⟩ := List.mem_map.mp hs'
      exact hpre c hc'
    right
    rcases hres with ⟨h1, h2, h3⟩ | ⟨h1, h3⟩
    · left
      exact ⟨_, ⟨_, _, _, hdecomp, hpre', h1, h2, rfl⟩, h3⟩
    · right
      exact ⟨_, _, _, hdecomp, hpre', h1, h3⟩



omit [Inhabited float2] [Inhabited float3] in
theorem mem_cornersOf (idx : List Nat) (p k : Nat) :
    k ∈ cornersOf idx p ↔ k < idx.length ∧ idx.getD k 0 = p :=
  mem_cornersUpTo idx p idx.length k

omit [Inhabited float2] [Inhabited float3] in
theorem getD_prefix_eq {α : Type} {l l' : List α} (h : l <+: l') (i : Nat) (d : α)
    (hi : i < l.length) : l'.getD i d = l.getD i d := by
  obtain ⟨t, rfl⟩ := h
  exact getD_append_left l t i d hi

/-- At the corner that comes next, the lookup never falls through: it
matches, or it claims a slot that is not beyond the corner. -/
theorem lookup_at_corner (M : MuMath float2 float3) (R r : TopologyRefiner float2 float3 float4)
    (hR : Connected R) (hV : ValidSoup R) (hinv : RefineInv R r) (i : Nat)
    (hi : i = r.new_indices.length) (hin : i < R.indices.length)
    (key : VertexKey float2 float3 float4) :
    (∃ v, MatchAt r.old2new (key.test M r) (cornersOf R.indices (R.indices.getD i 0)) v ∧
      findOrAddVertex M r (R.indices.getD i 0) key = (r, v)) ∨
    (∃ pre s post, cornersOf R.indices (R.indices.getD i 0) = pre ++ s :: post ∧
      (∀ s' ∈ pre, r.old2new.getD s' 0 ≠ -1 ∧ key.test M r (r.old2new.getD s' 0) = false) ∧
      r.old2new.getD s 0 = -1 ∧ s ≤ i ∧
      findOrAddVertex M r (R.indices.getD i 0) key =
        (key.add { r with old2new := r.old2new.set s r.new_points.length },
          (r.new_points.length : Int))) := by
  have hcr : Connected r := connected_of_inputs hinv.inputs hR
  obtain ⟨-, -, e3, e4, -⟩ := inputs_fields hinv.inputs
  have hun : r.old2new.getD i 0 = -1 := hinv.unassigned i (by omega) hin
  have hvi : R.indices.getD i 0 < r.points.length := by rw [e4]; exact hV.index_lt i hin
  rw [← e3] at hin hvi ⊢
  have hmem : i ∈ cornersOf r.indices (r.indices.getD i 0) := (mem_cornersOf _ _ _).mpr ⟨hin, rfl⟩
  have := findOrAddVertex_spec M r (r.indices.getD i 0) key hcr hvi
  rcases this with ⟨hall, -⟩ | hm | ⟨pre, s, post, hdec, hpre, hs, hres⟩
  · exact absurd hun (hall i hmem).1
  · exact Or.inl hm
  · right
    refine ⟨pre, s, post, hdec, hpre, hs, ?_, hres⟩
    have hsorted : (pre ++ s :: post).Pairwise (· < ·) := by
      rw [← hdec]; exact cornersUpTo_sorted _ _ _
    rw [hdec] at hmem
    rcases List.mem_append.mp hmem with h1 | h1
    · exact absurd hun (hpre i h1).1
    · rcases List.mem_cons.mp h1 with h2 | h2
      · omega
      · have := (List.pairwise_append.mp hsorted).2.1
        have := (List.pairwise_cons.mp this).1 i h2
        omega

omit [Inhabited float2] in
theorem chunkOK_mono {R r r' : TopologyRefiner float2 float3 float4} {op pts oi cnt : Int}
    (h : ChunkOK R r op pts oi cnt) (hi : r.new_indices <+: r'.new_indices)
    (hp : r.new_points <+: r'.new_points) : ChunkOK R r' op pts oi cnt := by
  obtain ⟨h1, h2, h3, h4, h5, h6, h7⟩ := h
  have li := hi.length_le
  have lp := hp.length_le
  refine ⟨h1, h2, by omega, h4, h5, by omega, ?_⟩
  intro k hk1 hk2
  obtain ⟨a, b, c⟩ := h7 k hk1 hk2
  have e : r'.new_indices.getD k 0 = r.new_indices.getD k 0 :=
    getD_prefix_eq hi k 0 (by omega)
  rw [e]
  refine ⟨a, b, ?_⟩
  rw [getD_prefix_eq hp _ _ (by omega)]
  exact c

omit [Inhabited float2] [Inhabited float3] in
theorem add_fields (key : VertexKey float2 float3 float4) (r : TopologyRefiner float2 float3 float4) :
    (key.add r).new_points = r.new_points ++ [key.point] ∧ (key.add r).old2new = r.old2new ∧
    (key.add r).new_indices = r.new_indices ∧ (key.add r).splits = r.splits := by
  cases key <;> exact ⟨rfl, rfl, rfl, rfl⟩

omit [Inhabited float2] in
theorem point_cornerKey (kind : KeyKind) (nc tc uc : Bool) (r : TopologyRefiner float2 float3 float4)
    [Inhabited float2] [Inhabited float4] (vi i : Nat) :
    (cornerKey kind nc tc uc r vi i).point = r.points.getD vi default := by
  cases kind <;> rfl



/-! ## Preservation of the invariant -/

omit [Inhabited float2] in
/-- A corner that matched the vertex `v`. -/
theorem refineInv_push_match (R r r' : TopologyRefiner float2 float3 float4)
    (hinv : RefineInv R r) (v : Int)
    (hin : inputs r' = inputs r) (hsp : r'.splits = r.splits) (ho : r'.old2new = r.old2new)
    (hnp : r'.new_points = r.new_points)
    (hni : r'.new_indices = r.new_indices ++ [v - (back r.splits).offset_points])
    (hv1 : (back r.splits).offset_points ≤ v) (hv2 : v < r.new_points.length)
    (hv3 : r.new_points.getD v.toNat default =
      R.points.getD (R.indices.getD r.new_indices.length 0) default) :
    RefineInv R r' := by
  obtain ⟨h1, h2, h3, h4, h5, h6, h7⟩ := hinv
  have hpre : r.new_indices <+: r'.new_indices := by rw [hni]; exact List.prefix_append _ _
  have hprep : r.new_points <+: r'.new_points := by rw [hnp]
  have hlen : r'.new_indices.length = r.new_indices.length + 1 := by rw [hni]; simp
  constructor
  · exact hin.trans h1
  · rw [ho]; exact h2
  · intro k hk hkn
    rw [ho]; exact h3 k (by omega) hkn
  · rw [hsp]; exact h4
  · rw [hsp, ho, hnp]; exact h5
  · obtain ⟨c1, c2, c3, c4, c5, c6, c7⟩ := h6
    have hlenp : r'.new_points.length = r.new_points.length := by rw [hnp]
    rw [hsp, hnp, hlen]
    refine ⟨c1, by omega, by omega, c4, c5, by omega, ?_⟩
    intro k hk1 hk2
    rw [hni, hnp]
    by_cases hk : k < r.new_indices.length
    · rw [getD_append_left _ _ _ _ hk]
      exact c7 k hk1 (by omega)
    · have hk' : k = r.new_indices.length := by omega
      subst hk'
      rw [getD_concat_length]
      refine ⟨by omega, by omega, ?_⟩
      have e : (back r.splits).offset_points + (v - (back r.splits).offset_points) = v := by omega
      rw [e]; exact hv3
  · intro s hs
    rw [hsp] at hs
    exact chunkOK_mono (h7 s hs) hpre hprep

omit [Inhabited float2] in
/-- A corner that claimed the slot `s` for a new vertex storing `pt`. -/
theorem refineInv_push_claim (R r r' : TopologyRefiner float2 float3 float4)
    (hinv : RefineInv R r) (s : Nat) (pt : float3)
    (hin : inputs r' = inputs r) (hsp : r'.splits = r.splits)
    (ho : r'.old2new = r.old2new.set s r.new_points.length)
    (hnp : r'.new_points = r.new_points ++ [pt])
    (hni : r'.new_indices = r.new_indices ++
      [(r.new_points.length : Int) - (back r.splits).offset_points])
    (hs1 : s ≤ r.new_indices.length)
    (hs3 : R.indices.getD s 0 = R.indices.getD r.new_indices.length 0)
    (hpt : pt = R.points.getD (R.indices.getD r.new_indices.length 0) default) :
    RefineInv R r' := by
  obtain ⟨h1, h2, h3, h4, h5, h6, h7⟩ := hinv
  obtain ⟨c1, c2, c3, c4, c5, c6, c7⟩ := h6
  have hprei : r.new_indices <+: r'.new_indices := by rw [hni]; exact List.prefix_append _ _
  have hprep : r.new_points <+: r'.new_points := by rw [hnp]; exact List.prefix_append _ _
  have hleni : r'.new_indices.length = r.new_indices.length + 1 := by rw [hni]; simp
  have hlenp : r'.new_points.length = r.new_points.length + 1 := by rw [hnp]; simp
  constructor
  · exact hin.trans h1
  · rw [ho]; simp [h2]
  · intro k hk hkn
    rw [ho, getD_set_ne _ _ _ _ _ (by omega)]
    exact h3 k (by omega) hkn
  · rw [hsp]; exact h4
  · intro k hk hne
    rw [hsp, hlenp]
    rw [ho] at hne ⊢
    by_cases hks : s = k
    · subst hks
      rw [getD_set_eq _ _ _ _ (by omega)]
      refine ⟨by omega, by omega, ?_⟩
      rw [Int.toNat_ofNat, hnp, getD_concat_length, hpt, hs3]
    · rw [getD_set_ne _ _ _ _ _ hks] at hne ⊢
      obtain ⟨b1, b2, b3⟩ := h5 k hk hne
      refine ⟨b1, by omega, ?_⟩
      rw [hnp, getD_append_left _ _ _ _ (by omega)]
      exact b3
  · rw [hsp, hlenp, hleni]
    refine ⟨c1, by omega, by omega, c4, by omega, by omega, ?_⟩
    intro k hk1 hk2
    rw [hni, hnp]
    by_cases hk : k < r.new_indices.length
    · rw [getD_append_left _ _ _ _ hk]
      obtain ⟨b1, b2, b3⟩ := c7 k hk1 (by omega)
      refine ⟨b1, by omega, ?_⟩
      rw [getD_append_left _ _ _ _ (by omega)]
      exact b3
    · have hk' : k = r.new_indices.length := by omega
      subst hk'
      rw [getD_concat_length]
      refine ⟨by omega, by omega, ?_⟩
      have e : ((back r.splits).offset_points +
          ((r.new_points.length : Int) - (back r.splits).offset_points)).toNat =
          r.new_points.length := by omega
      rw [e, getD_concat_length, hpt]
  · intro s' hs'
    rw [hsp] at hs'
    exact chunkOK_mono (h7 s' hs') hprei hprep



omit [Inhabited float2] [Inhabited float3] in
theorem matchAt_mem {o : List Int} {test : Int → Bool} {L : List Nat} {v : Int}
    (h : MatchAt o test L v) : ∃ s ∈ L, o.getD s 0 = v ∧ v ≠ -1 ∧ test v = true := by
  obtain ⟨pre, s, post, hL, -, h1, h2, h3⟩ := h
  refine ⟨s, by rw [hL]; simp, h3, by rw [← h3]; exact h1, by rw [← h3]; exact h2⟩

/-- One corner of `doRefine` preserves the invariant. -/
theorem refineInv_corner [Inhabited float4] (M : MuMath float2 float3) (kind : KeyKind)
    (nc tc uc : Bool) (R r : TopologyRefiner float2 float3 float4)
    (hR : Connected R) (hV : ValidSoup R) (hinv : RefineInv R r) (off ci : Nat)
    (hi : off + ci = r.new_indices.length) (hin : off + ci < R.indices.length) :
    RefineInv R (refineCorner (keyBody M kind nc tc uc) off (back r.splits).offset_points ci r) := by
  obtain ⟨-, -, e3, e4, -⟩ := inputs_fields hinv.inputs
  have hunf : refineCorner (keyBody M kind nc tc uc) off (back r.splits).offset_points ci r =
      { (findOrAddVertex M r (R.indices.getD (off + ci) 0)
          (cornerKey kind nc tc uc r (R.indices.getD (off + ci) 0) (off + ci))).1 with
        new_indices := (findOrAddVertex M r (R.indices.getD (off + ci) 0)
            (cornerKey kind nc tc uc r (R.indices.getD (off + ci) 0) (off + ci))).1.new_indices ++
          [(findOrAddVertex M r (R.indices.getD (off + ci) 0)
            (cornerKey kind nc tc uc r (R.indices.getD (off + ci) 0) (off + ci))).2 -
              (back r.splits).offset_points] } := by
    rw [← e3]; rfl
  rw [hunf]
  generalize hkey : cornerKey kind nc tc uc r (R.indices.getD (off + ci) 0) (off + ci) = key
  have hpt : key.point = R.points.getD (R.indices.getD (off + ci) 0) default := by
    rw [← hkey, point_cornerKey, e4]
  rcases lookup_at_corner M R r hR hV hinv (off + ci) hi hin key with
    ⟨v, hm, hres⟩ | ⟨pre, s, post, hdec, hpre, hs, hsi, hres⟩
  · rw [hres]
    obtain ⟨s, hsL, hsv, hne, -⟩ := matchAt_mem hm
    obtain ⟨hsn, hsi⟩ := (mem_cornersOf _ _ _).mp hsL
    obtain ⟨b1, b2, b3⟩ := hinv.assigned s hsn (by rw [hsv]; exact hne)
    rw [hsv] at b1 b2 b3
    refine refineInv_push_match R r _ hinv v rfl rfl rfl rfl rfl b1 b2 ?_
    rw [b3, hsi, hi]
  · rw [hres]
    obtain ⟨a1, a2, a3, a4⟩ := add_fields key
      { r with old2new := r.old2new.set s r.new_points.length }
    have hsL : s ∈ cornersOf R.indices (R.indices.getD (off + ci) 0) := by rw [hdec]; simp
    obtain ⟨hsn, hsidx⟩ := (mem_cornersOf _ _ _).mp hsL
    refine refineInv_push_claim R r _ hinv s key.point ?_ ?_ ?_ ?_ ?_ (by omega) ?_ ?_
    · have := inputs_of_frame
        (frame_add key { r with old2new := r.old2new.set s r.new_points.length })
      exact this
    · exact a4
    · exact a2
    · exact a1
    · show (key.add _).new_indices ++ _ = _
      rw [a3]
    · rw [hsidx, hi]
    · rw [hpt, hi]



omit [Inhabited float2] in
theorem refineInv_addSplit (R r : TopologyRefiner float2 float3 float4) (hinv : RefineInv R r) :
    RefineInv R (addSplit r) := by
  obtain ⟨h1, h2, h3, h4, h5, h6, h7⟩ := hinv
  rcases eq_nil_or_snoc r.splits with h0 | ⟨done, prev, hs⟩
  · exact absurd h0 h4
  rw [hs, back_concat] at h6
  rw [hs, List.dropLast_concat] at h7
  have hsp : (addSplit r).splits = (done ++ [{ prev with
        num_points := (r.new_points.length : Int) - prev.offset_points
        num_indices := (r.new_indices.length : Int) - prev.offset_indices }]) ++
      [{ offset_faces := prev.offset_faces + prev.num_faces
         offset_points := prev.offset_points + ((r.new_points.length : Int) - prev.offset_points)
         offset_indices :=
           prev.offset_indices + ((r.new_indices.length : Int) - prev.offset_indices) }] := by
    simp only [addSplit, hs, back_concat, modifyBack_concat]
  have hold : (addSplit r).old2new = List.replicate r.old2new.length (-1) := rfl
  have hnp : (addSplit r).new_points = r.new_points := rfl
  have hni : (addSplit r).new_indices = r.new_indices := rfl
  have hget : ∀ k, k < R.indices.length → (addSplit r).old2new.getD k 0 = -1 := by
    intro k hk
    rw [hold]
    simp only [List.getD_eq_getElem?_getD, List.getElem?_replicate]
    rw [if_pos (by omega)]; rfl
  constructor
  · exact h1
  · rw [hold]; simp [h2]
  · intro k _ hk; exact hget k hk
  · rw [hsp]; simp
  · intro k hk hne
    exact absurd (hget k hk) hne
  · rw [hsp, back_concat, hnp, hni]
    obtain ⟨c1, c2, c3, c4, c5, c6, c7⟩ := h6
    have hnpl : (addSplit r).new_points.length = r.new_points.length := rfl
    have hnil : (addSplit r).new_indices.length = r.new_indices.length := rfl
    refine ⟨by simp only []; omega, by simp only []; omega, by simp only []; omega,
      by simp only []; omega, by simp only []; omega, by simp only []; omega, ?_⟩
    intro k hk1 hk2
    simp only [] at hk1 hk2
    omega
  · rw [hsp, List.dropLast_concat]
    intro s hs'
    rcases List.mem_append.mp hs' with hs' | hs'
    · exact chunkOK_mono (h7 s hs') (List.prefix_refl _) (List.prefix_refl _)
    · simp only [List.mem_singleton] at hs'
      subst hs'
      exact chunkOK_mono h6 (List.prefix_refl _) (List.prefix_refl _)

omit [Inhabited float2] in
theorem refineInv_modifyBack (R r : TopologyRefiner float2 float3 float4) (hinv : RefineInv R r)
    (f : Split → Split) (hf1 : ∀ s, (f s).offset_points = s.offset_points)
    (hf2 : ∀ s, (f s).offset_indices = s.offset_indices) :
    RefineInv R { r with splits := modifyBack f r.splits } := by
  obtain ⟨h1, h2, h3, h4, h5, h6, h7⟩ := hinv
  rcases eq_nil_or_snoc r.splits with h0 | ⟨done, cur, hs⟩
  · exact absurd h0 h4
  rw [hs, back_concat] at h5 h6
  rw [hs, List.dropLast_concat] at h7
  have hsp : modifyBack f r.splits = done ++ [f cur] := by rw [hs, modifyBack_concat]
  constructor
  · exact h1
  · exact h2
  · exact h3
  · show modifyBack f r.splits ≠ []
    rw [hsp]; simp
  · show ∀ k, k < R.indices.length → r.old2new.getD k 0 ≠ -1 →
      (back (modifyBack f r.splits)).offset_points ≤ _ ∧ _
    rw [hsp, back_concat, hf1]; exact h5
  · show ChunkOK R _ (back (modifyBack f r.splits)).offset_points
      ((r.new_points.length : Int) - (back (modifyBack f r.splits)).offset_points)
      (back (modifyBack f r.splits)).offset_indices
      ((r.new_indices.length : Int) - (back (modifyBack f r.splits)).offset_indices)
    rw [hsp, back_concat, hf1, hf2]
    exact chunkOK_mono h6 (List.prefix_refl _) (List.prefix_refl _)
  · show ∀ s ∈ (modifyBack f r.splits).dropLast, _
    rw [hsp, List.dropLast_concat]
    intro s hs'
    exact chunkOK_mono (h7 s hs') (List.prefix_refl _) (List.prefix_refl _)

/-- The corner loop of one face. -/
theorem refineInv_cornerLoop [Inhabited float4] (M : MuMath float2 float3) (kind : KeyKind)
    (nc tc uc : Bool) (R r : TopologyRefiner float2 float3 float4)
    (hR : Connected R) (hV : ValidSoup R) (hinv : RefineInv R r) (off : Nat)
    (hoff : off = r.new_indices.length) (n : Nat) (hn : off + n ≤ R.indices.length) :
    RefineInv R (forLoop n (refineCorner (keyBody M kind nc tc uc) off
        (back r.splits).offset_points) r) ∧
      (forLoop n (refineCorner (keyBody M kind nc tc uc) off
        (back r.splits).offset_points) r).splits = r.splits ∧
      (forLoop n (refineCorner (keyBody M kind nc tc uc) off
        (back r.splits).offset_points) r).new_indices.length = off + n := by
  induction n with
  | zero => exact ⟨hinv, rfl, hoff.symm⟩
  | succ n ih =>
    obtain ⟨i1, i2, i3⟩ := ih (by omega)
    rw [forLoop_succ]
    generalize forLoop n (refineCorner (keyBody M kind nc tc uc) off
        (back r.splits).offset_points) r = t at i1 i2 i3
    have hsp := refineCorner_splits (keyBody M kind nc tc uc) (frame_keyBody M kind nc tc uc)
      off (back r.splits).offset_points n t
    refine ⟨?_, hsp.trans i2, ?_⟩
    · have := refineInv_corner M kind nc tc uc R t hR hV i1 off n i3.symm (by omega)
      rw [i2] at this
      exact this
    · have hni : (refineCorner (keyBody M kind nc tc uc) off (back r.splits).offset_points n
          t).new_indices = (keyBody M kind nc tc uc t (t.indices.getD (off + n) 0)
            (off + n)).1.new_indices ++ [(keyBody M kind nc tc uc t (t.indices.getD (off + n) 0)
            (off + n)).2 - (back r.splits).offset_points] := rfl
      have hfr := congrArg (fun x => x.new_indices)
        (frame_keyBody M kind nc tc uc t (t.indices.getD (off + n) 0) (off + n))
      simp only [frame] at hfr
      rw [hni, hfr]
      simp [i3]; omega



/-- One face of `doRefine` preserves the invariant. -/
theorem refineInv_face [Inhabited float4] (M : MuMath float2 float3) (kind : KeyKind)
    (nc tc uc : Bool) (R r : TopologyRefiner float2 float3 float4)
    (hR : Connected R) (hV : ValidSoup R) (fi : Nat) (hfi : fi < R.counts.length)
    (hinv : RefineInv R r) (hlen : r.new_indices.length = (R.counts.take fi).sum) :
    RefineInv R (refineFace (keyBody M kind nc tc uc) fi r) ∧
      (refineFace (keyBody M kind nc tc uc) fi r).new_indices.length =
        (R.counts.take (fi + 1)).sum := by
  obtain ⟨e1, e2, -, -, -⟩ := inputs_fields hinv.inputs
  unfold refineFace
  simp only []
  generalize hr1 : (if r.split_unit > 0 ∧
      (r.new_points.length : Int) - (back r.splits).offset_points + (r.counts.getD fi 0 : Nat) >
        r.split_unit then addSplit r else r) = r1
  have h1 : RefineInv R r1 ∧ r1.new_indices = r.new_indices := by
    rw [← hr1]; split
    · exact ⟨refineInv_addSplit R r hinv, rfl⟩
    · exact ⟨hinv, rfl⟩
  obtain ⟨h1, h1'⟩ := h1
  have hoff : r.offsets.getD fi 0 = r1.new_indices.length := by
    rw [e2, hV.offsets_eq fi hfi, h1', hlen]
  have hle := take_sum_add_le R.counts fi hfi
  rw [hV.counts_sum] at hle
  obtain ⟨g1, g2, g3⟩ := refineInv_cornerLoop M kind nc tc uc R r1 hR hV h1 (r.offsets.getD fi 0)
    hoff (r.counts.getD fi 0) (by rw [hoff, h1', hlen, e1]; exact hle)
  generalize forLoop (r.counts.getD fi 0)
    (refineCorner (keyBody M kind nc tc uc) (r.offsets.getD fi 0) (back r1.splits).offset_points)
    r1 = r2 at g1 g2 g3
  refine ⟨refineInv_modifyBack R r2 g1 _ (fun _ => rfl) (fun _ => rfl), ?_⟩
  show r2.new_indices.length = _
  rw [g3, hoff, h1', hlen, e1, take_sum_succ R.counts fi hfi]

omit [Inhabited float2] in
theorem refineInv_begin (r : TopologyRefiner float2 float3 float4) (hf : Fresh r) :
    RefineInv (buildConnection r) (beginRefine (buildConnection r)) ∧
      (beginRefine (buildConnection r)).new_indices.length = 0 := by
  obtain ⟨b1, b2, b3, b4, b5, b6, b7, b8, -, -⟩ := buildConnection_frame r
  have hsp : (beginRefine (buildConnection r)).splits = [] ++ [({} : Split)] := by
    show (buildConnection r).splits ++ [({} : Split)] = _
    rw [b1, hf.splits]
  have hold : (beginRefine (buildConnection r)).old2new =
      List.replicate (buildConnection r).indices.length (-1) := by
    show resize (buildConnection r).old2new _ _ = _
    rw [b8, hf.old2new, resize_nil]
  have hnp : (beginRefine (buildConnection r)).new_points = [] := by
    show (buildConnection r).new_points = []
    rw [b6, hf.new_points]
  have hni : (beginRefine (buildConnection r)).new_indices = [] := by
    show (buildConnection r).new_indices = []
    rw [b7, hf.new_indices]
  have hget : ∀ k, k < (buildConnection r).indices.length →
      (beginRefine (buildConnection r)).old2new.getD k 0 = -1 := by
    intro k hk
    rw [hold]
    simp only [List.getD_eq_getElem?_getD, List.getElem?_replicate]
    rw [if_pos hk]; rfl
  refine ⟨⟨rfl, by rw [hold]; simp, fun k _ hk => hget k hk, by rw [hsp]; simp,
    fun k hk hne => absurd (hget k hk) hne, ?_, ?_⟩, by rw [hni]; rfl⟩
  · have hnpl : (beginRefine (buildConnection r)).new_points.length = 0 := by rw [hnp]; rfl
    have hnil : (beginRefine (buildConnection r)).new_indices.length = 0 := by rw [hni]; rfl
    rw [hsp, back_concat, hnpl, hnil]
    refine ⟨le_refl _, le_refl _, by rw [hnil]; decide, le_refl _, le_refl _,
      by rw [hnpl]; decide, ?_⟩
    intro k hk1 hk2
    have h1 : (0 : Int) ≤ k := hk1
    have h2 : (k : Int) < 0 + (((0 : Nat) : Int) - 0) := hk2
    omega
  · rw [hsp]; intro s hs; simp at hs

omit [Inhabited float2] [Inhabited float3] in
theorem validSoup_buildConnection (r : TopologyRefiner float2 float3 float4) (hv : ValidSoup r) :
    ValidSoup (buildConnection r) := by
  obtain ⟨b1, b2, b3, b4, b5, -⟩ := buildConnection_frame r
  constructor
  · rw [b3, b4]; exact hv.index_lt
  · rw [b2, b5]; exact hv.offsets_length
  · rw [b2, b5]; exact hv.offsets_eq
  · rw [b2, b3]; exact hv.counts_sum

/-- After `doRefine` on a fresh refiner over a valid soup every chunk is
well formed. -/
theorem doRefine_chunks [Inhabited float4] (M : MuMath float2 float3) (kind : KeyKind)
    (nc tc uc : Bool) (r : TopologyRefiner float2 float3 float4) (hf : Fresh r)
    (hv : ValidSoup r) :
    ∀ s ∈ (doRefine (keyBody M kind nc tc uc) r).splits,
      ChunkOK (buildConnection r) (doRefine (keyBody M kind nc tc uc) r)
        s.offset_points s.num_points s.offset_indices s.num_indices := by
  have hd : doRefine (keyBody M kind nc tc uc) r = triangulateSplits (closeSplit
      (forLoop (beginRefine (buildConnection r)).counts.length
        (refineFace (keyBody M kind nc tc uc)) (beginRefine (buildConnection r)))) := rfl
  rw [hd]
  have hR := buildConnection_connected r hf hv
  have hV := validSoup_buildConnection r hv
  obtain ⟨h0, h0'⟩ := refineInv_begin r hf
  have hcnt : (beginRefine (buildConnection r)).counts = (buildConnection r).counts := rfl
  rw [hcnt]
  have h3 := forLoop_inv
    (fun fi t => RefineInv (buildConnection r) t ∧
      t.new_indices.length = ((buildConnection r).counts.take fi).sum)
    (buildConnection r).counts.length (refineFace (keyBody M kind nc tc uc))
    (beginRefine (buildConnection r)) ⟨h0, by rw [h0']; simp⟩
    (fun fi t hfi hP => refineInv_face M kind nc tc uc _ t hR hV fi hfi hP.1 hP.2)
  obtain ⟨h3, -⟩ := h3
  generalize forLoop (buildConnection r).counts.length (refineFace (keyBody M kind nc tc uc))
    (beginRefine (buildConnection r)) = r3 at h3
  obtain ⟨t1, t2, t3, -⟩ := triangulateSplits_other (closeSplit r3)
  obtain ⟨-, -, -, h4, -, h6, h7⟩ := h3
  rcases eq_nil_or_snoc r3.splits with h0 | ⟨done, cur, hs⟩
  · exact absurd h0 h4
  rw [hs, back_concat] at h6
  rw [hs, List.dropLast_concat] at h7
  have hcs : (closeSplit r3).splits = done ++ [{ cur with
      num_points := (r3.new_points.length : Int) - cur.offset_points
      num_indices := (r3.new_indices.length : Int) - cur.offset_indices }] := by
    simp only [closeSplit, hs, modifyBack_concat]
  rw [t1, hcs]
  have hpi : r3.new_indices <+: (triangulateSplits (closeSplit r3)).new_indices := by
    rw [t3]; exact List.prefix_refl _
  have hpp : r3.new_points <+: (triangulateSplits (closeSplit r3)).new_points := by
    rw [t2]; exact List.prefix_refl _
  intro s hs'
  rcases List.mem_append.mp hs' with hs' | hs'
  · exact chunkOK_mono (h7 s hs') hpi hpp
  · simp only [List.mem_singleton] at hs'
    subst hs'
    exact chunkOK_mono h6 hpi hpp

end Lookup

/-! ## Chunk-relative indices -/

section ChunkIndices

variable [Inhabited float2] [Inhabited float3] [Inhabited float4]

/-- C5: after `refine` on a freshly prepared refiner over a valid soup with
recognised cardinalities, for every split descriptor `s` and every corner
position `k` with `s.offset_indices ≤ k < s.offset_indices + s.num_indices`,
`new_indices[k]` exists and `0 ≤ new_indices[k] < s.num_points`: every corner
of a chunk refers to a refined vertex of that same chunk. -/
theorem refine_chunk_relative_indices (M : MuMath float2 float3)
    (r : TopologyRefiner float2 float3 float4) (hfresh : Fresh r) (hvalid : ValidSoup r)
    (hrec : Recognised r) :
    ∀ s ∈ (refine M r).2.splits, ∀ k : Nat,
      s.offset_indices ≤ k → (k : Int) < s.offset_indices + s.num_indices →
      k < (refine M r).2.new_indices.length ∧
      0 ≤ (refine M r).2.new_indices.getD k 0 ∧
      (refine M r).2.new_indices.getD k 0 < s.num_points := by
  rw [refine_eq_doRefine M r hrec]
  intro s hs k hk1 hk2
  have h := doRefine_chunks M (kindOf r) (normalsByCorner r) (tangentsByCorner r) (uvByCorner r)
    r hfresh hvalid s hs
  obtain ⟨a, b, -⟩ := h.corner k hk1 hk2
  have := h.oi_le
  exact ⟨by omega, a, b⟩

theorem refine_chunk_relative_indices_witness :
    Split.mk 1 3 3 1 3 3 3 ∈ (refine (gridMath 10) sampleStrip).2.splits ∧
    4 < (refine (gridMath 10) sampleStrip).2.new_indices.length ∧
    0 ≤ (refine (gridMath 10) sampleStrip).2.new_indices.getD 4 0 ∧
    (refine (gridMath 10) sampleStrip).2.new_indices.getD 4 0 <
      (Split.mk 1 3 3 1 3 3 3).num_points :=
  ⟨by decide, refine_chunk_relative_indices (gridMath 10) sampleStrip sampleStrip_fresh
    sampleStrip_valid sampleStrip_recognised (Split.mk 1 3 3 1 3 3 3) (by decide) 4
    (by decide) (by decide)⟩

end ChunkIndices

/-! ## Deduplication -/

section Dedup

variable [Inhabited float2] [Inhabited float3] [Inhabited float4]

omit [Inhabited float4] in
/-- The test of a key reads only the three compared arrays. -/
theorem test_congr (M : MuMath float2 float3) (key : VertexKey float2 float3 float4)
    (r r' : TopologyRefiner float2 float3 float4) (hp : r'.new_points = r.new_points)
    (hn : r'.new_normals = r.new_normals) (hu : r'.new_uv = r.new_uv) :
    key.test M r' = key.test M r := by
  cases key <;> simp only [VertexKey.test, hp, hn, hu]

/-- Appending to the arrays does not change the test on an existing vertex. -/
theorem test_prefix_eq (M : MuMath float2 float3) (kind : KeyKind) (nc tc uc : Bool)
    (R r r' : TopologyRefiner float2 float3 float4) (vi i : Nat) (hpar : Parallel kind r)
    (hp : r.new_points <+: r'.new_points) (hn : r.new_normals <+: r'.new_normals)
    (hu : r.new_uv <+: r'.new_uv) (ni : Int) (h0 : 0 ≤ ni) (h1 : ni < r.new_points.length) :
    (cornerKey kind nc tc uc R vi i).test M r' ni = (cornerKey kind nc tc uc R vi i).test M r ni := by
  have hlt : ni.toNat < r.new_points.length := by omega
  cases kind <;> simp only [cornerKey, VertexKey.test, Parallel] at hpar ⊢
  · rw [getD_prefix_eq hp _ _ hlt, getD_prefix_eq hn _ _ (by omega), getD_prefix_eq hu _ _ (by omega)]
  · rw [getD_prefix_eq hp _ _ hlt, getD_prefix_eq hn _ _ (by omega), getD_prefix_eq hu _ _ (by omega)]
  · rw [getD_prefix_eq hp _ _ hlt, getD_prefix_eq hn _ _ (by omega)]
  · rw [getD_prefix_eq hp _ _ hlt, getD_prefix_eq hu _ _ (by omega)]

/-- What `add` appends, for the key of a corner. -/
theorem add_cornerKey (kind : KeyKind) (nc tc uc : Bool)
    (R x : TopologyRefiner float2 float3 float4) (vi i : Nat) (hpar : Parallel kind x) :
    x.new_points <+: ((cornerKey kind nc tc uc R vi i).add x).new_points ∧
    x.new_normals <+: ((cornerKey kind nc tc uc R vi i).add x).new_normals ∧
    x.new_uv <+: ((cornerKey kind nc tc uc R vi i).add x).new_uv ∧
    Parallel kind ((cornerKey kind nc tc uc R vi i).add x) := by
  cases kind <;> simp only [cornerKey, VertexKey.add, Parallel] at hpar ⊢ <;>
    simp [hpar]

/-- A vertex just added passes the test of its own key. -/
theorem test_add_self (M : MuMath float2 float3) (hM : M.Reflexive) (kind : KeyKind)
    (nc tc uc : Bool) (R x : TopologyRefiner float2 float3 float4) (vi i : Nat)
    (hpar : Parallel kind x) :
    (cornerKey kind nc tc uc R vi i).test M ((cornerKey kind nc tc uc R vi i).add x)
      (x.new_points.length : Int) = true := by
  obtain ⟨h2, h3⟩ := hM
  cases kind <;> simp only [cornerKey, VertexKey.add, VertexKey.test, Parallel, Int.toNat_ofNat]
    at hpar ⊢
  · rw [getD_concat_length, ← hpar.1, getD_concat_length, hpar.1, ← hpar.2, getD_concat_length]
    simp [h2, h3]
  · rw [getD_concat_length, ← hpar.1, getD_concat_length, hpar.1, ← hpar.2, getD_concat_length]
    simp [h2, h3]
  · rw [getD_concat_length, ← hpar, getD_concat_length]
    simp [h3]
  · rw [getD_concat_length, ← hpar, getD_concat_length]
    simp [h2, h3]

omit [Inhabited float2] [Inhabited float3] [Inhabited float4] in
/-- The first match is unique. -/
theorem matchAt_unique {o : List Int} {test : Int → Bool} {L : List Nat} {v v' : Int}
    (h : MatchAt o test L v) (h' : MatchAt o test L v') : v = v' := by
  obtain ⟨pre, s, post, hL, hpre, h1, h2, h3⟩ := h
  obtain ⟨pre', s', post', hL', hpre', h1', h2', h3'⟩ := h'
  rw [hL] at hL'
  rcases List.append_eq_append_iff.mp hL' with ⟨a, ha, hb⟩ | ⟨c, hc, hd⟩
  · cases a with
    | nil =>
      simp only [List.nil_append, List.cons.injEq] at hb
      rw [← h3, ← h3', hb.1]
    | cons x a =>
      simp only [List.cons_append, List.cons.injEq] at hb
      have : s ∈ pre' := by rw [ha, hb.1]; simp
      have := (hpre' s this).2
      rw [h2] at this; exact absurd this (by simp)
  · cases c with
    | nil =>
      simp only [List.nil_append, List.cons.injEq] at hd
      rw [← h3, ← h3', hd.1]
    | cons x c =>
      simp only [List.cons_append, List.cons.injEq] at hd
      have : s' ∈ pre := by rw [hc, hd.1]; simp
      have := (hpre s' this).2
      rw [h2'] at this; exact absurd this (by simp)

omit [Inhabited float2] [Inhabited float3] [Inhabited float4] in
/-- A claim excludes a match. -/
theorem matchAt_claim_absurd {o : List Int} {test : Int → Bool} {L : List Nat} {v : Int}
    (h : MatchAt o test L v) (pre : List Nat) (s : Nat) (post : List Nat)
    (hL : L = pre ++ s :: post)
    (hpre : ∀ s' ∈ pre, o.getD s' 0 ≠ -1 ∧ test (o.getD s' 0) = false)
    (hs : o.getD s 0 = -1) : False := by
  obtain ⟨pre', s', post', hL', hpre', h1', h2', h3'⟩ := h
  rw [hL] at hL'
  rcases List.append_eq_append_iff.mp hL' with ⟨a, ha, hb⟩ | ⟨c, hc, hd⟩
  · cases a with
    | nil =>
      simp only [List.nil_append, List.cons.injEq] at hb
      rw [← hb.1] at h1'; exact h1' hs
    | cons x a =>
      simp only [List.cons_append, List.cons.injEq] at hb
      have : s ∈ pre' := by rw [ha, hb.1]; simp
      exact (hpre' s this).1 hs
  · cases c with
    | nil =>
      simp only [List.nil_append, List.cons.injEq] at hd
      rw [hd.1] at h1'; exact h1' hs
    | cons x c =>
      simp only [List.cons_append, List.cons.injEq] at hd
      have : s' ∈ pre := by rw [hc, hd.1]; simp
      have := (hpre s' this).2
      rw [h2'] at this; exact absurd this (by simp)



theorem chunkDedup_mono (M : MuMath float2 float3) (kind : KeyKind) (nc tc uc : Bool)
    {R r r' : TopologyRefiner float2 float3 float4} {op pts oi cnt : Int}
    (h : ChunkDedup M kind nc tc uc R r op oi cnt) (hok : ChunkOK R r op pts oi cnt)
    (hpar : Parallel kind r) (hi : r.new_indices <+: r'.new_indices)
    (hp : r.new_points <+: r'.new_points) (hn : r.new_normals <+: r'.new_normals)
    (hu : r.new_uv <+: r'.new_uv) : ChunkDedup M kind nc tc uc R r' op oi cnt := by
  obtain ⟨h1, h2⟩ := h
  obtain ⟨c1, c2, c3, c4, c5, c6, c7⟩ := hok
  have e : ∀ k : Nat, (k : Int) < oi + cnt → r'.new_indices.getD k 0 = r.new_indices.getD k 0 :=
    fun k hk => getD_prefix_eq hi k 0 (by omega)
  constructor
  · intro k hk1 hk2
    obtain ⟨a, b, -⟩ := c7 k hk1 hk2
    rw [e k hk2, test_prefix_eq M kind nc tc uc R r r' _ _ hpar hp hn hu _ (by omega) (by omega)]
    exact h1 k hk1 hk2
  · intro k k' hk1 hk2 hk1' hk2' hidx hte
    rw [e k hk2, e k' hk2']
    exact h2 k k' hk1 hk2 hk1' hk2' hidx hte

/-- A corner that matched the vertex `v`. -/
theorem dedupInv_push_match (M : MuMath float2 float3) (kind : KeyKind) (nc tc uc : Bool)
    (R r r' : TopologyRefiner float2 float3 float4) (hinv : RefineInv R r)
    (hd : DedupInv M kind nc tc uc R r) (v : Int)
    (hsp : r'.splits = r.splits) (ho : r'.old2new = r.old2new)
    (hnp : r'.new_points = r.new_points) (hnn : r'.new_normals = r.new_normals)
    (hnu : r'.new_uv = r.new_uv)
    (hni : r'.new_indices = r.new_indices ++ [v - (back r.splits).offset_points])
    (hm : MatchAt r.old2new
      ((cornerKey kind nc tc uc R (R.indices.getD r.new_indices.length 0)
        r.new_indices.length).test M r)
      (cornersOf R.indices (R.indices.getD r.new_indices.length 0)) v) :
    DedupInv M kind nc tc uc R r' := by
  obtain ⟨d1, d2, d3, d4⟩ := hd
  have hpi : r.new_indices <+: r'.new_indices := by rw [hni]; exact List.prefix_append _ _
  have hpp : r.new_points <+: r'.new_points := by rw [hnp]
  have hpn : r.new_normals <+: r'.new_normals := by rw [hnn]
  have hpu : r.new_uv <+: r'.new_uv := by rw [hnu]
  have hlen : r'.new_indices.length = r.new_indices.length + 1 := by rw [hni]; simp
  have htest : ∀ key : VertexKey float2 float3 float4, key.test M r' = key.test M r :=
    fun key => test_congr M key r r' hnp hnn hnu
  have hcur := hinv.current
  have hv : (back r.splits).offset_points + (v - (back r.splits).offset_points) = v := by omega
  constructor
  · cases kind <;> simp only [Parallel, hnp, hnn, hnu] at d1 ⊢ <;> exact d1
  · intro k hk1 hk2
    rw [hsp, ho, htest, hni]
    rw [hsp] at hk1
    by_cases hk : k < r.new_indices.length
    · rw [getD_append_left _ _ _ _ hk]
      exact d2 k hk1 hk
    · have hk' : k = r.new_indices.length := by omega
      subst hk'
      rw [getD_concat_length, hv]
      exact hm
  · rw [hsp, hlen]
    constructor
    · intro k hk1 hk2
      rw [htest, hni]
      by_cases hk : k < r.new_indices.length
      · rw [getD_append_left _ _ _ _ hk]
        exact d3.test k hk1 (by omega)
      · have hk' : k = r.new_indices.length := by omega
        subst hk'
        rw [getD_concat_length, hv]
        exact (matchAt_mem hm).choose_spec.2.2.2
    · intro k k' hk1 hk2 hk1' hk2' hidx hte
      rw [hni]
      by_cases hk : k < r.new_indices.length <;> by_cases hk' : k' < r.new_indices.length
      · rw [getD_append_left _ _ _ _ hk, getD_append_left _ _ _ _ hk']
        exact d3.pair k k' hk1 (by omega) hk1' (by omega) hidx hte
      · have e : k' = r.new_indices.length := by omega
        subst e
        rw [getD_append_left _ _ _ _ hk, getD_concat_length]
        have hs := d2 k hk1 hk
        rw [funext (hte r), hidx] at hs
        have := matchAt_unique hs hm
        omega
      · have e : k = r.new_indices.length := by omega
        subst e
        rw [getD_append_left _ _ _ _ hk', getD_concat_length]
        have hs := d2 k' hk1' hk'
        rw [← funext (hte r), ← hidx] at hs
        have := matchAt_unique hs hm
        omega
      · have e : k = r.new_indices.length := by omega
        have e' : k' = r.new_indices.length := by omega
        rw [e, e']
  · intro s hs
    rw [hsp] at hs
    exact chunkDedup_mono M kind nc tc uc (d4 s hs) (hinv.closed s hs) d1 hpi hpp hpn hpu



omit [Inhabited float2] [Inhabited float3] [Inhabited float4] in
theorem matchAt_persist {o o' : List Int} {test test' : Int → Bool} {L : List Nat} {v : Int}
    (h : MatchAt o test L v)
    (hsame : ∀ s' ∈ L, o.getD s' 0 ≠ -1 →
      o'.getD s' 0 = o.getD s' 0 ∧ test' (o.getD s' 0) = test (o.getD s' 0)) :
    MatchAt o' test' L v := by
  obtain ⟨pre, s, post, hL, hpre, h1, h2, h3⟩ := h
  refine ⟨pre, s, post, hL, ?_, ?_, ?_, ?_⟩
  · intro s' hs'
    obtain ⟨a, b⟩ := hpre s' hs'
    obtain ⟨c, d⟩ := hsame s' (by rw [hL]; simp [hs']) a
    rw [c, d]; exact ⟨a, b⟩
  · rw [(hsame s (by rw [hL]; simp) h1).1]; exact h1
  · obtain ⟨c, d⟩ := hsame s (by rw [hL]; simp) h1
    rw [c, d]; exact h2
  · rw [(hsame s (by rw [hL]; simp) h1).1]; exact h3

/-- A corner that claimed the slot `s` for a new vertex. -/
theorem dedupInv_push_claim (M : MuMath float2 float3) (kind : KeyKind) (nc tc uc : Bool)
    (R r r' : TopologyRefiner float2 float3 float4) (hinv : RefineInv R r)
    (hd : DedupInv M kind nc tc uc R r) (pre : List Nat) (s : Nat) (post : List Nat)
    (hsp : r'.splits = r.splits) (ho : r'.old2new = r.old2new.set s r.new_points.length)
    (hpp : r.new_points <+: r'.new_points) (hpn : r.new_normals <+: r'.new_normals)
    (hpu : r.new_uv <+: r'.new_uv) (hpar' : Parallel kind r')
    (hni : r'.new_indices = r.new_indices ++
      [(r.new_points.length : Int) - (back r.splits).offset_points])
    (hdec : cornersOf R.indices (R.indices.getD r.new_indices.length 0) = pre ++ s :: post)
    (hpre : ∀ s' ∈ pre, r.old2new.getD s' 0 ≠ -1 ∧
      (cornerKey kind nc tc uc R (R.indices.getD r.new_indices.length 0)
        r.new_indices.length).test M r (r.old2new.getD s' 0) = false)
    (hs : r.old2new.getD s 0 = -1)
    (hself : (cornerKey kind nc tc uc R (R.indices.getD r.new_indices.length 0)
        r.new_indices.length).test M r' (r.new_points.length : Int) = true) :
    DedupInv M kind nc tc uc R r' := by
  obtain ⟨d1, d2, d3, d4⟩ := hd
  have hpi : r.new_indices <+: r'.new_indices := by rw [hni]; exact List.prefix_append _ _
  have hlen : r'.new_indices.length = r.new_indices.length + 1 := by rw [hni]; simp
  have hcur := hinv.current
  have hbase := hcur.op_nonneg
  have hv : (back r.splits).offset_points +
      ((r.new_points.length : Int) - (back r.splits).offset_points) = r.new_points.length := by
    omega
  -- slots that are assigned keep their entry and the test on it
  have hsame : ∀ (vi i : Nat) (p : Nat), ∀ s' ∈ cornersOf R.indices p, r.old2new.getD s' 0 ≠ -1 →
      r'.old2new.getD s' 0 = r.old2new.getD s' 0 ∧
      (cornerKey kind nc tc uc R vi i).test M r' (r.old2new.getD s' 0) =
        (cornerKey kind nc tc uc R vi i).test M r (r.old2new.getD s' 0) := by
    intro vi i p s' hs' hne
    have hsn := ((mem_cornersOf _ _ _).mp hs').1
    obtain ⟨b1, b2, -⟩ := hinv.assigned s' hsn hne
    have hss : s ≠ s' := by rintro rfl; exact hne hs
    refine ⟨by rw [ho, getD_set_ne _ _ _ _ _ hss], ?_⟩
    exact test_prefix_eq M kind nc tc uc R r r' vi i d1 hpp hpn hpu _ (by omega) b2
  have hsn : s < r.old2new.length := by
    have : s ∈ cornersOf R.indices (R.indices.getD r.new_indices.length 0) := by
      rw [hdec]; simp
    rw [hinv.len_old2new]; exact ((mem_cornersOf _ _ _).mp this).1
  have hnew : MatchAt r'.old2new
      ((cornerKey kind nc tc uc R (R.indices.getD r.new_indices.length 0)
        r.new_indices.length).test M r')
      (cornersOf R.indices (R.indices.getD r.new_indices.length 0)) r.new_points.length := by
    refine ⟨pre, s, post, hdec, ?_, ?_, ?_, ?_⟩
    · intro s' hs'
      obtain ⟨a, b⟩ := hpre s' hs'
      obtain ⟨c, d⟩ := hsame (R.indices.getD r.new_indices.length 0) r.new_indices.length _ s'
        (by rw [hdec]; simp [hs']) a
      rw [c, d]; exact ⟨a, b⟩
    · rw [ho, getD_set_eq _ _ _ _ hsn]; omega
    · rw [ho, getD_set_eq _ _ _ _ hsn]; exact hself
    · rw [ho, getD_set_eq _ _ _ _ hsn]
  constructor
  · exact hpar'
  · intro k hk1 hk2
    rw [hsp, hni]
    rw [hsp] at hk1
    by_cases hk : k < r.new_indices.length
    · rw [getD_append_left _ _ _ _ hk]
      exact matchAt_persist (d2 k hk1 hk) (hsame _ _ _)
    · have hk' : k = r.new_indices.length := by omega
      subst hk'
      rw [getD_concat_length, hv]
      exact hnew
  · rw [hsp, hlen]
    constructor
    · intro k hk1 hk2
      rw [hni]
      by_cases hk : k < r.new_indices.length
      · rw [getD_append_left _ _ _ _ hk]
        obtain ⟨a, b, -⟩ := hcur.corner k hk1 (by omega)
        rw [test_prefix_eq M kind nc tc uc R r r' _ _ d1 hpp hpn hpu _ (by omega) (by omega)]
        exact d3.test k hk1 (by omega)
      · have hk' : k = r.new_indices.length := by omega
        subst hk'
        rw [getD_concat_length, hv]
        exact hself
    · intro k k' hk1 hk2 hk1' hk2' hidx hte
      rw [hni]
      by_cases hk : k < r.new_indices.length <;> by_cases hk' : k' < r.new_indices.length
      · rw [getD_append_left _ _ _ _ hk, getD_append_left _ _ _ _ hk']
        exact d3.pair k k' hk1 (by omega) hk1' (by omega) hidx hte
      · have e : k' = r.new_indices.length := by omega
        subst e
        have hm := d2 k hk1 hk
        rw [funext (hte r), hidx] at hm
        exact (matchAt_claim_absurd hm pre s post hdec hpre hs).elim
      · have e : k = r.new_indices.length := by omega
        subst e
        have hm := d2 k' hk1' hk'
        rw [← funext (hte r), ← hidx] at hm
        exact (matchAt_claim_absurd hm pre s post hdec hpre hs).elim
      · have e : k = r.new_indices.length := by omega
        have e' : k' = r.new_indices.length := by omega
        rw [e, e']
  · intro s' hs'
    rw [hsp] at hs'
    exact chunkDedup_mono M kind nc tc uc (d4 s' hs') (hinv.closed s' hs') d1 hpi hpp hpn hpu



theorem cornerKey_inputs (kind : KeyKind) (nc tc uc : Bool)
    {r R : TopologyRefiner float2 float3 float4} (h : inputs r = inputs R) (vi i : Nat) :
    cornerKey kind nc tc uc r vi i = cornerKey kind nc tc uc R vi i := by
  obtain ⟨-, -, -, e4, e5, e6, e7, -⟩ := inputs_fields h
  cases kind <;> simp only [cornerKey, e4, e5, e6, e7]

/-- One corner of `doRefine` preserves the deduplication invariant. -/
theorem dedupInv_corner (M : MuMath float2 float3) (hM : M.Reflexive) (kind : KeyKind)
    (nc tc uc : Bool) (R r : TopologyRefiner float2 float3 float4)
    (hR : Connected R) (hV : ValidSoup R) (hinv : RefineInv R r)
    (hd : DedupInv M kind nc tc uc R r) (off ci : Nat)
    (hi : off + ci = r.new_indices.length) (hin : off + ci < R.indices.length) :
    DedupInv M kind nc tc uc R
      (refineCorner (keyBody M kind nc tc uc) off (back r.splits).offset_points ci r) := by
  obtain ⟨-, -, e3, e4, -⟩ := inputs_fields hinv.inputs
  have hunf : refineCorner (keyBody M kind nc tc uc) off (back r.splits).offset_points ci r =
      { (findOrAddVertex M r (R.indices.getD (off + ci) 0)
          (cornerKey kind nc tc uc R (R.indices.getD (off + ci) 0) (off + ci))).1 with
        new_indices := (findOrAddVertex M r (R.indices.getD (off + ci) 0)
            (cornerKey kind nc tc uc R (R.indices.getD (off + ci) 0) (off + ci))).1.new_indices ++
          [(findOrAddVertex M r (R.indices.getD (off + ci) 0)
            (cornerKey kind nc tc uc R (R.indices.getD (off + ci) 0) (off + ci))).2 -
              (back r.splits).offset_points] } := by
    rw [← cornerKey_inputs kind nc tc uc hinv.inputs, ← e3]; rfl
  rw [hunf]
  rcases lookup_at_corner M R r hR hV hinv (off + ci) hi hin
    (cornerKey kind nc tc uc R (R.indices.getD (off + ci) 0) (off + ci)) with
    ⟨v, hm, hres⟩ | ⟨pre, s, post, hdec, hpre, hs, hsi, hres⟩
  · rw [hres]
    refine dedupInv_push_match M kind nc tc uc R r _ hinv hd v rfl rfl rfl rfl rfl rfl ?_
    rw [← hi]; exact hm
  · rw [hres]
    obtain ⟨a1, a2, a3, a4⟩ := add_fields
      (cornerKey kind nc tc uc R (R.indices.getD (off + ci) 0) (off + ci))
      { r with old2new := r.old2new.set s r.new_points.length }
    have hparx : Parallel kind { r with old2new := r.old2new.set s r.new_points.length } := by
      have := hd.parallel
      cases kind <;> exact this
    obtain ⟨p1, p2, p3, p4⟩ := add_cornerKey kind nc tc uc R
      { r with old2new := r.old2new.set s r.new_points.length }
      (R.indices.getD (off + ci) 0) (off + ci) hparx
    have hself := test_add_self M hM kind nc tc uc R
      { r with old2new := r.old2new.set s r.new_points.length }
      (R.indices.getD (off + ci) 0) (off + ci) hparx
    refine dedupInv_push_claim M kind nc tc uc R r _ hinv hd pre s post a4 a2 p1 p2 p3 ?_ ?_
      (by rw [← hi]; exact hdec) (by rw [← hi]; exact hpre) hs ?_
    · cases kind <;> exact p4
    · show ((cornerKey kind nc tc uc R (R.indices.getD (off + ci) 0) (off + ci)).add _).new_indices
        ++ _ = _
      rw [a3]
    · rw [← hi]
      exact Eq.trans (congrFun (test_congr M _
        ((cornerKey kind nc tc uc R (R.indices.getD (off + ci) 0) (off + ci)).add
          { r with old2new := r.old2new.set s r.new_points.length }) _ rfl rfl rfl) _) hself



theorem dedupInv_addSplit (M : MuMath float2 float3) (kind : KeyKind) (nc tc uc : Bool)
    (R r : TopologyRefiner float2 float3 float4) (hinv : RefineInv R r)
    (hd : DedupInv M kind nc tc uc R r) : DedupInv M kind nc tc uc R (addSplit r) := by
  obtain ⟨d1, d2, d3, d4⟩ := hd
  rcases eq_nil_or_snoc r.splits with h0 | ⟨done, prev, hs⟩
  · exact absurd h0 hinv.nonempty
  have hc := hinv.current
  have hcl := hinv.closed
  rw [hs, back_concat] at d3 hc
  rw [hs, List.dropLast_concat] at d4 hcl
  have hsp : (addSplit r).splits = (done ++ [{ prev with
        num_points := (r.new_points.length : Int) - prev.offset_points
        num_indices := (r.new_indices.length : Int) - prev.offset_indices }]) ++
      [{ offset_faces := prev.offset_faces + prev.num_faces
         offset_points := prev.offset_points + ((r.new_points.length : Int) - prev.offset_points)
         offset_indices :=
           prev.offset_indices + ((r.new_indices.length : Int) - prev.offset_indices) }] := by
    simp only [addSplit, hs, back_concat, modifyBack_concat]
  have hnil : (addSplit r).new_indices.length = r.new_indices.length := rfl
  constructor
  · cases kind <;> exact d1
  · intro k hk1 hk2
    rw [hsp, back_concat] at hk1
    rw [hnil] at hk2
    simp only [] at hk1
    omega
  · rw [hsp, back_concat, hnil]
    constructor
    · intro k hk1 hk2
      simp only [] at hk1 hk2
      omega
    · intro k k' hk1 hk2
      simp only [] at hk1 hk2
      omega
  · rw [hsp, List.dropLast_concat]
    intro s hs'
    rcases List.mem_append.mp hs' with hs' | hs'
    · exact chunkDedup_mono M kind nc tc uc (d4 s hs') (hcl s hs') d1 (List.prefix_refl _)
        (List.prefix_refl _) (List.prefix_refl _) (List.prefix_refl _)
    · simp only [List.mem_singleton] at hs'
      subst hs'
      exact chunkDedup_mono M kind nc tc uc d3 hc d1 (List.prefix_refl _)
        (List.prefix_refl _) (List.prefix_refl _) (List.prefix_refl _)

theorem dedupInv_modifyBack (M : MuMath float2 float3) (kind : KeyKind) (nc tc uc : Bool)
    (R r : TopologyRefiner float2 float3 float4) (hinv : RefineInv R r)
    (hd : DedupInv M kind nc tc uc R r)
    (f : Split → Split) (hf1 : ∀ s, (f s).offset_points = s.offset_points)
    (hf2 : ∀ s, (f s).offset_indices = s.offset_indices) :
    DedupInv M kind nc tc uc R { r with splits := modifyBack f r.splits } := by
  obtain ⟨d1, d2, d3, d4⟩ := hd
  rcases eq_nil_or_snoc r.splits with h0 | ⟨done, cur, hs⟩
  · exact absurd h0 hinv.nonempty
  have hc := hinv.current
  have hcl := hinv.closed
  rw [hs, back_concat] at d2 d3 hc
  rw [hs, List.dropLast_concat] at d4 hcl
  have hsp : modifyBack f r.splits = done ++ [f cur] := by rw [hs, modifyBack_concat]
  constructor
  · cases kind <;> exact d1
  · show ∀ k : Nat, (back (modifyBack f r.splits)).offset_indices ≤ k → k < r.new_indices.length →
      MatchAt r.old2new _ _ ((back (modifyBack f r.splits)).offset_points + r.new_indices.getD k 0)
    rw [hsp, back_concat, hf1, hf2]
    intro k hk1 hk2
    exact matchAt_persist (d2 k hk1 hk2) (fun _ _ _ => ⟨rfl, rfl⟩)
  · show ChunkDedup M kind nc tc uc R _ (back (modifyBack f r.splits)).offset_points
      (back (modifyBack f r.splits)).offset_indices
      ((r.new_indices.length : Int) - (back (modifyBack f r.splits)).offset_indices)
    rw [hsp, back_concat, hf1, hf2]
    exact chunkDedup_mono M kind nc tc uc d3 hc d1 (List.prefix_refl _)
      (List.prefix_refl _) (List.prefix_refl _) (List.prefix_refl _)
  · show ∀ s ∈ (modifyBack f r.splits).dropLast, _
    rw [hsp, List.dropLast_concat]
    intro s hs'
    exact chunkDedup_mono M kind nc tc uc (d4 s hs') (hcl s hs') d1 (List.prefix_refl _)
      (List.prefix_refl _) (List.prefix_refl _) (List.prefix_refl _)

/-- The corner loop of one face, with the deduplication invariant. -/
theorem dedupInv_cornerLoop (M : MuMath float2 float3) (hM : M.Reflexive) (kind : KeyKind)
    (nc tc uc : Bool) (R r : TopologyRefiner float2 float3 float4)
    (hR : Connected R) (hV : ValidSoup R) (hinv : RefineInv R r)
    (hd : DedupInv M kind nc tc uc R r) (off : Nat)
    (hoff : off = r.new_indices.length) (n : Nat) (hn : off + n ≤ R.indices.length) :
    DedupInv M kind nc tc uc R (forLoop n (refineCorner (keyBody M kind nc tc uc) off
        (back r.splits).offset_points) r) := by
  induction n with
  | zero => exact hd
  | succ n ih =>
    have i0 := ih (by omega)
    obtain ⟨i1, i2, i3⟩ := refineInv_cornerLoop M kind nc tc uc R r hR hV hinv off hoff n
      (by omega)
    rw [forLoop_succ]
    generalize forLoop n (refineCorner (keyBody M kind nc tc uc) off
        (back r.splits).offset_points) r = t at i0 i1 i2 i3
    have := dedupInv_corner M hM kind nc tc uc R t hR hV i1 i0 off n i3.symm (by omega)
    rw [i2] at this
    exact this

/-- One face of `doRefine` preserves both invariants; without a split unit no
split is added. -/
theorem dedupInv_face (M : MuMath float2 float3) (hM : M.Reflexive) (kind : KeyKind)
    (nc tc uc : Bool) (R r : TopologyRefiner float2 float3 float4)
    (hR : Connected R) (hV : ValidSoup R) (fi : Nat) (hfi : fi < R.counts.length)
    (hinv : RefineInv R r) (hd : DedupInv M kind nc tc uc R r)
    (hlen : r.new_indices.length = (R.counts.take fi).sum)
    (hns : R.split_unit ≤ 0 → r.splits.length = 1 ∧ (back r.splits).offset_points = 0 ∧
      (back r.splits).offset_indices = 0) :
    DedupInv M kind nc tc uc R (refineFace (keyBody M kind nc tc uc) fi r) ∧
      (R.split_unit ≤ 0 → (refineFace (keyBody M kind nc tc uc) fi r).splits.length = 1 ∧
        (back (refineFace (keyBody M kind nc tc uc) fi r).splits).offset_points = 0 ∧
        (back (refineFace (keyBody M kind nc tc uc) fi r).splits).offset_indices = 0) := by
  obtain ⟨e1, e2, -, -, -, -, -, -, -, -, -, e12, -⟩ := inputs_fields hinv.inputs
  unfold refineFace
  simp only []
  generalize hr1 : (if r.split_unit > 0 ∧
      (r.new_points.length : Int) - (back r.splits).offset_points + (r.counts.getD fi 0 : Nat) >
        r.split_unit then addSplit r else r) = r1
  have h1 : RefineInv R r1 ∧ DedupInv M kind nc tc uc R r1 ∧ r1.new_indices = r.new_indices ∧
      (R.split_unit ≤ 0 → r1.splits = r.splits) := by
    rw [← hr1]; split
    · rename_i hc
      exact ⟨refineInv_addSplit R r hinv, dedupInv_addSplit M kind nc tc uc R r hinv hd, rfl,
        fun h => by rw [e12] at hc; omega⟩
    · exact ⟨hinv, hd, rfl, fun _ => rfl⟩
  obtain ⟨h1, h1d, h1', h1s⟩ := h1
  have hoff : r.offsets.getD fi 0 = r1.new_indices.length := by
    rw [e2, hV.offsets_eq fi hfi, h1', hlen]
  have hle := take_sum_add_le R.counts fi hfi
  rw [hV.counts_sum] at hle
  have hbound : r.offsets.getD fi 0 + r.counts.getD fi 0 ≤ R.indices.length := by
    rw [hoff, h1', hlen, e1]; exact hle
  obtain ⟨g1, g2, g3⟩ := refineInv_cornerLoop M kind nc tc uc R r1 hR hV h1 (r.offsets.getD fi 0)
    hoff (r.counts.getD fi 0) hbound
  have g0 := dedupInv_cornerLoop M hM kind nc tc uc R r1 hR hV h1 h1d (r.offsets.getD fi 0)
    hoff (r.counts.getD fi 0) hbound
  generalize forLoop (r.counts.getD fi 0)
    (refineCorner (keyBody M kind nc tc uc) (r.offsets.getD fi 0) (back r1.splits).offset_points)
    r1 = r2 at g0 g1 g2 g3
  refine ⟨dedupInv_modifyBack M kind nc tc uc R r2 g1 g0 _ (fun _ => rfl) (fun _ => rfl), ?_⟩
  intro hsu
  obtain ⟨n1, n2, n3⟩ := hns hsu
  have hsp2 : r2.splits = r.splits := g2.trans (h1s hsu)
  show (modifyBack _ r2.splits).length = 1 ∧ (back (modifyBack _ r2.splits)).offset_points = 0 ∧
    (back (modifyBack _ r2.splits)).offset_indices = 0
  rw [hsp2]
  rcases eq_nil_or_snoc r.splits with h0 | ⟨done, cur, hs⟩
  · rw [h0] at n1; simp at n1
  · rw [hs, back_concat] at n2 n3
    rw [hs, modifyBack_concat, back_concat]
    refine ⟨by rw [hs] at n1; simpa using n1, n2, n3⟩

theorem dedupInv_begin (M : MuMath float2 float3) (kind : KeyKind) (nc tc uc : Bool)
    (r : TopologyRefiner float2 float3 float4) (hf : Fresh r) :
    DedupInv M kind nc tc uc (buildConnection r) (beginRefine (buildConnection r)) ∧
    (beginRefine (buildConnection r)).splits.length = 1 ∧
    (back (beginRefine (buildConnection r)).splits).offset_points = 0 ∧
    (back (beginRefine (buildConnection r)).splits).offset_indices = 0 := by
  obtain ⟨b1, -, -, -, -, b6, b7, -, -, -⟩ := buildConnection_frame r
  have hsp : (beginRefine (buildConnection r)).splits = [] ++ [({} : Split)] := by
    show (buildConnection r).splits ++ [({} : Split)] = _
    rw [b1, hf.splits]
  have hnil : (beginRefine (buildConnection r)).new_indices.length = 0 := by
    show (buildConnection r).new_indices.length = 0
    rw [b7, hf.new_indices]; rfl
  have hbn : (buildConnection r).new_normals = r.new_normals := by
    unfold buildConnection; split <;> rfl
  have hbu : (buildConnection r).new_uv = r.new_uv := by
    unfold buildConnection; split <;> rfl
  have hp : (beginRefine (buildConnection r)).new_points = [] := by
    show (buildConnection r).new_points = []
    rw [b6, hf.new_points]
  have hn : (beginRefine (buildConnection r)).new_normals = [] := by
    show (buildConnection r).new_normals = []
    rw [hbn, hf.new_normals]
  have hu : (beginRefine (buildConnection r)).new_uv = [] := by
    show (buildConnection r).new_uv = []
    rw [hbu, hf.new_uv]
  refine ⟨⟨?_, ?_, ?_, ?_⟩, by rw [hsp]; rfl, by rw [hsp]; rfl, by rw [hsp]; rfl⟩
  · cases kind <;> simp only [Parallel, hp, hn, hu] <;> simp
  · intro k hk1 hk2
    rw [hnil] at hk2; omega
  · rw [hsp, back_concat, hnil]
    constructor
    · intro k hk1 hk2
      have h1 : (0 : Int) ≤ k := hk1
      have h2 : (k : Int) < 0 + (((0 : Nat) : Int) - 0) := hk2
      omega
    · intro k k' hk1 hk2
      have h1 : (0 : Int) ≤ k := hk1
      have h2 : (k : Int) < 0 + (((0 : Nat) : Int) - 0) := hk2
      omega
  · rw [hsp]; intro s hs; simp at hs



/-- The state at the end of the face loop of `doRefine`. -/
theorem faceLoop_final (M : MuMath float2 float3) (hM : M.Reflexive) (kind : KeyKind)
    (nc tc uc : Bool) (r : TopologyRefiner float2 float3 float4) (hf : Fresh r)
    (hv : ValidSoup r) :
    RefineInv (buildConnection r)
      (forLoop (buildConnection r).counts.length (refineFace (keyBody M kind nc tc uc))
        (beginRefine (buildConnection r))) ∧
    DedupInv M kind nc tc uc (buildConnection r)
      (forLoop (buildConnection r).counts.length (refineFace (keyBody M kind nc tc uc))
        (beginRefine (buildConnection r))) ∧
    (forLoop (buildConnection r).counts.length (refineFace (keyBody M kind nc tc uc))
        (beginRefine (buildConnection r))).new_indices.length = r.indices.length ∧
    ((buildConnection r).split_unit ≤ 0 →
      (forLoop (buildConnection r).counts.length (refineFace (keyBody M kind nc tc uc))
        (beginRefine (buildConnection r))).splits.length = 1 ∧
      (back (forLoop (buildConnection r).counts.length (refineFace (keyBody M kind nc tc uc))
        (beginRefine (buildConnection r))).splits).offset_points = 0 ∧
      (back (forLoop (buildConnection r).counts.length (refineFace (keyBody M kind nc tc uc))
        (beginRefine (buildConnection r))).splits).offset_indices = 0) := by
  have hR := buildConnection_connected r hf hv
  have hV := validSoup_buildConnection r hv
  obtain ⟨h0, h0'⟩ := refineInv_begin r hf
  obtain ⟨d0, n1, n2, n3⟩ := dedupInv_begin M kind nc tc uc r hf
  have h3 := forLoop_inv
    (fun fi t => RefineInv (buildConnection r) t ∧ DedupInv M kind nc tc uc (buildConnection r) t ∧
      t.new_indices.length = ((buildConnection r).counts.take fi).sum ∧
      ((buildConnection r).split_unit ≤ 0 → t.splits.length = 1 ∧
        (back t.splits).offset_points = 0 ∧ (back t.splits).offset_indices = 0))
    (buildConnection r).counts.length (refineFace (keyBody M kind nc tc uc))
    (beginRefine (buildConnection r)) ⟨h0, d0, by rw [h0']; simp, fun _ => ⟨n1, n2, n3⟩⟩
    (fun fi t hfi hP =>
      ⟨(refineInv_face M kind nc tc uc _ t hR hV fi hfi hP.1 hP.2.2.1).1,
        (dedupInv_face M hM kind nc tc uc _ t hR hV fi hfi hP.1 hP.2.1 hP.2.2.1 hP.2.2.2).1,
        (refineInv_face M kind nc tc uc _ t hR hV fi hfi hP.1 hP.2.2.1).2,
        (dedupInv_face M hM kind nc tc uc _ t hR hV fi hfi hP.1 hP.2.1 hP.2.2.1 hP.2.2.2).2⟩)
  obtain ⟨a, b, c, d⟩ := h3
  refine ⟨a, b, ?_, d⟩
  rw [c, take_sum_length, hV.counts_sum, (buildConnection_frame r).2.2.1]

/-- After `doRefine` on a fresh refiner over a valid soup every chunk
satisfies the deduplication facts. -/
theorem doRefine_dedup (M : MuMath float2 float3) (hM : M.Reflexive) (kind : KeyKind)
    (nc tc uc : Bool) (r : TopologyRefiner float2 float3 float4) (hf : Fresh r)
    (hv : ValidSoup r) :
    ∀ s ∈ (doRefine (keyBody M kind nc tc uc) r).splits,
      ChunkDedup M kind nc tc uc (buildConnection r) (doRefine (keyBody M kind nc tc uc) r)
        s.offset_points s.offset_indices s.num_indices := by
  have hd : doRefine (keyBody M kind nc tc uc) r = triangulateSplits (closeSplit
      (forLoop (buildConnection r).counts.length
        (refineFace (keyBody M kind nc tc uc)) (beginRefine (buildConnection r)))) := rfl
  rw [hd]
  obtain ⟨h3, d3, -, -⟩ := faceLoop_final M hM kind nc tc uc r hf hv
  generalize forLoop (buildConnection r).counts.length (refineFace (keyBody M kind nc tc uc))
    (beginRefine (buildConnection r)) = r3 at h3 d3
  obtain ⟨t1, t2, t3, -, t5, t6⟩ := triangulateSplits_other (closeSplit r3)
  rcases eq_nil_or_snoc r3.splits with h0 | ⟨done, cur, hs⟩
  · exact absurd h0 h3.nonempty
  have hc := h3.current
  have hcl := h3.closed
  have dc := d3.current
  have dcl := d3.closed
  rw [hs, back_concat] at hc dc
  rw [hs, List.dropLast_concat] at hcl dcl
  have hcs : (closeSplit r3).splits = done ++ [{ cur with
      num_points := (r3.new_points.length : Int) - cur.offset_points
      num_indices := (r3.new_indices.length : Int) - cur.offset_indices }] := by
    simp only [closeSplit, hs, modifyBack_concat]
  rw [t1, hcs]
  have hpi : r3.new_indices <+: (triangulateSplits (closeSplit r3)).new_indices := by
    rw [t3]; exact List.prefix_refl _
  have hpp : r3.new_points <+: (triangulateSplits (closeSplit r3)).new_points := by
    rw [t2]; exact List.prefix_refl _
  have hpn : r3.new_normals <+: (triangulateSplits (closeSplit r3)).new_normals := by
    rw [t5]; exact List.prefix_refl _
  have hpu : r3.new_uv <+: (triangulateSplits (closeSplit r3)).new_uv := by
    rw [t6]; exact List.prefix_refl _
  intro s hs'
  rcases List.mem_append.mp hs' with hs' | hs'
  · exact chunkDedup_mono M kind nc tc uc (dcl s hs') (hcl s hs') d3.parallel hpi hpp hpn hpu
  · simp only [List.mem_singleton] at hs'
    subst hs'
    exact chunkDedup_mono M kind nc tc uc dc hc d3.parallel hpi hpp hpn hpu

end Dedup

/-! ## What deduplication guarantees -/

section DedupClaims

variable [Inhabited float2] [Inhabited float3] [Inhabited float4]

omit [Inhabited float2] [Inhabited float3] [Inhabited float4] in
theorem buildConnection_attrs (r : TopologyRefiner float2 float3 float4) :
    (buildConnection r).normals = r.normals ∧ (buildConnection r).uv = r.uv ∧
    (buildConnection r).tangents = r.tangents ∧
    (buildConnection r).new_normals = r.new_normals ∧ (buildConnection r).new_uv = r.new_uv := by
  unfold buildConnection
  split <;> simp

theorem gridMath_reflexive (eps : Int) (h : 0 < eps) : (gridMath eps).Reflexive := by
  constructor
  · intro a; simp [gridMath, h]
  · intro a; simp [gridMath, h]

theorem sampleFan_fresh (n0 n3 n6 n9 : Int × Int × Int) : Fresh (sampleFan n0 n3 n6 n9) := by
  constructor <;> rfl

theorem sampleFan_valid (n0 n3 n6 n9 : Int × Int × Int) : ValidSoup (sampleFan n0 n3 n6 n9) := by
  constructor
  · intro k hk
    have hk' : k < 12 := hk
    show ([0, 1, 2, 0, 2, 3, 0, 3, 4, 0, 4, 1] : List Nat).getD k 0 < 5
    interval_cases k <;> decide
  · rfl
  · intro fi hfi
    have hfi' : fi < 4 := hfi
    interval_cases fi <;> rfl
  · rfl

theorem sampleFan_recognised (n0 n3 n6 n9 : Int × Int × Int) :
    Recognised (sampleFan n0 n3 n6 n9) := by
  constructor
  · intro _; right; rfl
  · intro _; left; rfl

theorem sampleFan_kind (n0 n3 n6 n9 : Int × Int × Int) :
    kindOf (sampleFan n0 n3 n6 n9) = KeyKind.PNU := rfl

/-- C3, as stated, fails: in the fan with normals `0`, `15`, `8`, `16` at
point `0` (tolerance `10`), the corners `6` and `9` lie in the one chunk,
reference the same point and have near-equal normals and uv, yet `refine`
gives them different refined vertices (corner `6` matches the vertex of corner
`0`, corner `9` the vertex of corner `3`). -/
theorem refine_merge_counterexample :
    (refine (gridMath 10) sampleFanChain).2.splits.length = 1 ∧
    sampleFanChain.indices.getD 6 0 = sampleFanChain.indices.getD 9 0 ∧
    (gridMath 10).near_equal3 (sampleFanChain.normals.getD 6 default)
      (sampleFanChain.normals.getD 9 default) = true ∧
    (gridMath 10).near_equal2 (sampleFanChain.uv.getD (sampleFanChain.indices.getD 6 0) default)
      (sampleFanChain.uv.getD (sampleFanChain.indices.getD 9 0) default) = true ∧
    (refine (gridMath 10) sampleFanChain).2.new_indices.getD 6 0 ≠
      (refine (gridMath 10) sampleFanChain).2.new_indices.getD 9 0 := by
  decide

/-- C3, amended: after `refine` (near-equality reflexive, fresh refiner, valid
soup, recognised cardinalities, any key), two corners of the same chunk that
reference the same point id and carry identical normal and uv values are given
the same refined vertex id. -/
theorem refine_merges_identical (M : MuMath float2 float3) (hM : M.Reflexive)
    (r : TopologyRefiner float2 float3 float4) (hfresh : Fresh r) (hvalid : ValidSoup r)
    (hrec : Recognised r) :
    ∀ s ∈ (refine M r).2.splits, ∀ i j : Nat,
      s.offset_indices ≤ i → (i : Int) < s.offset_indices + s.num_indices →
      s.offset_indices ≤ j → (j : Int) < s.offset_indices + s.num_indices →
      r.indices.getD i 0 = r.indices.getD j 0 →
      r.normals.getD (bif normalsByCorner r then i else r.indices.getD i 0) default =
        r.normals.getD (bif normalsByCorner r then j else r.indices.getD j 0) default →
      r.uv.getD (bif uvByCorner r then i else r.indices.getD i 0) default =
        r.uv.getD (bif uvByCorner r then j else r.indices.getD j 0) default →
      (refine M r).2.new_indices.getD i 0 = (refine M r).2.new_indices.getD j 0 := by
  rw [refine_eq_doRefine M r hrec]
  intro s hs i j hi1 hi2 hj1 hj2 hidx hn hu
  have h := doRefine_dedup M hM (kindOf r) (normalsByCorner r) (tangentsByCorner r)
    (uvByCorner r) r hfresh hvalid s hs
  obtain ⟨-, -, b3, b4, -⟩ := buildConnection_frame r
  obtain ⟨a1, a2, a3, -, -⟩ := buildConnection_attrs r
  refine h.pair i j hi1 hi2 hj1 hj2 (by rw [b3]; exact hidx) ?_
  intro x ni
  rw [b3, ← hidx]
  cases kindOf r <;>
    simp only [cornerKey, VertexKey.test, a1, a2, a3, b4, hn, hu, ← hidx]

theorem refine_merges_identical_witness :
    Split.mk 0 0 0 4 5 12 12 ∈ (refine (gridMath 10) sampleFanSpread).2.splits ∧
    sampleFanSpread.indices.getD 0 0 = sampleFanSpread.indices.getD 9 0 ∧
    sampleFanSpread.normals.getD 0 default = sampleFanSpread.normals.getD 9 default ∧
    (refine (gridMath 10) sampleFanSpread).2.new_indices.getD 0 0 =
      (refine (gridMath 10) sampleFanSpread).2.new_indices.getD 9 0 :=
  ⟨by decide, by decide, by decide,
    refine_merges_identical (gridMath 10) (gridMath_reflexive 10 (by decide)) sampleFanSpread
      (sampleFan_fresh _ _ _ _) (sampleFan_valid _ _ _ _) (sampleFan_recognised _ _ _ _)
      (Split.mk 0 0 0 4 5 12 12) (by decide) 0 9 (by decide) (by decide) (by decide) (by decide)
      (by decide) (by decide) (by decide)⟩

/-- C4, as stated, fails: in the fan with normals `0`, `9`, `-9`, `0` at point
`0` (tolerance `10`), the corners `3` and `6` lie in the one chunk and
reference the same point, and their normals differ by `18`, more than the
tolerance, yet `refine` gives both the refined vertex of corner `0`. -/
theorem refine_separate_counterexample :
    (refine (gridMath 10) sampleFanSpread).2.splits.length = 1 ∧
    sampleFanSpread.indices.getD 3 0 = sampleFanSpread.indices.getD 6 0 ∧
    (gridMath 10).near_equal3 (sampleFanSpread.normals.getD 3 default)
      (sampleFanSpread.normals.getD 6 default) = false ∧
    (refine (gridMath 10) sampleFanSpread).2.new_indices.getD 3 0 =
      (refine (gridMath 10) sampleFanSpread).2.new_indices.getD 6 0 := by
  decide

/-- C4, amended: after `refine` with the {position, normal, uv} key
(near-equality reflexive, fresh refiner, valid soup), for two corners `i` and
`j` of the same chunk that reference the same point id: if the normal or the
uv of `j` is not near-equal to the normal or uv stored in the refined vertex
given to `i`, then `i` and `j` are given different refined vertex ids. -/
theorem refine_separates_from_stored (M : MuMath float2 float3) (hM : M.Reflexive)
    (r : TopologyRefiner float2 float3 float4) (hfresh : Fresh r) (hvalid : ValidSoup r)
    (hrec : Recognised r) (hkind : kindOf r = KeyKind.PNU) :
    ∀ s ∈ (refine M r).2.splits, ∀ i j : Nat,
      s.offset_indices ≤ i → (i : Int) < s.offset_indices + s.num_indices →
      s.offset_indices ≤ j → (j : Int) < s.offset_indices + s.num_indices →
      r.indices.getD i 0 = r.indices.getD j 0 →
      (M.near_equal3
          ((refine M r).2.new_normals.getD
            (s.offset_points + (refine M r).2.new_indices.getD i 0).toNat default)
          (r.normals.getD (bif normalsByCorner r then j else r.indices.getD j 0) default) = false ∨
        M.near_equal2
          ((refine M r).2.new_uv.getD
            (s.offset_points + (refine M r).2.new_indices.getD i 0).toNat default)
          (r.uv.getD (bif uvByCorner r then j else r.indices.getD j 0) default) = false) →
      (refine M r).2.new_indices.getD i 0 ≠ (refine M r).2.new_indices.getD j 0 := by
  rw [refine_eq_doRefine M r hrec]
  intro s hs i j hi1 hi2 hj1 hj2 _ hfar heq
  have h := doRefine_dedup M hM (kindOf r) (normalsByCorner r) (tangentsByCorner r)
    (uvByCorner r) r hfresh hvalid s hs
  obtain ⟨-, -, b3, b4, -⟩ := buildConnection_frame r
  obtain ⟨a1, a2, a3, -, -⟩ := buildConnection_attrs r
  have ht := h.test j hj1 hj2
  rw [← heq, hkind] at ht
  rw [hkind] at hfar
  simp only [cornerKey, VertexKey.test, a1, a2, b3, b4, Bool.and_eq_true] at ht
  rcases hfar with hf | hf
  · rw [ht.1.2] at hf; exact absurd hf (by simp)
  · rw [ht.2] at hf; exact absurd hf (by simp)

theorem refine_separates_from_stored_witness :
    Split.mk 0 0 0 4 6 12 12 ∈ (refine (gridMath 10) sampleFanChain).2.splits ∧
    sampleFanChain.indices.getD 0 0 = sampleFanChain.indices.getD 3 0 ∧
    (gridMath 10).near_equal3
      ((refine (gridMath 10) sampleFanChain).2.new_normals.getD
        (0 + (refine (gridMath 10) sampleFanChain).2.new_indices.getD 0 0).toNat default)
      (sampleFanChain.normals.getD 3 default) = false ∧
    (refine (gridMath 10) sampleFanChain).2.new_indices.getD 0 0 ≠
      (refine (gridMath 10) sampleFanChain).2.new_indices.getD 3 0 :=
  ⟨by decide, by decide, by decide,
    refine_separates_from_stored (gridMath 10) (gridMath_reflexive 10 (by decide))
      sampleFanChain (sampleFan_fresh _ _ _ _) (sampleFan_valid _ _ _ _)
      (sampleFan_recognised _ _ _ _) (sampleFan_kind _ _ _ _)
      (Split.mk 0 0 0 4 6 12 12) (by decide) 0 3 (by decide) (by decide) (by decide) (by decide)
      (by decide) (Or.inl (by decide))⟩

end DedupClaims

/-! ## A second `refine` -/

section Again

variable [Inhabited float2] [Inhabited float3] [Inhabited float4]

omit [Inhabited float4] in
/-- A lookup that has a match returns it and changes nothing. -/
theorem findOrAddVertex_of_matchAt (M : MuMath float2 float3)
    (r : TopologyRefiner float2 float3 float4) (vi : Nat) (key : VertexKey float2 float3 float4)
    (hc : Connected r) (hvi : vi < r.points.length) (v : Int)
    (hm : MatchAt r.old2new (key.test M r) (cornersOf r.indices vi) v) :
    findOrAddVertex M r vi key = (r, v) := by
  rcases findOrAddVertex_spec M r vi key hc hvi with ⟨hall, -⟩ | ⟨v', hm', hres⟩ |
    ⟨pre, s, post, hdec, hpre, hs, -⟩
  · obtain ⟨s, hs, hsv, hne, ht⟩ := matchAt_mem hm
    have := (hall s hs).2
    rw [hsv, ht] at this
    exact absurd this (by simp)
  · rw [hres, matchAt_unique hm hm']
  · exact (matchAt_claim_absurd hm pre s post hdec hpre hs).elim

omit [Inhabited float2] [Inhabited float3] [Inhabited float4] in
theorem take_succ_getD (l : List Int) (k : Nat) (h : k < l.length) :
    l.take (k + 1) = l.take k ++ [l.getD k 0] := by
  rw [List.take_succ]
  simp [List.getD_eq_getElem?_getD, List.getElem?_eq_getElem h]

/-- One corner of the second run. -/
theorem againInv_corner (M : MuMath float2 float3) (kind : KeyKind) (nc tc uc : Bool)
    (r1 t : TopologyRefiner float2 float3 float4) (fi : Nat)
    (hc : Connected r1) (hV : ValidSoup r1)
    (hlen : r1.new_indices.length = r1.indices.length)
    (hstable : ∀ k, k < r1.indices.length →
      MatchAt r1.old2new ((cornerKey kind nc tc uc r1 (r1.indices.getD k 0) k).test M r1)
        (cornersOf r1.indices (r1.indices.getD k 0)) (r1.new_indices.getD k 0))
    (off ci : Nat) (hk : off + ci < r1.indices.length) (h : AgainInv r1 t fi (off + ci)) :
    AgainInv r1 (refineCorner (keyBody M kind nc tc uc) off 0 ci t) fi (off + (ci + 1)) := by
  obtain ⟨h1, h2, h3, h4, h5, h6, h7⟩ := h
  obtain ⟨-, -, e3, e4, -⟩ := inputs_fields h1
  have hct : Connected t := connected_of_inputs h1 hc
  have hm : MatchAt t.old2new
      ((cornerKey kind nc tc uc t (t.indices.getD (off + ci) 0) (off + ci)).test M t)
      (cornersOf t.indices (t.indices.getD (off + ci) 0)) (r1.new_indices.getD (off + ci) 0) := by
    rw [cornerKey_inputs kind nc tc uc h1, e3, h2, test_congr M _ r1 t h3 h4 h5]
    exact hstable _ hk
  have hres := findOrAddVertex_of_matchAt M t (t.indices.getD (off + ci) 0) _ hct
    (by rw [e3, e4]; exact hV.index_lt _ hk) _ hm
  have hunf : refineCorner (keyBody M kind nc tc uc) off 0 ci t =
      { (findOrAddVertex M t (t.indices.getD (off + ci) 0)
          (cornerKey kind nc tc uc t (t.indices.getD (off + ci) 0) (off + ci))).1 with
        new_indices := (findOrAddVertex M t (t.indices.getD (off + ci) 0)
            (cornerKey kind nc tc uc t (t.indices.getD (off + ci) 0) (off + ci))).1.new_indices ++
          [(findOrAddVertex M t (t.indices.getD (off + ci) 0)
            (cornerKey kind nc tc uc t (t.indices.getD (off + ci) 0) (off + ci))).2 - 0] } := rfl
  rw [hunf, hres]
  refine ⟨h1, h2, h3, h4, h5, ?_, h7⟩
  show t.new_indices ++ [r1.new_indices.getD (off + ci) 0 - 0] = _
  rw [h6, ← Nat.add_assoc, take_succ_getD _ _ (by omega), Int.sub_zero, List.append_assoc]

theorem againInv_cornerLoop (M : MuMath float2 float3) (kind : KeyKind) (nc tc uc : Bool)
    (r1 t : TopologyRefiner float2 float3 float4) (fi : Nat)
    (hc : Connected r1) (hV : ValidSoup r1)
    (hlen : r1.new_indices.length = r1.indices.length)
    (hstable : ∀ k, k < r1.indices.length →
      MatchAt r1.old2new ((cornerKey kind nc tc uc r1 (r1.indices.getD k 0) k).test M r1)
        (cornersOf r1.indices (r1.indices.getD k 0)) (r1.new_indices.getD k 0))
    (off : Nat) (h : AgainInv r1 t fi off) (c : Nat) (hk : off + c ≤ r1.indices.length) :
    AgainInv r1 (forLoop c (refineCorner (keyBody M kind nc tc uc) off 0) t) fi (off + c) := by
  induction c with
  | zero => exact h
  | succ c ih =>
    rw [forLoop_succ]
    exact againInv_corner M kind nc tc uc r1 _ fi hc hV hlen hstable off c (by omega)
      (ih (by omega))

/-- One face of the second run. -/
theorem againInv_face (M : MuMath float2 float3) (kind : KeyKind) (nc tc uc : Bool)
    (r1 t : TopologyRefiner float2 float3 float4) (fi : Nat)
    (hc : Connected r1) (hV : ValidSoup r1) (hsu : r1.split_unit ≤ 0)
    (hlen : r1.new_indices.length = r1.indices.length)
    (hstable : ∀ k, k < r1.indices.length →
      MatchAt r1.old2new ((cornerKey kind nc tc uc r1 (r1.indices.getD k 0) k).test M r1)
        (cornersOf r1.indices (r1.indices.getD k 0)) (r1.new_indices.getD k 0))
    (hfi : fi < r1.counts.length) (h : AgainInv r1 t fi (r1.counts.take fi).sum) :
    AgainInv r1 (refineFace (keyBody M kind nc tc uc) fi t) (fi + 1)
      (r1.counts.take (fi + 1)).sum := by
  obtain ⟨e1, e2, -, -, -, -, -, -, -, -, -, e12, -⟩ := inputs_fields h.inputs
  obtain ⟨cur, hs, hc0, hct⟩ := h.splits
  have hle := take_sum_add_le r1.counts fi hfi
  rw [hV.counts_sum] at hle
  unfold refineFace
  simp only []
  rw [if_neg (by rw [e12]; omega)]
  have hsp : (back t.splits).offset_points = 0 := by rw [hs, back_concat]; exact hc0
  rw [hsp, e1, e2, hV.offsets_eq fi hfi]
  have g := againInv_cornerLoop M kind nc tc uc r1 t fi hc hV hlen hstable _ h
    (r1.counts.getD fi 0) hle
  have gs := (cornerLoop_inputs (keyBody M kind nc tc uc) (frame_keyBody M kind nc tc uc)
    (r1.counts.take fi).sum 0 (r1.counts.getD fi 0) t).2
  generalize forLoop (r1.counts.getD fi 0)
    (refineCorner (keyBody M kind nc tc uc) (r1.counts.take fi).sum 0) t = t2 at g gs
  obtain ⟨h1, h2, h3, h4, h5, h6, -⟩ := g
  refine ⟨h1, h2, h3, h4, h5, ?_, ?_⟩
  · rw [take_sum_succ r1.counts fi hfi]; exact h6
  · refine ⟨Split.mk cur.offset_faces cur.offset_points cur.offset_indices (cur.num_faces + 1)
      cur.num_points cur.num_indices
      (cur.num_indices_triangulated + ((r1.counts.getD fi 0 : Nat) - 2) * 3), ?_, hc0, ?_⟩
    · show modifyBack _ t2.splits = _
      rw [gs, hs, modifyBack_concat]
    · show cur.num_indices_triangulated + ((r1.counts.getD fi 0 : Nat) - 2) * 3 = _
      rw [hct, triCount_succ r1.counts 0 fi (by omega), Nat.zero_add]



omit [Inhabited float2] [Inhabited float3] [Inhabited float4] in
/-- After `buildConnection` on a valid soup the memoisation test holds. -/
theorem buildConnection_memo (r : TopologyRefiner float2 float3 float4) (hv : ValidSoup r) :
    (buildConnection r).v2f_counts.length = (buildConnection r).points.length := by
  by_cases h : r.v2f_counts.length = r.points.length
  · have : buildConnection r = r := by unfold buildConnection; rw [if_pos h]
    rw [this]; exact h
  · rw [(buildConnection_spec r hv h).1, (buildConnection_frame r).2.2.2.1]

omit [Inhabited float2] [Inhabited float3] [Inhabited float4] in
theorem buildConnection_of_memo (r : TopologyRefiner float2 float3 float4)
    (h : r.v2f_counts.length = r.points.length) : buildConnection r = r := by
  unfold buildConnection; rw [if_pos h]

/-- A second `doRefine` without split unit adds no refined vertex and appends
the index entries of the first run once more. -/
theorem doRefine_again (M : MuMath float2 float3) (hM : M.Reflexive) (kind : KeyKind)
    (nc tc uc : Bool) (r : TopologyRefiner float2 float3 float4) (hf : Fresh r)
    (hv : ValidSoup r) (hsu : r.split_unit ≤ 0) :
    (doRefine (keyBody M kind nc tc uc) (doRefine (keyBody M kind nc tc uc) r)).new_points =
      (doRefine (keyBody M kind nc tc uc) r).new_points ∧
    (doRefine (keyBody M kind nc tc uc) (doRefine (keyBody M kind nc tc uc) r)).new_indices =
      (doRefine (keyBody M kind nc tc uc) r).new_indices ++
        (doRefine (keyBody M kind nc tc uc) r).new_indices ∧
    (r.triangulate = true →
      (doRefine (keyBody M kind nc tc uc)
        (doRefine (keyBody M kind nc tc uc) r)).new_indices_triangulated.length =
        (2 * triCount r.counts 0 r.counts.length).toNat) := by
  -- the first run
  obtain ⟨s1, s2, s3, -, -, s6, -⟩ := doRefine_splits (keyBody M kind nc tc uc)
    (frame_keyBody M kind nc tc uc) r hf.splits
  have hsum1 : ((doRefine (keyBody M kind nc tc uc) r).splits.map
      Split.num_indices_triangulated).sum = triCount r.counts 0 r.counts.length := by
    have := (sum_tri_of_contiguous r.counts _ 0 0 0 (le_refl _) s2 s6).1
    rw [this, s3]; rfl
  have hd1 : doRefine (keyBody M kind nc tc uc) r = triangulateSplits (closeSplit
      (forLoop (buildConnection r).counts.length
        (refineFace (keyBody M kind nc tc uc)) (beginRefine (buildConnection r)))) := rfl
  obtain ⟨h3, d3, hlen3, hns⟩ := faceLoop_final M hM kind nc tc uc r hf hv
  have hR := buildConnection_connected r hf hv
  have hV := validSoup_buildConnection r hv
  obtain ⟨b1, b2, b3, b4, b5, -, -, -, b9, b10⟩ := buildConnection_frame r
  obtain ⟨n1, n2, n3⟩ := hns (by rw [b10]; exact hsu)
  have hmemo := buildConnection_memo r hv
  rw [hd1] at hsum1 ⊢
  generalize forLoop (buildConnection r).counts.length (refineFace (keyBody M kind nc tc uc))
    (beginRefine (buildConnection r)) = r3 at h3 d3 hlen3 n1 n2 n3 hsum1 ⊢
  obtain ⟨t1, t2, t3, t4, t5, t6⟩ := triangulateSplits_other (closeSplit r3)
  have hin1 : inputs (triangulateSplits (closeSplit r3)) = inputs (buildConnection r) :=
    (triangulateSplits_inputs _).trans ((closeSplit_inputs r3).trans h3.inputs)
  generalize hr1 : triangulateSplits (closeSplit r3) = r1 at t1 t2 t3 t4 t5 t6 hin1 hsum1 ⊢
  have o1 : r1.old2new = r3.old2new := t4
  have o2 : r1.new_points = r3.new_points := t2
  have o3 : r1.new_indices = r3.new_indices := t3
  have o4 : r1.new_normals = r3.new_normals := t5
  have o5 : r1.new_uv = r3.new_uv := t6
  obtain ⟨e1, e2, e3, e4, -, -, -, e8, -, -, -, e12, e13⟩ := inputs_fields hin1
  have hc1 : Connected r1 := connected_of_inputs hin1 hR
  have hV1 : ValidSoup r1 := validSoup_of_inputs hin1 hV
  have hlen1 : r1.new_indices.length = r1.indices.length := by rw [o3, hlen3, e3, b3]
  have hsu1 : r1.split_unit ≤ 0 := by rw [e12, b10]; exact hsu
  have hstable : ∀ k, k < r1.indices.length →
      MatchAt r1.old2new ((cornerKey kind nc tc uc r1 (r1.indices.getD k 0) k).test M r1)
        (cornersOf r1.indices (r1.indices.getD k 0)) (r1.new_indices.getD k 0) := by
    intro k hk
    have := d3.stable k (by rw [n3]; omega) (by rw [← o3, hlen1]; exact hk)
    rw [n2, Int.zero_add] at this
    rw [cornerKey_inputs kind nc tc uc hin1, e3, o1, o3, test_congr M _ r3 r1 o2 o4 o5]
    exact this
  -- the second run
  have hbc : buildConnection r1 = r1 := buildConnection_of_memo r1 (by rw [e8, e4]; exact hmemo)
  have hd2 : doRefine (keyBody M kind nc tc uc) r1 = triangulateSplits (closeSplit
      (forLoop (buildConnection r1).counts.length
        (refineFace (keyBody M kind nc tc uc)) (beginRefine (buildConnection r1)))) := rfl
  rw [hd2, hbc]
  have h0 : AgainInv r1 (beginRefine r1) 0 (r1.counts.take 0).sum := by
    refine ⟨rfl, ?_, rfl, rfl, rfl, ?_, ⟨{}, rfl, rfl, ?_⟩⟩
    · show resize r1.old2new r1.indices.length (-1) = r1.old2new
      have : r1.old2new.length = r1.indices.length := by rw [o1, h3.len_old2new, e3]
      rw [← this, resize_eq_self]
    · show r1.new_indices = r1.new_indices ++ _
      simp
    · rw [triCount_zero]
  have hloop := forLoop_inv (fun fi t => AgainInv r1 t fi (r1.counts.take fi).sum)
    r1.counts.length (refineFace (keyBody M kind nc tc uc)) (beginRefine r1) h0
    (fun fi t hfi hP => againInv_face M kind nc tc uc r1 t fi hc1 hV1 hsu1 hlen1 hstable hfi hP)
  generalize forLoop r1.counts.length (refineFace (keyBody M kind nc tc uc))
    (beginRefine r1) = t3 at hloop
  obtain ⟨g1, g2, g3, g4, g5, g6, cur, g7, g8, g9⟩ := hloop
  obtain ⟨u1, u2, u3, -, -, -⟩ := triangulateSplits_other (closeSplit t3)
  refine ⟨?_, ?_, ?_⟩
  · rw [u2]; exact g3
  · rw [u3]
    show t3.new_indices = _
    rw [g6, take_sum_length, hV1.counts_sum, ← hlen1, List.take_length]
  · intro ht
    have ht3 : (closeSplit t3).triangulate = true := by
      show t3.triangulate = true
      rw [(inputs_fields g1).2.2.2.2.2.2.2.2.2.2.2.2, e13, b9]; exact ht
    rw [triangulateSplits_length _ ht3]
    have hcs : (closeSplit t3).splits = r1.splits ++ [{ cur with
        num_points := (t3.new_points.length : Int) - cur.offset_points
        num_indices := (t3.new_indices.length : Int) - cur.offset_indices }] := by
      simp only [closeSplit, g7, modifyBack_concat]
    rw [hcs, List.map_append, List.sum_append, hsum1]
    simp only [List.map_cons, List.map_nil, List.sum_cons, List.sum_nil]
    rw [g9, e1, b2]
    congr 1
    omega

omit [Inhabited float2] [Inhabited float3] [Inhabited float4] in
/-- A run of `doRefine` keeps the soup, its attributes and the settings. -/
theorem doRefine_soup (body : TopologyRefiner float2 float3 float4 → Nat → Nat →
      TopologyRefiner float2 float3 float4 × Int)
    (hb : ∀ r vi i, frame (body r vi i).1 = frame r)
    (r : TopologyRefiner float2 float3 float4) :
    (doRefine body r).indices = r.indices ∧ (doRefine body r).points = r.points ∧
    (doRefine body r).normals = r.normals ∧ (doRefine body r).uv = r.uv ∧
    (doRefine body r).tangents = r.tangents ∧ (doRefine body r).split_unit = r.split_unit ∧
    (doRefine body r).triangulate = r.triangulate := by
  have hd : doRefine body r = triangulateSplits (closeSplit
      (forLoop (buildConnection r).counts.length (refineFace body)
        (beginRefine (buildConnection r)))) := rfl
  have hin : inputs (doRefine body r) = inputs (buildConnection r) := by
    rw [hd]
    exact (triangulateSplits_inputs _).trans ((closeSplit_inputs _).trans
      ((faceLoop_inputs body hb _ _).trans
        (rfl : inputs (beginRefine (buildConnection r)) = inputs (buildConnection r))))
  obtain ⟨-, -, e3, e4, e5, e6, e7, -, -, -, -, e12, e13⟩ := inputs_fields hin
  obtain ⟨-, -, b3, b4, -, -, -, -, b9, b10⟩ := buildConnection_frame r
  obtain ⟨a1, a2, a3, -, -⟩ := buildConnection_attrs r
  exact ⟨e3.trans b3, e4.trans b4, e5.trans a1, e6.trans a2, e7.trans a3, e12.trans b10,
    e13.trans b9⟩

omit [Inhabited float2] [Inhabited float3] [Inhabited float4] in
theorem selection_congr {a b : TopologyRefiner float2 float3 float4}
    (h1 : a.indices = b.indices) (h2 : a.points = b.points) (h3 : a.normals = b.normals)
    (h4 : a.uv = b.uv) (h5 : a.tangents = b.tangents) :
    (Recognised b → Recognised a) ∧ kindOf a = kindOf b ∧
    normalsByCorner a = normalsByCorner b ∧ uvByCorner a = uvByCorner b ∧
    tangentsByCorner a = tangentsByCorner b := by
  unfold Recognised kindOf tangentsByCorner normalsByCorner uvByCorner
  rw [h1, h2, h3, h4, h5]
  exact ⟨id, rfl, rfl, rfl, rfl⟩

/-- C2, counterexample: on the unit square (prepared, flat normals, split unit
0) the second `refine` leaves four refined points but doubles `new_indices`
and `new_indices_triangulated`. -/
theorem refine_twice_counterexample :
    sampleSquare.split_unit = 0 ∧
    (refine (gridMath 10) sampleSquare).2.new_indices = [0, 1, 2, 3] ∧
    (refine (gridMath 10) (refine (gridMath 10) sampleSquare).2).2.new_indices =
      [0, 1, 2, 3, 0, 1, 2, 3] ∧
    (refine (gridMath 10) sampleSquare).2.new_indices_triangulated.length = 6 ∧
    (refine (gridMath 10)
      (refine (gridMath 10) sampleSquare).2).2.new_indices_triangulated.length = 12 := by
  decide

/-- C2, amended: on a fresh refiner over a valid soup with recognised
cardinalities, split unit 0 and reflexive near-equality, a second `refine`
leaves `new_points` as the first run left it, makes `new_indices` the first
run's `new_indices` followed by a copy of itself, and with `triangulate` set
doubles the length of `new_indices_triangulated`. -/
theorem refine_twice_appends (M : MuMath float2 float3) (hM : M.Reflexive)
    (r : TopologyRefiner float2 float3 float4) (hfresh : Fresh r) (hvalid : ValidSoup r)
    (hrec : Recognised r) (hsu : r.split_unit = 0) :
    (refine M (refine M r).2).2.new_points = (refine M r).2.new_points ∧
    (refine M (refine M r).2).2.new_indices =
      (refine M r).2.new_indices ++ (refine M r).2.new_indices ∧
    (r.triangulate = true →
      (refine M (refine M r).2).2.new_indices_triangulated.length =
        2 * (refine M r).2.new_indices_triangulated.length) := by
  rw [refine_eq_doRefine M r hrec]
  obtain ⟨e1, e2, e3, e4, e5, -, -⟩ := doRefine_soup
    (keyBody M (kindOf r) (normalsByCorner r) (tangentsByCorner r) (uvByCorner r))
    (frame_keyBody M _ _ _ _) r
  obtain ⟨hr, hk, hn, hu, ht⟩ := selection_congr e1 e2 e3 e4 e5
  rw [refine_eq_doRefine M _ (hr hrec), hk, hn, hu, ht]
  obtain ⟨g1, g2, g3⟩ := doRefine_again M hM (kindOf r) (normalsByCorner r)
    (tangentsByCorner r) (uvByCorner r) r hfresh hvalid (le_of_eq hsu)
  refine ⟨g1, g2, fun htri => ?_⟩
  rw [g3 htri, (doRefine_splits _ (frame_keyBody M _ _ _ _) r hfresh.splits).2.2.2.2.2.2 htri]
  omega

theorem refine_twice_appends_witness :
    (refine (gridMath 10) (refine (gridMath 10) sampleFanSpread).2).2.new_points =
      (refine (gridMath 10) sampleFanSpread).2.new_points ∧
    (refine (gridMath 10) (refine (gridMath 10) sampleFanSpread).2).2.new_indices =
      (refine (gridMath 10) sampleFanSpread).2.new_indices ++
        (refine (gridMath 10) sampleFanSpread).2.new_indices ∧
    (sampleFanSpread.triangulate = true →
      (refine (gridMath 10)
        (refine (gridMath 10) sampleFanSpread).2).2.new_indices_triangulated.length =
        2 * (refine (gridMath 10) sampleFanSpread).2.new_indices_triangulated.length) :=
  refine_twice_appends (gridMath 10) (gridMath_reflexive 10 (by decide)) sampleFanSpread
    (sampleFan_fresh _ _ _ _) (sampleFan_valid _ _ _ _) (sampleFan_recognised _ _ _ _) rfl

end Again

/-! ## Soups without shared points -/

section Unshared

variable [Inhabited float2] [Inhabited float3] [Inhabited float4]

/-- A corner whose point no other corner references makes `refine` append
one refined vertex. -/
theorem refineCorner_unshared (M : MuMath float2 float3) (kind : KeyKind)
    (nc tc uc : Bool) (R r : TopologyRefiner float2 float3 float4)
    (hR : Connected R) (hV : ValidSoup R) (hinv : RefineInv R r) (off ci : Nat) (sp : Int)
    (hi : off + ci = r.new_indices.length) (hin : off + ci < R.indices.length)
    (hone : cornersOf R.indices (R.indices.getD (off + ci) 0) = [off + ci]) :
    (refineCorner (keyBody M kind nc tc uc) off sp ci r).new_points.length =
      r.new_points.length + 1 := by
  obtain ⟨-, -, e3, -⟩ := inputs_fields hinv.inputs
  have hun : r.old2new.getD (off + ci) 0 = -1 := hinv.unassigned (off + ci) (by omega) hin
  show (findOrAddVertex M r (r.indices.getD (off + ci) 0)
    (cornerKey kind nc tc uc r (r.indices.getD (off + ci) 0) (off + ci))).1.new_points.length = _
  rw [e3]
  rcases lookup_at_corner M R r hR hV hinv (off + ci) hi hin
    (cornerKey kind nc tc uc r (R.indices.getD (off + ci) 0) (off + ci)) with
    ⟨v, hm, -⟩ | ⟨pre, s, post, hdec, -, -, -, hres⟩
  · obtain ⟨s, hs, h1, h2, -⟩ := matchAt_mem hm
    rw [hone, List.mem_singleton] at hs
    rw [hs, hun] at h1
    exact absurd h1.symm h2
  · rw [hres]
    show (VertexKey.add _ _).new_points.length = _
    rw [(add_fields _ _).1]
    simp

theorem unshared_cornerLoop (M : MuMath float2 float3) (kind : KeyKind)
    (nc tc uc : Bool) (R r : TopologyRefiner float2 float3 float4)
    (hR : Connected R) (hV : ValidSoup R) (hinv : RefineInv R r) (off : Nat)
    (hone : ∀ k, k < R.indices.length → cornersOf R.indices (R.indices.getD k 0) = [k])
    (hoff : off = r.new_indices.length) (n : Nat) (hn : off + n ≤ R.indices.length) :
    (forLoop n (refineCorner (keyBody M kind nc tc uc) off
        (back r.splits).offset_points) r).new_points.length = r.new_points.length + n := by
  induction n with
  | zero => rfl
  | succ n ih =>
    obtain ⟨i1, i2, i3⟩ := refineInv_cornerLoop M kind nc tc uc R r hR hV hinv off hoff n
      (by omega)
    have ih := ih (by omega)
    rw [forLoop_succ]
    generalize forLoop n (refineCorner (keyBody M kind nc tc uc) off
        (back r.splits).offset_points) r = t at i1 i2 i3 ih
    rw [refineCorner_unshared M kind nc tc uc R t hR hV i1 off n _ i3.symm (by omega)
      (hone _ (by omega)), ih]
    omega

theorem unshared_face (M : MuMath float2 float3) (kind : KeyKind)
    (nc tc uc : Bool) (R r : TopologyRefiner float2 float3 float4)
    (hR : Connected R) (hV : ValidSoup R) (fi : Nat) (hfi : fi < R.counts.length)
    (hone : ∀ k, k < R.indices.length → cornersOf R.indices (R.indices.getD k 0) = [k])
    (hinv : RefineInv R r) (hlen : r.new_indices.length = (R.counts.take fi).sum) :
    (refineFace (keyBody M kind nc tc uc) fi r).new_points.length =
      r.new_points.length + R.counts.getD fi 0 := by
  obtain ⟨e1, e2, -, -, -⟩ := inputs_fields hinv.inputs
  unfold refineFace
  simp only []
  generalize hr1 : (if r.split_unit > 0 ∧
      (r.new_points.length : Int) - (back r.splits).offset_points + (r.counts.getD fi 0 : Nat) >
        r.split_unit then addSplit r else r) = r1
  have h1 : RefineInv R r1 ∧ r1.new_indices = r.new_indices ∧ r1.new_points = r.new_points := by
    rw [← hr1]; split
    · exact ⟨refineInv_addSplit R r hinv, rfl, rfl⟩
    · exact ⟨hinv, rfl, rfl⟩
  obtain ⟨h1, h1', h1''⟩ := h1
  have hoff : r.offsets.getD fi 0 = r1.new_indices.length := by
    rw [e2, hV.offsets_eq fi hfi, h1', hlen]
  have hle := take_sum_add_le R.counts fi hfi
  rw [hV.counts_sum] at hle
  have := unshared_cornerLoop M kind nc tc uc R r1 hR hV h1 (r.offsets.getD fi 0) hone
    hoff (r.counts.getD fi 0) (by rw [hoff, h1', hlen, e1]; exact hle)
  show (forLoop (r.counts.getD fi 0) (refineCorner (keyBody M kind nc tc uc)
    (r.offsets.getD fi 0) (back r1.splits).offset_points) r1).new_points.length = _
  rw [this, h1'', e1]

/-- On a fresh refiner over a valid soup in which no point is referenced by
two corners, `doRefine` makes one refined vertex per corner. -/
theorem doRefine_unshared (M : MuMath float2 float3) (kind : KeyKind)
    (nc tc uc : Bool) (r : TopologyRefiner float2 float3 float4) (hf : Fresh r)
    (hv : ValidSoup r)
    (hone : ∀ k, k < r.indices.length → cornersOf r.indices (r.indices.getD k 0) = [k]) :
    (doRefine (keyBody M kind nc tc uc) r).new_points.length = r.indices.length := by
  have hd : doRefine (keyBody M kind nc tc uc) r = triangulateSplits (closeSplit
      (forLoop (buildConnection r).counts.length
        (refineFace (keyBody M kind nc tc uc)) (beginRefine (buildConnection r)))) := rfl
  have hR := buildConnection_connected r hf hv
  have hV := validSoup_buildConnection r hv
  obtain ⟨h0, h0'⟩ := refineInv_begin r hf
  obtain ⟨-, -, b3, -, -, b6, -⟩ := buildConnection_frame r
  have hone' : ∀ k, k < (buildConnection r).indices.length →
      cornersOf (buildConnection r).indices ((buildConnection r).indices.getD k 0) = [k] := by
    rw [b3]; exact hone
  have h3 := forLoop_inv
    (fun fi t => RefineInv (buildConnection r) t ∧
      t.new_indices.length = ((buildConnection r).counts.take fi).sum ∧
      t.new_points.length = ((buildConnection r).counts.take fi).sum)
    (buildConnection r).counts.length (refineFace (keyBody M kind nc tc uc))
    (beginRefine (buildConnection r))
    ⟨h0, by rw [h0']; simp, by
      show (buildConnection r).new_points.length = _
      rw [b6, hf.new_points]; simp⟩
    (fun fi t hfi hP =>
      ⟨(refineInv_face M kind nc tc uc _ t hR hV fi hfi hP.1 hP.2.1).1,
        (refineInv_face M kind nc tc uc _ t hR hV fi hfi hP.1 hP.2.1).2, by
          rw [unshared_face M kind nc tc uc _ t hR hV fi hfi hone' hP.1 hP.2.1, hP.2.2,
            take_sum_succ _ fi hfi]⟩)
  rw [hd, (triangulateSplits_other _).2.1]
  show (forLoop (buildConnection r).counts.length
    (refineFace (keyBody M kind nc tc uc)) (beginRefine (buildConnection r))).new_points.length = _
  rw [h3.2.2, take_sum_length, hV.counts_sum, b3]

end Unshared

/-! ## A single chunk -/

section SingleSplit

variable [Inhabited float2] [Inhabited float3] [Inhabited float4]
variable (body : TopologyRefiner float2 float3 float4 → Nat → Nat →
  TopologyRefiner float2 float3 float4 × Int)

omit [Inhabited float2] [Inhabited float3] [Inhabited float4] in
theorem refineFace_splits_length (hb : ∀ r vi i, frame (body r vi i).1 = frame r)
    (fi : Nat) (r : TopologyRefiner float2 float3 float4) (hsu : r.split_unit ≤ 0) :
    (refineFace body fi r).splits.length = r.splits.length := by
  unfold refineFace
  simp only []
  rw [if_neg (by intro h; omega)]
  show (modifyBack _ _).length = _
  rw [length_modifyBack, (cornerLoop_inputs body hb _ _ _ _).2]

omit [Inhabited float2] [Inhabited float3] [Inhabited float4] in
/-- Without a split unit `doRefine` on a refiner without descriptors leaves
exactly one split descriptor. -/
theorem doRefine_single_split (hb : ∀ r vi i, frame (body r vi i).1 = frame r)
    (r : TopologyRefiner float2 float3 float4) (hs : r.splits = [])
    (hsu : r.split_unit ≤ 0) : (doRefine body r).splits.length = 1 := by
  have hd : doRefine body r = triangulateSplits (closeSplit
      (forLoop (buildConnection r).counts.length (refineFace body)
        (beginRefine (buildConnection r)))) := rfl
  obtain ⟨b1, -, -, -, -, -, -, -, -, b10⟩ := buildConnection_frame r
  have h3 := forLoop_inv
    (fun _ (t : TopologyRefiner float2 float3 float4) =>
      inputs t = inputs (buildConnection r) ∧ t.splits.length = 1)
    (buildConnection r).counts.length (refineFace body) (beginRefine (buildConnection r))
    ⟨rfl, by
      show ((buildConnection r).splits ++ [({} : Split)]).length = 1
      rw [b1, hs]; rfl⟩
    (fun fi t _ hP => ⟨(refineFace_inputs body hb fi t).trans hP.1, by
      rw [refineFace_splits_length body hb fi t
        (by rw [(inputs_fields hP.1).2.2.2.2.2.2.2.2.2.2.2.1, b10]; exact hsu)]
      exact hP.2⟩)
  rw [hd, (triangulateSplits_other _).1]
  show (modifyBack _ _).length = 1
  rw [length_modifyBack]
  exact h3.2

end SingleSplit

/-! ## The unit square -/

section UnitSquare

variable [Inhabited float2] [Inhabited float3] [Inhabited float4]

omit [Inhabited float2] [Inhabited float4] in
theorem unitSquare_fresh (M : MuMath float2 float3)
    (r0 : TopologyRefiner float2 float3 float4) (p0 p1 p2 p3 : float3) :
    Fresh (unitSquare M r0 p0 p1 p2 p3) := by
  constructor <;> rfl

omit [Inhabited float2] [Inhabited float4] in
theorem unitSquare_valid (M : MuMath float2 float3)
    (r0 : TopologyRefiner float2 float3 float4) (p0 p1 p2 p3 : float3) :
    ValidSoup (unitSquare M r0 p0 p1 p2 p3) := by
  constructor
  · intro k hk
    have hk4 : k < 4 := hk
    show ([0, 1, 2, 3] : List Nat).getD k 0 < 4
    interval_cases k <;> decide
  · rfl
  · intro fi hfi
    have h1 : fi < 1 := hfi
    interval_cases fi
    rfl
  · rfl

omit [Inhabited float2] [Inhabited float4] in
theorem unitSquare_recognised (M : MuMath float2 float3)
    (r0 : TopologyRefiner float2 float3 float4) (p0 p1 p2 p3 : float3) :
    Recognised (unitSquare M r0 p0 p1 p2 p3) :=
  ⟨fun h => absurd rfl h, fun _ => Or.inl rfl⟩

omit [Inhabited float2] [Inhabited float4] in
theorem unitSquare_unshared (M : MuMath float2 float3)
    (r0 : TopologyRefiner float2 float3 float4) (p0 p1 p2 p3 : float3) :
    ∀ k, k < (unitSquare M r0 p0 p1 p2 p3).indices.length →
      cornersOf (unitSquare M r0 p0 p1 p2 p3).indices
        ((unitSquare M r0 p0 p1 p2 p3).indices.getD k 0) = [k] := by
  intro k hk
  have hk4 : k < 4 := hk
  show cornersOf [0, 1, 2, 3] (([0, 1, 2, 3] : List Nat).getD k 0) = [k]
  interval_cases k <;> decide

/-- C10: for the unit-square soup (four corner points, `counts = [4]`,
`indices = [0, 1, 2, 3]`) prepared on any refiner and given flat normals by
`genNormals`, `refine` with `triangulate = true` and `split_unit = 0` succeeds
and yields exactly one split descriptor, four refined points,
`num_indices_triangulated = 6` (two triangles) for that split, and six
triangulated indices, whatever the vector arithmetic and the near-equality
test are. -/
theorem refine_unit_square (M : MuMath float2 float3)
    (r0 : TopologyRefiner float2 float3 float4) (p0 p1 p2 p3 : float3) :
    (refine M (unitSquare M r0 p0 p1 p2 p3)).1 = true ∧
    (refine M (unitSquare M r0 p0 p1 p2 p3)).2.splits.length = 1 ∧
    (refine M (unitSquare M r0 p0 p1 p2 p3)).2.new_points.length = 4 ∧
    (∀ s ∈ (refine M (unitSquare M r0 p0 p1 p2 p3)).2.splits,
      s.num_indices_triangulated = 6) ∧
    (refine M (unitSquare M r0 p0 p1 p2 p3)).2.new_indices_triangulated.length = 6 := by
  refine ⟨rfl, ?_⟩
  rw [refine_eq_doRefine M _ (unitSquare_recognised M r0 p0 p1 p2 p3)]
  have hf := unitSquare_fresh M r0 p0 p1 p2 p3
  have hv := unitSquare_valid M r0 p0 p1 p2 p3
  generalize kindOf (unitSquare M r0 p0 p1 p2 p3) = kind
  generalize normalsByCorner (unitSquare M r0 p0 p1 p2 p3) = nc
  generalize tangentsByCorner (unitSquare M r0 p0 p1 p2 p3) = tc
  generalize uvByCorner (unitSquare M r0 p0 p1 p2 p3) = uc
  have h1 := doRefine_single_split (keyBody M kind nc tc uc) (frame_keyBody M kind nc tc uc)
    (unitSquare M r0 p0 p1 p2 p3) hf.splits (le_refl 0)
  have h2 := doRefine_unshared M kind nc tc uc (unitSquare M r0 p0 p1 p2 p3) hf hv
    (unitSquare_unshared M r0 p0 p1 p2 p3)
  have h3 := doRefine_splits (keyBody M kind nc tc uc)
    (frame_keyBody M kind nc tc uc) (unitSquare M r0 p0 p1 p2 p3) hf.splits
  generalize doRefine (keyBody M kind nc tc uc) (unitSquare M r0 p0 p1 p2 p3) = out
    at h1 h2 h3 ⊢
  obtain ⟨-, s2, s3, -, -, s6, s7⟩ := h3
  have hc : (unitSquare M r0 p0 p1 p2 p3).counts = [4] := rfl
  have ht : (unitSquare M r0 p0 p1 p2 p3).triangulate = true := rfl
  have s7 := s7 ht
  rw [hc] at s3 s6 s7
  have e1 : triCount [4] 0 ([4] : List Nat).length = 6 := by decide
  have e2 : triCount [4] (0 : Int).toNat (1 : Int).toNat = 6 := by decide
  rw [e1] at s7
  refine ⟨h1, h2, ?_, s7⟩
  obtain ⟨s, hs⟩ := List.length_eq_one.mp h1
  rw [hs] at s2 s3 s6 ⊢
  intro x hx
  rw [List.mem_singleton] at hx
  subst hx
  have hof : x.offset_faces = 0 := s2.1
  have hnf : x.num_faces = 1 := by
    simp only [List.map_cons, List.map_nil, List.sum_cons, List.sum_nil, add_zero] at s3
    exact s3
  rw [(s6 x (List.mem_singleton.mpr rfl)).2.2, hof, hnf]
  exact e2

end UnitSquare

/-! ## The unit square under a split unit -/

section SplitScenario

variable [Inhabited float2] [Inhabited float3] [Inhabited float4]

omit [Inhabited float2] [Inhabited float3] [Inhabited float4] in
/-- A face larger than the split unit, met in the empty first chunk, opens a
second chunk and leaves the first one empty. -/
theorem refineFace_forced_split
    (body : TopologyRefiner float2 float3 float4 → Nat → Nat →
      TopologyRefiner float2 float3 float4 × Int)
    (hb : ∀ r vi i, frame (body r vi i).1 = frame r)
    (fi : Nat) (t : TopologyRefiner float2 float3 float4) (c : Nat)
    (hsp : t.splits = [({} : Split)]) (hnp : t.new_points = []) (hni : t.new_indices = [])
    (hc : t.counts.getD fi 0 = c) (hsu : 0 < t.split_unit) (hgt : t.split_unit < c) :
    (refineFace body fi t).splits =
      [Split.mk 0 0 0 0 0 0 0, Split.mk 0 0 0 1 0 0 (((c : Int) - 2) * 3)] := by
  unfold refineFace
  simp only []
  have hcond : t.split_unit > 0 ∧
      (t.new_points.length : Int) - (back t.splits).offset_points + (t.counts.getD fi 0 : Nat) >
        t.split_unit := by
    refine ⟨hsu, ?_⟩
    rw [hnp, hsp, hc]
    show ((0 : Nat) : Int) - 0 + (c : Int) > t.split_unit
    omega
  rw [if_pos hcond]
  show modifyBack _ (forLoop _ _ (addSplit t)).splits = _
  rw [(cornerLoop_inputs body hb _ _ _ _).2]
  simp only [addSplit, hsp, hnp, hni, hc]
  simp [modifyBack, back]

/-- After `doRefine` on a fresh refiner over a valid soup `new_indices` has
one entry per corner. -/
theorem doRefine_new_indices_length (M : MuMath float2 float3) (kind : KeyKind)
    (nc tc uc : Bool) (r : TopologyRefiner float2 float3 float4) (hf : Fresh r)
    (hv : ValidSoup r) :
    (doRefine (keyBody M kind nc tc uc) r).new_indices.length = r.indices.length := by
  have hd : doRefine (keyBody M kind nc tc uc) r = triangulateSplits (closeSplit
      (forLoop (buildConnection r).counts.length
        (refineFace (keyBody M kind nc tc uc)) (beginRefine (buildConnection r)))) := rfl
  have hR := buildConnection_connected r hf hv
  have hV := validSoup_buildConnection r hv
  obtain ⟨h0, h0'⟩ := refineInv_begin r hf
  have h3 := forLoop_inv
    (fun fi t => RefineInv (buildConnection r) t ∧
      t.new_indices.length = ((buildConnection r).counts.take fi).sum)
    (buildConnection r).counts.length (refineFace (keyBody M kind nc tc uc))
    (beginRefine (buildConnection r)) ⟨h0, by rw [h0']; simp⟩
    (fun fi t hfi hP => refineInv_face M kind nc tc uc _ t hR hV fi hfi hP.1 hP.2)
  rw [hd, (triangulateSplits_other _).2.2.1]
  show (forLoop (buildConnection r).counts.length
    (refineFace (keyBody M kind nc tc uc)) (beginRefine (buildConnection r))).new_indices.length = _
  rw [h3.2, take_sum_length, hV.counts_sum, (buildConnection_frame r).2.2.1]

omit [Inhabited float2] [Inhabited float4] in
theorem unitSquareSplit_fresh (M : MuMath float2 float3)
    (r0 : TopologyRefiner float2 float3 float4) (p0 p1 p2 p3 : float3) :
    Fresh (unitSquareSplit M r0 p0 p1 p2 p3) := by
  constructor <;> rfl

omit [Inhabited float2] [Inhabited float4] in
theorem unitSquareSplit_valid (M : MuMath float2 float3)
    (r0 : TopologyRefiner float2 float3 float4) (p0 p1 p2 p3 : float3) :
    ValidSoup (unitSquareSplit M r0 p0 p1 p2 p3) :=
  ⟨(unitSquare_valid M r0 p0 p1 p2 p3).index_lt, rfl,
    (unitSquare_valid M r0 p0 p1 p2 p3).offsets_eq, rfl⟩

omit [Inhabited float2] [Inhabited float4] in
theorem unitSquareSplit_recognised (M : MuMath float2 float3)
    (r0 : TopologyRefiner float2 float3 float4) (p0 p1 p2 p3 : float3) :
    Recognised (unitSquareSplit M r0 p0 p1 p2 p3) :=
  ⟨fun h => absurd rfl h, fun _ => Or.inl rfl⟩

/-- C11, as stated, fails: on the unit square with flat normals and split
unit 2, `refine` leaves two split descriptors that satisfy the partition law,
but the second one holds all four refined points, more than the split unit. -/
theorem refine_split_unit_counterexample :
    sampleSquareSplit.split_unit = 2 ∧
    (refine (gridMath 10) sampleSquareSplit).2.splits =
      [Split.mk 0 0 0 0 0 0 0, Split.mk 0 0 0 1 4 4 6] ∧
    ¬ ∀ s ∈ (refine (gridMath 10) sampleSquareSplit).2.splits, s.num_points ≤ 2 := by
  decide

/-- C11, amended: for the unit-square soup (four corner points,
`counts = [4]`, `indices = [0, 1, 2, 3]`, flat normals from `genNormals`) and
split unit 2, `refine` yields exactly two split descriptors: an empty first
one and a second one that holds the whole quad, with four points and four
indices (a face is never divided, so the point budget is exceeded); the
offsets are contiguous and the counts sum to the totals, four refined points
and four index entries. -/
theorem refine_unit_square_split (M : MuMath float2 float3)
    (r0 : TopologyRefiner float2 float3 float4) (p0 p1 p2 p3 : float3) :
    (refine M (unitSquareSplit M r0 p0 p1 p2 p3)).2.splits =
      [Split.mk 0 0 0 0 0 0 0, Split.mk 0 0 0 1 4 4 6] ∧
    (refine M (unitSquareSplit M r0 p0 p1 p2 p3)).2.new_points.length = 4 ∧
    (refine M (unitSquareSplit M r0 p0 p1 p2 p3)).2.new_indices.length = 4 := by
  rw [refine_eq_doRefine M _ (unitSquareSplit_recognised M r0 p0 p1 p2 p3)]
  have hf := unitSquareSplit_fresh M r0 p0 p1 p2 p3
  have hv := unitSquareSplit_valid M r0 p0 p1 p2 p3
  generalize kindOf (unitSquareSplit M r0 p0 p1 p2 p3) = kind
  generalize normalsByCorner (unitSquareSplit M r0 p0 p1 p2 p3) = nc
  generalize tangentsByCorner (unitSquareSplit M r0 p0 p1 p2 p3) = tc
  generalize uvByCorner (unitSquareSplit M r0 p0 p1 p2 p3) = uc
  have h1 : (doRefine (keyBody M kind nc tc uc)
      (unitSquareSplit M r0 p0 p1 p2 p3)).new_points.length = 4 :=
    doRefine_unshared M kind nc tc uc (unitSquareSplit M r0 p0 p1 p2 p3) hf hv
      (unitSquare_unshared M r0 p0 p1 p2 p3)
  have h2 : (doRefine (keyBody M kind nc tc uc)
      (unitSquareSplit M r0 p0 p1 p2 p3)).new_indices.length = 4 :=
    doRefine_new_indices_length M kind nc tc uc (unitSquareSplit M r0 p0 p1 p2 p3) hf hv
  refine ⟨?_, h1, h2⟩
  have hd : doRefine (keyBody M kind nc tc uc) (unitSquareSplit M r0 p0 p1 p2 p3) =
      triangulateSplits (closeSplit
        (forLoop (buildConnection (unitSquareSplit M r0 p0 p1 p2 p3)).counts.length
          (refineFace (keyBody M kind nc tc uc))
          (beginRefine (buildConnection (unitSquareSplit M r0 p0 p1 p2 p3))))) := rfl
  obtain ⟨b1, b2, -, -, -, b6, b7, -, -, b10⟩ :=
    buildConnection_frame (unitSquareSplit M r0 p0 p1 p2 p3)
  have hl : (buildConnection (unitSquareSplit M r0 p0 p1 p2 p3)).counts.length = 1 := by
    rw [b2]; rfl
  have t1 : (beginRefine (buildConnection (unitSquareSplit M r0 p0 p1 p2 p3))).splits =
      [({} : Split)] := by
    show (buildConnection (unitSquareSplit M r0 p0 p1 p2 p3)).splits ++ [({} : Split)] = _
    rw [b1, hf.splits]; rfl
  have t2 : (beginRefine (buildConnection (unitSquareSplit M r0 p0 p1 p2 p3))).new_points =
      [] := by
    show (buildConnection (unitSquareSplit M r0 p0 p1 p2 p3)).new_points = []
    rw [b6, hf.new_points]
  have t3 : (beginRefine (buildConnection (unitSquareSplit M r0 p0 p1 p2 p3))).new_indices =
      [] := by
    show (buildConnection (unitSquareSplit M r0 p0 p1 p2 p3)).new_indices = []
    rw [b7, hf.new_indices]
  have t4 : (beginRefine (buildConnection (unitSquareSplit M r0 p0 p1 p2 p3))).counts.getD 0 0 =
      4 := by
    show (buildConnection (unitSquareSplit M r0 p0 p1 p2 p3)).counts.getD 0 0 = 4
    rw [b2]; rfl
  have t5 : (beginRefine (buildConnection (unitSquareSplit M r0 p0 p1 p2 p3))).split_unit =
      2 := by
    show (buildConnection (unitSquareSplit M r0 p0 p1 p2 p3)).split_unit = 2
    rw [b10]; rfl
  rw [hd, hl, forLoop_succ, forLoop_zero] at h1 h2 ⊢
  have hs := refineFace_forced_split (keyBody M kind nc tc uc) (frame_keyBody M kind nc tc uc) 0
    (beginRefine (buildConnection (unitSquareSplit M r0 p0 p1 p2 p3))) 4 t1 t2 t3 t4
    (by rw [t5]; decide) (by rw [t5]; decide)
  generalize refineFace (keyBody M kind nc tc uc) 0
    (beginRefine (buildConnection (unitSquareSplit M r0 p0 p1 p2 p3))) = t at h1 h2 hs ⊢
  rw [(triangulateSplits_other _).2.1] at h1
  rw [(triangulateSplits_other _).2.2.1] at h2
  have h1' : t.new_points.length = 4 := h1
  have h2' : t.new_indices.length = 4 := h2
  rw [(triangulateSplits_other _).1]
  simp only [closeSplit, hs, h1', h2']
  decide

end SplitScenario

/-! ## Tangents and the lookup -/

section TangentBlind

variable [Inhabited float2] [Inhabited float3] [Inhabited float4]

omit [Inhabited float2] [Inhabited float3] [Inhabited float4] in
/-- The scan consults the `push_back`s only at the slot it claims: with two
different `push_back`s it returns the same id, and either leaves the refiner
alone both times or claims the same slot both times. -/
theorem findOrAddScan_add_irrelevant (r : TopologyRefiner float2 float3 float4) (offset : Nat)
    (test : Int → Bool)
    (add add' : TopologyRefiner float2 float3 float4 → TopologyRefiner float2 float3 float4)
    (cis : List Nat) :
    (findOrAddScan r offset test add cis).2 = (findOrAddScan r offset test add' cis).2 ∧
    (((findOrAddScan r offset test add cis).1 = r ∧
        (findOrAddScan r offset test add' cis).1 = r) ∨
      ∃ slot,
        (findOrAddScan r offset test add cis).1 =
          add { r with old2new := r.old2new.set slot r.new_points.length } ∧
        (findOrAddScan r offset test add' cis).1 =
          add' { r with old2new := r.old2new.set slot r.new_points.length }) := by
  induction cis with
  | nil => exact ⟨rfl, Or.inl ⟨rfl, rfl⟩⟩
  | cons c cis ih =>
    by_cases h1 : r.old2new.getD (r.shared_indices.getD (offset + c) 0) 0 = -1
    · have e : ∀ f : TopologyRefiner float2 float3 float4 → TopologyRefiner float2 float3 float4,
          findOrAddScan r offset test f (c :: cis) =
            (f { r with old2new :=
              r.old2new.set (r.shared_indices.getD (offset + c) 0) r.new_points.length },
              (r.new_points.length : Int)) := by
        intro f
        simp only [findOrAddScan, h1, bne_self_eq_false, Bool.false_and, Bool.false_eq_true,
          if_false, if_true]
      rw [e add, e add']
      exact ⟨rfl, Or.inr ⟨_, rfl, rfl⟩⟩
    · by_cases h2 : test (r.old2new.getD (r.shared_indices.getD (offset + c) 0) 0) = true
      · have e : ∀ f : TopologyRefiner float2 float3 float4 →
            TopologyRefiner float2 float3 float4,
            findOrAddScan r offset test f (c :: cis) =
              (r, r.old2new.getD (r.shared_indices.getD (offset + c) 0) 0) := by
          intro f
          simp only [findOrAddScan, h2, Bool.and_true, bne_iff_ne, ne_eq, h1, not_false_eq_true,
            if_true]
        rw [e add, e add']
        exact ⟨rfl, Or.inl ⟨rfl, rfl⟩⟩
      · have e : ∀ f : TopologyRefiner float2 float3 float4 →
            TopologyRefiner float2 float3 float4,
            findOrAddScan r offset test f (c :: cis) = findOrAddScan r offset test f cis := by
          intro f
          simp only [findOrAddScan, h2, Bool.and_false, Bool.false_eq_true, if_false, h1]
        rw [e add, e add']
        exact ih

omit [Inhabited float4] in
/-- C12: for every refiner state and arguments `(vi, p, n, u)`, and any two
tangents `t` and `t'`, `findOrAddVertexPNTU` returns the same refined-vertex
id and leaves the same refiner up to `new_tangents` (so the same `old2new`
assignment and the same number of appended vertices); either no vertex is
appended and `new_tangents` is unchanged, or `p` is appended and
`new_tangents` gains exactly the tangent that was passed. The id is also the
one that `findOrAddVertexPNU` returns without any tangent. -/
theorem findOrAddVertexPNTU_tangent_irrelevant (M : MuMath float2 float3)
    (r : TopologyRefiner float2 float3 float4) (vi : Nat) (p n : float3) (t t' : float4)
    (u : float2) :
    (findOrAddVertexPNTU M r vi p n t u).2 = (findOrAddVertexPNTU M r vi p n t' u).2 ∧
    { (findOrAddVertexPNTU M r vi p n t u).1 with new_tangents := [] } =
      { (findOrAddVertexPNTU M r vi p n t' u).1 with new_tangents := [] } ∧
    (((findOrAddVertexPNTU M r vi p n t u).1 = r ∧
        (findOrAddVertexPNTU M r vi p n t' u).1 = r) ∨
      ((findOrAddVertexPNTU M r vi p n t u).1.new_points = r.new_points ++ [p] ∧
        (findOrAddVertexPNTU M r vi p n t u).1.new_tangents = r.new_tangents ++ [t] ∧
        (findOrAddVertexPNTU M r vi p n t' u).1.new_tangents = r.new_tangents ++ [t'])) ∧
    (findOrAddVertexPNTU M r vi p n t u).2 = (findOrAddVertexPNU M r vi p n u).2 := by
  unfold findOrAddVertexPNTU findOrAddVertexPNU
  refine ⟨(findOrAddScan_add_irrelevant r _ _ _ _ _).1, ?_, ?_,
    (findOrAddScan_add_irrelevant r _ _ _ _ _).1⟩
  · rcases (findOrAddScan_add_irrelevant r (r.v2f_offsets.getD vi 0)
      (fun ni => M.near_equal3 (r.new_points.getD ni.toNat default) p
        && M.near_equal3 (r.new_normals.getD ni.toNat default) n
        && M.near_equal2 (r.new_uv.getD ni.toNat default) u)
      (fun r => { r with
        new_points := r.new_points ++ [p], new_normals := r.new_normals ++ [n],
        new_tangents := r.new_tangents ++ [t], new_uv := r.new_uv ++ [u] })
      (fun r => { r with
        new_points := r.new_points ++ [p], new_normals := r.new_normals ++ [n],
        new_tangents := r.new_tangents ++ [t'], new_uv := r.new_uv ++ [u] })
      (List.range (r.v2f_counts.getD vi 0))).2 with ⟨h1, h2⟩ | ⟨slot, h1, h2⟩
    · rw [h1, h2]
    · rw [h1, h2]
  · rcases (findOrAddScan_add_irrelevant r (r.v2f_offsets.getD vi 0)
      (fun ni => M.near_equal3 (r.new_points.getD ni.toNat default) p
        && M.near_equal3 (r.new_normals.getD ni.toNat default) n
        && M.near_equal2 (r.new_uv.getD ni.toNat default) u)
      (fun r => { r with
        new_points := r.new_points ++ [p], new_normals := r.new_normals ++ [n],
        new_tangents := r.new_tangents ++ [t], new_uv := r.new_uv ++ [u] })
      (fun r => { r with
        new_points := r.new_points ++ [p], new_normals := r.new_normals ++ [n],
        new_tangents := r.new_tangents ++ [t'], new_uv := r.new_uv ++ [u] })
      (List.range (r.v2f_counts.getD vi 0))).2 with ⟨h1, h2⟩ | ⟨slot, h1, h2⟩
    · exact Or.inl ⟨h1, h2⟩
    · right
      rw [h1, h2]
      exact ⟨rfl, rfl, rfl⟩

/-- With the {position, normal, tangent, uv} lookup, two corners of one chunk
that reference the same point id and carry identical normal and uv are given
the same refined vertex, whatever their tangents are. -/
theorem refine_merges_across_tangents (M : MuMath float2 float3) (hM : M.Reflexive)
    (r : TopologyRefiner float2 float3 float4) (hfresh : Fresh r) (hvalid : ValidSoup r)
    (hrec : Recognised r) (hkind : kindOf r = KeyKind.PNTU) :
    ∀ s ∈ (refine M r).2.splits, ∀ i j : Nat,
      s.offset_indices ≤ i → (i : Int) < s.offset_indices + s.num_indices →
      s.offset_indices ≤ j → (j : Int) < s.offset_indices + s.num_indices →
      r.indices.getD i 0 = r.indices.getD j 0 →
      r.normals.getD (bif normalsByCorner r then i else r.indices.getD i 0) default =
        r.normals.getD (bif normalsByCorner r then j else r.indices.getD j 0) default →
      r.uv.getD (bif uvByCorner r then i else r.indices.getD i 0) default =
        r.uv.getD (bif uvByCorner r then j else r.indices.getD j 0) default →
      (refine M r).2.new_indices.getD i 0 = (refine M r).2.new_indices.getD j 0 := by
  rw [refine_eq_doRefine M r hrec]
  intro s hs i j hi1 hi2 hj1 hj2 hidx hn hu
  have h := doRefine_dedup M hM (kindOf r) (normalsByCorner r) (tangentsByCorner r)
    (uvByCorner r) r hfresh hvalid s hs
  obtain ⟨-, -, b3, b4, -⟩ := buildConnection_frame r
  obtain ⟨a1, a2, a3, -, -⟩ := buildConnection_attrs r
  refine h.pair i j hi1 hi2 hj1 hj2 (by rw [b3]; exact hidx) ?_
  intro x ni
  rw [b3, ← hidx, hkind]
  simp only [cornerKey, VertexKey.test, a1, a2, b4, hn, hu, ← hidx]

/-- On the fan with twelve different tangents the four corners at point `0`
share one refined vertex. -/
theorem sampleFanTangents_merged :
    kindOf sampleFanTangents = KeyKind.PNTU ∧
    sampleFanTangents.tangents.getD 0 default ≠ sampleFanTangents.tangents.getD 3 default ∧
    (refine (gridMath 10) sampleFanTangents).2.new_indices =
      [0, 1, 2, 0, 2, 3, 0, 3, 4, 0, 4, 1] ∧
    (refine (gridMath 10) sampleFanTangents).2.new_tangents =
      [(0, 0, 0, 1), (1, 0, 0, 1), (2, 0, 0, 1), (5, 0, 0, 1), (8, 0, 0, 1)] := by
  decide

end TangentBlind

/-! ## Vertex format selection and interleaving -/

section Formats

/-- C13: `GuessVertexFormat` returns `Unknown` exactly when `points` or
`normals` is null; otherwise the selected layout has a colour field iff
`colors` is present, a uv field iff `uvs` is present, and a tangent field iff
both `uvs` and `tangents` are present. In every case a field of the selected
layout has a source stream that is present. -/
theorem GuessVertexFormat_table (points normals : Option (List float3))
    (colors : Option (List float4)) (uvs : Option (List float2))
    (tangents : Option (List float4)) :
    (GuessVertexFormat points normals colors uvs tangents = VertexFormat.Unknown ↔
      points = none ∨ normals = none) ∧
    (points ≠ none → normals ≠ none →
      ((GuessVertexFormat points normals colors uvs tangents).hasColor = true ↔
        colors ≠ none) ∧
      ((GuessVertexFormat points normals colors uvs tangents).hasUV = true ↔ uvs ≠ none) ∧
      ((GuessVertexFormat points normals colors uvs tangents).hasTangent = true ↔
        uvs ≠ none ∧ tangents ≠ none)) ∧
    ((GuessVertexFormat points normals colors uvs tangents).hasColor = true → colors ≠ none) ∧
    ((GuessVertexFormat points normals colors uvs tangents).hasUV = true → uvs ≠ none) ∧
    ((GuessVertexFormat points normals colors uvs tangents).hasTangent = true →
      tangents ≠ none) := by
  cases points <;> cases normals <;> cases colors <;> cases uvs <;> cases tangents <;>
    simp [GuessVertexFormat, VertexFormat.hasColor, VertexFormat.hasUV,
      VertexFormat.hasTangent]

theorem length_updateAt {α : Type} (l : List α) (i : Nat) (f : α → α) :
    (updateAt l i f).length = l.length := by
  unfold updateAt
  split <;> simp

theorem getElem?_updateAt {α : Type} (l : List α) (i k : Nat) (f : α → α) :
    (updateAt l i f)[k]? = if k = i then l[k]?.map f else l[k]? := by
  unfold updateAt
  split
  · rename_i a ha
    by_cases hk : k = i
    · subst hk
      rw [if_pos rfl, ha]
      have hlt : k < l.length := by
        rcases Nat.lt_or_ge k l.length with h | h
        · exact h
        · rw [List.getElem?_eq_none h] at ha; cases ha
      simp [List.getElem?_set_self, hlt]
    · rw [if_neg hk, List.getElem?_set_ne (Ne.symm hk)]
  · rename_i ha
    by_cases hk : k = i
    · subst hk; rw [if_pos rfl, ha]; rfl
    · rw [if_neg hk]

/-- What `TInterleave` leaves when `InterleaveImpl` rewrites record `i` by
`g i`: the records below `num` are rewritten, the others kept. -/
theorem TInterleave_updateAt {V : Type} (g : Nat → V → V) (dst : List V) (num : Nat) :
    (TInterleave (fun d i => updateAt d i (g i)) dst num).length = dst.length ∧
    ∀ k, (TInterleave (fun d i => updateAt d i (g i)) dst num)[k]? =
      if k < num then dst[k]?.map (g k) else dst[k]? := by
  unfold TInterleave
  induction num with
  | zero => exact ⟨rfl, fun k => by simp⟩
  | succ n ih =>
    rw [forLoop_succ]
    obtain ⟨h1, h2⟩ := ih
    refine ⟨by rw [length_updateAt, h1], ?_⟩
    intro k
    rw [getElem?_updateAt, h2 k]
    by_cases hk : k = n
    · subst hk; simp
    · rw [if_neg hk]
      by_cases hlt : k < n
      · rw [if_pos hlt, if_pos (by omega)]
      · rw [if_neg hlt, if_neg (by omega)]

variable [Inhabited float2] [Inhabited float3] [Inhabited float4]

/-- C14: `Interleave` keeps the number of records; for the unknown format it
leaves `dst` as it is; for each of the six known formats every record `k`
below `num` afterwards has `p = points[k]`, `n = normals[k]` and, for exactly
the fields of the format, `c = colors[k]`, `u = uvs[k]`, `t = tangents[k]`
(the other fields are kept), and every record at `num` or beyond is
unchanged. -/
theorem Interleave_transposes (dst : List (Vertex float2 float3 float4))
    (format : VertexFormat) (num : Nat) (points normals : List float3) (colors : List float4)
    (uvs : List float2) (tangents : List float4) :
    (Interleave dst format num points normals colors uvs tangents).length = dst.length ∧
    (format = VertexFormat.Unknown →
      Interleave dst format num points normals colors uvs tangents = dst) ∧
    (∀ k, num ≤ k →
      (Interleave dst format num points normals colors uvs tangents)[k]? = dst[k]?) ∧
    (format ≠ VertexFormat.Unknown → ∀ k v, k < num → dst[k]? = some v →
      (Interleave dst format num points normals colors uvs tangents)[k]? =
        some ⟨points.getD k default, normals.getD k default,
          bif format.hasColor then colors.getD k default else v.c,
          bif format.hasUV then uvs.getD k default else v.u,
          bif format.hasTangent then tangents.getD k default else v.t⟩) := by
  cases format
  case Unknown => exact ⟨rfl, fun _ => rfl, fun _ _ => rfl, fun h => absurd rfl h⟩
  all_goals
    refine ⟨(TInterleave_updateAt _ dst num).1, fun h => VertexFormat.noConfusion h, ?_, ?_⟩
    · intro k hk
      exact ((TInterleave_updateAt _ dst num).2 k).trans (if_neg (by omega))
    · intro _ k v hk hv
      refine ((TInterleave_updateAt _ dst num).2 k).trans ?_
      rw [if_pos hk, hv]
      rfl

theorem Interleave_transposes_witness :
    (Interleave sampleVertices VertexFormat.V3N3U2 2 [(1, 2, 3), (4, 5, 6)]
      [(0, 0, 1), (0, 1, 0)] [] [(1, 1), (2, 2)] []).length = 3 ∧
    (Interleave sampleVertices VertexFormat.V3N3U2 2 [(1, 2, 3), (4, 5, 6)]
      [(0, 0, 1), (0, 1, 0)] [] [(1, 1), (2, 2)] [])[1]? =
      some ⟨(4, 5, 6), (0, 1, 0), (8, 8, 8, 8), (2, 2), (8, 8, 8, 8)⟩ ∧
    (Interleave sampleVertices VertexFormat.V3N3U2 2 [(1, 2, 3), (4, 5, 6)]
      [(0, 0, 1), (0, 1, 0)] [] [(1, 1), (2, 2)] [])[2]? = sampleVertices[2]? :=
  ⟨(Interleave_transposes sampleVertices VertexFormat.V3N3U2 2 [(1, 2, 3), (4, 5, 6)]
      [(0, 0, 1), (0, 1, 0)] [] [(1, 1), (2, 2)] []).1,
    (Interleave_transposes sampleVertices VertexFormat.V3N3U2 2 [(1, 2, 3), (4, 5, 6)]
      [(0, 0, 1), (0, 1, 0)] [] [(1, 1), (2, 2)] []).2.2.2 (by decide) 1
      ⟨(8, 8, 8), (8, 8, 8), (8, 8, 8, 8), (8, 8), (8, 8, 8, 8)⟩ (by decide) (by decide),
    (Interleave_transposes sampleVertices VertexFormat.V3N3U2 2 [(1, 2, 3), (4, 5, 6)]
      [(0, 0, 1), (0, 1, 0)] [] [(1, 1), (2, 2)] []).2.2.1 2 (by decide)⟩

end Formats

/-! ## The callbacks of the tangent generator -/

section Tangents

variable {F : Type} [One F] [Neg F] [Inhabited float2] [Inhabited float3]

/-- Which element each getter of `GenerateTangents` reads: positions and
normals are read at the corner when their array has one entry per index and
through the index otherwise; for the uv the choice is the other way round. -/
theorem GenerateTangents_getters (dst : List (F × F × F × F)) (points normals : List float3)
    (uv : List float2) (indices : List Nat) (ctx : TSpaceContext F float2 float3)
    (f c : Nat) :
    (GenerateTangents.iface dst points normals uv indices).m_getPosition ctx f c =
      (if points.length = indices.length then ctx.points.getD (ctx.offsets.getD f 0 + c) default
        else ctx.points.getD (ctx.indices.getD (ctx.offsets.getD f 0 + c) 0) default) ∧
    (GenerateTangents.iface dst points normals uv indices).m_getNormal ctx f c =
      (if normals.length = indices.length
        then ctx.normals.getD (ctx.offsets.getD f 0 + c) default
        else ctx.normals.getD (ctx.indices.getD (ctx.offsets.getD f 0 + c) 0) default) ∧
    (GenerateTangents.iface dst points normals uv indices).m_getTexCoord ctx f c =
      (if uv.length = indices.length
        then ctx.uv.getD (ctx.indices.getD (ctx.offsets.getD f 0 + c) 0) default
        else ctx.uv.getD (ctx.offsets.getD f 0 + c) default) := by
  unfold GenerateTangents.iface
  refine ⟨?_, ?_, ?_⟩
  · show (if points.length = indices.length then TSpaceContext.getPositionFlattened
      else TSpaceContext.getPosition) ctx f c = _
    split <;> rfl
  · show (if normals.length = indices.length then TSpaceContext.getNormalFlattened
      else TSpaceContext.getNormal) ctx f c = _
    split <;> rfl
  · show (if uv.length = indices.length then TSpaceContext.getTexCoord
      else TSpaceContext.getTexCoordFlattened) ctx f c = _
    split <;> rfl

/-- C15, failing input: two triangles `[0, 1, 2]`, `[2, 1, 3]` with one uv per
corner (six uv for six indices). For face `1`, corner `0` the claim names the
flattened element `uv[offsets[1] + 0] = uv[3] = (10, 10)`, but the getter that
`GenerateTangents` installs reads through the index,
`uv[indices[3]] = uv[2] = (0, 1)`; a solver that echoes the uv it is given
writes `(0, 1, 0, 1)` for that corner. -/
theorem GenerateTangents_uv_getter_inverted :
    sampleTSpace.uv.length = sampleTSpace.indices.length ∧
    sampleTSpace.uv.getD (sampleTSpace.offsets.getD 1 0 + 0) default = (10, 10) ∧
    (GenerateTangents.iface sampleTSpace.dst sampleTSpace.points sampleTSpace.normals
      sampleTSpace.uv sampleTSpace.indices).m_getTexCoord sampleTSpace 1 0 = (0, 1) ∧
    GenerateTangents echoSolver sampleTSpace.dst sampleTSpace.points sampleTSpace.normals
      sampleTSpace.uv sampleTSpace.counts sampleTSpace.offsets sampleTSpace.indices =
      ([(0, 0, 0, 1), (1, 0, 0, 1), (0, 1, 0, 1), (0, 1, 0, 1), (1, 0, 0, 1), (10, 10, 0, 1)],
        true) := by
  decide

/-- C16: the tangent callback that `GenerateTangents` installs stores
`(t0, t1, t2, s)`, with `s = 1` when the orientation flag is not `0` and
`s = -1` otherwise, into `dst[offsets[f] + c]` when the destination has one
entry per index and into `dst[indices[offsets[f] + c]]` otherwise; no other
element of `dst` changes, nor its length, nor any other array of the
context. -/
theorem GenerateTangents_setTSpace (dst : List (F × F × F × F)) (points normals : List float3)
    (uv : List float2) (indices : List Nat) (ctx : TSpaceContext F float2 float3)
    (tangent bitangent : F × F × F) (fMagS fMagT : F) (o : Int) (f c : Nat) :
    ((GenerateTangents.iface dst points normals uv indices).m_setTSpace ctx tangent bitangent
      fMagS fMagT o f c).dst.length = ctx.dst.length ∧
    ((if dst.length = indices.length then ctx.offsets.getD f 0 + c
        else ctx.indices.getD (ctx.offsets.getD f 0 + c) 0) < ctx.dst.length →
      ((GenerateTangents.iface dst points normals uv indices).m_setTSpace ctx tangent bitangent
        fMagS fMagT o f c).dst[if dst.length = indices.length then ctx.offsets.getD f 0 + c
          else ctx.indices.getD (ctx.offsets.getD f 0 + c) 0]? =
        some (tangent.1, tangent.2.1, tangent.2.2, if o ≠ 0 then 1 else -1)) ∧
    (∀ k, k ≠ (if dst.length = indices.length then ctx.offsets.getD f 0 + c
        else ctx.indices.getD (ctx.offsets.getD f 0 + c) 0) →
      ((GenerateTangents.iface dst points normals uv indices).m_setTSpace ctx tangent bitangent
        fMagS fMagT o f c).dst[k]? = ctx.dst[k]?) ∧
    { (GenerateTangents.iface dst points normals uv indices).m_setTSpace ctx tangent bitangent
        fMagS fMagT o f c with dst := ctx.dst } = ctx := by
  have e : (GenerateTangents.iface dst points normals uv indices).m_setTSpace ctx tangent
      bitangent fMagS fMagT o f c =
      TSpaceContext.mk (ctx.dst.set
        (if dst.length = indices.length then ctx.offsets.getD f 0 + c
          else ctx.indices.getD (ctx.offsets.getD f 0 + c) 0)
        (tangent.1, tangent.2.1, tangent.2.2, if o ≠ 0 then 1 else -1))
        ctx.points ctx.normals ctx.uv ctx.counts ctx.offsets ctx.indices := by
    show (if dst.length = indices.length then TSpaceContext.setTangentFlattened
      else TSpaceContext.setTangent) ctx tangent bitangent fMagS fMagT o f c = _
    split <;> rfl
  rw [e]
  refine ⟨by simp, fun h => ?_, fun k hk => ?_, rfl⟩
  · simp only []
    rw [List.getElem?_set_self h]
  · simp only []
    rw [List.getElem?_set_ne (Ne.symm hk)]

theorem GenerateTangents_setTSpace_witness :
    ((GenerateTangents.iface sampleTSpace.dst sampleTSpace.points sampleTSpace.normals
      sampleTSpace.uv sampleTSpace.indices).m_setTSpace sampleTSpace (5, 6, 7) (0, 0, 0) 1 1 0
        1 0).dst = [(0, 0, 0, 0), (0, 0, 0, 0), (0, 0, 0, 0), (5, 6, 7, -1), (0, 0, 0, 0),
          (0, 0, 0, 0)] ∧
    ((GenerateTangents.iface sampleTSpace.dst sampleTSpace.points sampleTSpace.normals
      sampleTSpace.uv sampleTSpace.indices).m_setTSpace sampleTSpace (5, 6, 7) (0, 0, 0) 1 1 0
        1 0).dst[(3 : Nat)]? = some (5, 6, 7, -1) :=
  ⟨by decide,
    (GenerateTangents_setTSpace sampleTSpace.dst sampleTSpace.points sampleTSpace.normals
      sampleTSpace.uv sampleTSpace.indices sampleTSpace (5, 6, 7) (0, 0, 0) 1 1 0 1 0).2.1
      (by decide)⟩

end Tangents

/-! ## The shape check of the normals and the bounds fold -/

section PlainArrays

/-- C17: `GenerateNormals` returns `false` exactly when `dst.size()` differs
from `points.size()`, and then leaves `dst` as it was; when it returns
`true` the destination keeps its length. -/
theorem GenerateNormals_shape [Inhabited float3] (M : MuMath float2 float3)
    (dst points : List float3) (counts offsets indices : List Nat) :
    ((GenerateNormals M dst points counts offsets indices).2 = false ↔
      dst.length ≠ points.length) ∧
    ((GenerateNormals M dst points counts offsets indices).2 = false →
      (GenerateNormals M dst points counts offsets indices).1 = dst) ∧
    ((GenerateNormals M dst points counts offsets indices).2 = true →
      (GenerateNormals M dst points counts offsets indices).1.length = dst.length) := by
  unfold GenerateNormals
  by_cases h : dst.length ≠ points.length
  · rw [if_pos h]
    exact ⟨⟨fun _ => h, fun _ => rfl⟩, fun _ => rfl, fun h' => Bool.noConfusion h'⟩
  · rw [if_neg h]
    refine ⟨⟨fun h' => Bool.noConfusion h', fun h' => absurd h' h⟩,
      fun h' => Bool.noConfusion h', fun _ => ?_⟩
    simp only [List.length_map]
    have key : ∀ n (body : Nat → List float3 → List float3) (s : List float3),
        (∀ i d, (body i d).length = d.length) → (forLoop n body s).length = s.length := by
      intro n body s hb
      induction n with
      | zero => rfl
      | succ n ih => rw [forLoop_succ, hb, ih]
    rw [key]
    · simp
    · intro fi d
      exact key _ _ _ (fun ci d' => List.length_set _ _ _)

variable {F : Type} [LinearOrder F]

theorem stdMin_eq_min (a b : F) : stdMin a b = min a b := by
  unfold stdMin
  split
  · rename_i h; exact (min_eq_right (le_of_lt h)).symm
  · rename_i h; exact (min_eq_left (not_lt.mp h)).symm

theorem stdMax_eq_max (a b : F) : stdMax a b = max a b := by
  unfold stdMax
  split
  · rename_i h; exact (max_eq_right (le_of_lt h)).symm
  · rename_i h; exact (max_eq_left (not_lt.mp h)).symm

/-- The running minimum of `g 0, ..., g n` is a lower bound and is attained. -/
theorem foldMin_spec (g : Nat → F) (n : Nat) :
    (∀ i, i ≤ n → forLoop n (fun j m => stdMin m (g (j + 1))) (g 0) ≤ g i) ∧
    ∃ i, i ≤ n ∧ forLoop n (fun j m => stdMin m (g (j + 1))) (g 0) = g i := by
  induction n with
  | zero =>
    refine ⟨fun i hi => ?_, 0, le_refl 0, rfl⟩
    have : i = 0 := by omega
    subst this; exact le_refl _
  | succ n ih =>
    obtain ⟨h1, k, hk, h2⟩ := ih
    rw [forLoop_succ, stdMin_eq_min]
    refine ⟨fun i hi => ?_, ?_⟩
    · rcases Nat.lt_or_ge i (n + 1) with h | h
      · exact le_trans (min_le_left _ _) (h1 i (by omega))
      · have : i = n + 1 := by omega
        subst this; exact min_le_right _ _
    · rcases min_choice (forLoop n (fun j m => stdMin m (g (j + 1))) (g 0)) (g (n + 1)) with
        h | h
      · exact ⟨k, by omega, by rw [h, h2]⟩
      · exact ⟨n + 1, le_refl _, h⟩

/-- The running maximum of `g 0, ..., g n` is an upper bound and is attained. -/
theorem foldMax_spec (g : Nat → F) (n : Nat) :
    (∀ i, i ≤ n → g i ≤ forLoop n (fun j m => stdMax m (g (j + 1))) (g 0)) ∧
    ∃ i, i ≤ n ∧ forLoop n (fun j m => stdMax m (g (j + 1))) (g 0) = g i := by
  induction n with
  | zero =>
    refine ⟨fun i hi => ?_, 0, le_refl 0, rfl⟩
    have : i = 0 := by omega
    subst this; exact le_refl _
  | succ n ih =>
    obtain ⟨h1, k, hk, h2⟩ := ih
    rw [forLoop_succ, stdMax_eq_max]
    refine ⟨fun i hi => ?_, ?_⟩
    · rcases Nat.lt_or_ge i (n + 1) with h | h
      · exact le_trans (h1 i (by omega)) (le_max_left _ _)
      · have : i = n + 1 := by omega
        subst this; exact le_max_right _ _
    · rcases max_choice (forLoop n (fun j m => stdMax m (g (j + 1))) (g 0)) (g (n + 1)) with
        h | h
      · exact ⟨k, by omega, by rw [h, h2]⟩
      · exact ⟨n + 1, le_refl _, h⟩

variable [Inhabited F]

/-- Each component of the pair that the loop of `ComputeBounds_Generic`
carries is the running minimum or maximum of that component. -/
theorem boundsLoop_components (p : List (Float3 F)) (n : Nat) :
    (forLoop n (fun j (r : Float3 F × Float3 F) =>
      (Float3.mk (stdMin r.1.x (p.getD (j + 1) default).x)
          (stdMin r.1.y (p.getD (j + 1) default).y) (stdMin r.1.z (p.getD (j + 1) default).z),
        Float3.mk (stdMax r.2.x (p.getD (j + 1) default).x)
          (stdMax r.2.y (p.getD (j + 1) default).y) (stdMax r.2.z (p.getD (j + 1) default).z)))
      (p.getD 0 default, p.getD 0 default)) =
    (Float3.mk
        (forLoop n (fun j m => stdMin m (p.getD (j + 1) default).x) (p.getD 0 default).x)
        (forLoop n (fun j m => stdMin m (p.getD (j + 1) default).y) (p.getD 0 default).y)
        (forLoop n (fun j m => stdMin m (p.getD (j + 1) default).z) (p.getD 0 default).z),
      Float3.mk
        (forLoop n (fun j m => stdMax m (p.getD (j + 1) default).x) (p.getD 0 default).x)
        (forLoop n (fun j m => stdMax m (p.getD (j + 1) default).y) (p.getD 0 default).y)
        (forLoop n (fun j m => stdMax m (p.getD (j + 1) default).z) (p.getD 0 default).z)) := by
  induction n with
  | zero => rfl
  | succ n ih =>
    rw [forLoop_succ, ih]
    rfl

/-- C18: for `num = 0`, `ComputeBounds_Generic` leaves `omin` and `omax` as
they were; for `num > 0` every component of `omin` (of `omax`) is at most (at
least) that component of every `p[i]`, `i < num`, and equals that component of
some `p[i]`, `i < num`: it is the minimum (maximum) of the component. -/
theorem ComputeBounds_minmax (p : List (Float3 F)) (num : Nat) (omin omax : Float3 F) :
    (num = 0 → ComputeBounds_Generic p num omin omax = (omin, omax)) ∧
    (0 < num →
      (∀ i, i < num →
        (ComputeBounds_Generic p num omin omax).1.x ≤ (p.getD i default).x ∧
        (ComputeBounds_Generic p num omin omax).1.y ≤ (p.getD i default).y ∧
        (ComputeBounds_Generic p num omin omax).1.z ≤ (p.getD i default).z ∧
        (p.getD i default).x ≤ (ComputeBounds_Generic p num omin omax).2.x ∧
        (p.getD i default).y ≤ (ComputeBounds_Generic p num omin omax).2.y ∧
        (p.getD i default).z ≤ (ComputeBounds_Generic p num omin omax).2.z) ∧
      (∃ i, i < num ∧ (ComputeBounds_Generic p num omin omax).1.x = (p.getD i default).x) ∧
      (∃ i, i < num ∧ (ComputeBounds_Generic p num omin omax).1.y = (p.getD i default).y) ∧
      (∃ i, i < num ∧ (ComputeBounds_Generic p num omin omax).1.z = (p.getD i default).z) ∧
      (∃ i, i < num ∧ (ComputeBounds_Generic p num omin omax).2.x = (p.getD i default).x) ∧
      (∃ i, i < num ∧ (ComputeBounds_Generic p num omin omax).2.y = (p.getD i default).y) ∧
      (∃ i, i < num ∧ (ComputeBounds_Generic p num omin omax).2.z = (p.getD i default).z)) := by
  refine ⟨fun h => by unfold ComputeBounds_Generic; rw [if_pos h], fun h => ?_⟩
  have hn : ¬ num = 0 := by omega
  unfold ComputeBounds_Generic
  simp only [if_neg hn]
  rw [boundsLoop_components p (num - 1)]
  obtain ⟨ax, k1, hk1, bx⟩ := foldMin_spec (fun i => (p.getD i default).x) (num - 1)
  obtain ⟨ay, k2, hk2, by'⟩ := foldMin_spec (fun i => (p.getD i default).y) (num - 1)
  obtain ⟨az, k3, hk3, bz⟩ := foldMin_spec (fun i => (p.getD i default).z) (num - 1)
  obtain ⟨cx, k4, hk4, dx⟩ := foldMax_spec (fun i => (p.getD i default).x) (num - 1)
  obtain ⟨cy, k5, hk5, dy⟩ := foldMax_spec (fun i => (p.getD i default).y) (num - 1)
  obtain ⟨cz, k6, hk6, dz⟩ := foldMax_spec (fun i => (p.getD i default).z) (num - 1)
  refine ⟨fun i hi => ⟨ax i (by omega), ay i (by omega), az i (by omega), cx i (by omega),
    cy i (by omega), cz i (by omega)⟩, ⟨k1, by omega, bx⟩, ⟨k2, by omega, by'⟩,
    ⟨k3, by omega, bz⟩, ⟨k4, by omega, dx⟩, ⟨k5, by omega, dy⟩, ⟨k6, by omega, dz⟩⟩

theorem ComputeBounds_minmax_witness :
    ComputeBounds_Generic samplePoints 3 ⟨0, 0, 0⟩ ⟨0, 0, 0⟩ = (⟨1, 1, 0⟩, ⟨3, 5, 9⟩) ∧
    (ComputeBounds_Generic samplePoints 3 ⟨0, 0, 0⟩ ⟨0, 0, 0⟩).1.x ≤
      (samplePoints.getD 2 default).x ∧
    ∃ i, i < 3 ∧ (ComputeBounds_Generic samplePoints 3 ⟨0, 0, 0⟩ ⟨0, 0, 0⟩).2.z =
      (samplePoints.getD i default).z :=
  ⟨by decide,
    (((ComputeBounds_minmax samplePoints 3 ⟨0, 0, 0⟩ ⟨0, 0, 0⟩).2 (by decide)).1 2
      (by decide)).1,
    ((ComputeBounds_minmax samplePoints 3 ⟨0, 0, 0⟩ ⟨0, 0, 0⟩).2
      (by decide)).2.2.2.2.2.2⟩

end PlainArrays

/-! ## Memoised connectivity and exact positions -/

section MemoAndPositions

variable [Inhabited float2] [Inhabited float3] [Inhabited float4]

omit [Inhabited float2] [Inhabited float3] [Inhabited float4] in
/-- C19: whenever `v2f_counts.size()` equals `points.size()` at the call,
`buildConnection` changes none of `v2f_counts`, `v2f_offsets`, `shared_faces`,
`shared_indices` (nor anything else), whatever the tables, `counts` and
`indices` hold. -/
theorem buildConnection_memoised (r : TopologyRefiner float2 float3 float4)
    (h : r.v2f_counts.length = r.points.length) :
    (buildConnection r).v2f_counts = r.v2f_counts ∧
    (buildConnection r).v2f_offsets = r.v2f_offsets ∧
    (buildConnection r).shared_faces = r.shared_faces ∧
    (buildConnection r).shared_indices = r.shared_indices ∧
    buildConnection r = r := by
  have e : buildConnection r = r := by unfold buildConnection; rw [if_pos h]
  rw [e]
  exact ⟨rfl, rfl, rfl, rfl, rfl⟩

theorem buildConnection_memoised_witness :
    sampleStaleTable.v2f_counts.length = sampleStaleTable.points.length ∧
    (buildConnection sampleSquare).v2f_counts = [1, 1, 1, 1] ∧
    ((buildConnection sampleStaleTable).v2f_counts = [7, 7, 7, 7] ∧
      (buildConnection sampleStaleTable).v2f_offsets = [] ∧
      (buildConnection sampleStaleTable).shared_faces = [] ∧
      (buildConnection sampleStaleTable).shared_indices = [] ∧
      buildConnection sampleStaleTable = sampleStaleTable) :=
  ⟨by decide, by decide, buildConnection_memoised sampleStaleTable (by decide)⟩

/-- Without recognised cardinalities `refine` leaves the refiner as it is. -/
theorem refine_eq_self_of_not_recognised (M : MuMath float2 float3)
    (r : TopologyRefiner float2 float3 float4) (h : ¬ Recognised r) : (refine M r).2 = r := by
  unfold Recognised at h
  by_cases hu : r.uv ≠ [] → r.uv.length = r.indices.length ∨ r.uv.length = r.points.length
  · have hn : ¬ ((r.normals ≠ [] ∨ r.uv = []) →
        r.normals.length = r.indices.length ∨ r.normals.length = r.points.length) :=
      fun hn => h ⟨hu, hn⟩
    rw [Classical.not_imp] at hn
    obtain ⟨h1, h2⟩ := hn
    rw [not_or] at h2
    exact refine_eq_self_of_bad_normals M r h2.1 h2.2 h1
  · rw [Classical.not_imp] at hu
    obtain ⟨h1, h2⟩ := hu
    rw [not_or] at h2
    exact refine_eq_self_of_bad_uv M r h1 h2.1 h2.2

/-- C20: after `refine` on a freshly prepared refiner over a valid soup, for
every split descriptor `s` and every corner position `k` of that split, the
refined vertex `s.offset_points + new_indices[k]` exists in `new_points` and
its position is exactly `points[indices[k]]`. -/
theorem refine_reconstructs_positions (M : MuMath float2 float3)
    (r : TopologyRefiner float2 float3 float4) (hfresh : Fresh r) (hvalid : ValidSoup r) :
    ∀ s ∈ (refine M r).2.splits, ∀ k : Nat,
      s.offset_indices ≤ k → (k : Int) < s.offset_indices + s.num_indices →
      0 ≤ s.offset_points + (refine M r).2.new_indices.getD k 0 ∧
      s.offset_points + (refine M r).2.new_indices.getD k 0 <
        (refine M r).2.new_points.length ∧
      (refine M r).2.new_points.getD
          (s.offset_points + (refine M r).2.new_indices.getD k 0).toNat default =
        r.points.getD (r.indices.getD k 0) default := by
  by_cases hrec : Recognised r
  · rw [refine_eq_doRefine M r hrec]
    intro s hs k hk1 hk2
    have h := doRefine_chunks M (kindOf r) (normalsByCorner r) (tangentsByCorner r)
      (uvByCorner r) r hfresh hvalid s hs
    obtain ⟨a, b, c⟩ := h.corner k hk1 hk2
    obtain ⟨-, -, b3, b4, -⟩ := buildConnection_frame r
    rw [b3, b4] at c
    have h1 := h.op_nonneg
    have h2 := h.op_le
    exact ⟨by omega, by omega, c⟩
  · rw [refine_eq_self_of_not_recognised M r hrec, hfresh.splits]
    intro s hs
    cases hs

theorem refine_reconstructs_positions_witness :
    Split.mk 1 3 3 1 3 3 3 ∈ (refine (gridMath 10) sampleStrip).2.splits ∧
    (0 ≤ (Split.mk 1 3 3 1 3 3 3).offset_points +
        (refine (gridMath 10) sampleStrip).2.new_indices.getD 5 0 ∧
      (Split.mk 1 3 3 1 3 3 3).offset_points +
          (refine (gridMath 10) sampleStrip).2.new_indices.getD 5 0 <
        (refine (gridMath 10) sampleStrip).2.new_points.length ∧
      (refine (gridMath 10) sampleStrip).2.new_points.getD
          ((Split.mk 1 3 3 1 3 3 3).offset_points +
            (refine (gridMath 10) sampleStrip).2.new_indices.getD 5 0).toNat default =
        sampleStrip.points.getD (sampleStrip.indices.getD 5 0) default) :=
  ⟨by decide, refine_reconstructs_positions (gridMath 10) sampleStrip sampleStrip_fresh
    sampleStrip_valid (Split.mk 1 3 3 1 3 3 3) (by decide) 5 (by decide) (by decide)⟩

end MemoAndPositions

/-! ## The remap slots during `doRefine` -/

section Slots

variable [Inhabited float2] [Inhabited float3] [Inhabited float4]

omit [Inhabited float2] [Inhabited float3] [Inhabited float4] in
/-- A corner that matched: the slots are untouched. -/
theorem slotInv_push_match (R r r' : TopologyRefiner float2 float3 float4)
    (hs : SlotInv R r) (hsp : r'.splits = r.splits) (ho : r'.old2new = r.old2new)
    (hnp : r'.new_points = r.new_points) : SlotInv R r' := by
  obtain ⟨h1, h2⟩ := hs
  constructor
  · rw [ho]; exact h1
  · rw [hsp, ho, hnp]; exact h2

omit [Inhabited float2] [Inhabited float4] in
/-- A corner that claimed the slot `s`, the first unassigned one of its
point. -/
theorem slotInv_push_claim (R r r' : TopologyRefiner float2 float3 float4)
    (hinv : RefineInv R r) (hs : SlotInv R r) (s : Nat) (pt : float3)
    (hsp : r'.splits = r.splits) (ho : r'.old2new = r.old2new.set s r.new_points.length)
    (hnp : r'.new_points = r.new_points ++ [pt])
    (hsn : s < R.indices.length) (hfree : r.old2new.getD s 0 = -1)
    (hfirst : ∀ k, k < s → R.indices.getD k 0 = R.indices.getD s 0 →
      r.old2new.getD k 0 ≠ -1) : SlotInv R r' := by
  obtain ⟨h1, h2⟩ := hs
  have hlen : r.old2new.length = R.indices.length := hinv.len_old2new
  have hop : 0 ≤ (back r.splits).offset_points := hinv.current.op_nonneg
  constructor
  · intro k k' hkk hk' hidx hne
    rw [ho] at hne ⊢
    by_cases hks : s = k'
    · subst hks
      have hk1 := hfirst k hkk hidx
      obtain ⟨-, b2, -⟩ := hinv.assigned k (by omega) hk1
      rw [getD_set_ne _ _ _ _ _ (by omega), getD_set_eq _ _ _ _ (by omega)]
      exact ⟨hk1, b2⟩
    · rw [getD_set_ne _ _ _ _ _ hks] at hne ⊢
      obtain ⟨a1, a2⟩ := h1 k k' hkk hk' hidx hne
      have hks' : s ≠ k := by
        intro e; subst e; exact a1 hfree
      rw [getD_set_ne _ _ _ _ _ hks']
      exact ⟨a1, a2⟩
  · intro v hv1 hv2
    rw [hsp] at hv1
    rw [hnp, List.length_append, List.length_singleton] at hv2
    rw [ho]
    by_cases hv : v = (r.new_points.length : Int)
    · refine ⟨s, hsn, ?_⟩
      rw [getD_set_eq _ _ _ _ (by omega), hv]
    · obtain ⟨k, hk, hkv⟩ := h2 v hv1 (by push_cast at hv2; omega)
      refine ⟨k, hk, ?_⟩
      have hks : s ≠ k := by
        intro e; subst e; rw [hfree] at hkv; omega
      rw [getD_set_ne _ _ _ _ _ hks]
      exact hkv

omit [Inhabited float2] [Inhabited float4] in
theorem slotInv_addSplit (R r : TopologyRefiner float2 float3 float4) (hinv : RefineInv R r) :
    SlotInv R (addSplit r) := by
  rcases eq_nil_or_snoc r.splits with h0 | ⟨done, prev, hs⟩
  · exact absurd h0 hinv.nonempty
  have hback : (back (addSplit r).splits).offset_points =
      prev.offset_points + ((r.new_points.length : Int) - prev.offset_points) := by
    simp only [addSplit, hs, back_concat, modifyBack_concat]
  have hold : (addSplit r).old2new = List.replicate r.old2new.length (-1) := rfl
  have hnp : (addSplit r).new_points = r.new_points := rfl
  have hget : ∀ k, k < R.indices.length → (addSplit r).old2new.getD k 0 = -1 := by
    intro k hk
    rw [hold]
    simp only [List.getD_eq_getElem?_getD, List.getElem?_replicate]
    rw [if_pos (by rw [hinv.len_old2new]; exact hk)]; rfl
  constructor
  · intro k k' _ hk' _ hne
    exact absurd (hget k' hk') hne
  · intro v hv1 hv2
    rw [hback] at hv1
    rw [hnp] at hv2
    omega

omit [Inhabited float2] [Inhabited float4] in
theorem slotInv_modifyBack (R r : TopologyRefiner float2 float3 float4) (hinv : RefineInv R r)
    (hs : SlotInv R r) (f : Split → Split) (hf1 : ∀ s, (f s).offset_points = s.offset_points) :
    SlotInv R { r with splits := modifyBack f r.splits } := by
  obtain ⟨h1, h2⟩ := hs
  rcases eq_nil_or_snoc r.splits with h0 | ⟨done, cur, hsp⟩
  · exact absurd h0 hinv.nonempty
  constructor
  · exact h1
  · show ∀ v : Int, (back (modifyBack f r.splits)).offset_points ≤ v → _
    rw [hsp, modifyBack_concat, back_concat, hf1]
    rw [hsp, back_concat] at h2
    exact h2

omit [Inhabited float2] [Inhabited float3] [Inhabited float4] in
theorem mem_pre_of_lt {L pre post : List Nat} {s k : Nat} (hsorted : L.Pairwise (· < ·))
    (hL : L = pre ++ s :: post) (hk : k ∈ L) (hlt : k < s) : k ∈ pre := by
  rw [hL] at hk hsorted
  rcases List.mem_append.mp hk with h | h
  · exact h
  · rcases List.mem_cons.mp h with h | h
    · omega
    · have := (List.pairwise_append.mp hsorted).2.1
      have := (List.pairwise_cons.mp this).1 k h
      omega

/-- One corner of `doRefine` preserves the slot invariant. -/
theorem slotInv_corner (M : MuMath float2 float3) (kind : KeyKind)
    (nc tc uc : Bool) (R r : TopologyRefiner float2 float3 float4)
    (hR : Connected R) (hV : ValidSoup R) (hinv : RefineInv R r) (hs : SlotInv R r)
    (off ci : Nat) (sp : Int)
    (hi : off + ci = r.new_indices.length) (hin : off + ci < R.indices.length) :
    SlotInv R (refineCorner (keyBody M kind nc tc uc) off sp ci r) := by
  obtain ⟨-, -, e3, e4, -⟩ := inputs_fields hinv.inputs
  have hunf : refineCorner (keyBody M kind nc tc uc) off sp ci r =
      { (findOrAddVertex M r (R.indices.getD (off + ci) 0)
          (cornerKey kind nc tc uc r (R.indices.getD (off + ci) 0) (off + ci))).1 with
        new_indices := (findOrAddVertex M r (R.indices.getD (off + ci) 0)
            (cornerKey kind nc tc uc r (R.indices.getD (off + ci) 0) (off + ci))).1.new_indices ++
          [(findOrAddVertex M r (R.indices.getD (off + ci) 0)
            (cornerKey kind nc tc uc r (R.indices.getD (off + ci) 0) (off + ci))).2 - sp] } := by
    rw [← e3]; rfl
  rw [hunf]
  generalize cornerKey kind nc tc uc r (R.indices.getD (off + ci) 0) (off + ci) = key
  rcases lookup_at_corner M R r hR hV hinv (off + ci) hi hin key with
    ⟨v, -, hres⟩ | ⟨pre, s, post, hdec, hpre, hfree, -, hres⟩
  · rw [hres]
    exact slotInv_push_match R r _ hs rfl rfl rfl
  · rw [hres]
    obtain ⟨a1, a2, -, a4⟩ := add_fields key
      { r with old2new := r.old2new.set s r.new_points.length }
    have hsL : s ∈ cornersOf R.indices (R.indices.getD (off + ci) 0) := by rw [hdec]; simp
    obtain ⟨hsn, hsidx⟩ := (mem_cornersOf _ _ _).mp hsL
    refine slotInv_push_claim R r _ hinv hs s key.point a4 a2 a1 hsn hfree ?_
    intro k hk hidx
    have hkL : k ∈ cornersOf R.indices (R.indices.getD (off + ci) 0) :=
      (mem_cornersOf _ _ _).mpr ⟨by omega, by rw [hidx, hsidx]⟩
    exact (hpre k (mem_pre_of_lt (cornersUpTo_sorted _ _ _) hdec hkL hk)).1

/-- The corner loop of one face preserves the slot invariant. -/
theorem slotInv_cornerLoop (M : MuMath float2 float3) (kind : KeyKind)
    (nc tc uc : Bool) (R r : TopologyRefiner float2 float3 float4)
    (hR : Connected R) (hV : ValidSoup R) (hinv : RefineInv R r) (hs : SlotInv R r)
    (off : Nat) (hoff : off = r.new_indices.length) (n : Nat)
    (hn : off + n ≤ R.indices.length) :
    SlotInv R (forLoop n (refineCorner (keyBody M kind nc tc uc) off
        (back r.splits).offset_points) r) := by
  induction n with
  | zero => exact hs
  | succ n ih =>
    obtain ⟨i1, -, i3⟩ := refineInv_cornerLoop M kind nc tc uc R r hR hV hinv off hoff n
      (by omega)
    have ih := ih (by omega)
    rw [forLoop_succ]
    generalize forLoop n (refineCorner (keyBody M kind nc tc uc) off
        (back r.splits).offset_points) r = t at i1 i3 ih
    exact slotInv_corner M kind nc tc uc R t hR hV i1 ih off n _ i3.symm (by omega)

/-- One face of `doRefine` preserves the slot invariant. -/
theorem slotInv_face (M : MuMath float2 float3) (kind : KeyKind)
    (nc tc uc : Bool) (R r : TopologyRefiner float2 float3 float4)
    (hR : Connected R) (hV : ValidSoup R) (fi : Nat) (hfi : fi < R.counts.length)
    (hinv : RefineInv R r) (hs : SlotInv R r)
    (hlen : r.new_indices.length = (R.counts.take fi).sum) :
    SlotInv R (refineFace (keyBody M kind nc tc uc) fi r) := by
  obtain ⟨e1, e2, -, -, -⟩ := inputs_fields hinv.inputs
  unfold refineFace
  simp only []
  generalize hr1 : (if r.split_unit > 0 ∧
      (r.new_points.length : Int) - (back r.splits).offset_points + (r.counts.getD fi 0 : Nat) >
        r.split_unit then addSplit r else r) = r1
  have h1 : RefineInv R r1 ∧ SlotInv R r1 ∧ r1.new_indices = r.new_indices := by
    rw [← hr1]; split
    · exact ⟨refineInv_addSplit R r hinv, slotInv_addSplit R r hinv, rfl⟩
    · exact ⟨hinv, hs, rfl⟩
  obtain ⟨h1, h1s, h1'⟩ := h1
  have hoff : r.offsets.getD fi 0 = r1.new_indices.length := by
    rw [e2, hV.offsets_eq fi hfi, h1', hlen]
  have hle := take_sum_add_le R.counts fi hfi
  rw [hV.counts_sum] at hle
  obtain ⟨g1, -, -⟩ := refineInv_cornerLoop M kind nc tc uc R r1 hR hV h1 (r.offsets.getD fi 0)
    hoff (r.counts.getD fi 0) (by rw [hoff, h1', hlen, e1]; exact hle)
  have g2 := slotInv_cornerLoop M kind nc tc uc R r1 hR hV h1 h1s (r.offsets.getD fi 0)
    hoff (r.counts.getD fi 0) (by rw [hoff, h1', hlen, e1]; exact hle)
  generalize forLoop (r.counts.getD fi 0)
    (refineCorner (keyBody M kind nc tc uc) (r.offsets.getD fi 0) (back r1.splits).offset_points)
    r1 = r2 at g1 g2
  exact slotInv_modifyBack R r2 g1 g2 _ (fun _ => rfl)

omit [Inhabited float2] [Inhabited float3] [Inhabited float4] in
theorem slotInv_begin (r : TopologyRefiner float2 float3 float4) (hf : Fresh r) :
    SlotInv (buildConnection r) (beginRefine (buildConnection r)) := by
  obtain ⟨b1, b2, b3, b4, b5, b6, b7, b8, -, -⟩ := buildConnection_frame r
  have hold : (beginRefine (buildConnection r)).old2new =
      List.replicate (buildConnection r).indices.length (-1) := by
    show resize (buildConnection r).old2new _ _ = _
    rw [b8, hf.old2new, resize_nil]
  have hnp : (beginRefine (buildConnection r)).new_points = [] := by
    show (buildConnection r).new_points = []
    rw [b6, hf.new_points]
  have hsp : (beginRefine (buildConnection r)).splits = [] ++ [({} : Split)] := by
    show (buildConnection r).splits ++ [({} : Split)] = _
    rw [b1, hf.splits]
  constructor
  · intro k k' _ hk' _ hne
    exfalso
    apply hne
    rw [hold]
    simp only [List.getD_eq_getElem?_getD, List.getElem?_replicate]
    rw [if_pos hk']; rfl
  · intro v hv1 hv2
    rw [hnp] at hv2
    rw [hsp, back_concat] at hv1
    have h0 : (0 : Int) ≤ v := hv1
    have h1 : v < ((0 : Nat) : Int) := hv2
    omega

/-- The invariants hold at every corner of `doRefine` on a fresh refiner over
a valid soup. -/
theorem cornerState_inv (M : MuMath float2 float3) (kind : KeyKind) (nc tc uc : Bool)
    (r : TopologyRefiner float2 float3 float4) (hf : Fresh r) (hv : ValidSoup r)
    (fi ci : Nat) (hfi : fi < r.counts.length) (hci : ci ≤ r.counts.getD fi 0) :
    RefineInv (buildConnection r) (cornerState (keyBody M kind nc tc uc) r fi ci) ∧
    SlotInv (buildConnection r) (cornerState (keyBody M kind nc tc uc) r fi ci) ∧
    (cornerState (keyBody M kind nc tc uc) r fi ci).new_indices.length =
      r.offsets.getD fi 0 + ci ∧
    r.offsets.getD fi 0 + r.counts.getD fi 0 ≤ r.indices.length := by
  have hR := buildConnection_connected r hf hv
  have hV := validSoup_buildConnection r hv
  obtain ⟨h0, h0'⟩ := refineInv_begin r hf
  obtain ⟨-, b2, b3, -, b5, -⟩ := buildConnection_frame r
  have hfi' : fi < (buildConnection r).counts.length := by rw [b2]; exact hfi
  have h3 := forLoop_inv
    (fun k t => k ≤ fi → (RefineInv (buildConnection r) t ∧ SlotInv (buildConnection r) t ∧
      t.new_indices.length = ((buildConnection r).counts.take k).sum))
    fi (refineFace (keyBody M kind nc tc uc)) (beginRefine (buildConnection r))
    (fun _ => ⟨h0, slotInv_begin r hf, by rw [h0']; simp⟩)
    (fun k t hk hP _ =>
      have hP := hP (by omega)
      ⟨(refineInv_face M kind nc tc uc _ t hR hV k (by omega) hP.1 hP.2.2).1,
        slotInv_face M kind nc tc uc _ t hR hV k (by omega) hP.1 hP.2.1 hP.2.2,
        (refineInv_face M kind nc tc uc _ t hR hV k (by omega) hP.1 hP.2.2).2⟩)
    (le_refl _)
  unfold cornerState
  simp only []
  generalize forLoop fi (refineFace (keyBody M kind nc tc uc))
    (beginRefine (buildConnection r)) = t at h3
  obtain ⟨hinv, hs, hlen⟩ := h3
  obtain ⟨e1, e2, -, -, -⟩ := inputs_fields hinv.inputs
  generalize hr1 : (if t.split_unit > 0 ∧
      (t.new_points.length : Int) - (back t.splits).offset_points + (t.counts.getD fi 0 : Nat) >
        t.split_unit then addSplit t else t) = r1
  have h1 : RefineInv (buildConnection r) r1 ∧ SlotInv (buildConnection r) r1 ∧
      r1.new_indices = t.new_indices := by
    rw [← hr1]; split
    · exact ⟨refineInv_addSplit _ t hinv, slotInv_addSplit _ t hinv, rfl⟩
    · exact ⟨hinv, hs, rfl⟩
  obtain ⟨h1, h1s, h1'⟩ := h1
  have hoff : t.offsets.getD fi 0 = r1.new_indices.length := by
    rw [e2, hV.offsets_eq fi hfi', h1', hlen]
  have hle := take_sum_add_le (buildConnection r).counts fi hfi'
  rw [hV.counts_sum] at hle
  have hoffr : t.offsets.getD fi 0 = r.offsets.getD fi 0 := by rw [e2, b5]
  have hcr : (buildConnection r).counts.getD fi 0 = r.counts.getD fi 0 := by rw [b2]
  have hbound : t.offsets.getD fi 0 + ci ≤ (buildConnection r).indices.length := by
    rw [hoff, h1', hlen]; omega
  obtain ⟨g1, -, g3⟩ := refineInv_cornerLoop M kind nc tc uc _ r1 hR hV h1
    (t.offsets.getD fi 0) hoff ci hbound
  have g2 := slotInv_cornerLoop M kind nc tc uc _ r1 hR hV h1 h1s (t.offsets.getD fi 0) hoff ci
    hbound
  refine ⟨g1, g2, by rw [g3, hoffr], ?_⟩
  rw [← hoffr, hoff, h1', hlen, ← hcr, ← b3]
  exact hle

omit [Inhabited float2] [Inhabited float3] [Inhabited float4] in
/-- The corner states are the states of the loops of `doRefine`: the next
corner state is one `refineCorner` further, and the face loop continues from
the last corner state of the face. -/
theorem cornerState_steps
    (body : TopologyRefiner float2 float3 float4 → Nat → Nat →
      TopologyRefiner float2 float3 float4 × Int)
    (r : TopologyRefiner float2 float3 float4) (fi ci : Nat) :
    (cornerState body r fi (ci + 1)).inputs = (cornerLookup body r fi ci).1.inputs ∧
    (cornerState body r fi (ci + 1)).splits = (cornerLookup body r fi ci).1.splits ∧
    (cornerState body r fi (ci + 1)).old2new = (cornerLookup body r fi ci).1.old2new ∧
    (cornerState body r fi (ci + 1)).new_points = (cornerLookup body r fi ci).1.new_points ∧
    (∃ sp, (cornerState body r fi (ci + 1)).new_indices =
      (cornerLookup body r fi ci).1.new_indices ++ [(cornerLookup body r fi ci).2 - sp]) ∧
    (∃ close, forLoop (fi + 1) (refineFace body) (beginRefine (buildConnection r)) =
      { cornerState body r fi
          ((forLoop fi (refineFace body) (beginRefine (buildConnection r))).counts.getD fi 0) with
        splits := modifyBack close (cornerState body r fi
          ((forLoop fi (refineFace body)
            (beginRefine (buildConnection r))).counts.getD fi 0)).splits }) :=
  ⟨rfl, rfl, rfl, rfl, ⟨_, rfl⟩, ⟨_, rfl⟩⟩

/-- What the lookup of a corner finds during `doRefine` on a fresh refiner
over a valid soup: the slot of the corner itself is unassigned, and the scan
of the point's connectivity list either matches at a slot whose predecessors
are all assigned and fail the test, or claims the first unassigned slot. -/
theorem cornerLookup_spec (M : MuMath float2 float3) (kind : KeyKind) (nc tc uc : Bool)
    (r : TopologyRefiner float2 float3 float4) (hf : Fresh r) (hv : ValidSoup r)
    (fi ci : Nat) (hfi : fi < r.counts.length) (hci : ci < r.counts.getD fi 0)
    (T : TopologyRefiner float2 float3 float4)
    (hT : T = cornerState (keyBody M kind nc tc uc) r fi ci)
    (key : VertexKey float2 float3 float4)
    (hkey : key = cornerKey kind nc tc uc T (cornerPoint r fi ci) (cornerIndex r fi ci)) :
    connectivity T (cornerPoint r fi ci) = cornersOf r.indices (cornerPoint r fi ci) ∧
    cornerIndex r fi ci < r.indices.length ∧
    T.old2new.getD (cornerIndex r fi ci) 0 = -1 ∧
    ((∃ v, MatchAt T.old2new (key.test M T) (cornersOf r.indices (cornerPoint r fi ci)) v ∧
        cornerLookup (keyBody M kind nc tc uc) r fi ci = (T, v)) ∨
      (∃ pre s post, cornersOf r.indices (cornerPoint r fi ci) = pre ++ s :: post ∧
        (∀ s' ∈ pre, T.old2new.getD s' 0 ≠ -1 ∧ key.test M T (T.old2new.getD s' 0) = false) ∧
        T.old2new.getD s 0 = -1 ∧ s ≤ cornerIndex r fi ci ∧
        cornerLookup (keyBody M kind nc tc uc) r fi ci =
          (key.add { T with old2new := T.old2new.set s T.new_points.length },
            (T.new_points.length : Int)))) := by
  obtain ⟨hinv, -, hlen, hbound⟩ := cornerState_inv M kind nc tc uc r hf hv fi ci hfi
    (Nat.le_of_lt hci)
  rw [← hT] at hinv hlen
  have hR := buildConnection_connected r hf hv
  have hV := validSoup_buildConnection r hv
  obtain ⟨-, b2, b3, b4, b5, -⟩ := buildConnection_frame r
  obtain ⟨-, e2, e3, e4, -⟩ := inputs_fields hinv.inputs
  have hi : cornerIndex r fi ci < r.indices.length := by unfold cornerIndex; omega
  have hoffs : (forLoop fi (refineFace (keyBody M kind nc tc uc))
      (beginRefine (buildConnection r))).offsets = r.offsets := by
    have := (inputs_fields (faceLoop_inputs (keyBody M kind nc tc uc)
      (frame_keyBody M kind nc tc uc) fi (beginRefine (buildConnection r)))).2.1
    rw [this]; exact b5
  have hcall : cornerLookup (keyBody M kind nc tc uc) r fi ci =
      findOrAddVertex M T (cornerPoint r fi ci) key := by
    show keyBody M kind nc tc uc (cornerState (keyBody M kind nc tc uc) r fi ci)
      ((cornerState (keyBody M kind nc tc uc) r fi ci).indices.getD
        ((forLoop fi (refineFace (keyBody M kind nc tc uc))
          (beginRefine (buildConnection r))).offsets.getD fi 0 + ci) 0)
      ((forLoop fi (refineFace (keyBody M kind nc tc uc))
          (beginRefine (buildConnection r))).offsets.getD fi 0 + ci) = _
    rw [← hT, hoffs, e3, b3, hkey]; rfl
  have hvi : cornerPoint r fi ci < r.points.length := hv.index_lt _ hi
  have hconn : connectivity T (cornerPoint r fi ci) =
      cornersOf r.indices (cornerPoint r fi ci) := by
    have := (connected_of_inputs hinv.inputs hR).slots (cornerPoint r fi ci)
      (by rw [e4, b4]; exact hvi)
    rw [e3, b3] at this
    exact this
  refine ⟨hconn, hi, hinv.unassigned _ (by unfold cornerIndex; omega) (by rw [b3]; exact hi), ?_⟩
  have hl := lookup_at_corner M _ T hR hV hinv (cornerIndex r fi ci)
    (by unfold cornerIndex; omega) (by rw [b3]; exact hi) key
  rw [b3] at hl
  rw [hcall]
  exact hl

omit [Inhabited float4] in
/-- The uniform lookup is the lookup of the source for each of the four
keys. -/
theorem findOrAddVertex_variants (M : MuMath float2 float3)
    (r : TopologyRefiner float2 float3 float4) (vi : Nat) (p n : float3) (t : float4)
    (u : float2) :
    findOrAddVertex M r vi (VertexKey.PNTU p n t u) = findOrAddVertexPNTU M r vi p n t u ∧
    findOrAddVertex M r vi (VertexKey.PNU p n u) = findOrAddVertexPNU M r vi p n u ∧
    findOrAddVertex M r vi (VertexKey.PN p n) = findOrAddVertexPN M r vi p n ∧
    findOrAddVertex M r vi (VertexKey.PU p u) = findOrAddVertexPU M r vi p u :=
  ⟨rfl, rfl, rfl, rfl⟩

theorem sampleFanRepeat_fresh : Fresh sampleFanRepeat := sampleFan_fresh _ _ _ _

theorem sampleFanRepeat_valid : ValidSoup sampleFanRepeat := sampleFan_valid _ _ _ _

/-- C27: during `doRefine` on a fresh refiner over a valid soup, with any of
the four keys, the lookup of every corner returns from inside its scan: the
slot of the corner itself is in the connectivity list of its point and is
still unassigned, and the scan stops at a slot `s` of that list, all slots
before `s` being assigned and failing the test, either with a match at `s`
(the stored id is returned, the refiner is unchanged) or by claiming `s` (the
new id `new_points.size()` is returned). The fall-through is not taken. -/
theorem lookup_never_falls_through (M : MuMath float2 float3) (kind : KeyKind)
    (nc tc uc : Bool) (r : TopologyRefiner float2 float3 float4) (hfresh : Fresh r)
    (hvalid : ValidSoup r) (fi ci : Nat) (hfi : fi < r.counts.length)
    (hci : ci < r.counts.getD fi 0) :
    let T := cornerState (keyBody M kind nc tc uc) r fi ci
    let i := cornerIndex r fi ci
    let vi := cornerPoint r fi ci
    let key := cornerKey kind nc tc uc T vi i
    (i ∈ connectivity T vi ∧ T.old2new.getD i 0 = -1) ∧
    ∃ pre s post, connectivity T vi = pre ++ s :: post ∧
      (∀ s' ∈ pre, T.old2new.getD s' 0 ≠ -1 ∧ key.test M T (T.old2new.getD s' 0) = false) ∧
      ((T.old2new.getD s 0 ≠ -1 ∧ key.test M T (T.old2new.getD s 0) = true ∧
          cornerLookup (keyBody M kind nc tc uc) r fi ci = (T, T.old2new.getD s 0)) ∨
        (T.old2new.getD s 0 = -1 ∧
          cornerLookup (keyBody M kind nc tc uc) r fi ci =
            (key.add { T with old2new := T.old2new.set s T.new_points.length },
              (T.new_points.length : Int)))) := by
  intro T i vi key
  obtain ⟨hconn, hi, hun, hl⟩ := cornerLookup_spec M kind nc tc uc r hfresh hvalid fi ci hfi hci
    T rfl key rfl
  refine ⟨⟨?_, hun⟩, ?_⟩
  · rw [hconn]; exact (mem_cornersOf _ _ _).mpr ⟨hi, rfl⟩
  · rw [hconn]
    rcases hl with ⟨v, ⟨pre, s, post, hL, hpre, h1, h2, h3⟩, hres⟩ |
      ⟨pre, s, post, hL, hpre, hfree, -, hres⟩
    · exact ⟨pre, s, post, hL, hpre, Or.inl ⟨h1, h2, by rw [hres, h3]⟩⟩
    · exact ⟨pre, s, post, hL, hpre, Or.inr ⟨hfree, hres⟩⟩

theorem lookup_never_falls_through_witness :
    (2 < sampleFanRepeat.counts.length ∧ 0 < sampleFanRepeat.counts.getD 2 0) ∧
    (let T := cornerState (keyBody (gridMath 10) KeyKind.PNU true true false) sampleFanRepeat 2 0
    let i := cornerIndex sampleFanRepeat 2 0
    let vi := cornerPoint sampleFanRepeat 2 0
    let key := cornerKey KeyKind.PNU true true false T vi i
    (i ∈ connectivity T vi ∧ T.old2new.getD i 0 = -1) ∧
    ∃ pre s post, connectivity T vi = pre ++ s :: post ∧
      (∀ s' ∈ pre, T.old2new.getD s' 0 ≠ -1 ∧
        key.test (gridMath 10) T (T.old2new.getD s' 0) = false) ∧
      ((T.old2new.getD s 0 ≠ -1 ∧ key.test (gridMath 10) T (T.old2new.getD s 0) = true ∧
          cornerLookup (keyBody (gridMath 10) KeyKind.PNU true true false) sampleFanRepeat 2 0 =
            (T, T.old2new.getD s 0)) ∨
        (T.old2new.getD s 0 = -1 ∧
          cornerLookup (keyBody (gridMath 10) KeyKind.PNU true true false) sampleFanRepeat 2 0 =
            (key.add { T with old2new := T.old2new.set s T.new_points.length },
              (T.new_points.length : Int))))) :=
  ⟨by decide, lookup_never_falls_through (gridMath 10) KeyKind.PNU true true false
    sampleFanRepeat sampleFanRepeat_fresh sampleFanRepeat_valid 2 0 (by decide) (by decide)⟩

/-- C21, as stated, fails: in the fan whose corners `0` and `3` at point `0`
carry the same normal and whose corner `6` carries a different one, `refine`
runs the {position, normal, uv} lookup; corner `3` matches the vertex of
corner `0` and leaves its own slot unassigned, so the lookup of corner `6`
(face `2`, corner `0`) finds no match, appends the vertex `4` and records it
in slot `3`: afterwards `old2new[3] = 4` while `old2new[6]` is still `-1`,
also at the end of `refine`. -/
theorem lookup_claims_other_slot_counterexample :
    kindOf sampleFanRepeat = KeyKind.PNU ∧ normalsByCorner sampleFanRepeat = true ∧
    tangentsByCorner sampleFanRepeat = true ∧ uvByCorner sampleFanRepeat = false ∧
    cornerIndex sampleFanRepeat 2 0 = 6 ∧
    (cornerState (keyBody (gridMath 10) KeyKind.PNU true true false)
      sampleFanRepeat 2 0).new_points.length = 4 ∧
    (cornerLookup (keyBody (gridMath 10) KeyKind.PNU true true false)
      sampleFanRepeat 2 0).1.new_points.length = 5 ∧
    (cornerLookup (keyBody (gridMath 10) KeyKind.PNU true true false) sampleFanRepeat 2 0).2 =
      4 ∧
    (cornerLookup (keyBody (gridMath 10) KeyKind.PNU true true false)
      sampleFanRepeat 2 0).1.old2new.getD 6 0 = -1 ∧
    (cornerLookup (keyBody (gridMath 10) KeyKind.PNU true true false)
      sampleFanRepeat 2 0).1.old2new.getD 3 0 = 4 ∧
    (refine (gridMath 10) sampleFanRepeat).2.old2new.getD 6 0 = -1 := by
  decide

/-- C21, amended: during `doRefine` on a fresh refiner over a valid soup,
whenever the lookup of corner `i` appends a refined vertex, its id `ni` is the
former `new_points.size()` and it is recorded in the first unassigned slot of
the point's connectivity list: a corner position `s ≤ i` of the same point
whose slot was unassigned while the slots of all earlier corners of the point
were assigned; afterwards `old2new[s] = ni` and no other slot has changed. -/
theorem lookup_claims_first_free_slot (M : MuMath float2 float3) (kind : KeyKind)
    (nc tc uc : Bool) (r : TopologyRefiner float2 float3 float4) (hfresh : Fresh r)
    (hvalid : ValidSoup r) (fi ci : Nat) (hfi : fi < r.counts.length)
    (hci : ci < r.counts.getD fi 0)
    (happ : (cornerLookup (keyBody M kind nc tc uc) r fi ci).1.new_points.length =
      (cornerState (keyBody M kind nc tc uc) r fi ci).new_points.length + 1) :
    let T := cornerState (keyBody M kind nc tc uc) r fi ci
    let res := cornerLookup (keyBody M kind nc tc uc) r fi ci
    ∃ s, s ≤ cornerIndex r fi ci ∧ s < r.indices.length ∧
      r.indices.getD s 0 = cornerPoint r fi ci ∧
      T.old2new.getD s 0 = -1 ∧
      (∀ k, k < s → r.indices.getD k 0 = cornerPoint r fi ci → T.old2new.getD k 0 ≠ -1) ∧
      res.2 = (T.new_points.length : Int) ∧
      res.1.old2new = T.old2new.set s res.2 ∧
      res.1.old2new.getD s 0 = res.2 := by
  intro T res
  obtain ⟨hinv, -, -, -⟩ := cornerState_inv M kind nc tc uc r hfresh hvalid fi ci hfi
    (Nat.le_of_lt hci)
  obtain ⟨-, -, -, hl⟩ := cornerLookup_spec M kind nc tc uc r hfresh hvalid fi ci hfi hci
    T rfl _ rfl
  have hb3 : (buildConnection r).indices = r.indices := (buildConnection_frame r).2.2.1
  rcases hl with ⟨v, -, hres⟩ | ⟨pre, s, post, hL, hpre, hfree, hsi, hres⟩
  · rw [hres] at happ
    have : T.new_points.length = T.new_points.length + 1 := happ
    omega
  · have hsL : s ∈ cornersOf r.indices (cornerPoint r fi ci) := by rw [hL]; simp
    obtain ⟨hsn, hsidx⟩ := (mem_cornersOf _ _ _).mp hsL
    have hres' : res = _ := hres
    have ho : res.1.old2new = T.old2new.set s T.new_points.length := by
      rw [hres']; exact (add_fields _ _).2.1
    have h2 : res.2 = (T.new_points.length : Int) := by rw [hres']
    refine ⟨s, hsi, hsn, hsidx, hfree, ?_, h2, by rw [ho, h2], ?_⟩
    · intro k hk hidx
      have hkL : k ∈ cornersOf r.indices (cornerPoint r fi ci) :=
        (mem_cornersOf _ _ _).mpr ⟨by omega, hidx⟩
      exact (hpre k (mem_pre_of_lt (cornersUpTo_sorted _ _ _) hL hkL hk)).1
    · rw [ho, h2, getD_set_eq _ _ _ _ (by rw [hinv.len_old2new, hb3]; exact hsn)]

theorem lookup_claims_first_free_slot_witness :
    (2 < sampleFanRepeat.counts.length ∧ 0 < sampleFanRepeat.counts.getD 2 0) ∧
    (let T := cornerState (keyBody (gridMath 10) KeyKind.PNU true true false) sampleFanRepeat 2 0
    let res := cornerLookup (keyBody (gridMath 10) KeyKind.PNU true true false)
      sampleFanRepeat 2 0
    ∃ s, s ≤ cornerIndex sampleFanRepeat 2 0 ∧ s < sampleFanRepeat.indices.length ∧
      sampleFanRepeat.indices.getD s 0 = cornerPoint sampleFanRepeat 2 0 ∧
      T.old2new.getD s 0 = -1 ∧
      (∀ k, k < s → sampleFanRepeat.indices.getD k 0 = cornerPoint sampleFanRepeat 2 0 →
        T.old2new.getD k 0 ≠ -1) ∧
      res.2 = (T.new_points.length : Int) ∧
      res.1.old2new = T.old2new.set s res.2 ∧
      res.1.old2new.getD s 0 = res.2) :=
  ⟨by decide, lookup_claims_first_free_slot (gridMath 10) KeyKind.PNU true true false
    sampleFanRepeat sampleFanRepeat_fresh sampleFanRepeat_valid 2 0 (by decide) (by decide)
    (by decide)⟩

/-- C26: during `doRefine` on a fresh refiner over a valid soup, at the
lookup of every corner: (a) in the connectivity list of every point the
assigned slots form a prefix, and their ids increase along the list, that is
in the order of creation; (b) every refined vertex of the current chunk is
held by a slot, so the vertices created in the chunk for a point are the ids
in the assigned slots of its list; (c) when the lookup appends a vertex, no
assigned slot of the point holds a vertex that passes the near-equality test
of the requested key; (d) when it does not append, the returned vertex passes
the test and has the smallest id, the earliest created, among the assigned
slots of the point that pass it. -/
theorem lookup_no_redundant_vertex (M : MuMath float2 float3) (kind : KeyKind)
    (nc tc uc : Bool) (r : TopologyRefiner float2 float3 float4) (hfresh : Fresh r)
    (hvalid : ValidSoup r) (fi ci : Nat) (hfi : fi < r.counts.length)
    (hci : ci < r.counts.getD fi 0) :
    let T := cornerState (keyBody M kind nc tc uc) r fi ci
    let vi := cornerPoint r fi ci
    let key := cornerKey kind nc tc uc T vi (cornerIndex r fi ci)
    let res := cornerLookup (keyBody M kind nc tc uc) r fi ci
    (∀ p, p < r.points.length → ∀ pre s post, connectivity T p = pre ++ s :: post →
      T.old2new.getD s 0 ≠ -1 →
      ∀ s' ∈ pre, T.old2new.getD s' 0 ≠ -1 ∧ T.old2new.getD s' 0 < T.old2new.getD s 0) ∧
    (∀ v : Int, (back T.splits).offset_points ≤ v → v < T.new_points.length →
      ∃ k, k < r.indices.length ∧ T.old2new.getD k 0 = v ∧
        k ∈ connectivity T (r.indices.getD k 0)) ∧
    (res.1.new_points.length = T.new_points.length + 1 →
      ∀ s ∈ connectivity T vi, T.old2new.getD s 0 ≠ -1 →
        key.test M T (T.old2new.getD s 0) = false) ∧
    (res.1.new_points.length ≠ T.new_points.length + 1 →
      res.1 = T ∧ key.test M T res.2 = true ∧
      (∃ s ∈ connectivity T vi, T.old2new.getD s 0 ≠ -1 ∧ T.old2new.getD s 0 = res.2) ∧
      ∀ s ∈ connectivity T vi, T.old2new.getD s 0 ≠ -1 →
        key.test M T (T.old2new.getD s 0) = true → res.2 ≤ T.old2new.getD s 0) := by
  intro T vi key res
  obtain ⟨hinv, hslot, -, -⟩ := cornerState_inv M kind nc tc uc r hfresh hvalid fi ci hfi
    (Nat.le_of_lt hci)
  obtain ⟨hconn, hi, -, hl⟩ := cornerLookup_spec M kind nc tc uc r hfresh hvalid fi ci hfi hci
    T rfl key rfl
  have hR := buildConnection_connected r hfresh hvalid
  obtain ⟨-, -, b3, b4, -⟩ := buildConnection_frame r
  obtain ⟨-, -, e3, e4, -⟩ := inputs_fields hinv.inputs
  have hslots : ∀ p, p < r.points.length → connectivity T p = cornersOf r.indices p := by
    intro p hp
    have := (connected_of_inputs hinv.inputs hR).slots p (by rw [e4, b4]; exact hp)
    rw [e3, b3] at this
    exact this
  have hord : ∀ k k' : Nat, k < k' → k' < r.indices.length →
      r.indices.getD k 0 = r.indices.getD k' 0 → T.old2new.getD k' 0 ≠ -1 →
      T.old2new.getD k 0 ≠ -1 ∧ T.old2new.getD k 0 < T.old2new.getD k' 0 := by
    have := hslot.ordered
    rw [b3] at this
    exact this
  have hlt : ∀ (p : Nat) (pre post : List Nat) (s s' : Nat),
      cornersOf r.indices p = pre ++ s :: post → s' ∈ pre →
      s' < s ∧ s < r.indices.length ∧ r.indices.getD s' 0 = r.indices.getD s 0 := by
    intro p pre post s s' hL hs'
    have hsorted : (pre ++ s :: post).Pairwise (· < ·) := by
      rw [← hL]; exact cornersUpTo_sorted _ _ _
    have h1 := (List.pairwise_append.mp hsorted).2.2 s' hs' s (by simp)
    have h2 : s ∈ cornersOf r.indices p := by rw [hL]; simp
    have h3 : s' ∈ cornersOf r.indices p := by rw [hL]; simp [hs']
    obtain ⟨h4, h5⟩ := (mem_cornersOf _ _ _).mp h2
    obtain ⟨-, h6⟩ := (mem_cornersOf _ _ _).mp h3
    exact ⟨h1, h4, by rw [h5, h6]⟩
  have hgt : ∀ (p : Nat) (pre post : List Nat) (s s' : Nat),
      cornersOf r.indices p = pre ++ s :: post → s' ∈ post →
      s < s' ∧ s' < r.indices.length ∧ r.indices.getD s 0 = r.indices.getD s' 0 := by
    intro p pre post s s' hL hs'
    have hsorted : (pre ++ s :: post).Pairwise (· < ·) := by
      rw [← hL]; exact cornersUpTo_sorted _ _ _
    have h0 := (List.pairwise_append.mp hsorted).2.1
    have h1 := (List.pairwise_cons.mp h0).1 s' hs'
    have h2 : s ∈ cornersOf r.indices p := by rw [hL]; simp
    have h3 : s' ∈ cornersOf r.indices p := by rw [hL]; simp [hs']
    obtain ⟨-, h5⟩ := (mem_cornersOf _ _ _).mp h2
    obtain ⟨h4, h6⟩ := (mem_cornersOf _ _ _).mp h3
    exact ⟨h1, h4, by rw [h5, h6]⟩
  refine ⟨?_, ?_, ?_, ?_⟩
  · intro p hp pre s post hL hne s' hs'
    rw [hslots p hp] at hL
    obtain ⟨h1, h2, h3⟩ := hlt p pre post s s' hL hs'
    exact hord s' s h1 h2 h3 hne
  · intro v hv1 hv2
    obtain ⟨k, hk, hkv⟩ := hslot.recorded v hv1 hv2
    rw [b3] at hk
    refine ⟨k, hk, hkv, ?_⟩
    rw [hslots _ (hvalid.index_lt k hk)]
    exact (mem_cornersOf _ _ _).mpr ⟨hk, rfl⟩
  · intro happ s hs hne
    rw [hconn] at hs
    rcases hl with ⟨v, -, hres⟩ | ⟨pre, s0, post, hL, hpre, hfree, -, -⟩
    · have hres' : res = (T, v) := hres
      rw [hres'] at happ
      have : T.new_points.length = T.new_points.length + 1 := happ
      omega
    · rw [hL] at hs
      rcases List.mem_append.mp hs with h | h
      · exact (hpre s h).2
      · rcases List.mem_cons.mp h with h | h
        · rw [h] at hne; exact absurd hfree hne
        · obtain ⟨h1, h2, h3⟩ := hgt _ pre post s0 s hL h
          exact absurd hfree (hord s0 s h1 h2 h3 hne).1
  · intro happ
    rcases hl with ⟨v, ⟨pre, s0, post, hL, hpre, h1, h2, h3⟩, hres⟩ |
      ⟨pre, s0, post, -, -, -, -, hres⟩
    · have hres' : res = (T, v) := hres
      rw [hres']
      refine ⟨rfl, by rw [← h3]; exact h2, ⟨s0, by rw [hconn, hL]; simp, h1, h3⟩, ?_⟩
      intro s hs hne htest
      rw [hconn, hL] at hs
      rcases List.mem_append.mp hs with h | h
      · rw [(hpre s h).2] at htest; cases htest
      · rcases List.mem_cons.mp h with h | h
        · rw [h, h3]
        · obtain ⟨g1, g2, g3⟩ := hgt _ pre post s0 s hL h
          have := (hord s0 s g1 g2 g3 hne).2
          show v ≤ _
          omega
    · exfalso
      apply happ
      have hres' : res = _ := hres
      rw [hres', (add_fields _ _).1]
      simp

theorem lookup_no_redundant_vertex_witness :
    (2 < sampleFanRepeat.counts.length ∧ 0 < sampleFanRepeat.counts.getD 2 0 ∧
      (cornerLookup (keyBody (gridMath 10) KeyKind.PNU true true false)
        sampleFanRepeat 2 0).1.new_points.length =
      (cornerState (keyBody (gridMath 10) KeyKind.PNU true true false)
        sampleFanRepeat 2 0).new_points.length + 1) ∧
    (let T := cornerState (keyBody (gridMath 10) KeyKind.PNU true true false) sampleFanRepeat 2 0
    let vi := cornerPoint sampleFanRepeat 2 0
    let key := cornerKey KeyKind.PNU true true false T vi (cornerIndex sampleFanRepeat 2 0)
    let res := cornerLookup (keyBody (gridMath 10) KeyKind.PNU true true false)
      sampleFanRepeat 2 0
    (∀ p, p < sampleFanRepeat.points.length → ∀ pre s post,
      connectivity T p = pre ++ s :: post → T.old2new.getD s 0 ≠ -1 →
      ∀ s' ∈ pre, T.old2new.getD s' 0 ≠ -1 ∧ T.old2new.getD s' 0 < T.old2new.getD s 0) ∧
    (∀ v : Int, (back T.splits).offset_points ≤ v → v < T.new_points.length →
      ∃ k, k < sampleFanRepeat.indices.length ∧ T.old2new.getD k 0 = v ∧
        k ∈ connectivity T (sampleFanRepeat.indices.getD k 0)) ∧
    (res.1.new_points.length = T.new_points.length + 1 →
      ∀ s ∈ connectivity T vi, T.old2new.getD s 0 ≠ -1 →
        key.test (gridMath 10) T (T.old2new.getD s 0) = false) ∧
    (res.1.new_points.length ≠ T.new_points.length + 1 →
      res.1 = T ∧ key.test (gridMath 10) T res.2 = true ∧
      (∃ s ∈ connectivity T vi, T.old2new.getD s 0 ≠ -1 ∧ T.old2new.getD s 0 = res.2) ∧
      ∀ s ∈ connectivity T vi, T.old2new.getD s 0 ≠ -1 →
        key.test (gridMath 10) T (T.old2new.getD s 0) = true → res.2 ≤ T.old2new.getD s 0)) :=
  ⟨by decide, lookup_no_redundant_vertex (gridMath 10) KeyKind.PNU true true false
    sampleFanRepeat sampleFanRepeat_fresh sampleFanRepeat_valid 2 0 (by decide) (by decide)⟩

end Slots

/-! ## The point budget of a chunk -/

section Budget

variable [Inhabited float2] [Inhabited float3] [Inhabited float4]

omit [Inhabited float4] in
/-- A lookup appends at most one refined vertex. -/
theorem findOrAddVertex_new_points_le (M : MuMath float2 float3)
    (r : TopologyRefiner float2 float3 float4) (vi : Nat) (key : VertexKey float2 float3 float4) :
    (findOrAddVertex M r vi key).1.new_points.length ≤ r.new_points.length + 1 := by
  unfold findOrAddVertex
  rcases findOrAddScan_spec r (r.v2f_offsets.getD vi 0) (key.test M r) key.add
    (List.range (r.v2f_counts.getD vi 0)) with ⟨-, hres⟩ | ⟨pre, ci, post, -, -, h⟩
  · rw [hres]; exact Nat.le_succ _
  · rcases h with ⟨-, -, hres⟩ | ⟨-, hres⟩
    · rw [hres]; exact Nat.le_succ _
    · rw [hres, (add_fields _ _).1]
      simp

variable (body : TopologyRefiner float2 float3 float4 → Nat → Nat →
  TopologyRefiner float2 float3 float4 × Int)

omit [Inhabited float2] [Inhabited float3] [Inhabited float4] in
/-- The corner loop appends at most one refined vertex per corner. -/
theorem cornerLoop_new_points_le
    (hb1 : ∀ r vi i, (body r vi i).1.new_points.length ≤ r.new_points.length + 1)
    (off : Nat) (sp : Int) (n : Nat) (r : TopologyRefiner float2 float3 float4) :
    (forLoop n (refineCorner body off sp) r).new_points.length ≤ r.new_points.length + n := by
  induction n with
  | zero => exact Nat.le_refl _
  | succ n ih =>
    rw [forLoop_succ]
    have : (refineCorner body off sp n (forLoop n (refineCorner body off sp) r)).new_points.length
        ≤ (forLoop n (refineCorner body off sp) r).new_points.length + 1 := hb1 _ _ _
    omega

omit [Inhabited float2] [Inhabited float3] [Inhabited float4] in
/-- One face of `doRefine` preserves the budget invariant when the face has
at most `su` corners. -/
theorem budgetInv_face (hb : ∀ r vi i, frame (body r vi i).1 = frame r)
    (hb1 : ∀ r vi i, (body r vi i).1.new_points.length ≤ r.new_points.length + 1)
    (su : Int) (hsu : 0 < su) (fi : Nat) (r : TopologyRefiner float2 float3 float4)
    (hunit : r.split_unit = su) (hcount : (r.counts.getD fi 0 : Int) ≤ su)
    (h : BudgetInv su fi r) : BudgetInv su (fi + 1) (refineFace body fi r) := by
  obtain ⟨hne, hcur, hstart, hfn, hfaces, hclosed⟩ := h
  rcases eq_nil_or_snoc r.splits with h0 | ⟨done, prev, hs⟩
  · exact absurd h0 hne
  rw [hs, back_concat] at hcur hstart hfn hfaces
  rw [hs, List.dropLast_concat] at hclosed
  unfold refineFace
  simp only []
  by_cases hc : r.split_unit > 0 ∧
      (r.new_points.length : Int) - (back r.splits).offset_points + (r.counts.getD fi 0 : Nat) >
        r.split_unit
  · rw [if_pos hc]
    obtain ⟨-, hc2⟩ := hc
    rw [hs, back_concat, hunit] at hc2
    have hfi : 0 < fi := by
      rcases Nat.eq_zero_or_pos fi with h0 | h0
      · have := hstart h0; omega
      · exact h0
    have hpf := hfaces hfi
    have hsp : (addSplit r).splits = (done ++ [{ prev with
          num_points := (r.new_points.length : Int) - prev.offset_points
          num_indices := (r.new_indices.length : Int) - prev.offset_indices }]) ++
        [{ offset_faces := prev.offset_faces + prev.num_faces
           offset_points := prev.offset_points + ((r.new_points.length : Int) - prev.offset_points)
           offset_indices :=
             prev.offset_indices + ((r.new_indices.length : Int) - prev.offset_indices) }] := by
      simp only [addSplit, hs, back_concat, modifyBack_concat]
    have hnp : (addSplit r).new_points.length = r.new_points.length := rfl
    have hle := cornerLoop_new_points_le body hb1 (r.offsets.getD fi 0)
      (back (addSplit r).splits).offset_points (r.counts.getD fi 0) (addSplit r)
    have hs2 := (cornerLoop_inputs body hb (r.offsets.getD fi 0)
      (back (addSplit r).splits).offset_points (r.counts.getD fi 0) (addSplit r)).2
    generalize forLoop (r.counts.getD fi 0) (refineCorner body (r.offsets.getD fi 0)
      (back (addSplit r).splits).offset_points) (addSplit r) = r2 at hle hs2
    rw [hnp] at hle
    rw [hsp] at hs2
    constructor
    · show modifyBack _ r2.splits ≠ []
      rw [hs2, modifyBack_concat]; simp
    · show (r2.new_points.length : Int) - (back (modifyBack _ r2.splits)).offset_points ≤ su
      rw [hs2, modifyBack_concat, back_concat]
      simp only []
      omega
    · intro h0; omega
    · show 0 ≤ (back (modifyBack _ r2.splits)).num_faces
      rw [hs2, modifyBack_concat, back_concat]
      simp only []
      omega
    · intro _
      show 1 ≤ (back (modifyBack _ r2.splits)).num_faces
      rw [hs2, modifyBack_concat, back_concat]
      simp only []
      omega
    · show ∀ s ∈ (modifyBack _ r2.splits).dropLast, _
      rw [hs2, modifyBack_concat, List.dropLast_concat]
      intro s hs'
      rcases List.mem_append.mp hs' with hs' | hs'
      · exact hclosed s hs'
      · simp only [List.mem_singleton] at hs'
        subst hs'
        simp only []
        exact ⟨hcur, hpf⟩
  · rw [if_neg hc]
    have hc2 : (r.new_points.length : Int) - prev.offset_points + (r.counts.getD fi 0 : Nat) ≤
        su := by
      rw [hs, back_concat, hunit] at hc
      by_contra hcon
      exact hc ⟨hsu, by omega⟩
    have hle := cornerLoop_new_points_le body hb1 (r.offsets.getD fi 0)
      (back r.splits).offset_points (r.counts.getD fi 0) r
    have hs2 := (cornerLoop_inputs body hb (r.offsets.getD fi 0)
      (back r.splits).offset_points (r.counts.getD fi 0) r).2
    generalize forLoop (r.counts.getD fi 0) (refineCorner body (r.offsets.getD fi 0)
      (back r.splits).offset_points) r = r2 at hle hs2
    rw [hs] at hs2
    constructor
    · show modifyBack _ r2.splits ≠ []
      rw [hs2, modifyBack_concat]; simp
    · show (r2.new_points.length : Int) - (back (modifyBack _ r2.splits)).offset_points ≤ su
      rw [hs2, modifyBack_concat, back_concat]
      simp only []
      omega
    · intro h0; omega
    · show 0 ≤ (back (modifyBack _ r2.splits)).num_faces
      rw [hs2, modifyBack_concat, back_concat]
      simp only []
      omega
    · intro _
      show 1 ≤ (back (modifyBack _ r2.splits)).num_faces
      rw [hs2, modifyBack_concat, back_concat]
      simp only []
      omega
    · show ∀ s ∈ (modifyBack _ r2.splits).dropLast, _
      rw [hs2, modifyBack_concat, List.dropLast_concat]
      exact hclosed

omit [Inhabited float2] [Inhabited float3] [Inhabited float4] in
/-- After `doRefine` with a positive split unit that no face exceeds, on a
refiner without descriptors and refined points, every chunk holds at most
`split_unit` points, and at least one face when there is a face at all. -/
theorem doRefine_budget (hb : ∀ r vi i, frame (body r vi i).1 = frame r)
    (hb1 : ∀ r vi i, (body r vi i).1.new_points.length ≤ r.new_points.length + 1)
    (r : TopologyRefiner float2 float3 float4) (hs : r.splits = []) (hnp : r.new_points = [])
    (hsu : 0 < r.split_unit)
    (hcounts : ∀ fi, fi < r.counts.length → (r.counts.getD fi 0 : Int) ≤ r.split_unit) :
    ∀ s ∈ (doRefine body r).splits,
      s.num_points ≤ r.split_unit ∧ (r.counts ≠ [] → 1 ≤ s.num_faces) := by
  have hd : doRefine body r = triangulateSplits (closeSplit
      (forLoop (buildConnection r).counts.length (refineFace body)
        (beginRefine (buildConnection r)))) := rfl
  obtain ⟨b1, b2, -, -, -, b6, -, -, -, b10⟩ := buildConnection_frame r
  have h0 : BudgetInv r.split_unit 0 (beginRefine (buildConnection r)) := by
    have e : (beginRefine (buildConnection r)).splits = [] ++ [({} : Split)] := by
      show (buildConnection r).splits ++ [({} : Split)] = _
      rw [b1, hs]
    have e' : (beginRefine (buildConnection r)).new_points = [] := by
      show (buildConnection r).new_points = []
      rw [b6, hnp]
    constructor
    · rw [e]; simp
    · rw [e, back_concat, e']
      show ((0 : Nat) : Int) - 0 ≤ r.split_unit
      omega
    · intro _
      rw [e, back_concat, e']
      rfl
    · rw [e, back_concat]
    · intro h; omega
    · rw [e, List.dropLast_concat]
      intro s hs'
      cases hs'
  have h3 := forLoop_inv
    (fun fi (t : TopologyRefiner float2 float3 float4) =>
      BudgetInv r.split_unit fi t ∧ inputs t = inputs (buildConnection r))
    (buildConnection r).counts.length (refineFace body) (beginRefine (buildConnection r))
    ⟨h0, rfl⟩
    (fun fi t hfi hP => by
      obtain ⟨e1, -, -, -, -, -, -, -, -, -, -, e12, -⟩ := inputs_fields hP.2
      refine ⟨budgetInv_face body hb hb1 r.split_unit hsu fi t (by rw [e12, b10]) ?_ hP.1,
        (refineFace_inputs body hb fi t).trans hP.2⟩
      rw [e1, b2]
      exact hcounts fi (by rw [← b2]; exact hfi))
  rw [hd, (triangulateSplits_other _).1]
  generalize forLoop (buildConnection r).counts.length (refineFace body)
    (beginRefine (buildConnection r)) = r3 at h3
  obtain ⟨⟨hne, hcur, -, -, hfaces, hclosed⟩, -⟩ := h3
  rcases eq_nil_or_snoc r3.splits with h0 | ⟨done, cur, hs3⟩
  · exact absurd h0 hne
  rw [hs3, back_concat] at hcur hfaces
  rw [hs3, List.dropLast_concat] at hclosed
  have hcs : (closeSplit r3).splits = done ++ [{ cur with
      num_points := (r3.new_points.length : Int) - cur.offset_points
      num_indices := (r3.new_indices.length : Int) - cur.offset_indices }] := by
    simp only [closeSplit, hs3, modifyBack_concat]
  rw [hcs]
  intro s hs'
  rcases List.mem_append.mp hs' with hs' | hs'
  · exact ⟨(hclosed s hs').1, fun _ => (hclosed s hs').2⟩
  · simp only [List.mem_singleton] at hs'
    subst hs'
    refine ⟨hcur, fun hc => hfaces ?_⟩
    rw [b2]
    exact List.length_pos.mpr hc

/-- C22, as stated, fails: for the prepared soup without any face and split
unit `1` (every face, there being none, has at most one corner), `refine`
leaves one split descriptor, and it has no face. -/
theorem refine_budget_counterexample :
    0 < sampleEmpty.split_unit ∧
    (∀ fi, fi < sampleEmpty.counts.length →
      (sampleEmpty.counts.getD fi 0 : Int) ≤ sampleEmpty.split_unit) ∧
    (refine (gridMath 10) sampleEmpty).2.splits = [Split.mk 0 0 0 0 0 0 0] ∧
    ¬ ∀ s ∈ (refine (gridMath 10) sampleEmpty).2.splits, 1 ≤ s.num_faces := by
  refine ⟨by decide, fun fi hfi => absurd hfi (Nat.not_lt_zero fi), by decide, by decide⟩

/-- C22, amended: if `split_unit > 0` and every face has at most `split_unit`
corners, then after `refine` on a freshly prepared refiner every split
descriptor has `num_points ≤ split_unit`, and, provided the soup has at least
one face, `num_faces ≥ 1`. -/
theorem refine_point_budget (M : MuMath float2 float3)
    (r : TopologyRefiner float2 float3 float4) (hfresh : Fresh r) (hsu : 0 < r.split_unit)
    (hcounts : ∀ fi, fi < r.counts.length → (r.counts.getD fi 0 : Int) ≤ r.split_unit) :
    ∀ s ∈ (refine M r).2.splits,
      s.num_points ≤ r.split_unit ∧ (r.counts ≠ [] → 1 ≤ s.num_faces) := by
  by_cases hrec : Recognised r
  · rw [refine_eq_doRefine M r hrec]
    exact doRefine_budget _ (frame_keyBody M _ _ _ _)
      (fun t vi i => findOrAddVertex_new_points_le M t vi _) r hfresh.splits hfresh.new_points
      hsu hcounts
  · rw [refine_eq_self_of_not_recognised M r hrec, hfresh.splits]
    intro s hs
    cases hs

theorem refine_point_budget_witness :
    (0 < sampleStrip.split_unit ∧ sampleStrip.counts ≠ [] ∧
      Split.mk 1 3 3 1 3 3 3 ∈ (refine (gridMath 10) sampleStrip).2.splits) ∧
    ((Split.mk 1 3 3 1 3 3 3).num_points ≤ sampleStrip.split_unit ∧
      (sampleStrip.counts ≠ [] → 1 ≤ (Split.mk 1 3 3 1 3 3 3).num_faces)) :=
  ⟨by decide, refine_point_budget (gridMath 10) sampleStrip sampleStrip_fresh (by decide)
    (fun fi hfi => by
      have h2 : fi < 2 := hfi
      interval_cases fi <;> decide)
    (Split.mk 1 3 3 1 3 3 3) (by decide)⟩

end Budget

/-! ## `prepare` and the refined tangents -/

section Reprepare

/-- C23, failing input: the fan with normals, uv and tangents is refined
(five refined vertices, five refined tangents), `prepare` is called again with
the same soup and the attributes are supplied again. `prepare` clears
`new_points`, `new_normals` and `new_uv` but not `new_tangents`, so the second
`refine` leaves five points, normals and uv but ten tangents. -/
theorem refine_after_prepare_tangents :
    kindOf sampleFanTangents = KeyKind.PNTU ∧
    (refine (gridMath 10) sampleFanTangents).2.new_points.length = 5 ∧
    (refine (gridMath 10) sampleFanTangents).2.new_tangents.length = 5 ∧
    kindOf sampleReprepared = KeyKind.PNTU ∧
    sampleReprepared.new_points = [] ∧ sampleReprepared.new_normals = [] ∧
    sampleReprepared.new_uv = [] ∧ sampleReprepared.new_tangents.length = 5 ∧
    (refine (gridMath 10) sampleReprepared).2.new_points.length = 5 ∧
    (refine (gridMath 10) sampleReprepared).2.new_normals.length = 5 ∧
    (refine (gridMath 10) sampleReprepared).2.new_uv.length = 5 ∧
    (refine (gridMath 10) sampleReprepared).2.new_tangents.length = 10 := by
  decide

variable [Inhabited float2] [Inhabited float3] [Inhabited float4]

omit [Inhabited float2] [Inhabited float3] [Inhabited float4] in
/-- The buffer `new_tangents` is not among those that `prepare` clears. -/
theorem prepare_new_tangents (r : TopologyRefiner float2 float3 float4)
    (counts offsets indices : List Nat) (points : List float3) :
    (prepare r counts offsets indices points).new_tangents = r.new_tangents ∧
    (prepare r counts offsets indices points).new_points = [] ∧
    (prepare r counts offsets indices points).new_normals = [] ∧
    (prepare r counts offsets indices points).new_uv = [] :=
  ⟨rfl, rfl, rfl, rfl⟩

/-- A lookup with the {position, normal, tangent, uv} key appends to
`new_tangents` exactly when it appends to `new_points`. -/
theorem keyBody_tangents_lockstep (M : MuMath float2 float3) (nc tc uc : Bool)
    (r : TopologyRefiner float2 float3 float4) (vi i : Nat) (c : Nat)
    (h : r.new_tangents.length = c + r.new_points.length) :
    (keyBody M KeyKind.PNTU nc tc uc r vi i).1.new_tangents.length =
      c + (keyBody M KeyKind.PNTU nc tc uc r vi i).1.new_points.length := by
  unfold keyBody findOrAddVertex
  rcases findOrAddScan_spec r (r.v2f_offsets.getD vi 0)
    ((cornerKey KeyKind.PNTU nc tc uc r vi i).test M r)
    (cornerKey KeyKind.PNTU nc tc uc r vi i).add
    (List.range (r.v2f_counts.getD vi 0)) with ⟨-, hres⟩ | ⟨pre, ci, post, -, -, h'⟩
  · rw [hres]; exact h
  · rcases h' with ⟨-, -, hres⟩ | ⟨-, hres⟩
    · rw [hres]; exact h
    · rw [hres]
      show (r.new_tangents ++ [_]).length = c + (r.new_points ++ [_]).length
      simp only [List.length_append, List.length_singleton]
      omega

/-- The loops of `doRefine` with the {position, normal, tangent, uv} key keep
`new_tangents` as much longer than `new_points` as it was at the start. -/
theorem doRefine_new_tangents_length (M : MuMath float2 float3) (nc tc uc : Bool)
    (r : TopologyRefiner float2 float3 float4) (hnp : r.new_points = []) :
    (doRefine (keyBody M KeyKind.PNTU nc tc uc) r).new_tangents.length =
      r.new_tangents.length + (doRefine (keyBody M KeyKind.PNTU nc tc uc) r).new_points.length := by
  have hd : doRefine (keyBody M KeyKind.PNTU nc tc uc) r = triangulateSplits (closeSplit
      (forLoop (buildConnection r).counts.length (refineFace (keyBody M KeyKind.PNTU nc tc uc))
        (beginRefine (buildConnection r)))) := rfl
  have hbt : (buildConnection r).new_tangents = r.new_tangents := by
    unfold buildConnection; split <;> rfl
  have hbp : (buildConnection r).new_points = r.new_points := (buildConnection_frame r).2.2.2.2.2.1
  have hcorner : ∀ (off : Nat) (sp : Int) (n : Nat) (t : TopologyRefiner float2 float3 float4),
      t.new_tangents.length = r.new_tangents.length + t.new_points.length →
      (forLoop n (refineCorner (keyBody M KeyKind.PNTU nc tc uc) off sp) t).new_tangents.length =
        r.new_tangents.length +
          (forLoop n (refineCorner (keyBody M KeyKind.PNTU nc tc uc) off sp) t).new_points.length := by
    intro off sp n t ht
    induction n with
    | zero => exact ht
    | succ n ih =>
      rw [forLoop_succ]
      exact keyBody_tangents_lockstep M nc tc uc _ _ _ _ ih
  have h3 := forLoop_inv
    (fun _ (t : TopologyRefiner float2 float3 float4) =>
      t.new_tangents.length = r.new_tangents.length + t.new_points.length)
    (buildConnection r).counts.length (refineFace (keyBody M KeyKind.PNTU nc tc uc))
    (beginRefine (buildConnection r))
    (by
      show (buildConnection r).new_tangents.length = _ + (buildConnection r).new_points.length
      rw [hbt, hbp, hnp]; rfl)
    (fun fi t _ hP => by
      unfold refineFace
      simp only []
      apply hcorner
      split
      · exact hP
      · exact hP)
  have e1 : (doRefine (keyBody M KeyKind.PNTU nc tc uc) r).new_points =
      (forLoop (buildConnection r).counts.length (refineFace (keyBody M KeyKind.PNTU nc tc uc))
        (beginRefine (buildConnection r))).new_points := by
    rw [hd, (triangulateSplits_other _).2.1]; rfl
  have e2 : (doRefine (keyBody M KeyKind.PNTU nc tc uc) r).new_tangents =
      (forLoop (buildConnection r).counts.length (refineFace (keyBody M KeyKind.PNTU nc tc uc))
        (beginRefine (buildConnection r))).new_tangents := by
    rw [hd]; unfold triangulateSplits; split <;> rfl
  rw [e1, e2]
  exact h3

/-- After `refine` with normals, uv and tangents present (recognised
cardinalities, no refined point at the start), `new_tangents` is longer than
`new_points` by the number of entries it held before: the two are parallel
exactly when `new_tangents` was empty. -/
theorem refine_new_tangents_length (M : MuMath float2 float3)
    (r : TopologyRefiner float2 float3 float4) (hrec : Recognised r)
    (hkind : kindOf r = KeyKind.PNTU) (hnp : r.new_points = []) :
    (refine M r).2.new_tangents.length =
      r.new_tangents.length + (refine M r).2.new_points.length := by
  rw [refine_eq_doRefine M r hrec, hkind]
  exact doRefine_new_tangents_length M _ _ _ r hnp

end Reprepare


/-! ## Flat normals against their reference definition -/

section FlatNormals

theorem forLoop_eq_foldl {σ : Type} (n : Nat) (body : Nat → σ → σ) (s : σ) :
    forLoop n body s = (List.range n).foldl (fun s i => body i s) s := by
  induction n with
  | zero => rfl
  | succ n ih => rw [forLoop_succ, ih, List.range_succ, List.foldl_append]; rfl

/-- The two nested loops over the faces and their corners visit the corners
in the order of `cornerPairs`. -/
theorem nestedLoop_eq_foldl {σ : Type} (counts : List Nat) (step : Nat → Nat → σ → σ) (s : σ) :
    forLoop counts.length
        (fun fi s => forLoop (counts.getD fi 0) (fun ci s => step fi ci s) s) s =
      (cornerPairs counts).foldl (fun s fc => step fc.1 fc.2 s) s := by
  unfold cornerPairs
  generalize counts.length = n
  induction n with
  | zero => rfl
  | succ n ih =>
    rw [forLoop_succ, ih, List.range_succ, List.flatMap_append, List.foldl_append,
      List.flatMap_singleton, List.foldl_map, forLoop_eq_foldl]

/-- Accumulating values into the elements of an array: every element ends
as the fold of the values aimed at it, in their order. -/
theorem scatterFold_spec {α β : Type} [Inhabited β] (add : β → β → β) (tg : α → Nat)
    (val : α → β) (l : List α) (d : List β) :
    (l.foldl (fun d a => d.set (tg a) (add (d.getD (tg a) default) (val a))) d).length =
      d.length ∧
    ∀ p, p < d.length →
      (l.foldl (fun d a => d.set (tg a) (add (d.getD (tg a) default) (val a))) d).getD p default =
        (l.filter (fun a => decide (tg a = p))).foldl (fun acc a => add acc (val a))
          (d.getD p default) := by
  induction l generalizing d with
  | nil => exact ⟨rfl, fun _ _ => rfl⟩
  | cons a l ih =>
    obtain ⟨h1, h2⟩ := ih (d.set (tg a) (add (d.getD (tg a) default) (val a)))
    rw [List.foldl_cons]
    refine ⟨by rw [h1, List.length_set], fun p hp => ?_⟩
    rw [h2 p (by rw [List.length_set]; exact hp)]
    by_cases hap : tg a = p
    · rw [List.filter_cons_of_pos (by simpa using hap), List.foldl_cons]
      subst hap
      rw [getD_set_eq _ _ _ _ hp]
    · rw [List.filter_cons_of_neg (by simpa using hap), getD_set_ne _ _ _ _ _ hap]

variable [Inhabited float3]

/-- The accumulation loop shared by `genNormals` and `GenerateNormals`,
started from `d0`: element `p` ends as the fold, from `d0[p]`, of the face
normals of the corners that reference `p`. -/
theorem flatAccumulate_spec (M : MuMath float2 float3) (points : List float3)
    (counts offsets indices : List Nat) (d0 : List float3) :
    (forLoop counts.length (fun fi (d : List float3) =>
      let count := counts.getD fi 0
      let face := fun (k : Nat) => indices.getD (offsets.getD fi 0 + k) 0
      let p0 := points.getD (face 0) default
      let p1 := points.getD (face 1) default
      let p2 := points.getD (face 2) default
      let n := M.cross (M.sub3 p1 p0) (M.sub3 p2 p0)
      forLoop count (fun ci (d : List float3) =>
        d.set (face ci) (M.add3 (d.getD (face ci) default) n)) d) d0).length = d0.length ∧
    ∀ p, p < d0.length →
      (forLoop counts.length (fun fi (d : List float3) =>
        let count := counts.getD fi 0
        let face := fun (k : Nat) => indices.getD (offsets.getD fi 0 + k) 0
        let p0 := points.getD (face 0) default
        let p1 := points.getD (face 1) default
        let p2 := points.getD (face 2) default
        let n := M.cross (M.sub3 p1 p0) (M.sub3 p2 p0)
        forLoop count (fun ci (d : List float3) =>
          d.set (face ci) (M.add3 (d.getD (face ci) default) n)) d) d0).getD p default =
      ((cornerPairs counts).filter
          (fun fc => decide (indices.getD (offsets.getD fc.1 0 + fc.2) 0 = p))).foldl
        (fun acc fc => M.add3 acc (faceNormalRef M points offsets indices fc.1))
        (d0.getD p default) := by
  have e := nestedLoop_eq_foldl counts
    (fun fi ci (d : List float3) => d.set (indices.getD (offsets.getD fi 0 + ci) 0)
      (M.add3 (d.getD (indices.getD (offsets.getD fi 0 + ci) 0) default)
        (faceNormalRef M points offsets indices fi))) d0
  have e' : forLoop counts.length (fun fi (d : List float3) =>
      let count := counts.getD fi 0
      let face := fun (k : Nat) => indices.getD (offsets.getD fi 0 + k) 0
      let p0 := points.getD (face 0) default
      let p1 := points.getD (face 1) default
      let p2 := points.getD (face 2) default
      let n := M.cross (M.sub3 p1 p0) (M.sub3 p2 p0)
      forLoop count (fun ci (d : List float3) =>
        d.set (face ci) (M.add3 (d.getD (face ci) default) n)) d) d0 =
      (cornerPairs counts).foldl (fun (d : List float3) fc =>
        d.set (indices.getD (offsets.getD fc.1 0 + fc.2) 0)
          (M.add3 (d.getD (indices.getD (offsets.getD fc.1 0 + fc.2) 0) default)
            (faceNormalRef M points offsets indices fc.1))) d0 := e
  rw [e']
  exact scatterFold_spec M.add3 (fun fc => indices.getD (offsets.getD fc.1 0 + fc.2) 0)
    (fun fc => faceNormalRef M points offsets indices fc.1) (cornerPairs counts) d0

omit [Inhabited float3] in
theorem map_eq_map_range {β : Type} [Inhabited β] (l : List β) (n : Nat) (f : β → β)
    (g : Nat → β) (hl : l.length = n) (h : ∀ p, p < n → f (l.getD p default) = g p) :
    l.map f = (List.range n).map g := by
  apply List.ext_getElem
  · simp [hl]
  · intro i h1 h2
    have hi : i < n := by simpa using h2
    rw [List.getElem_map, List.getElem_map, List.getElem_range, ← h i hi,
      List.getD_eq_getElem _ _ (by omega)]

/-- C24: `genNormals()` and `GenerateNormals` (with as many destination
entries as points) both produce the array of length `points.length` whose
entry for point `p` is the reference flat normal of `p`: `normalize` applied
to the sum, over the corners `(f, c)` with `indices[offsets[f] + c] = p`, of
`cross(p1 − p0, p2 − p0)` from the first three corners of face `f`. A point
that no corner references gets `normalize` of the zero vector. -/
theorem flat_normals_reference (M : MuMath float2 float3)
    (r : TopologyRefiner float2 float3 float4) (dst : List float3)
    (hdst : dst.length = r.points.length) :
    (genNormals M r).normals =
      (List.range r.points.length).map
        (flatNormalRef M r.points r.counts r.offsets r.indices) ∧
    (genNormals M r).vertex_normals = (genNormals M r).normals ∧
    GenerateNormals M dst r.points r.counts r.offsets r.indices =
      ((List.range r.points.length).map
        (flatNormalRef M r.points r.counts r.offsets r.indices), true) ∧
    ∀ p, (∀ fc ∈ cornerPairs r.counts,
        r.indices.getD (r.offsets.getD fc.1 0 + fc.2) 0 ≠ p) →
      flatNormalRef M r.points r.counts r.offsets r.indices p = M.normalize M.zero3 := by
  have hz : ∀ n p, p < n → (List.replicate n M.zero3).getD p default = M.zero3 := by
    intro n p hp
    simp only [List.getD_eq_getElem?_getD, List.getElem?_replicate]
    rw [if_pos hp]; rfl
  refine ⟨?_, rfl, ?_, ?_⟩
  · obtain ⟨h1, h2⟩ := flatAccumulate_spec M r.points r.counts r.offsets r.indices
      (List.replicate r.points.length M.zero3)
    rw [List.length_replicate] at h1 h2
    show List.map M.normalize _ = _
    refine map_eq_map_range _ _ _ _ h1 (fun p hp => ?_)
    rw [h2 p hp, hz _ p hp]
    rfl
  · obtain ⟨h1, h2⟩ := flatAccumulate_spec M r.points r.counts r.offsets r.indices
      (List.replicate dst.length M.zero3)
    rw [List.length_replicate] at h1 h2
    unfold GenerateNormals
    rw [if_neg (by rw [hdst]; exact fun h => h rfl)]
    simp only []
    refine Prod.ext ?_ rfl
    show List.map M.normalize _ = _
    refine map_eq_map_range _ _ _ _ (h1.trans hdst) (fun p hp => ?_)
    have hp' : p < dst.length := by rw [hdst]; exact hp
    rw [h2 p hp', hz _ p hp']
    rfl
  · intro p hp
    unfold flatNormalRef
    rw [List.filter_eq_nil_iff.mpr (fun fc hfc => by simpa using hp fc hfc)]
    rfl

theorem flat_normals_reference_witness :
    [(1, 1, 1), (1, 1, 1), (1, 1, 1), (1, 1, 1), (1, 1, 1)].length =
      sampleLoosePoint.points.length ∧
    (genNormals (gridMath 10) sampleLoosePoint).normals =
      (List.range 5).map (flatNormalRef (gridMath 10) sampleLoosePoint.points
        sampleLoosePoint.counts sampleLoosePoint.offsets sampleLoosePoint.indices) ∧
    (List.range 5).map (flatNormalRef (gridMath 10) sampleLoosePoint.points
        sampleLoosePoint.counts sampleLoosePoint.offsets sampleLoosePoint.indices) =
      [(0, 0, 10000), (-5000, -5000, 20000), (-5000, -5000, 20000), (-5000, -5000, 10000),
        (0, 0, 0)] ∧
    GenerateNormals (gridMath 10)
        [(1, 1, 1), (1, 1, 1), (1, 1, 1), (1, 1, 1), (1, 1, 1)]
        sampleLoosePoint.points sampleLoosePoint.counts sampleLoosePoint.offsets
        sampleLoosePoint.indices =
      ([(0, 0, 10000), (-5000, -5000, 20000), (-5000, -5000, 20000), (-5000, -5000, 10000),
        (0, 0, 0)],
        true) :=
  ⟨by decide,
    (flat_normals_reference (gridMath 10) sampleLoosePoint
      [(1, 1, 1), (1, 1, 1), (1, 1, 1), (1, 1, 1), (1, 1, 1)] (by decide)).1,
    by decide, by decide⟩

end FlatNormals


/-! ## Smoothing-angle normals at large angles -/

section SmoothNormals

theorem mem_cornerPairs (counts : List Nat) (f c : Nat) :
    (f, c) ∈ cornerPairs counts ↔ f < counts.length ∧ c < counts.getD f 0 := by
  unfold cornerPairs
  simp only [List.mem_flatMap, List.mem_range, List.mem_map, Prod.mk.injEq]
  constructor
  · rintro ⟨a, ha, b, hb, rfl, rfl⟩
    exact ⟨ha, hb⟩
  · rintro ⟨hf, hc⟩
    exact ⟨f, hf, c, hc, rfl, rfl⟩

/-- A fold of writes whose value depends only on the position written: every
position that is written at least once ends with that value. -/
theorem setFold_spec {α β : Type} [Inhabited β] (pos : α → Nat) (val : α → β) (G : Nat → β)
    (l : List α) (d : List β) (h : ∀ a ∈ l, val a = G (pos a)) :
    (l.foldl (fun d a => d.set (pos a) (val a)) d).length = d.length ∧
    ∀ k, k < d.length → (∃ a ∈ l, pos a = k) →
      (l.foldl (fun d a => d.set (pos a) (val a)) d).getD k default = G k := by
  induction l using List.reverseRecOn with
  | nil => exact ⟨rfl, fun k _ ⟨a, ha, _⟩ => absurd ha (List.not_mem_nil a)⟩
  | append_singleton l a ih =>
    obtain ⟨ih1, ih2⟩ := ih (fun b hb => h b (List.mem_append_left _ hb))
    rw [List.foldl_append]
    simp only [List.foldl_cons, List.foldl_nil]
    refine ⟨by rw [List.length_set, ih1], fun k hk hex => ?_⟩
    by_cases e : pos a = k
    · rw [e, getD_set_eq _ _ _ _ (by rw [ih1]; exact hk), ← e]
      exact h a (List.mem_append_right _ (List.mem_singleton_self a))
    · rw [getD_set_ne _ _ _ _ _ e]
      obtain ⟨b, hb, hbk⟩ := hex
      rcases List.mem_append.mp hb with hb | hb
      · exact ih2 k hk ⟨b, hb, hbk⟩
      · rw [List.mem_singleton] at hb
        exact absurd (hb ▸ hbk) e

variable [Inhabited float3] {F : Type}

/-- When the dot-product test passes for every face in the connectivity list
of `vi`, the corner sum is the sum of all their normals. -/
theorem cornerNormal_all (M : MuMath float2 float3) (S : MuScalar float3 F) (angle : F)
    (r : TopologyRefiner float2 float3 float4) (fns : List float3) (fn : float3) (vi : Nat)
    (h : ∀ ni, ni < r.v2f_counts.getD vi 0 →
      S.gt (S.dot fn (fns.getD (r.shared_faces.getD (r.v2f_offsets.getD vi 0 + ni) 0) default))
        angle = true) :
    cornerNormal M S angle r fns fn vi =
      (connectedFaces r vi).foldl (fun acc f => M.add3 acc (fns.getD f default)) M.zero3 := by
  unfold cornerNormal connectedFaces
  simp only []
  generalize r.v2f_counts.getD vi 0 = n at h
  induction n with
  | zero => rfl
  | succ n ih =>
    rw [forLoop_succ, ih (fun ni hni => h ni (Nat.lt_succ_of_lt hni)), List.range_succ,
      List.map_append, List.foldl_append, if_pos (h n (Nat.lt_succ_self n))]
    rfl

/-- The second loop of `genNormals(float)` when the test passes at every
corner for every connected face: the buffer keeps its length and every corner
position holds the sum of all the normals of its point. -/
theorem cornerNormals_all (M : MuMath float2 float3) (S : MuScalar float3 F) (angle : F)
    (r : TopologyRefiner float2 float3 float4) (fns d0 : List float3)
    (h : ∀ fi ci, fi < r.counts.length → ci < r.counts.getD fi 0 →
      ∀ ni, ni < r.v2f_counts.getD (r.indices.getD (r.offsets.getD fi 0 + ci) 0) 0 →
        S.gt (S.dot (fns.getD fi default)
          (fns.getD (r.shared_faces.getD
            (r.v2f_offsets.getD (r.indices.getD (r.offsets.getD fi 0 + ci) 0) 0 + ni) 0)
            default)) angle = true) :
    (cornerNormals M S angle r fns d0).length = d0.length ∧
    ∀ fi ci, fi < r.counts.length → ci < r.counts.getD fi 0 →
      r.offsets.getD fi 0 + ci < d0.length →
      (cornerNormals M S angle r fns d0).getD (r.offsets.getD fi 0 + ci) default =
        (connectedFaces r (r.indices.getD (r.offsets.getD fi 0 + ci) 0)).foldl
          (fun acc f => M.add3 acc (fns.getD f default)) M.zero3 := by
  have e : cornerNormals M S angle r fns d0 =
      (cornerPairs r.counts).foldl (fun (d : List float3) fc =>
        d.set (r.offsets.getD fc.1 0 + fc.2)
          (cornerNormal M S angle r fns (fns.getD fc.1 default)
            (r.indices.getD (r.offsets.getD fc.1 0 + fc.2) 0))) d0 :=
    nestedLoop_eq_foldl r.counts
      (fun fi ci (d : List float3) => d.set (r.offsets.getD fi 0 + ci)
        (cornerNormal M S angle r fns (fns.getD fi default)
          (r.indices.getD (r.offsets.getD fi 0 + ci) 0))) d0
  rw [e]
  obtain ⟨h1, h2⟩ := setFold_spec (fun fc : Nat × Nat => r.offsets.getD fc.1 0 + fc.2)
    (fun fc => cornerNormal M S angle r fns (fns.getD fc.1 default)
      (r.indices.getD (r.offsets.getD fc.1 0 + fc.2) 0))
    (fun k => (connectedFaces r (r.indices.getD k 0)).foldl
      (fun acc f => M.add3 acc (fns.getD f default)) M.zero3)
    (cornerPairs r.counts) d0
    (fun fc hfc => by
      obtain ⟨f, c⟩ := fc
      obtain ⟨hf, hc⟩ := (mem_cornerPairs _ _ _).mp hfc
      exact cornerNormal_all M S angle r fns _ _ (h f c hf hc))
  exact ⟨h1, fun fi ci hfi hci hk =>
    h2 _ hk ⟨(fi, ci), (mem_cornerPairs _ _ _).mpr ⟨hfi, hci⟩, rfl⟩⟩

theorem genNormalsSmooth_fresh (M : MuMath float2 float3) (S : MuScalar float3 F)
    (smooth_angle : F) (r : TopologyRefiner float2 float3 float4) (h : r.v2f_counts = []) :
    (genNormalsSmooth M S smooth_angle r).face_normals = faceNormals M (buildConnection r) ∧
    (genNormalsSmooth M S smooth_angle r).v2f_counts = (buildConnection r).v2f_counts ∧
    (genNormalsSmooth M S smooth_angle r).v2f_offsets = (buildConnection r).v2f_offsets ∧
    (genNormalsSmooth M S smooth_angle r).shared_faces = (buildConnection r).shared_faces ∧
    (genNormalsSmooth M S smooth_angle r).normals =
      (cornerNormals M S (S.sub (S.cos_deg smooth_angle) S.milli) (buildConnection r)
        (faceNormals M (buildConnection r))
        (resize (buildConnection r).vertex_normals (buildConnection r).indices.length
          default)).map M.normalize := by
  unfold genNormalsSmooth
  rw [if_pos h]
  exact ⟨rfl, rfl, rfl, rfl, rfl⟩

omit [Inhabited float3] in
/-- In a valid soup the corner `ci` of face `fi` is a position of `indices`. -/
theorem corner_position_lt (r : TopologyRefiner float2 float3 float4) (hv : ValidSoup r)
    (fi ci : Nat) (hfi : fi < r.counts.length) (hci : ci < r.counts.getD fi 0) :
    r.offsets.getD fi 0 + ci < r.indices.length := by
  rw [hv.offsets_eq fi hfi, ← hv.counts_sum]
  have := take_sum_add_le r.counts fi hfi
  omega

/-- C25 (amended): when the threshold `cos(angle·π/180) − 0.001` is below the
dot product of every pair of face normals of a valid soup whose connectivity
table is still to be built, `genNormals(angle)` gives every corner the fully
smooth normal of its point: `normalize` of the sum of the normals of every
face in the connectivity list of the point.  So `normals` has one entry per
corner and all corners of one point receive the same normal. -/
theorem genNormals_fully_smooth (M : MuMath float2 float3) (S : MuScalar float3 F)
    (smooth_angle : F) (r : TopologyRefiner float2 float3 float4)
    (hfresh : r.v2f_counts = []) (hvalid : ValidSoup r)
    (hpass : ∀ f g, f < r.counts.length → g < r.counts.length →
      S.gt (S.dot ((genNormalsSmooth M S smooth_angle r).face_normals.getD f default)
          ((genNormalsSmooth M S smooth_angle r).face_normals.getD g default))
        (S.sub (S.cos_deg smooth_angle) S.milli) = true) :
    (genNormalsSmooth M S smooth_angle r).normals.length = r.indices.length ∧
    (∀ fi ci, fi < r.counts.length → ci < r.counts.getD fi 0 →
      (genNormalsSmooth M S smooth_angle r).normals.getD (r.offsets.getD fi 0 + ci) default =
        smoothNormal M (genNormalsSmooth M S smooth_angle r)
          (r.indices.getD (r.offsets.getD fi 0 + ci) 0)) ∧
    (∀ fi ci fj cj, fi < r.counts.length → ci < r.counts.getD fi 0 →
      fj < r.counts.length → cj < r.counts.getD fj 0 →
      r.indices.getD (r.offsets.getD fi 0 + ci) 0 =
        r.indices.getD (r.offsets.getD fj 0 + cj) 0 →
      (genNormalsSmooth M S smooth_angle r).normals.getD (r.offsets.getD fi 0 + ci) default =
        (genNormalsSmooth M S smooth_angle r).normals.getD
          (r.offsets.getD fj 0 + cj) default) := by
  obtain ⟨efn, ec, eo, esf, en⟩ := genNormalsSmooth_fresh M S smooth_angle r hfresh
  obtain ⟨-, fcounts, findices, fpoints, foffsets, -⟩ := buildConnection_frame r
  rw [efn] at hpass
  rw [findices] at en
  have hconn : ∀ fi ci, fi < r.counts.length → ci < r.counts.getD fi 0 →
      ∀ ni, ni < (buildConnection r).v2f_counts.getD
          (r.indices.getD (r.offsets.getD fi 0 + ci) 0) 0 →
        (buildConnection r).shared_faces.getD ((buildConnection r).v2f_offsets.getD
          (r.indices.getD (r.offsets.getD fi 0 + ci) 0) 0 + ni) 0 < r.counts.length := by
    intro fi ci hfi hci ni hni
    have hk := corner_position_lt r hvalid fi ci hfi hci
    have hp := hvalid.index_lt _ hk
    have hne : r.v2f_counts.length ≠ r.points.length := by
      rw [hfresh]
      exact fun h0 => absurd hp (by rw [← h0]; exact Nat.not_lt_zero _)
    obtain ⟨-, c2, -, -, -, -, hs⟩ := buildConnection_spec r hvalid hne
    rw [c2] at hni
    exact (hs _ hp ni hni).2.2.1
  obtain ⟨h1, h2⟩ := cornerNormals_all M S (S.sub (S.cos_deg smooth_angle) S.milli)
    (buildConnection r) (faceNormals M (buildConnection r))
    (resize (buildConnection r).vertex_normals (buildConnection r).indices.length default)
    (by
      rw [fcounts, findices, foffsets]
      intro fi ci hfi hci ni hni
      exact hpass fi _ hfi (hconn fi ci hfi hci ni hni))
  rw [length_resize, findices] at h1
  rw [fcounts, findices, foffsets, length_resize] at h2
  have key : ∀ fi ci, fi < r.counts.length → ci < r.counts.getD fi 0 →
      (genNormalsSmooth M S smooth_angle r).normals.getD (r.offsets.getD fi 0 + ci) default =
        smoothNormal M (genNormalsSmooth M S smooth_angle r)
          (r.indices.getD (r.offsets.getD fi 0 + ci) 0) := by
    intro fi ci hfi hci
    have hk := corner_position_lt r hvalid fi ci hfi hci
    have hk' : r.offsets.getD fi 0 + ci <
        (cornerNormals M S (S.sub (S.cos_deg smooth_angle) S.milli) (buildConnection r)
          (faceNormals M (buildConnection r))
          (resize (buildConnection r).vertex_normals r.indices.length default)).length := by
      rw [h1]; exact hk
    rw [en, List.getD_eq_getElem _ _ (by rw [List.length_map]; exact hk'),
      List.getElem_map, ← List.getD_eq_getElem _ default hk', h2 fi ci hfi hci hk]
    unfold smoothNormal connectedFaces
    rw [efn, ec, eo, esf]
  refine ⟨by rw [en, List.length_map, h1], key, ?_⟩
  intro fi ci fj cj hfi hci hfj hcj hsame
  rw [key fi ci hfi hci, key fj cj hfj hcj, hsame]

/-- C25 (counterexample): at a smoothing angle of 360 degrees the threshold is
`cos 360° − 0.001 = 0.999`.  In `sampleCorner` the two faces around point 0
have the perpendicular unit normals `(0, 0, 1)` and `(1, 0, 0)`, whose dot
product 0 fails the test: the corners 0 and 3, both of point 0, receive
different normals, each only its own face normal. -/
theorem genNormals_smooth_360_counterexample :
    gridScalar.sub (gridScalar.cos_deg 360000) gridScalar.milli = 999 ∧
    sampleCorner.indices.getD 0 0 = 0 ∧ sampleCorner.indices.getD 3 0 = 0 ∧
    (genNormalsSmooth (gridMath 10) gridScalar 360000 sampleCorner).face_normals =
      [(0, 0, 1), (1, 0, 0)] ∧
    connectedFaces (genNormalsSmooth (gridMath 10) gridScalar 360000 sampleCorner) 0 = [0, 1] ∧
    (genNormalsSmooth (gridMath 10) gridScalar 360000 sampleCorner).normals.getD 0 default =
      (0, 0, 1) ∧
    (genNormalsSmooth (gridMath 10) gridScalar 360000 sampleCorner).normals.getD 3 default =
      (1, 0, 0) ∧
    (genNormalsSmooth (gridMath 10) gridScalar 360000 sampleCorner).normals.getD 0 default ≠
      (genNormalsSmooth (gridMath 10) gridScalar 360000 sampleCorner).normals.getD 3
        default := by
  decide

theorem sampleCorner_valid : ValidSoup sampleCorner := by
  constructor
  · intro k hk
    have hk' : k < 6 := hk
    interval_cases k <;> decide
  · decide
  · intro fi hfi
    have hfi' : fi < 2 := hfi
    interval_cases fi <;> decide
  · decide

theorem genNormals_fully_smooth_witness :
    sampleCorner.v2f_counts = [] ∧ ValidSoup sampleCorner ∧
    gridScalar.sub (gridScalar.cos_deg 180000) gridScalar.milli = -1001 ∧
    ((genNormalsSmooth (gridMath 10) gridScalar 180000 sampleCorner).normals.length =
        sampleCorner.indices.length ∧
      (∀ fi ci, fi < sampleCorner.counts.length → ci < sampleCorner.counts.getD fi 0 →
        (genNormalsSmooth (gridMath 10) gridScalar 180000 sampleCorner).normals.getD
            (sampleCorner.offsets.getD fi 0 + ci) default =
          smoothNormal (gridMath 10)
            (genNormalsSmooth (gridMath 10) gridScalar 180000 sampleCorner)
            (sampleCorner.indices.getD (sampleCorner.offsets.getD fi 0 + ci) 0)) ∧
      (∀ fi ci fj cj, fi < sampleCorner.counts.length → ci < sampleCorner.counts.getD fi 0 →
        fj < sampleCorner.counts.length → cj < sampleCorner.counts.getD fj 0 →
        sampleCorner.indices.getD (sampleCorner.offsets.getD fi 0 + ci) 0 =
          sampleCorner.indices.getD (sampleCorner.offsets.getD fj 0 + cj) 0 →
        (genNormalsSmooth (gridMath 10) gridScalar 180000 sampleCorner).normals.getD
            (sampleCorner.offsets.getD fi 0 + ci) default =
          (genNormalsSmooth (gridMath 10) gridScalar 180000 sampleCorner).normals.getD
            (sampleCorner.offsets.getD fj 0 + cj) default)) ∧
    (genNormalsSmooth (gridMath 10) gridScalar 180000 sampleCorner).normals =
      [(1, 0, 1), (0, 0, 1), (1, 0, 1), (1, 0, 1), (1, 0, 1), (1, 0, 0)] :=
  ⟨by decide, sampleCorner_valid, by decide,
    genNormals_fully_smooth (gridMath 10) gridScalar 180000 sampleCorner (by decide)
      sampleCorner_valid
      (fun f g hf hg => by
        have hf' : f < 2 := hf
        have hg' : g < 2 := hg
        interval_cases f <;> interval_cases g <;> decide),
    by decide⟩

end SmoothNormals

end mu
